import Mathlib

/-!
SNOParser `webgl.cpp`: bone-bounded mesh partitioning and binary writers.

A shallow embedding of `src/webgl.cpp`:

* `WebGL::Triangle`, `WebGL::TriangleSet` and the `WebGL::ObjectData` constructor
  (the greedy partitioner that splits a skinned sub-object into groups of at most
  `MAX_GROUP_BONES` bones),
* the offset bookkeeping and the write sequence of `WebGL::DoWriteModel`,
* the offset bookkeeping and the write sequence of the packed asset writer at the
  end of `WebGL::parseObj`,
* the offsets and key writes of `WebGL::DoWriteAnimation`,
* the commands of `WebGL::parseObj`: the vertex table of an object and the two ways of
  cutting a face into triangles.

Modelling conventions.

* Pointers `Triangle*` into the local vector `triangles` are indices into a list;
  the pointer order used by `std::set<Ref>` is the index order.
* `uint32` counters that the code decrements or compares (`unused`, `used`, the
  running file sizes) are naturals reduced modulo `2^32` at every operation.
* The sentinel `group == -1` is `none`.
* An entry of the local array `boneMap` of `DoWriteModel`, which has no initialiser,
  is `none` until it is assigned.
* An access that the C++ leaves undefined (an array index outside its bounds) and
  the `std::out_of_range` of `std::bitset` are the fault `Fault.outOfRange`; the
  exception of `TriangleSet::reduce` is the fault `Fault.uhOh`.
* Weights and coordinates are `float` in the source; the partitioner and the writers
  only copy them and test them against zero, so they are integers here. The `float`
  tests that `parseObj` makes on a face are parameters (`FaceTests`, `VectorOps`).
-/

namespace WebGL

/-! ## Constants and input records -/

/-- The constant `MAX_BONES`: size of the bone bit set and of the bucket array. -/
abbrev MAX_BONES : Nat := 128

/-- The constant `MAX_GROUP_BONES`: the per-group bone cap. -/
abbrev MAX_GROUP_BONES : Nat := 24

/-- The modulus of `uint32` arithmetic. -/
abbrev UINT32 : Nat := 4294967296

/-- The modulus of `uint16` (`Index`) arithmetic. -/
abbrev UINT16 : Nat := 65536

/-- Abnormal ends of the modelled code. -/
inductive Fault where
  | uhOh
  | outOfRange
  deriving DecidableEq, Repr

/-- One entry of `x00_Influences`: bone id `x00` and weight `x04`. -/
structure Influence where
  x00 : Nat
  x04 : Int
  deriving DecidableEq, Repr

/-- One entry of `x010_FatVertexs`: position, biased normal bytes, biased texcoords. -/
structure FatVertex where
  x00_Position : Int × Int × Int
  x0C_Normal : Nat × Nat × Nat
  x18_TexCoords : Nat × Nat
  deriving DecidableEq, Repr

/-- The fields of `Appearance::Type::SubObject` that `webgl.cpp` reads. -/
structure SubObject where
  x010_FatVertexs : List FatVertex
  x020_VertInfluences : List (List Influence)
  x038_short : List (Fin 65536)
  x05C_Text : String
  deriving DecidableEq, Repr

/-! ## Triangle -/

/-- The struct `Triangle`; `numBones` is `bones.length`, and the array `bones` has
room for nine entries (see `BonesFit`). -/
structure Triangle where
  verts : List Nat
  bones : List Nat
  group : Option Nat
  unused : Nat
  deriving DecidableEq, Repr

/-- The algorithm `std::unique` on a list: drop every element equal to its predecessor. -/
def unique : List Nat → List Nat
  | [] => []
  | [a] => [a]
  | a :: b :: t => if a = b then unique (b :: t) else a :: unique (b :: t)

/-- Lines 105-110: the bone ids of all non-zero-weight influences of the given
vertices, in reading order. -/
def rawBones (infl : List (List Influence)) (verts : List Nat) : List Nat :=
  verts.flatMap fun v => ((infl.getD v []).filter fun inf => inf.x04 ≠ 0).map fun inf => inf.x00

/-- Lines 103-112: one triangle built from three consecutive indices. -/
def mkTriangle (infl : List (List Influence)) (verts : List Nat) : Triangle :=
  { verts := verts
    bones := unique ((rawBones infl verts).insertionSort (· ≤ ·))
    group := none
    unused := 0 }

/-- The loop header of line 102: `for (i = 0; i + 3 <= size; i += 3)`. -/
def chunk3 {α : Type} : List α → List (List α)
  | a :: b :: c :: rest => [a, b, c] :: chunk3 rest
  | _ => []

/-- Lines 101-113: the local vector `triangles`. -/
def buildTriangles (obj : SubObject) : List Triangle :=
  (chunk3 (obj.x038_short.map Fin.val)).map (mkTriangle obj.x020_VertInfluences)

/-! ## TriangleSet -/

/-- The pair type `Ref`: key and triangle. -/
abbrev Ref := Int × Nat

/-- The order of `std::pair<int, Triangle*>`: by key, then by triangle. -/
def Ref.le (a b : Ref) : Prop := a.1 < b.1 ∨ (a.1 = b.1 ∧ a.2 ≤ b.2)

instance : DecidableRel Ref.le := fun a b => by unfold Ref.le; infer_instance

/-- Conversion of a `uint32` to the `int` key of a `Ref`. -/
def toInt32 (u : Nat) : Int := if u < 2147483648 then (u : Int) else (u : Int) - 4294967296

/-- The call `queue.emplace(r)` on a `std::set`: sorted insertion, no duplicate. -/
def setEmplace (r : Ref) (q : List Ref) : List Ref :=
  if r ∈ q then q else q.orderedInsert Ref.le r

/-- The struct `TriangleSet`: the ordered `queue` and the `MAX_BONES` buckets `list`. -/
structure TriangleSet where
  queue : List Ref
  list : List (List Nat)
  deriving DecidableEq, Repr

/-- A freshly constructed `TriangleSet`. -/
def TriangleSet.new : TriangleSet := { queue := [], list := List.replicate MAX_BONES [] }

/-- Lines 55-57: push triangle `i` onto the bucket of each of its bones. -/
def addBuckets (i : Nat) : List Nat → List (List Nat) → Except Fault (List (List Nat))
  | [], l => .ok l
  | b :: bs, l =>
    if b < MAX_BONES then addBuckets i bs (l.set b (l.getD b [] ++ [i]))
    else .error .outOfRange

/-- The method `TriangleSet::add` applied to triangle `i`. -/
def TriangleSet.add (s : TriangleSet) (ts : List Triangle) (i : Nat) :
    Except Fault (TriangleSet × List Triangle) :=
  match ts[i]? with
  | none => .error .outOfRange
  | some t =>
    match addBuckets i t.bones s.list with
    | .error e => .error e
    | .ok l =>
      let u := t.bones.length % UINT32
      .ok ({ queue := setEmplace (toInt32 u, i) s.queue, list := l },
           ts.set i { t with unused := u })

/-- The method `TriangleSet::pop`: the least entry leaves the queue. -/
def TriangleSet.pop (s : TriangleSet) : Option (Nat × TriangleSet) :=
  match s.queue with
  | [] => none
  | r :: q => some (r.2, { s with queue := q })

/-- The method `TriangleSet::empty`. -/
def TriangleSet.empty (s : TriangleSet) : Bool := s.queue.isEmpty

/-- The body of the loop of `TriangleSet::reduce` for triangle `i`. -/
def reduceOne (i : Nat) (q : List Ref) (ts : List Triangle) :
    Except Fault (List Ref × List Triangle) :=
  match ts[i]? with
  | none => .error .outOfRange
  | some t =>
    if t.group ≠ none then .ok (q, ts)
    else if (toInt32 t.unused, i) ∈ q then
      let u := (t.unused + (UINT32 - 1)) % UINT32
      .ok (setEmplace (toInt32 u, i) (q.erase (toInt32 t.unused, i)),
           ts.set i { t with unused := u })
    else .error .uhOh

/-- The loop of `TriangleSet::reduce` over a bucket. -/
def reduceLoop : List Nat → List Ref → List Triangle → Except Fault (List Ref × List Triangle)
  | [], q, ts => .ok (q, ts)
  | i :: rest, q, ts =>
    match reduceOne i q ts with
    | .error e => .error e
    | .ok (q1, ts1) => reduceLoop rest q1 ts1

/-- The method `TriangleSet::reduce`. -/
def TriangleSet.reduce (s : TriangleSet) (ts : List Triangle) (bone : Nat) :
    Except Fault (TriangleSet × List Triangle) :=
  if bone < MAX_BONES then
    match reduceLoop (s.list.getD bone []) s.queue ts with
    | .error e => .error e
    | .ok (q, ts1) => .ok ({ s with queue := q }, ts1)
  else .error .outOfRange

/-! ## ObjectData -/

/-- The struct `ObjectData::Group`: bone bit set, vertex map (sorted by key), indices. -/
structure Group where
  bones : Finset Nat
  vertices : List (Nat × Nat)
  indices : List Nat
  deriving DecidableEq

/-- A default-constructed group. -/
def Group.new : Group := { bones := ∅, vertices := [], indices := [] }

/-- The method `std::bitset::test`. -/
def bitsetTest (s : Finset Nat) (pos : Nat) : Except Fault Bool :=
  if pos < MAX_BONES then .ok (decide (pos ∈ s)) else .error .outOfRange

/-- The method `std::bitset::set`. -/
def bitsetSet (s : Finset Nat) (pos : Nat) : Except Fault (Finset Nat) :=
  if pos < MAX_BONES then .ok (insert pos s) else .error .outOfRange

/-- The method `std::map::find`: the entry with key `k`, if any. -/
def mapFind (k : Nat) (m : List (Nat × Nat)) : Option (Nat × Nat) :=
  m.find? fun e => decide (e.1 = k)

/-- The assignment `m[k] = v` on a `std::map<Index, Index>`. -/
def mapAssign (k v : Nat) (m : List (Nat × Nat)) : List (Nat × Nat) :=
  if (mapFind k m).isSome then m.map fun e => if e.1 = k then (k, v) else e
  else m.orderedInsert (fun a b => a.1 ≤ b.1) (k, v)

/-- Lines 129-136: register one vertex of a committed triangle. -/
def commitVert (g : Group) (v : Nat) : Group :=
  match mapFind v g.vertices with
  | none =>
    let index := g.vertices.length % UINT16
    { g with vertices := mapAssign v index g.vertices, indices := g.indices ++ [index] }
  | some it => { g with indices := g.indices ++ [it.2] }

/-- Lines 128-137: the loop over the three vertices. -/
def commitVerts (g : Group) (verts : List Nat) : Group := verts.foldl commitVert g

/-- The state of the inner loop of lines 125-146. -/
structure Build where
  triangles : List Triangle
  tris : TriangleSet
  group : Group
  used : Nat
  deriving DecidableEq

/-- Lines 140-144: one bone of the committed triangle. -/
def activateBone (st : Build) (b : Nat) : Except Fault Build :=
  match bitsetTest st.group.bones b with
  | .error e => .error e
  | .ok true => .ok st
  | .ok false =>
    match st.tris.reduce st.triangles b with
    | .error e => .error e
    | .ok (tris, ts) =>
      match bitsetSet st.group.bones b with
      | .error e => .error e
      | .ok bones =>
        .ok { triangles := ts, tris := tris, group := { st.group with bones := bones },
              used := (st.used + 1) % UINT32 }

/-- Lines 139-145: the loop over the bones of the committed triangle. -/
def activate : List Nat → Build → Except Fault Build
  | [], st => .ok st
  | b :: bs, st =>
    match activateBone st b with
    | .error e => .error e
    | .ok st1 => activate bs st1

/-- One pass through the body of the inner loop (lines 126-145) for group `gid`;
the flag tells whether the loop goes on (`false` after the `break` of line 127
and when the queue is empty). -/
def growStep (gid : Nat) (st : Build) : Except Fault (Bool × Build) :=
  match st.tris.pop with
  | none => .ok (false, st)
  | some (i, tris) =>
    match st.triangles[i]? with
    | none => .error .outOfRange
    | some t =>
      if (t.unused + st.used) % UINT32 > MAX_GROUP_BONES then
        .ok (false, { st with tris := tris })
      else
        match activate t.bones
            { triangles := st.triangles.set i { t with group := some gid }
              tris := tris
              group := commitVerts st.group t.verts
              used := st.used } with
        | .error e => .error e
        | .ok st1 => .ok (true, st1)

/-- The inner loop of lines 125-146, run for at most `fuel` passes. -/
def growGroup (gid : Nat) : Nat → Build → Except Fault Build
  | 0, st => .ok st
  | fuel + 1, st =>
    match growStep gid st with
    | .error e => .error e
    | .ok (false, st1) => .ok st1
    | .ok (true, st1) => growGroup gid fuel st1

/-- Lines 115-120: a fresh `TriangleSet` holding every unassigned triangle. -/
def buildSet : List Nat → TriangleSet → List Triangle → Except Fault (TriangleSet × List Triangle)
  | [], s, ts => .ok (s, ts)
  | i :: rest, s, ts =>
    match ts[i]? with
    | none => .error .outOfRange
    | some t =>
      if t.group = none then
        match s.add ts i with
        | .error e => .error e
        | .ok (s1, ts1) => buildSet rest s1 ts1
      else buildSet rest s ts

/-- The local state of the constructor: the vector `triangles` and `groups`. -/
structure Partition where
  triangles : List Triangle
  groups : List Group
  deriving DecidableEq

/-- One pass through the body of the outer loop (lines 115-146); `none` is the
`break` of line 121. The inner loop pops one entry per pass, so the length of
the queue bounds its number of passes. -/
def outerStep (p : Partition) : Except Fault (Option Partition) :=
  match buildSet (List.range p.triangles.length) TriangleSet.new p.triangles with
  | .error e => .error e
  | .ok (tris, ts) =>
    if tris.empty then .ok none
    else
      match growGroup p.groups.length (tris.queue.length + 1)
          { triangles := ts, tris := tris, group := Group.new, used := 0 } with
      | .error e => .error e
      | .ok st => .ok (some { triangles := st.triangles, groups := p.groups ++ [st.group] })

/-- The outer loop `while (true)` of lines 114-147, run for at most `fuel` passes;
the flag tells whether the loop has ended (`break` of line 121). -/
def partitionLoop : Nat → Partition → Except Fault (Bool × Partition)
  | 0, p => .ok (false, p)
  | fuel + 1, p =>
    match outerStep p with
    | .error e => .error e
    | .ok none => .ok (true, p)
    | .ok (some p1) => partitionLoop fuel p1

/-- Line 95: `for (i = 0; i < maxBones; ++i) group.bones.set(i)`. -/
def setAll : List Nat → Finset Nat → Except Fault (Finset Nat)
  | [], s => .ok s
  | i :: rest, s =>
    match bitsetSet s i with
    | .error e => .error e
    | .ok s1 => setAll rest s1

/-- Line 96: `for (i = 0; i < size; ++i) group.vertices[i] = i`, the key and the
value being converted to the 16-bit `Index`. -/
def identityMap (n : Nat) : List (Nat × Nat) :=
  (List.range n).foldl (fun m i => mapAssign (i % UINT16) (i % UINT16) m) []

/-- Lines 92-99: the single group of a sub-object without influences. -/
def rigidGroup (obj : SubObject) (maxBones : Nat) : Except Fault Group :=
  match setAll (List.range maxBones) ∅ with
  | .error e => .error e
  | .ok bones =>
    .ok { bones := bones
          vertices := identityMap obj.x010_FatVertexs.length
          indices := obj.x038_short.map Fin.val }

/-- Every index of a whole triangle has an entry in `x020_VertInfluences`, which
line 107 reads. -/
def IndicesInRange (obj : SubObject) : Prop :=
  ∀ c ∈ chunk3 (obj.x038_short.map Fin.val), ∀ v ∈ c, v < obj.x020_VertInfluences.length

instance (obj : SubObject) : Decidable (IndicesInRange obj) := by
  unfold IndicesInRange; infer_instance

/-- Every whole triangle has room for its bones: line 108 stores one entry in the
array `bones[9]` for every influence of non-zero weight of its three vertices,
before line 112 drops the repetitions. -/
def BonesFit (obj : SubObject) : Prop :=
  ∀ c ∈ chunk3 (obj.x038_short.map Fin.val), (rawBones obj.x020_VertInfluences c).length ≤ 9

instance (obj : SubObject) : Decidable (BonesFit obj) := by
  unfold BonesFit; infer_instance

/-- The constructor `ObjectData::ObjectData` with its local state at the end: the
outer loop runs for at most `fuel` passes, and the flag tells whether the
constructor has returned. Line 107 reads `x020_VertInfluences` at every index of a
whole triangle and line 108 writes the array `bones` before anything else happens,
so an index outside that table, or a tenth bone of a triangle, is a fault of the
whole construction. -/
def construct (fuel : Nat) (obj : SubObject) (maxBones : Nat) :
    Except Fault (Bool × Partition) :=
  if obj.x020_VertInfluences.length = 0 then
    match rigidGroup obj maxBones with
    | .error e => .error e
    | .ok g => .ok (true, { triangles := [], groups := [g] })
  else if IndicesInRange obj then
    if BonesFit obj then partitionLoop fuel { triangles := buildTriangles obj, groups := [] }
    else .error .outOfRange
  else .error .outOfRange

/-- The struct `ObjectData`: the groups and the sub-object they were built from. -/
structure ObjectData where
  groups : List Group
  original : SubObject
  deriving DecidableEq

/-- The value built by `ObjectData::ObjectData`, when the constructor returns
within `fuel` passes of its outer loop. -/
def ObjectData.make (fuel : Nat) (obj : SubObject) (maxBones : Nat) : Except Fault (Option ObjectData) :=
  match construct fuel obj maxBones with
  | .error e => .error e
  | .ok (true, p) => .ok (some { groups := p.groups, original := obj })
  | .ok (false, _) => .ok none

/-- The state in which lines 139-145 start for the popped triangle `i`: the triangle
carries the group id, its vertices are registered, the queue is what `pop` left. -/
def commitState (gid : Nat) (st : Build) (i : Nat) (t : Triangle) (tris : TriangleSet) : Build :=
  { triangles := st.triangles.set i { t with group := some gid }
    tris := tris
    group := commitVerts st.group t.verts
    used := st.used }

/-- The state of the inner loop of lines 125-146 after `k` passes that each committed
a triangle; `none` when the loop has ended before or has faulted. -/
def afterCommits (gid : Nat) : Nat → Build → Option Build
  | 0, st => some st
  | k + 1, st =>
    match growStep gid st with
    | .ok (true, st1) => afterCommits gid k st1
    | _ => none

/-! ## DoWriteModel -/

/-- The sizes `sizeof(...)` of the records that `DoWriteModel` writes. Their
declarations are in `webgl.h`, so the sizes are parameters; an `Index` is 16 bits
wide (the filler after an index list is written by `write16`). -/
structure Sizes where
  header : Nat
  bone : Nat
  hardpoint : Nat
  object : Nat
  material : Nat
  capsuleInfo : Nat
  constraint : Nat
  objectGroup : Nat
  boneIndex : Nat
  vertex : Nat
  deriving DecidableEq, Repr

/-- The fields of a bone structure that decide the layout: its collision shapes and
constraint parameters (name, parent and transform are only copied). -/
structure BoneStructure where
  x118_CollisionShapes : List (List Int)
  x128_ConstraintParameters : List (List Int)
  deriving DecidableEq, Repr

/-- One entry of `x58_MaterialTextureEntries`: tag code `x00` and the texture id
`x08_MaterialTexture.x00_TexturesSno`. -/
structure MaterialTextureEntry where
  x00 : Int
  x00_TexturesSno : Int
  deriving DecidableEq, Repr

/-- One entry of `x88_SubObjectAppearances`: the flat tag array and the texture
entries of its `x18_UberMaterial`. -/
structure SubObjectAppearance where
  x10_TagMap : List Int
  x58_MaterialTextureEntries : List MaterialTextureEntry
  deriving DecidableEq, Repr

/-- One entry of `x1B0_AppearanceMaterials`. -/
structure AppearanceMaterial where
  x00_Text : String
  x88_SubObjectAppearances : List SubObjectAppearance
  deriving DecidableEq, Repr

/-- The fields of an appearance that `DoWriteModel` reads; `x10_SubObjects` are the
sub-objects of `x088_GeoSets[0]`, a hardpoint is given by its parent bone `x40`,
a look by its name. -/
structure Appearance where
  x010_BoneStructures : List BoneStructure
  x0F0_Hardpoints : List Int
  x10_SubObjects : List SubObject
  x1B0_AppearanceMaterials : List AppearanceMaterial
  x1C0_AppearanceLooks : List String
  deriving DecidableEq, Repr

/-- The header record with the fields that lines 162-170 set (the `float` mesh
centre is left out). -/
structure HeaderRec where
  numBones : Nat
  numHardpoints : Nat
  numAppearances : Nat
  numMaterials : Nat
  numObjects : Nat
  boneOffset : Nat
  hardpointOffset : Nat
  objectOffset : Nat
  materialOffset : Nat
  deriving DecidableEq, Repr

/-- The offsets of a written `Bone` record. -/
structure BoneRec where
  capsuleOffset : Nat
  constraintOffset : Nat
  deriving DecidableEq, Repr

/-- A written `Object` record. -/
structure ObjectRec where
  material : Nat
  numGroups : Nat
  groupOffset : Nat
  deriving DecidableEq, Repr

/-- A written `Material` record. -/
structure MaterialRec where
  diffuse : Nat
  specular : Nat
  tintBase : Nat
  tintMask : Nat
  deriving DecidableEq, Repr

/-- A record of the appendix written by lines 264-287. -/
inductive AppendixRec where
  | capsule
  | constraint
  deriving DecidableEq, Repr

/-- A written `ObjectGroup` record. -/
structure GroupRec where
  numBones : Nat
  boneOffset : Nat
  numVertices : Nat
  vertexOffset : Nat
  numIndices : Nat
  indexOffset : Nat
  deriving DecidableEq, Repr

/-- A written `Vertex` record; a bone index read from a table entry that was never
assigned is `none`. -/
structure VertexRec where
  position : Int × Int × Int
  normal : Int × Int × Int
  texcoord : Int × Int
  bone_idx : List (Option Nat)
  bone_weight : List Int
  deriving DecidableEq, Repr

/-- What lines 306-343 write for one group, in this order: the bone indices, the
vertices, the index list, and whether a 16-bit zero follows. -/
structure GroupPayload where
  boneIndices : List Nat
  vertices : List VertexRec
  indices : List Nat
  filler : Bool
  deriving DecidableEq, Repr

/-- The written file, section by section in the order of the writes. -/
structure ModelFile where
  header : HeaderRec
  bones : List BoneRec
  hardpoints : List Int
  objects : List ObjectRec
  materials : List MaterialRec
  appendix : List (List AppendixRec)
  groups : List (List GroupRec)
  payload : List (List GroupPayload)
  deriving DecidableEq, Repr

/-- Lines 182-203, the offsets only: one `Bone` record per bone structure, the
running file size advancing past the capsule and constraint records. -/
def writeBones (sz : Sizes) : List BoneStructure → Nat → List BoneRec × Nat
  | [], fileSize => ([], fileSize)
  | src :: rest, fileSize =>
    let capsuleOffset := if src.x118_CollisionShapes.length ≠ 0 then fileSize else 0
    let fileSize1 :=
      if src.x118_CollisionShapes.length ≠ 0 then (fileSize + sz.capsuleInfo) % UINT32
      else fileSize
    let constraintOffset := if src.x128_ConstraintParameters.length ≠ 0 then fileSize1 else 0
    let fileSize2 :=
      if src.x128_ConstraintParameters.length ≠ 0 then (fileSize1 + sz.constraint) % UINT32
      else fileSize1
    let r := writeBones sz rest fileSize2
    ({ capsuleOffset := capsuleOffset, constraintOffset := constraintOffset } :: r.1, r.2)

/-- Line 221 for every sub-object: the `ObjectData` values, `none` while one of the
constructors has not returned. -/
def makeObjects (fuel maxBones : Nat) : List SubObject → Except Fault (Option (List ObjectData))
  | [] => .ok (some [])
  | src :: rest =>
    match ObjectData.make fuel src maxBones with
    | .error e => .error e
    | .ok none => .ok none
    | .ok (some data) =>
      match makeObjects fuel maxBones rest with
      | .error e => .error e
      | .ok none => .ok none
      | .ok (some ds) => .ok (some (data :: ds))

/-- Lines 215-218 and 224: the index under which the map `materials` holds a name,
0 when the name is absent. -/
def materialIndex : List AppearanceMaterial → Nat → String → Nat → Nat
  | [], _, _, found => found
  | mat :: rest, i, name, found =>
    materialIndex rest (i + 1) name (if mat.x00_Text = name then i % UINT32 else found)

/-- Lines 220-229, the records only. -/
def writeObjects (sz : Sizes) (mats : List AppearanceMaterial) :
    List ObjectData → Nat → List ObjectRec × Nat
  | [], fileSize => ([], fileSize)
  | data :: rest, fileSize =>
    let numGroups := data.groups.length % UINT32
    let r := writeObjects sz mats rest ((fileSize + sz.objectGroup * numGroups) % UINT32)
    ({ material := materialIndex mats 0 data.original.x05C_Text 0
       numGroups := numGroups
       groupOffset := fileSize } :: r.1, r.2)

/-- Conversion of an `int` to `uint32`. -/
def toUInt32 (x : Int) : Nat := (x % 4294967296).toNat

/-- The four local variables of lines 233-249. -/
structure TexSlots where
  texDiffuse : Nat
  texSpecular : Nat
  texTintBase : Nat
  texTintMask : Nat
  deriving DecidableEq, Repr

/-- Lines 234-249: the `switch` over the tag code of every texture entry. -/
def scanTextures : List MaterialTextureEntry → TexSlots → TexSlots
  | [], s => s
  | tex :: rest, s =>
    scanTextures rest
      (if tex.x00 = 1 then { s with texDiffuse := toUInt32 tex.x00_TexturesSno }
       else if tex.x00 = 5 then { s with texSpecular := toUInt32 tex.x00_TexturesSno }
       else if tex.x00 = 11 then { s with texTintBase := toUInt32 tex.x00_TexturesSno }
       else if tex.x00 = 54 then { s with texTintMask := toUInt32 tex.x00_TexturesSno }
       else s)

/-- The value returned by `AddTexture` (the export to the archive is left out). -/
def AddTexture (texId : Nat) : Nat := if texId = 4294967295 then 0 else texId

/-- Lines 250-255: the scan of the flat tag array from position `i`, for at most
`fuel` passes. The bound `size() - 1` is computed in the 64-bit `size_t`; a read
outside the array is a fault. The result is the last value found, `none` for the
initial `1.0f`. -/
def alphaScan (tagMap : List Int) : Nat → Nat → Option Int → Except Fault (Option Int)
  | 0, _, alpha => .ok alpha
  | fuel + 1, i, alpha =>
    if i < (18446744073709551615 + tagMap.length) % 18446744073709551616 then
      match tagMap[i]? with
      | none => .error .outOfRange
      | some key =>
        if key = 196864 then
          match tagMap[i + 1]? with
          | none => .error .outOfRange
          | some value => alphaScan tagMap fuel (i + 1) (some value)
        else alphaScan tagMap fuel (i + 1) alpha
    else .ok alpha

/-- Lines 232-261: the `Material` record of one sub-object appearance. Every pass of
the scan of the tag array either faults or moves on by one position, so
`size() + 1` passes are enough. -/
def materialRecord (sub : SubObjectAppearance) : Except Fault MaterialRec :=
  let s := scanTextures sub.x58_MaterialTextureEntries
    { texDiffuse := 4294967295, texSpecular := 4294967295, texTintBase := 4294967295,
      texTintMask := 4294967295 }
  match alphaScan sub.x10_TagMap (sub.x10_TagMap.length + 1) 0 none with
  | .error e => .error e
  | .ok _ =>
    .ok { diffuse := AddTexture s.texDiffuse, specular := AddTexture s.texSpecular,
          tintBase := AddTexture s.texTintBase, tintMask := AddTexture s.texTintMask }

/-- Line 231: the loop over the sub-object appearances of one material. -/
def writeSubs : List SubObjectAppearance → Except Fault (List MaterialRec)
  | [] => .ok []
  | sub :: rest =>
    match materialRecord sub with
    | .error e => .error e
    | .ok r =>
      match writeSubs rest with
      | .error e => .error e
      | .ok rs => .ok (r :: rs)

/-- Lines 230-263: the `Material` records in the order of the writes. -/
def writeMaterials : List AppearanceMaterial → Except Fault (List MaterialRec)
  | [] => .ok []
  | mat :: rest =>
    match writeSubs mat.x88_SubObjectAppearances with
    | .error e => .error e
    | .ok rs =>
      match writeMaterials rest with
      | .error e => .error e
      | .ok more => .ok (rs ++ more)

/-- Lines 265-286 for one bone: a capsule record, then a constraint record. -/
def boneAppendix (src : BoneStructure) : List AppendixRec :=
  (if src.x118_CollisionShapes.length ≠ 0 then [AppendixRec.capsule] else []) ++
  (if src.x128_ConstraintParameters.length ≠ 0 then [AppendixRec.constraint] else [])

/-- Line 300: the bytes `sizeof(Index) * ((numIndices + 1) / 2) * 2` by which the
running file size advances for an index list, `numIndices + 1` being a `uint32`. -/
def indexReserve (numIndices : Nat) : Nat := 2 * (((numIndices + 1) % UINT32) / 2) * 2

/-- Lines 290-301 for one group: its record and the running file size after it. -/
def groupRecord (sz : Sizes) (g : Group) (fileSize : Nat) : GroupRec × Nat :=
  let numBones := g.bones.card % UINT32
  let fileSize1 := (fileSize + sz.boneIndex * numBones) % UINT32
  let numVertices := g.vertices.length % UINT32
  let fileSize2 := (fileSize1 + sz.vertex * numVertices) % UINT32
  let numIndices := g.indices.length % UINT32
  let fileSize3 := (fileSize2 + indexReserve numIndices) % UINT32
  ({ numBones := numBones, boneOffset := fileSize, numVertices := numVertices,
     vertexOffset := fileSize1, numIndices := numIndices, indexOffset := fileSize2 }, fileSize3)

/-- Line 289: the loop over the groups of one object. -/
def writeGroupRecs (sz : Sizes) : List Group → Nat → List GroupRec × Nat
  | [], fileSize => ([], fileSize)
  | g :: rest, fileSize =>
    let r := groupRecord sz g fileSize
    let more := writeGroupRecs sz rest r.2
    (r.1 :: more.1, more.2)

/-- Lines 288-303: the `ObjectGroup` records of all objects. -/
def writeGroups (sz : Sizes) : List ObjectData → Nat → List (List GroupRec) × Nat
  | [], fileSize => ([], fileSize)
  | data :: rest, fileSize =>
    let r := writeGroupRecs sz data.groups fileSize
    let more := writeGroups sz rest r.2
    (r.1 :: more.1, more.2)

/-- Lines 306-313: the bone indices written so far, the table `boneMap` (an entry
never assigned is `none`) and the counter `numBones`. -/
def boneMapLoop (bones : Finset Nat) :
    List Nat → List Nat → List (Option Nat) → Nat → Except Fault (List Nat × List (Option Nat))
  | [], written, boneMap, _ => .ok (written, boneMap)
  | i :: rest, written, boneMap, numBones =>
    match bitsetTest bones i with
    | .error e => .error e
    | .ok true =>
      boneMapLoop bones rest (written ++ [i]) (boneMap.set i (some numBones))
        ((numBones + 1) % UINT32)
    | .ok false => boneMapLoop bones rest written boneMap numBones

/-- Lines 314-317: the vector `vertices`, original vertex by local id. -/
def vertexTable (g : Group) : List Nat :=
  g.vertices.foldl (fun tbl it => tbl.set it.2 it.1) (List.replicate g.vertices.length 0)

/-- Lines 332-333 for slot `j`: the table entry of the slot's bone and its weight. -/
def influenceSlot (boneMap : List (Option Nat)) (inf : List Influence) (j : Nat) :
    Except Fault (Option Nat × Int) :=
  match inf[j]? with
  | none => .error .outOfRange
  | some e =>
    match boneMap[e.x00]? with
    | none => .error .outOfRange
    | some slot => .ok (slot, e.x04)

/-- Lines 319-338: the `Vertex` record of the original vertex `index`. -/
def writeVertex (orig : SubObject) (boneMap : List (Option Nat)) (index : Nat) :
    Except Fault VertexRec :=
  match orig.x010_FatVertexs[index]? with
  | none => .error .outOfRange
  | some src =>
    let normal : Int × Int × Int :=
      ((src.x0C_Normal.1 : Int) - 128, (src.x0C_Normal.2.1 : Int) - 128,
       (src.x0C_Normal.2.2 : Int) - 128)
    let texcoord : Int × Int :=
      ((src.x18_TexCoords.1 : Int) - 32768, (src.x18_TexCoords.2 : Int) - 32768)
    if orig.x020_VertInfluences.length > index then
      let inf := orig.x020_VertInfluences.getD index []
      match influenceSlot boneMap inf 0 with
      | .error e => .error e
      | .ok s0 =>
        match influenceSlot boneMap inf 1 with
        | .error e => .error e
        | .ok s1 =>
          match influenceSlot boneMap inf 2 with
          | .error e => .error e
          | .ok s2 =>
            .ok { position := src.x00_Position, normal := normal, texcoord := texcoord
                  bone_idx := [s0.1, s1.1, s2.1], bone_weight := [s0.2, s1.2, s2.2] }
    else
      .ok { position := src.x00_Position, normal := normal, texcoord := texcoord
            bone_idx := [some 0, some 0, some 0], bone_weight := [1, 0, 0] }

/-- Line 318: the loop over the vector `vertices`. -/
def writeVertices (orig : SubObject) (boneMap : List (Option Nat)) :
    List Nat → Except Fault (List VertexRec)
  | [] => .ok []
  | index :: rest =>
    match writeVertex orig boneMap index with
    | .error e => .error e
    | .ok v =>
      match writeVertices orig boneMap rest with
      | .error e => .error e
      | .ok vs => .ok (v :: vs)

/-- Lines 306-343 for one group of an object, `skeleton` being the number of bone
structures. -/
def writeGroupPayload (skeleton : Nat) (orig : SubObject) (g : Group) :
    Except Fault GroupPayload :=
  match boneMapLoop g.bones (List.range skeleton) [] (List.replicate MAX_BONES none) 0 with
  | .error e => .error e
  | .ok (written, boneMap) =>
    match writeVertices orig boneMap (vertexTable g) with
    | .error e => .error e
    | .ok vs =>
      .ok { boneIndices := written, vertices := vs, indices := g.indices,
            filler := decide (g.indices.length % 2 = 1) }

/-- Line 305: the loop over the groups of one object. -/
def writeObjectPayload (skeleton : Nat) (orig : SubObject) :
    List Group → Except Fault (List GroupPayload)
  | [] => .ok []
  | g :: rest =>
    match writeGroupPayload skeleton orig g with
    | .error e => .error e
    | .ok p =>
      match writeObjectPayload skeleton orig rest with
      | .error e => .error e
      | .ok ps => .ok (p :: ps)

/-- Lines 304-345: the payload of all objects. -/
def writePayload (skeleton : Nat) : List ObjectData → Except Fault (List (List GroupPayload))
  | [] => .ok []
  | data :: rest =>
    match writeObjectPayload skeleton data.original data.groups with
    | .error e => .error e
    | .ok p =>
      match writePayload skeleton rest with
      | .error e => .error e
      | .ok ps => .ok (p :: ps)

/-- The header of lines 161-170. A product `count * sizeof(...)` is reduced modulo
`2^32` when it is added to a 32-bit offset, so the counts enter the sums as they
are. -/
def modelHeader (sz : Sizes) (app : Appearance) : HeaderRec :=
  let boneOffset := sz.header % UINT32
  let hardpointOffset := (boneOffset + app.x010_BoneStructures.length * sz.bone) % UINT32
  let objectOffset := (hardpointOffset + app.x0F0_Hardpoints.length * sz.hardpoint) % UINT32
  let materialOffset := (objectOffset + app.x10_SubObjects.length * sz.object) % UINT32
  { numBones := app.x010_BoneStructures.length % UINT32
    numHardpoints := app.x0F0_Hardpoints.length % UINT32
    numAppearances := app.x1C0_AppearanceLooks.length % UINT32
    numMaterials := app.x1B0_AppearanceMaterials.length % UINT32
    numObjects := app.x10_SubObjects.length % UINT32
    boneOffset := boneOffset
    hardpointOffset := hardpointOffset
    objectOffset := objectOffset
    materialOffset := materialOffset }

/-- The function `DoWriteModel`: the file it writes, `none` while an `ObjectData`
constructor has not returned within `fuel` passes. The constructors have no
effect on the file, so they are run first; what a fault leaves in the file is
not modelled. -/
def DoWriteModel (sz : Sizes) (fuel : Nat) (app : Appearance) : Except Fault (Option ModelFile) :=
  let header := modelHeader sz app
  let fileSize := (header.materialOffset +
    sz.material * header.numAppearances * header.numMaterials) % UINT32
  let bones := writeBones sz app.x010_BoneStructures fileSize
  match makeObjects fuel (app.x010_BoneStructures.length % UINT32) app.x10_SubObjects with
  | .error e => .error e
  | .ok none => .ok none
  | .ok (some datas) =>
    let objects := writeObjects sz app.x1B0_AppearanceMaterials datas bones.2
    match writeMaterials app.x1B0_AppearanceMaterials with
    | .error e => .error e
    | .ok materials =>
      let groups := writeGroups sz datas objects.2
      match writePayload app.x010_BoneStructures.length datas with
      | .error e => .error e
      | .ok payload =>
        .ok (some { header := header
                    bones := bones.1
                    hardpoints := app.x0F0_Hardpoints
                    objects := objects.1
                    materials := materials
                    appendix := app.x010_BoneStructures.map boneAppendix
                    groups := groups.1
                    payload := payload })

/-- The bytes of one appendix record. -/
def AppendixRec.bytes (sz : Sizes) : AppendixRec → Nat
  | .capsule => sz.capsuleInfo
  | .constraint => sz.constraint

/-- The bytes of the appendix records of a run of bones. -/
def appendixBytes (sz : Sizes) (l : List (List AppendixRec)) : Nat :=
  (l.map fun recs => (recs.map (AppendixRec.bytes sz)).sum).sum

/-- The number of 16-bit elements written for the index list of a group: the list
and its filler. -/
def GroupPayload.elements16 (p : GroupPayload) : Nat :=
  p.indices.length + (if p.filler then 1 else 0)

/-- The bytes of the payload of one group. -/
def GroupPayload.bytes (sz : Sizes) (p : GroupPayload) : Nat :=
  sz.boneIndex * p.boneIndices.length + sz.vertex * p.vertices.length + 2 * p.elements16

/-- The bytes of the payloads of a run of groups. -/
def payloadBytes (sz : Sizes) (l : List GroupPayload) : Nat := (l.map (GroupPayload.bytes sz)).sum

/-- The bytes of the payloads of a run of objects. -/
def objectsPayloadBytes (sz : Sizes) (l : List (List GroupPayload)) : Nat :=
  (l.map (payloadBytes sz)).sum

/-- The bytes that lines 292-300 reserve for one group, without the reduction
modulo `2^32`. -/
def groupReserve (sz : Sizes) (g : Group) : Nat :=
  sz.boneIndex * g.bones.card + sz.vertex * g.vertices.length +
    2 * (2 * ((g.indices.length + 1) / 2))

/-- The bytes that lines 292-300 reserve for the groups of one object. -/
def objectReserve (sz : Sizes) (d : ObjectData) : Nat := (d.groups.map (groupReserve sz)).sum

/-- The bytes of the appendix records of one bone. -/
def boneAppendixBytes (sz : Sizes) (src : BoneStructure) : Nat :=
  (if src.x118_CollisionShapes.length ≠ 0 then sz.capsuleInfo else 0) +
  (if src.x128_ConstraintParameters.length ≠ 0 then sz.constraint else 0)

/-- The number of `ObjectGroup` records of a run of objects. -/
def groupCount (l : List (List GroupRec)) : Nat := (l.map List.length).sum

/-- The byte position at which the appendix starts: the header, the bones, the
hardpoints, the objects and the materials have been written. -/
def ModelFile.appendixStart (sz : Sizes) (f : ModelFile) : Nat :=
  sz.header + sz.bone * f.bones.length + sz.hardpoint * f.hardpoints.length +
    sz.object * f.objects.length + sz.material * f.materials.length

/-- The byte position at which the `ObjectGroup` records start. -/
def ModelFile.groupStart (sz : Sizes) (f : ModelFile) : Nat :=
  f.appendixStart sz + appendixBytes sz f.appendix

/-- The byte position at which the payload of the groups starts. -/
def ModelFile.payloadStart (sz : Sizes) (f : ModelFile) : Nat :=
  f.groupStart sz + sz.objectGroup * groupCount f.groups

/-- The length of the written file in bytes. -/
def ModelFile.bytes (sz : Sizes) (f : ModelFile) : Nat :=
  f.payloadStart sz + objectsPayloadBytes sz f.payload

/-! ## The packed asset writer of `parseObj` -/

/-- The struct `ObjMaterial`: the bytes of the texture file; `mime`, `diff` and
`spec` are arrays of 16, 16 and 12 bytes that are only copied. -/
structure ObjMaterial where
  tex : List Nat
  deriving DecidableEq, Repr

/-- The struct `ObjVertex`: a position of three floats (as bit patterns), a normal
of four `int8` and a texture coordinate of two `int16`. -/
structure ObjVertex where
  v : Nat × Nat × Nat
  n : Int × Int × Int × Int
  t : Int × Int
  deriving DecidableEq, Repr

/-- The local struct `Object` of `parseObj` without its map `vertex_index`, which
the writer does not read. -/
structure Object where
  mat : Nat
  vertex_list : List ObjVertex
  index_list : List Nat
  face_list : List Nat
  face_sizes : List Nat
  deriving DecidableEq, Repr

/-- The eight `write32` of lines 1151-1158. -/
structure PackedHeader where
  numMaterials : Nat
  matOffset : Nat
  numObjects : Nat
  modelOffset : Nat
  vshOffset : Nat
  vshSize : Nat
  pshOffset : Nat
  pshSize : Nat
  deriving DecidableEq, Repr

/-- The two `write32` of a material record (lines 1161-1162); the record also holds
the 16 bytes of `mime` before them and the 16 and 12 bytes of `diff` and `spec`
after them. -/
structure PackedMaterial where
  texOffset : Nat
  texSize : Nat
  deriving DecidableEq, Repr

/-- What lines 1170-1175 write for a material with a texture: the blob and the
zero bytes after it. -/
structure TexBlob where
  data : List Nat
  padding : List Nat
  deriving DecidableEq, Repr

/-- The nine `write32` of an object record (lines 1179-1192). -/
structure PackedObject where
  mat : Nat
  numVertices : Nat
  vertexOffset : Nat
  numIndices : Nat
  indexOffset : Nat
  numFaceSizes : Nat
  numFaces : Nat
  faceSizeOffset : Nat
  faceOffset : Nat
  deriving DecidableEq, Repr

/-- What lines 1196-1213 write for one object, in this order: the vertices, the
index list, whether a 16-bit zero follows it, the face sizes (32 bits each), the
face list, whether a 16-bit zero follows it. -/
structure ObjectPayload where
  vertices : List ObjVertex
  indices : List Nat
  indexFiller : Bool
  faceSizes : List Nat
  faces : List Nat
  faceFiller : Bool
  deriving DecidableEq, Repr

/-- The uncompressed buffer `output`, section by section in the order of the
writes. -/
structure PackedFile where
  header : PackedHeader
  materials : List PackedMaterial
  textures : List (Option TexBlob)
  objects : List PackedObject
  payload : List ObjectPayload
  vsh : List Nat
  psh : List Nat
  deriving DecidableEq, Repr

/-- The expression `(x + 3) & (~3)` on a `uint32`. -/
def align4 (x : Nat) : Nat := ((x + 3) % UINT32) / 4 * 4

/-- Lines 1131-1134: `model_offset` after the loop over the materials. -/
def modelOffset : List ObjMaterial → Nat → Nat
  | [], model_offset => model_offset
  | mat :: rest, model_offset =>
    modelOffset rest (align4 ((model_offset + mat.tex.length) % UINT32))

/-- Lines 1141-1148: `vsh_offset` after the loop over the objects, a vertex being
`sizeofObjVertex` bytes. -/
def shaderOffset (sizeofObjVertex : Nat) : List Object → Nat → Nat
  | [], vsh_offset => vsh_offset
  | mdl :: rest, vsh_offset =>
    let o1 := (vsh_offset + mdl.vertex_list.length * sizeofObjVertex) % UINT32
    let o2 := align4 ((o1 + mdl.index_list.length * 2) % UINT32)
    let o3 := (o2 + mdl.face_sizes.length * 4) % UINT32
    shaderOffset sizeofObjVertex rest (align4 ((o3 + mdl.face_list.length * 2) % UINT32))

/-- Lines 1159-1167: the material records, `tex_offset` running. -/
def materialRecords : List ObjMaterial → Nat → List PackedMaterial
  | [], _ => []
  | mat :: rest, tex_offset =>
    { texOffset := if mat.tex.length ≠ 0 then tex_offset else 0
      texSize := mat.tex.length % UINT32 } ::
      materialRecords rest (align4 ((tex_offset + mat.tex.length) % UINT32))

/-- Lines 1171-1175: the zero bytes written by `while (size & 3)`, for at most
`fuel` passes. -/
def padLoop : Nat → Nat → List Nat
  | 0, _ => []
  | fuel + 1, size => if size % 4 ≠ 0 then 0 :: padLoop fuel (size + 1) else []

/-- Lines 1168-1177: the texture blobs; nothing is written for a material without
a texture. The padding loop ends within three passes. -/
def textureBlobs (mat_list : List ObjMaterial) : List (Option TexBlob) :=
  mat_list.map fun mat =>
    if mat.tex.length ≠ 0 then some { data := mat.tex, padding := padLoop 4 mat.tex.length }
    else none

/-- Lines 1178-1194: the object records, `vertex_offset` running. -/
def objectRecords (sizeofObjVertex : Nat) : List Object → Nat → List PackedObject
  | [], _ => []
  | mdl :: rest, vertex_offset =>
    let o1 := (vertex_offset + mdl.vertex_list.length * sizeofObjVertex) % UINT32
    let o2 := align4 ((o1 + mdl.index_list.length * 2) % UINT32)
    let o3 := (o2 + mdl.face_sizes.length * 4) % UINT32
    { mat := mdl.mat
      numVertices := mdl.vertex_list.length % UINT32
      vertexOffset := vertex_offset
      numIndices := mdl.index_list.length % UINT32
      indexOffset := o1
      numFaceSizes := mdl.face_sizes.length % UINT32
      numFaces := mdl.face_list.length % UINT32
      faceSizeOffset := o2
      faceOffset := o3 } ::
      objectRecords sizeofObjVertex rest (align4 ((o3 + mdl.face_list.length * 2) % UINT32))

/-- Lines 1195-1214 for one object; a face size passes through a `uint16`. -/
def objectPayload (mdl : Object) : ObjectPayload :=
  { vertices := mdl.vertex_list
    indices := mdl.index_list
    indexFiller := decide (mdl.index_list.length % 2 = 1)
    faceSizes := mdl.face_sizes.map fun i => i % UINT16
    faces := mdl.face_list
    faceFiller := decide (mdl.face_list.length % 2 = 1) }

/-- Lines 1128-1216 of `parseObj`: the uncompressed buffer written for the
materials, the objects and the two shader files, `sizeofObjVertex` being
`sizeof(ObjVertex)`. -/
def writePacked (sizeofObjVertex : Nat) (mat_list : List ObjMaterial) (objects : List Object)
    (vsh psh : List Nat) : PackedFile :=
  let mat_offset := 32
  let tex_offset := (mat_offset + mat_list.length * 52) % UINT32
  let model_offset := modelOffset mat_list tex_offset
  let vertex_offset := (model_offset + objects.length * 36) % UINT32
  let vsh_offset := shaderOffset sizeofObjVertex objects vertex_offset
  let psh_offset := (vsh_offset + vsh.length) % UINT32
  { header :=
      { numMaterials := mat_list.length % UINT32
        matOffset := mat_offset
        numObjects := objects.length % UINT32
        modelOffset := model_offset
        vshOffset := vsh_offset
        vshSize := vsh.length % UINT32
        pshOffset := psh_offset
        pshSize := psh.length % UINT32 }
    materials := materialRecords mat_list tex_offset
    textures := textureBlobs mat_list
    objects := objectRecords sizeofObjVertex objects vertex_offset
    payload := objects.map objectPayload
    vsh := vsh
    psh := psh }

/-- The bytes of the header: eight `write32`. -/
def PackedHeader.bytes : Nat := 8 * 4

/-- The bytes of a material record: `mime`, two `write32`, `diff`, `spec`. -/
def PackedMaterial.bytes : Nat := 16 + 4 + 4 + 16 + 12

/-- The bytes of an object record: nine `write32`. -/
def PackedObject.bytes : Nat := 9 * 4

/-- The bytes written for the texture of one material. -/
def blobBytes : Option TexBlob → Nat
  | none => 0
  | some b => b.data.length + b.padding.length

/-- The bytes written for the textures of a run of materials. -/
def texturesBytes (l : List (Option TexBlob)) : Nat := (l.map blobBytes).sum

/-- The number of 16-bit elements written for the index list: the list and its
filler. -/
def ObjectPayload.indexElements (p : ObjectPayload) : Nat :=
  p.indices.length + (if p.indexFiller then 1 else 0)

/-- The number of 16-bit elements written for the face list: the list and its
filler. -/
def ObjectPayload.faceElements (p : ObjectPayload) : Nat :=
  p.faces.length + (if p.faceFiller then 1 else 0)

/-- The bytes of the payload of one object. -/
def ObjectPayload.bytes (sizeofObjVertex : Nat) (p : ObjectPayload) : Nat :=
  sizeofObjVertex * p.vertices.length + 2 * p.indexElements + 4 * p.faceSizes.length +
    2 * p.faceElements

/-- The bytes of the payloads of a run of objects. -/
def packedPayloadBytes (sizeofObjVertex : Nat) (l : List ObjectPayload) : Nat :=
  (l.map (ObjectPayload.bytes sizeofObjVertex)).sum

/-- The byte position at which the texture blobs start. -/
def PackedFile.textureStart (f : PackedFile) : Nat :=
  PackedHeader.bytes + PackedMaterial.bytes * f.materials.length

/-- The byte position at which the object records start. -/
def PackedFile.objectStart (f : PackedFile) : Nat := f.textureStart + texturesBytes f.textures

/-- The byte position at which the payload of the objects starts. -/
def PackedFile.payloadStart (f : PackedFile) : Nat :=
  f.objectStart + PackedObject.bytes * f.objects.length

/-- The byte position at which the vertex shader starts. -/
def PackedFile.shaderStart (sizeofObjVertex : Nat) (f : PackedFile) : Nat :=
  f.payloadStart + packedPayloadBytes sizeofObjVertex f.payload

/-- The length of the buffer in bytes. -/
def PackedFile.bytes (sizeofObjVertex : Nat) (f : PackedFile) : Nat :=
  f.shaderStart sizeofObjVertex + f.vsh.length + f.psh.length

/-! ## DoWriteAnimation -/

/-- The sizes `sizeof(...)` of the records of `webgl.h` that `DoWriteAnimation` uses
for the offsets, and the bytes of what it writes for a key: the frame `x00`, and
the value of a translation, rotation and scale key. -/
structure AnimSizes where
  header : Nat
  curve : Nat
  translationKey : Nat
  rotationKey : Nat
  scaleKey : Nat
  frame : Nat
  vector : Nat
  quaternion : Nat
  scale : Nat
  deriving DecidableEq, Repr

/-- A key of a curve: the frame `x00` and the value `x04`, whose components are
only copied or converted by `Read`. -/
structure AnimKey where
  x00 : Int
  x04 : List Int
  deriving DecidableEq, Repr

/-- The fields of an animation permutation that `DoWriteAnimation` reads (the
velocity is a `float` that is only copied). -/
structure AnimPermutation where
  x090 : Int
  x088_BoneNames : List String
  x0A0_TranslationCurves : List (List AnimKey)
  x0B0_RotationCurves : List (List AnimKey)
  x0C0_ScaleCurves : List (List AnimKey)
  deriving DecidableEq, Repr

/-- The type `Anim::Type`, by its permutations. -/
structure Anim where
  x28_AnimPermutations : List AnimPermutation
  deriving DecidableEq, Repr

/-- The written `AnimationSequence` header. -/
structure AnimHeaderRec where
  numFrames : Int
  numBones : Nat
  animationOffset : Nat
  deriving DecidableEq, Repr

/-- A written `AnimationCurve` record. -/
structure CurveRec where
  bone : String
  numTranslations : Nat
  numRotations : Nat
  numScales : Nat
  translationOffset : Nat
  rotationOffset : Nat
  scaleOffset : Nat
  deriving DecidableEq, Repr

/-- The three kinds of curve. -/
inductive CurveKind where
  | translation
  | rotation
  | scale
  deriving DecidableEq, Repr

/-- The two `file.write` calls for one key (lines 377-378, 381-382, 385-386): the
frame and the value, with the kind of curve and the bone they belong to. -/
structure KeyWrite where
  kind : CurveKind
  bone : Nat
  time : Int
  value : List Int
  deriving DecidableEq, Repr

/-- The written file: the header, the curve records and the key writes in the order
of the writes. -/
structure AnimFile where
  header : AnimHeaderRec
  curves : List CurveRec
  keys : List KeyWrite
  deriving DecidableEq, Repr

/-- Lines 360-374: the curve records of the bones `i` of the list, the running file
size advancing; reading a curve table outside its bounds is a fault. -/
def curveRecords (sz : AnimSizes) (perm : AnimPermutation) :
    List Nat → Nat → Except Fault (List CurveRec)
  | [], _ => .ok []
  | i :: rest, fileSize =>
    match perm.x088_BoneNames[i]?, perm.x0A0_TranslationCurves[i]?,
        perm.x0B0_RotationCurves[i]?, perm.x0C0_ScaleCurves[i]? with
    | some name, some t, some r, some s =>
      let numTranslations := t.length % UINT32
      let numRotations := r.length % UINT32
      let numScales := s.length % UINT32
      let fileSize1 := (fileSize + numTranslations * sz.translationKey) % UINT32
      let fileSize2 := (fileSize1 + numRotations * sz.rotationKey) % UINT32
      let fileSize3 := (fileSize2 + numScales * sz.scaleKey) % UINT32
      match curveRecords sz perm rest fileSize3 with
      | .error e => .error e
      | .ok recs =>
        .ok ({ bone := name, numTranslations := numTranslations, numRotations := numRotations,
               numScales := numScales, translationOffset := fileSize,
               rotationOffset := fileSize1, scaleOffset := fileSize2 } :: recs)
    | _, _, _, _ => .error .outOfRange

/-- Lines 376-387 for bone `i`: its translation keys, then its rotation keys, then
its scale keys. -/
def boneKeys (perm : AnimPermutation) (i : Nat) : Except Fault (List KeyWrite) :=
  match perm.x0A0_TranslationCurves[i]?, perm.x0B0_RotationCurves[i]?,
      perm.x0C0_ScaleCurves[i]? with
  | some t, some r, some s =>
    .ok ((t.map fun key => { kind := .translation, bone := i, time := key.x00, value := key.x04 }) ++
         (r.map fun key => { kind := .rotation, bone := i, time := key.x00, value := key.x04 }) ++
         (s.map fun key => { kind := .scale, bone := i, time := key.x00, value := key.x04 }))
  | _, _, _ => .error .outOfRange

/-- Lines 375-388: the key writes of the bones `i` of the list. -/
def keyWrites (perm : AnimPermutation) : List Nat → Except Fault (List KeyWrite)
  | [] => .ok []
  | i :: rest =>
    match boneKeys perm i with
    | .error e => .error e
    | .ok ks =>
      match keyWrites perm rest with
      | .error e => .error e
      | .ok more => .ok (ks ++ more)

/-- The function `DoWriteAnimation`: the file it writes. -/
def DoWriteAnimation (sz : AnimSizes) (anim : Anim) : Except Fault AnimFile :=
  match anim.x28_AnimPermutations[0]? with
  | none => .error .outOfRange
  | some perm =>
    let numBones := perm.x088_BoneNames.length % UINT32
    let animationOffset := sz.header % UINT32
    let fileSize := (animationOffset + numBones * sz.curve) % UINT32
    match curveRecords sz perm (List.range numBones) fileSize with
    | .error e => .error e
    | .ok curves =>
      match keyWrites perm (List.range numBones) with
      | .error e => .error e
      | .ok keys =>
        .ok { header := { numFrames := perm.x090, numBones := numBones,
                          animationOffset := animationOffset }
              curves := curves
              keys := keys }

/-- The bytes written for one key. -/
def KeyWrite.bytes (sz : AnimSizes) (k : KeyWrite) : Nat :=
  sz.frame + (match k.kind with
    | .translation => sz.vector
    | .rotation => sz.quaternion
    | .scale => sz.scale)

/-- The bytes written for a run of keys. -/
def keyBytes (sz : AnimSizes) (l : List KeyWrite) : Nat := (l.map (KeyWrite.bytes sz)).sum

/-- The byte position at which the keys start: the header and the curve records
have been written. -/
def AnimFile.keysStart (sz : AnimSizes) (f : AnimFile) : Nat :=
  sz.header + sz.curve * f.curves.length

/-- The length of the written file in bytes. -/
def AnimFile.bytes (sz : AnimSizes) (f : AnimFile) : Nat := f.keysStart sz + keyBytes sz f.keys

/-! ## The commands of `parseObj` -/

/-- The key type `VertexIndex`: the position, texture and normal index of a corner
as written in the file. -/
abbrev VertexIndex := Int × Int × Int

/-- The local struct `Object` of `parseObj` while the file is read: the lists that
are written out, and the map `vertex_index` (as the list of its entries in the
order in which they were made; it is only looked up). -/
structure ParsedObject extends Object where
  vertex_index : List (VertexIndex × Nat)
  deriving DecidableEq, Repr

/-- The locals of `parseObj` that the commands `usemtl`, `v`, `vt`, `vn` and `f`
use. The positions are floats of which only copies are made here; `t0` and `n0`
are the attributes of a corner without texture or normal index (`n0` comes from a
division of zero by zero and a conversion to `int8`, which is not modelled). -/
structure ParseState where
  v_list : List (Nat × Nat × Nat)
  t_list : List (Int × Int)
  n_list : List (Int × Int × Int × Int)
  t0 : Int × Int
  n0 : Int × Int × Int × Int
  objects : List ParsedObject
  deriving DecidableEq, Repr

/-- The read `list[i]` with an `int` index that is converted to `size_t`. -/
def readAt {α : Type} (l : List α) (i : Int) : Option α :=
  if 0 ≤ i then l[i.toNat]? else none

/-- The call `vertex_index.count(idx)` and the read `vertex_index[idx]` of a key
that is present. -/
def lookupVertex (idx : VertexIndex) (m : List (VertexIndex × Nat)) : Option Nat :=
  (m.find? fun e => decide (e.1 = idx)).map Prod.snd

/-- The arguments of `vertex_list.emplace_back` in line 1004. -/
def cornerVertex (st : ParseState) (idx : VertexIndex) : Option ObjVertex :=
  match readAt st.v_list (idx.1 - 1),
      (if idx.2.1 ≠ 0 then readAt st.t_list (idx.2.1 - 1) else some st.t0),
      (if idx.2.2 ≠ 0 then readAt st.n_list (idx.2.2 - 1) else some st.n0) with
  | some v, some t, some n => some { v := v, n := n, t := t }
  | _, _, _ => none

/-- Lines 1001-1006 for one corner: the object afterwards and the id pushed onto
`indices`. The map holds `uint16` values. -/
def addCorner (st : ParseState) (obj : ParsedObject) (idx : VertexIndex) :
    Except Fault (ParsedObject × Nat) :=
  match lookupVertex idx obj.vertex_index with
  | some id => .ok (obj, id)
  | none =>
    match cornerVertex st idx with
    | none => .error .outOfRange
    | some vertex =>
      let id := obj.vertex_list.length % UINT16
      .ok ({ obj with vertex_index := obj.vertex_index ++ [(idx, id)]
                      vertex_list := obj.vertex_list ++ [vertex] }, id)

/-- Lines 996-1007: the loop over the corners of a face. -/
def addCorners (st : ParseState) : ParsedObject → List VertexIndex →
    Except Fault (ParsedObject × List Nat)
  | obj, [] => .ok (obj, [])
  | obj, idx :: rest =>
    match addCorner st obj idx with
    | .error e => .error e
    | .ok (obj1, id) =>
      match addCorners st obj1 rest with
      | .error e => .error e
      | .ok (obj2, ids) => .ok (obj2, id :: ids)

/-- What the tests of lines 1054-1076 say about corner `i` of the working polygon:
the corner is flat (`vd` within `1e-8` of zero), it turns against the normal
(`vd < 0`), another corner lies inside its triangle, or it is an ear. -/
inductive EarVerdict where
  | degenerate
  | reflex
  | blocked
  | ear
  deriving DecidableEq, Repr

/-- The outcomes of the floating-point tests made for one face: the flags `hp` and
`hn` of lines 1029-1037, and the verdict on corner `i` of the working polygon
`indices` under the normal computed from the polygon `nsrc`
(`verdict nsrc indices i`). The arithmetic itself is not modelled. -/
structure FaceTests where
  hp : Bool
  hn : Bool
  verdict : List Nat → List Nat → Nat → EarVerdict

/-- The three `push_back` onto `index_list`, the three onto `face_list` and the one
onto `face_sizes` of lines 1078-1084 and 1101-1107. -/
def emitTriangle (obj : ParsedObject) (a b c : Nat) : ParsedObject :=
  { obj with index_list := obj.index_list ++ [a, b, c]
             face_list := obj.face_list ++ [a, b, c]
             face_sizes := obj.face_sizes ++ [3] }

/-- The loop of line 1053 over the corners `i`: the first corner that is flat or an
ear ends the loop; a corner that turns against the normal or is blocked is passed. -/
def scanEar (verdict : Nat → EarVerdict) : List Nat → Option (Nat × Bool)
  | [] => none
  | i :: rest =>
    match verdict i with
    | .degenerate => some (i, false)
    | .ear => some (i, true)
    | .reflex => scanEar verdict rest
    | .blocked => scanEar verdict rest

/-- The loop `while (indices.size() > 3)` of lines 1051-1100, for at most `fuel`
passes: `none` when the passes run out. After a pass that removes no corner the
normal is computed anew from the working polygon. -/
def earLoop (tests : FaceTests) : Nat → List Nat → List Nat → ParsedObject →
    Option (List Nat × ParsedObject)
  | 0, _, _, _ => none
  | fuel + 1, nsrc, indices, obj =>
    if indices.length > 3 then
      match scanEar (tests.verdict nsrc indices) (List.range indices.length) with
      | some (i, true) =>
        let i0 := (if i = 0 then indices.length - 1 else i - 1) % UINT16
        let i2 := ((i + 1) % indices.length) % UINT16
        earLoop tests fuel nsrc (indices.eraseIdx i)
          (emitTriangle obj (indices.getD i0 0) (indices.getD i 0) (indices.getD i2 0))
      | some (i, false) => earLoop tests fuel nsrc (indices.eraseIdx i) obj
      | none => earLoop tests fuel indices indices obj
    else some (indices, obj)

/-- Lines 1039-1107: the branch of a face with corners on both sides. -/
def earFace (tests : FaceTests) (fuel : Nat) (obj : ParsedObject) (indices : List Nat) :
    Except Fault (Option ParsedObject) :=
  match earLoop tests fuel indices indices obj with
  | none => .ok none
  | some (a :: b :: c :: _, obj1) => .ok (some (emitTriangle obj1 a b c))
  | some (_, _) => .error .outOfRange

/-- The triangles of the loop of lines 1113-1118 for the corners after the first. -/
def fanTriangles (c0 : Nat) : List Nat → List Nat
  | a :: b :: rest => c0 :: a :: b :: fanTriangles c0 (b :: rest)
  | _ => []

/-- Lines 1109-1120: the fan from the first corner; the face record receives the
first corner, the corners `1 .. size-2` and the last corner, and the size. -/
def fanFace (obj : ParsedObject) : List Nat → Except Fault ParsedObject
  | [] => .error .outOfRange
  | c0 :: rest =>
    .ok { obj with index_list := obj.index_list ++ fanTriangles c0 rest
                   face_list := obj.face_list ++ [c0] ++ rest.dropLast ++ [rest.getLastD c0]
                   face_sizes := obj.face_sizes ++ [(c0 :: rest).length % UINT32] }

/-- Lines 991-1121, the command `f`: `none` when the ear clipping is not over within
`fuel` passes. The corners are the parsed index triples. -/
def faceCommand (tests : FaceTests) (fuel : Nat) (st : ParseState)
    (corners : List VertexIndex) : Except Fault (Option ParseState) :=
  match st.objects.getLast? with
  | none => .error .outOfRange
  | some obj =>
    match addCorners st obj corners with
    | .error e => .error e
    | .ok (obj1, indices) =>
      if indices = [] then .error .outOfRange
      else if tests.hp && tests.hn then
        match earFace tests fuel obj1 indices with
        | .error e => .error e
        | .ok none => .ok none
        | .ok (some obj2) => .ok (some { st with objects := st.objects.dropLast ++ [obj2] })
      else
        match fanFace obj1 (if tests.hn && !tests.hp then indices.reverse else indices) with
        | .error e => .error e
        | .ok obj2 => .ok (some { st with objects := st.objects.dropLast ++ [obj2] })

/-- A line of the file after it has been split into its command and arguments:
`usemtl` with the number that `mat_index` holds for the name, `v`, `vt` and `vn`
with the attribute built from the numbers, `f` with its index triples and the
outcomes of the floating-point tests made for the face; `other` stands for `g`,
`mtllib` and unknown commands, which leave the locals of `ParseState` alone. -/
inductive Command where
  | usemtl (mat : Nat)
  | v (p : Nat × Nat × Nat)
  | vt (t : Int × Int)
  | vn (n : Int × Int × Int × Int)
  | f (corners : List VertexIndex) (tests : FaceTests)
  | other

/-- The object that `objects.emplace_back()` appends. -/
def ParsedObject.new (mat : Nat) : ParsedObject :=
  { mat := mat, vertex_list := [], index_list := [], face_list := [], face_sizes := [],
    vertex_index := [] }

/-- The body of the loop of line 936 for one command (lines 978-1124). -/
def parseCommand (fuel : Nat) (st : ParseState) : Command → Except Fault (Option ParseState)
  | .usemtl mat => .ok (some { st with objects := st.objects ++ [ParsedObject.new mat] })
  | .v p => .ok (some { st with v_list := st.v_list ++ [p] })
  | .vt t => .ok (some { st with t_list := st.t_list ++ [t] })
  | .vn n => .ok (some { st with n_list := st.n_list ++ [n] })
  | .f corners tests => faceCommand tests fuel st corners
  | .other => .ok (some st)

/-- The loop of line 936 over the commands of the file. -/
def parseCommands (fuel : Nat) : ParseState → List Command → Except Fault (Option ParseState)
  | st, [] => .ok (some st)
  | st, c :: rest =>
    match parseCommand fuel st c with
    | .error e => .error e
    | .ok none => .ok none
    | .ok (some st1) => parseCommands fuel st1 rest

/-- The operations of the class `Vector`, which is declared outside `webgl.cpp`, that
lines 1018-1025 use: the zero vector, `n += cn`, `n -= cn` and the test `(cn & n) > 0`
on the dot product. `dotNegative` is the test `(cn & n) < 0`. -/
structure VectorOps (V : Type) where
  zero : V
  add : V → V → V
  sub : V → V → V
  dotPositive : V → V → Bool
  dotNegative : V → V → Bool

/-- Lines 1018-1025: the vector accumulated from the corner cross products `vn` before
it is normalised. -/
def consensusSum {V : Type} (ops : VectorOps V) (vn : List V) : V :=
  vn.foldl (fun n cn => if ops.dotPositive cn n then ops.add n cn else ops.sub n cn) ops.zero

/-! ## Vocabulary of the statements -/

/-- The triangle with its mutable counter `unused` blanked: what `TriangleSet::reduce`
and `TriangleSet::add` leave untouched. -/
def frame (t : Triangle) : Triangle := { t with unused := 0 }

/-- Well-formedness of a triangle as built by lines 101-113 from bone ids below
`MAX_BONES`: three 16-bit vertices, distinct bones. -/
def TriOK (t : Triangle) : Prop :=
  t.bones.Nodup ∧ (∀ b ∈ t.bones, b < MAX_BONES) ∧ t.verts.length = 3 ∧ ∀ v ∈ t.verts, v < UINT16

/-- Every triangle of the vector is well formed. -/
def WF (ts : List Triangle) : Prop := ∀ t ∈ ts, TriOK t

/-- The number of bones of `bs` that are not active in the bit set `B`. -/
def newBones (B : Finset Nat) (bs : List Nat) : Nat := (bs.filter fun b => decide (b ∉ B)).length

/-- The original vertex that the vertex map sends to the local id `loc`. -/
def origOf (m : List (Nat × Nat)) (loc : Nat) : Option Nat :=
  (m.find? fun e => decide (e.2 = loc)).map Prod.fst

/-- The index list of a group taken three entries at a time, each local id replaced
by the original vertex mapped to it. -/
def decode (g : Group) : List (List (Option Nat)) :=
  (chunk3 g.indices).map fun c => c.map (origOf g.vertices)

/-- The vertex triples of the triangles that are still unassigned. -/
def pending (ts : List Triangle) : List (List (Option Nat)) :=
  (ts.filter fun t => decide (t.group = none)).map fun t => t.verts.map some

/-- Every bone id of a non-zero-weight influence is below `MAX_BONES`. -/
def BonesBelow (obj : SubObject) (n : Nat) : Prop :=
  ∀ infs ∈ obj.x020_VertInfluences, ∀ inf ∈ infs, inf.x04 ≠ 0 → inf.x00 < n

instance (obj : SubObject) (n : Nat) : Decidable (BonesBelow obj n) := by
  unfold BonesBelow; infer_instance

/-- The bookkeeping of a `TriangleSet` against the triangles it points to and the
bit set `B` of the group being built: the queue holds exactly the unassigned
triangles, each under its current `unused`, which counts its bones outside `B`;
bucket `b` holds the triangles with bone `b`. -/
structure Core (ts : List Triangle) (s : TriangleSet) (B : Finset Nat) : Prop where
  llen : s.list.length = MAX_BONES
  qnodup : s.queue.Nodup
  qsound : ∀ (k : Int) (i : Nat), (k, i) ∈ s.queue → ∃ t : Triangle, ts[i]? = some t ∧ t.group = none ∧ k = toInt32 t.unused
  qcomplete : ∀ (i : Nat) (t : Triangle), ts[i]? = some t → t.group = none → (toInt32 t.unused, i) ∈ s.queue
  count : ∀ (i : Nat) (t : Triangle), ts[i]? = some t → t.group = none → t.unused = newBones B t.bones
  bsound : ∀ (b i : Nat), i ∈ s.list.getD b [] → ∃ t : Triangle, ts[i]? = some t ∧ b ∈ t.bones
  bnodup : ∀ b, (s.list.getD b []).Nodup
  bcomplete : ∀ (i : Nat) (t : Triangle) (b : Nat), ts[i]? = some t → t.group = none → b ∈ t.bones → i ∈ s.list.getD b []

/-- The bookkeeping in the middle of `TriangleSet::reduce(b)`: the triangles of
`rest` are still to be visited. -/
structure RInv (b : Nat) (B : Finset Nat) (rest : List Nat) (q : List Ref)
    (ts : List Triangle) : Prop where
  qnodup : q.Nodup
  qsound : ∀ (k : Int) (i : Nat), (k, i) ∈ q → ∃ t : Triangle, ts[i]? = some t ∧ t.group = none ∧ k = toInt32 t.unused
  qcomplete : ∀ (i : Nat) (t : Triangle), ts[i]? = some t → t.group = none → (toInt32 t.unused, i) ∈ q
  count : ∀ (i : Nat) (t : Triangle), ts[i]? = some t → t.group = none →
    t.unused = if i ∈ rest then newBones B t.bones else newBones (insert b B) t.bones

/-- Consistency of a group's vertex map and index list: the keys are distinct
16-bit vertices, the local ids are `0 .. size-1`, every index is a local id. -/
structure GroupOK (g : Group) : Prop where
  keys_lt : ∀ e ∈ g.vertices, e.1 < UINT16
  keys_nodup : (g.vertices.map Prod.fst).Nodup
  vals : (g.vertices.map Prod.snd).Perm (List.range g.vertices.length)
  idx : ∀ k ∈ g.indices, k ∈ g.vertices.map Prod.snd

/-- What holds of the inner loop of lines 125-146 at every pass and after its
end, `ts0` being the triangles at the start of the outer pass that builds group
`gid`: the cap, the vertex map, the bones of the triangles committed so far, and
the account of committed and pending triangles. -/
structure Weak (ts0 : List Triangle) (gid : Nat) (st : Build) : Prop where
  wf : WF st.triangles
  used_eq : st.used = st.group.bones.card
  used_le : st.used ≤ MAX_GROUP_BONES
  gok : GroupOK st.group
  len3 : st.group.indices.length % 3 = 0
  sub : ∀ (i : Nat) (t : Triangle), st.triangles[i]? = some t → t.group = some gid →
    ∀ b ∈ t.bones, b ∈ st.group.bones
  ledger : (decode st.group ++ pending st.triangles).Perm (pending ts0)
  shape : st.triangles.map (fun t => (t.verts, t.bones)) = ts0.map (fun t => (t.verts, t.bones))
  grp : ∀ (i : Nat) (t0 t : Triangle), ts0[i]? = some t0 → st.triangles[i]? = some t →
    t.group = t0.group ∨ (t0.group = none ∧ t.group = some gid)
  vsrc : ∀ e ∈ st.group.vertices, ∃ (i : Nat) (t : Triangle),
    st.triangles[i]? = some t ∧ t.group = some gid ∧ e.1 ∈ t.verts
  bsrc : ∀ b ∈ st.group.bones, ∃ (i : Nat) (t : Triangle),
    st.triangles[i]? = some t ∧ t.group = some gid ∧ b ∈ t.bones

/-- The bookkeeping while lines 116-120 fill a fresh `TriangleSet`: the triangles
of `rest` are still to be visited. -/
structure Building (rest : List Nat) (ts : List Triangle) (s : TriangleSet) : Prop where
  llen : s.list.length = MAX_BONES
  qnodup : s.queue.Nodup
  qsound : ∀ (k : Int) (i : Nat), (k, i) ∈ s.queue →
    i ∉ rest ∧ ∃ t : Triangle, ts[i]? = some t ∧ t.group = none ∧ k = toInt32 t.unused
  qcomplete : ∀ (i : Nat) (t : Triangle), ts[i]? = some t → t.group = none → i ∉ rest →
    (toInt32 t.unused, i) ∈ s.queue
  count : ∀ (i : Nat) (t : Triangle), ts[i]? = some t → t.group = none → i ∉ rest →
    t.unused = t.bones.length
  bsound : ∀ (b i : Nat), i ∈ s.list.getD b [] →
    i ∉ rest ∧ ∃ t : Triangle, ts[i]? = some t ∧ b ∈ t.bones
  bnodup : ∀ b, (s.list.getD b []).Nodup
  bcomplete : ∀ (i : Nat) (t : Triangle) (b : Nat), ts[i]? = some t → t.group = none →
    b ∈ t.bones → i ∉ rest → i ∈ s.list.getD b []

/-- What holds of the constructor's local state between two passes of the outer
loop, `ts0` being the triangles as built by lines 101-113. -/
structure Outer (ts0 : List Triangle) (p : Partition) : Prop where
  wf : WF p.triangles
  shape : p.triangles.map (fun t => (t.verts, t.bones)) = ts0.map (fun t => (t.verts, t.bones))
  ledger : (p.groups.flatMap decode ++ pending p.triangles).Perm
    (ts0.map fun t => t.verts.map some)
  cap : ∀ g ∈ p.groups, g.bones.card ≤ MAX_GROUP_BONES
  gok : ∀ g ∈ p.groups, GroupOK g ∧ g.indices.length % 3 = 0
  sub : ∀ (i : Nat) (t : Triangle) (j : Nat), p.triangles[i]? = some t → t.group = some j →
    ∃ g : Group, p.groups[j]? = some g ∧ ∀ b ∈ t.bones, b ∈ g.bones
  vsrc : ∀ (j : Nat) (g : Group), p.groups[j]? = some g → ∀ e ∈ g.vertices,
    ∃ (i : Nat) (t : Triangle), p.triangles[i]? = some t ∧ t.group = some j ∧ e.1 ∈ t.verts
  bsrc : ∀ (j : Nat) (g : Group), p.groups[j]? = some g → ∀ b ∈ g.bones,
    ∃ (i : Nat) (t : Triangle), p.triangles[i]? = some t ∧ t.group = some j ∧ b ∈ t.bones

/-- The texture id of the last entry that carries the tag code `tag`, `none` when no
entry carries it. -/
def lastTagged (tag : Int) : List MaterialTextureEntry → Option Int
  | [] => none
  | e :: rest =>
    match lastTagged tag rest with
    | some id => some id
    | none => if e.x00 = tag then some e.x00_TexturesSno else none

/-- The reference written for a texture slot: 0 when the slot has no texture or the
texture id is the absent value -1, the id as a `uint32` otherwise. -/
def texRef : Option Int → Nat
  | none => 0
  | some id => if id = -1 then 0 else toUInt32 id

/-- The key writes of the curve of bone `i` in a curve table: one per key, in the
order of the keys, each the pair of the key's frame and value. -/
def keysOf (kind : CurveKind) (i : Nat) (curves : List (List AnimKey)) : List KeyWrite :=
  (curves.getD i []).map fun key => { kind := kind, bone := i, time := key.x00, value := key.x04 }

/-- The table of keys after one more use: a key enters the table when it is not in it
yet (the specification's "assign on first sight"). The keys are the index triples of
`parseObj` and the original vertices of a group of the partitioner. -/
def noteCorner {α : Type} [DecidableEq α] (acc : List α) (x : α) : List α :=
  if x ∈ acc then acc else acc ++ [x]

/-- The distinct keys of a sequence, in order of first appearance. -/
def firstSeen {α : Type} [DecidableEq α] (l : List α) : List α :=
  l.foldl noteCorner []

/-- The corners of the faces of a run of commands, in file order. -/
def cornersOf : List Command → List VertexIndex
  | [] => []
  | .f corners _ :: rest => corners ++ cornersOf rest
  | _ :: rest => cornersOf rest

/-- Whether a command is `usemtl`, which starts a new object. -/
def Command.startsObject : Command → Bool
  | .usemtl _ => true
  | _ => false

/-- The position of the first occurrence of a key in a list of keys (the length of the
list when it does not occur). -/
def idOf {α : Type} [DecidableEq α] (c : α) : List α → Nat
  | [] => 0
  | x :: T => if x = c then 0 else idOf c T + 1

/-- The vertex table of an object holds exactly the distinct triples of the corner
sequence `seen`: the map sends them to 0, 1, 2, ... in order of first appearance, and
`vertex_list` holds, in the same order, the attributes the triples refer to. -/
def TableOk (st : ParseState) (obj : ParsedObject) (seen : List VertexIndex) : Prop :=
  obj.vertex_index = ((firstSeen seen).enum.map fun p => (p.2, p.1)) ∧
    List.Forall₂ (fun c v => cornerVertex st c = some v) (firstSeen seen) obj.vertex_list

/-- The account of a group's vertex map and index list against the sequence `used` of
the original vertices of its committed triangles, in the order of the commits: the map
holds exactly the vertices used, each with its position among the distinct vertices in
order of first use, and the index list holds these positions in the order of use. -/
structure VertsOK (g : Group) (used : List Nat) : Prop where
  map : ∀ e : Nat × Nat, e ∈ g.vertices ↔ e.1 ∈ used ∧ e.2 = idOf e.1 (firstSeen used)
  size : g.vertices.length = (firstSeen used).length
  idx : g.indices = used.map fun v => idOf v (firstSeen used)

/-- The vertex triples of the triangles that carry the group id `gid`. -/
def committed (gid : Nat) (ts : List Triangle) : List (List Nat) :=
  (ts.filter fun t => decide (t.group = some gid)).map fun t => t.verts

/-- The account of a group against the triangles committed to it: `used` is the
sequence of their vertices, three per triangle. -/
structure Hist (gid : Nat) (ts : List Triangle) (g : Group) (used : List Nat) : Prop where
  vok : VertsOK g used
  len3 : used.length % 3 = 0
  tri : (chunk3 used).Perm (committed gid ts)

/-- The consensus vector in the words of the specification: a corner normal is flipped
before it is added exactly when its dot product with the running sum is negative. -/
def consensusAsStated {V : Type} (ops : VectorOps V) (vn : List V) : V :=
  vn.foldl (fun n cn => if ops.dotNegative cn n then ops.sub n cn else ops.add n cn) ops.zero

/-- The number of corners that the loop of lines 1051-1100 removes as flat, without a
triangle, in at most `fuel` passes. -/
def flatRemovals (tests : FaceTests) : Nat → List Nat → List Nat → Nat
  | 0, _, _ => 0
  | fuel + 1, nsrc, indices =>
    if indices.length > 3 then
      match scanEar (tests.verdict nsrc indices) (List.range indices.length) with
      | some (i, true) => flatRemovals tests fuel nsrc (indices.eraseIdx i)
      | some (i, false) => flatRemovals tests fuel nsrc (indices.eraseIdx i) + 1
      | none => flatRemovals tests fuel indices indices
    else 0

/-- The numbers of corners of the faces of a run of commands, in file order. -/
def faceLengths : List Command → List Nat
  | [] => []
  | .f corners _ :: rest => corners.length :: faceLengths rest
  | _ :: rest => faceLengths rest

/-- The lists of an object agree with one another: `index_list` holds whole triangles,
every entry of `index_list` and of `face_list` is the id of a vertex of `vertex_list`,
and `face_sizes` adds up to the length of `face_list`. -/
structure ListsOK (obj : ParsedObject) : Prop where
  triples : obj.index_list.length % 3 = 0
  index_valid : ∀ x ∈ obj.index_list, x < obj.vertex_list.length
  face_valid : ∀ x ∈ obj.face_list, x < obj.vertex_list.length
  sizes : obj.face_sizes.sum = obj.face_list.length

/-- Every id that the map `vertex_index` holds is the id of a vertex of `vertex_list`. -/
def MapOK (obj : ParsedObject) : Prop :=
  ∀ e ∈ obj.vertex_index, e.2 < obj.vertex_list.length

/-- The difference of two vectors with whole-number components. -/
def subInt (a b : Int × Int × Int) : Int × Int × Int := (a.1 - b.1, a.2.1 - b.2.1, a.2.2 - b.2.2)

/-- The sum of two vectors with whole-number components. -/
def addInt (a b : Int × Int × Int) : Int × Int × Int := (a.1 + b.1, a.2.1 + b.2.1, a.2.2 + b.2.2)

/-- The cross product of two vectors with whole-number components. -/
def crossInt (a b : Int × Int × Int) : Int × Int × Int :=
  (a.2.1 * b.2.2 - a.2.2 * b.2.1, a.2.2 * b.1 - a.1 * b.2.2, a.1 * b.2.1 - a.2.1 * b.1)

/-- The dot product of two vectors with whole-number components. -/
def dotInt (a b : Int × Int × Int) : Int := a.1 * b.1 + a.2.1 * b.2.1 + a.2.2 * b.2.2

/-- The normal `(b - a) × (c - a)` of the triangle with the vertex ids `a`, `b`, `c` over
positions with whole-number coordinates: its direction tells the winding of the triangle. -/
def triangleNormal (pos : List (Int × Int × Int)) : List Nat → Int × Int × Int
  | [a, b, c] =>
    crossInt (subInt (pos.getD b (0, 0, 0)) (pos.getD a (0, 0, 0)))
      (subInt (pos.getD c (0, 0, 0)) (pos.getD a (0, 0, 0)))
  | _ => (0, 0, 0)

/-- The sum of lines 1044-1049 and 1091-1096 before it is normalised, over positions with
whole-number coordinates: the normals of the triangles of the fan from the corner `c0`. -/
def fanNormalFrom (pos : List (Int × Int × Int)) (c0 : Nat) : List Nat → Int × Int × Int
  | a :: b :: rest => addInt (triangleNormal pos [c0, a, b]) (fanNormalFrom pos c0 (b :: rest))
  | _ => (0, 0, 0)

/-- The consensus of lines 1043-1049 for the polygon `indices`, before it is normalised. -/
def fanNormal (pos : List (Int × Int × Int)) : List Nat → Int × Int × Int
  | [] => (0, 0, 0)
  | c0 :: rest => fanNormalFrom pos c0 rest

/-! ## Sample inputs -/

/-- A vertex with all attributes zero. -/
def zeroVertex : FatVertex := { x00_Position := (0, 0, 0), x0C_Normal := (0, 0, 0), x18_TexCoords := (0, 0) }

/-- The influences of a vertex bound to the single bone `b`. -/
def boundTo (b : Nat) : List Influence := [⟨b, 1⟩, ⟨0, 0⟩, ⟨0, 0⟩]

/-- A skinned sub-object: four vertices bound to the bones 0, 1, 2, 3 and the
triangles (0, 1, 2) and (2, 1, 3). -/
def sampleSkinned : SubObject :=
  { x010_FatVertexs := [zeroVertex, zeroVertex, zeroVertex, zeroVertex]
    x020_VertInfluences := [boundTo 0, boundTo 1, boundTo 2, boundTo 3]
    x038_short := [0, 1, 2, 2, 1, 3]
    x05C_Text := "" }

/-- An unskinned sub-object: three vertices, one triangle, no influence data. -/
def sampleRigid : SubObject :=
  { x010_FatVertexs := [zeroVertex, zeroVertex, zeroVertex]
    x020_VertInfluences := []
    x038_short := [0, 1, 2]
    x05C_Text := "" }

/-- A choice of record sizes. -/
def sampleSizes : Sizes :=
  { header := 44, bone := 100, hardpoint := 80, object := 12, material := 16, capsuleInfo := 28,
    constraint := 76, objectGroup := 24, boneIndex := 1, vertex := 40 }

/-- An appearance with four bones (one with a capsule, one with a constraint, one
with both, one with neither), one hardpoint, the two sample sub-objects, and one
material with one sub-object appearance for its one look. -/
def sampleAppearance : Appearance :=
  { x010_BoneStructures := [⟨[[1]], []⟩, ⟨[], [[2]]⟩, ⟨[[1]], [[2]]⟩, ⟨[], []⟩]
    x0F0_Hardpoints := [0]
    x10_SubObjects := [sampleSkinned, sampleRigid]
    x1B0_AppearanceMaterials := [⟨"m", [⟨[0], [⟨1, 7⟩, ⟨5, -1⟩]⟩]⟩]
    x1C0_AppearanceLooks := ["a"] }

/-- An appearance with one look whose one material has no sub-object appearance,
and one bone with a capsule. -/
def sampleBareMaterial : Appearance :=
  { x010_BoneStructures := [⟨[[1]], []⟩]
    x0F0_Hardpoints := []
    x10_SubObjects := []
    x1B0_AppearanceMaterials := [⟨"m", []⟩]
    x1C0_AppearanceLooks := ["a"] }

/-- An appearance with a skeleton of one bone and a sub-object whose three vertices
are bound to bone 1. -/
def sampleOrphanBone : Appearance :=
  { x010_BoneStructures := [⟨[], []⟩]
    x0F0_Hardpoints := []
    x10_SubObjects :=
      [{ x010_FatVertexs := [zeroVertex, zeroVertex, zeroVertex]
         x020_VertInfluences := [boundTo 1, boundTo 1, boundTo 1]
         x038_short := [0, 1, 2]
         x05C_Text := "" }]
    x1B0_AppearanceMaterials := []
    x1C0_AppearanceLooks := [] }

/-- Two materials, the first with a texture of five bytes. -/
def sampleMaterials : List ObjMaterial := [⟨[1, 2, 3, 4, 5]⟩, ⟨[]⟩]

/-- A vertex with all attributes zero. -/
def zeroObjVertex : ObjVertex := { v := (0, 0, 0), n := (0, 0, 0, 0), t := (0, 0) }

/-- Two objects: a triangle, and a quadrilateral cut into two triangles. -/
def sampleObjects : List Object :=
  [{ mat := 0, vertex_list := [zeroObjVertex, zeroObjVertex, zeroObjVertex]
     index_list := [0, 1, 2], face_list := [0, 1, 2], face_sizes := [3] },
   { mat := 1, vertex_list := [zeroObjVertex, zeroObjVertex, zeroObjVertex, zeroObjVertex]
     index_list := [0, 1, 2, 0, 2, 3], face_list := [0, 1, 2, 3], face_sizes := [4] }]

/-- A triangle with the bones 0 and 1, not yet assigned nor queued. -/
def sampleTriangle : Triangle := { verts := [0, 1, 2], bones := [0, 1], group := none, unused := 0 }

/-- A choice of sizes: a key record is the frame and the value. -/
def sampleAnimSizes : AnimSizes :=
  { header := 16, curve := 88, translationKey := 16, rotationKey := 20, scaleKey := 8,
    frame := 4, vector := 12, quaternion := 16, scale := 4 }

/-- An animation of two bones, each with one translation key and one rotation key;
the second bone also has a scale key. -/
def sampleAnim : Anim :=
  { x28_AnimPermutations :=
      [{ x090 := 2
         x088_BoneNames := ["a", "b"]
         x0A0_TranslationCurves := [[⟨0, [1, 2, 3]⟩], [⟨1, [4, 5, 6]⟩]]
         x0B0_RotationCurves := [[⟨0, [0, 0, 0, 1]⟩], [⟨1, [0, 0, 1, 0]⟩]]
         x0C0_ScaleCurves := [[], [⟨0, [1]⟩]] }] }

/-- The state of `parseObj` before the first line: no positions, normals, texture
coordinates or objects; the default attributes are taken to be zero. -/
def emptyParse : ParseState :=
  { v_list := [], t_list := [], n_list := [], t0 := (0, 0), n0 := (0, 0, 0, 0), objects := [] }

/-- Four positions, the corners (0,0,0), (4,0,0), (1,1,0) and (0,4,0) of a quadrilateral
with a reflex corner, as the bit patterns of 0.0f, 1.0f and 4.0f, the normal (0,0,1)
as (0, 0, 127, 0), and one fresh object. -/
def sampleParse : ParseState :=
  { emptyParse with
    v_list := [(0, 0, 0), (1082130432, 0, 0), (1065353216, 1065353216, 0), (0, 1082130432, 0)]
    n_list := [(0, 0, 127, 0)]
    objects := [ParsedObject.new 0] }

/-- The face `f 1//1 2//1 3//1 4//1`: no texture coordinate, the normal (0,0,1). -/
def dartCorners : List VertexIndex := [(1, 0, 1), (2, 0, 1), (3, 0, 1), (4, 0, 1)]

/-- The outcomes of the tests of lines 1009-1076 on the quadrilateral of `sampleParse`:
the corner cross products 16, 4, -8 and 4 (times the normal) have both signs, corner 0
has corner 2 inside its ear triangle, corner 1 is an ear, corner 2 is reflex and corner 3 is an ear. -/
def dartTests : FaceTests :=
  { hp := true
    hn := true
    verdict := fun _ working i =>
      if working = [0, 1, 2, 3] then
        (if i = 0 then .blocked else if i = 2 then .reflex else .ear)
      else .reflex }

/-- The outcomes of the tests on a face whose corner cross products all agree with the
normal of the face. -/
def fanTests : FaceTests := { hp := true, hn := false, verdict := fun _ _ _ => .reflex }

/-- The lines of a small file: four positions, a normal and the face `f 1//1 2//1 3//1`. -/
def sampleCommands : List Command :=
  [.v (0, 0, 0), .v (1082130432, 0, 0), .v (1065353216, 1065353216, 0), .v (0, 1082130432, 0),
   .vn (0, 0, 127, 0), .other, .f [(1, 0, 1), (2, 0, 1), (3, 0, 1)] fanTests]

/-- The three influences of vertex `v` of `sampleWide`: the bones `3v`, `3v+1`, `3v+2`. -/
def threeBones (v : Nat) : List Influence := [⟨3 * v, 1⟩, ⟨3 * v + 1, 1⟩, ⟨3 * v + 2, 1⟩]

/-- A skinned sub-object of three triangles with nine bones each, no bone shared: two
triangles fill a group up to 18 bones and the third does not fit. -/
def sampleWide : SubObject :=
  { x010_FatVertexs := List.replicate 9 zeroVertex
    x020_VertInfluences := (List.range 9).map threeBones
    x038_short := [0, 1, 2, 3, 4, 5, 6, 7, 8]
    x05C_Text := "" }

/-- Vectors with integer components and exact arithmetic: what the `float` operations
compute on small whole numbers. -/
def intOps : VectorOps (Int × Int × Int) :=
  { zero := (0, 0, 0)
    add := fun a b => (a.1 + b.1, a.2.1 + b.2.1, a.2.2 + b.2.2)
    sub := fun a b => (a.1 - b.1, a.2.1 - b.2.1, a.2.2 - b.2.2)
    dotPositive := fun a b => decide (0 < a.1 * b.1 + a.2.1 * b.2.1 + a.2.2 * b.2.2)
    dotNegative := fun a b => decide (a.1 * b.1 + a.2.1 * b.2.1 + a.2.2 * b.2.2 < 0) }

/-- The corner cross products of the quadrilateral of `sampleParse`. -/
def dartNormals : List (Int × Int × Int) := [(0, 0, 16), (0, 0, 4), (0, 0, -8), (0, 0, 4)]

/-- Five positions, the corners (2,0,0), (4,0,0), (4,4,0), (2,1,0) and (0,0,0) of a
pentagon whose first corner lies on the line through its neighbours and whose fourth
corner is reflex, the normal (0,0,1), and one fresh object. -/
def samplePentagon : ParseState :=
  { emptyParse with
    v_list := [(1073741824, 0, 0), (1082130432, 0, 0), (1082130432, 1082130432, 0),
      (1073741824, 1065353216, 0), (0, 0, 0)]
    n_list := [(0, 0, 127, 0)]
    objects := [ParsedObject.new 0] }

/-- The face `f 1//1 2//1 3//1 4//1 5//1`. -/
def pentagonCorners : List VertexIndex :=
  [(1, 0, 1), (2, 0, 1), (3, 0, 1), (4, 0, 1), (5, 0, 1)]

/-- The outcomes of the tests on the pentagon of `samplePentagon`: the corner cross
products are 0, 8, 8, -4 and 2 (times the normal); corner 0 is flat; once it is removed,
corner 1 has corner 3 inside its triangle, corner 2 is an ear, corner 3 is reflex and
corner 4 is an ear. -/
def pentagonTests : FaceTests :=
  { hp := true
    hn := true
    verdict := fun _ working i =>
      if working = [0, 1, 2, 3, 4] then
        (if i = 0 then .degenerate else if i = 3 then .reflex else .ear)
      else if working = [1, 2, 3, 4] then
        (if i = 0 then .blocked else if i = 2 then .reflex else .ear)
      else .reflex }

/-- Six positions, the corners (6,0,0), (3,8,0), (3,2,0), (7,1,0), (5,1,0) and (5,4,0)
of a hexagon that crosses itself, the normal (0,0,1), and one fresh object. -/
def sampleHexagon : ParseState :=
  { emptyParse with
    v_list := [(1086324736, 0, 0), (1077936128, 1090519040, 0), (1077936128, 1073741824, 0),
      (1088421888, 1065353216, 0), (1084227584, 1065353216, 0), (1084227584, 1082130432, 0)]
    n_list := [(0, 0, 127, 0)]
    objects := [ParsedObject.new 0] }

/-- The face `f 1//1 2//1 3//1 4//1 5//1 6//1`. -/
def hexagonCorners : List VertexIndex :=
  [(1, 0, 1), (2, 0, 1), (3, 0, 1), (4, 0, 1), (5, 0, 1), (6, 0, 1)]

/-- The outcomes of the tests on the hexagon of `sampleHexagon`: the corner cross
products are -4, 18, 24, -2, -6 and -3 (times the normal, which the fan sum 12 also
gives); corners 1 and 2 each have another corner inside their triangle, the other
corners are reflex. -/
def hexagonTests : FaceTests :=
  { hp := true
    hn := true
    verdict := fun _ working i =>
      if working = [0, 1, 2, 3, 4, 5] then
        (if i = 1 ∨ i = 2 then .blocked else .reflex)
      else .reflex }

/-- A skinned sub-object whose three vertices are bound to bone 1: the second and the
third influence slot of every vertex have weight 0 and name bone 0. -/
def sampleIdle : SubObject :=
  { x010_FatVertexs := [zeroVertex, zeroVertex, zeroVertex]
    x020_VertInfluences := [boundTo 1, boundTo 1, boundTo 1]
    x038_short := [0, 1, 2]
    x05C_Text := "" }

/-- An appearance with a skeleton of two bones and the sub-object `sampleIdle`. -/
def sampleIdleSlot : Appearance :=
  { x010_BoneStructures := [⟨[], []⟩, ⟨[], []⟩]
    x0F0_Hardpoints := []
    x10_SubObjects := [sampleIdle]
    x1B0_AppearanceMaterials := []
    x1C0_AppearanceLooks := [] }

/-- An appearance with one look and one material whose one sub-object appearance has an
empty tag array. -/
def sampleNoTags : Appearance :=
  { x010_BoneStructures := []
    x0F0_Hardpoints := []
    x10_SubObjects := []
    x1B0_AppearanceMaterials := [⟨"m", [⟨[], [⟨1, 7⟩]⟩]⟩]
    x1C0_AppearanceLooks := ["a"] }

/-- The lines of a small file: `usemtl`, the positions (0,0,0), (4,0,0), (1,1,0), (0,4,0)
and (4,4,0), the normal (0,0,1), the quadrilateral `f 1//1 2//1 3//1 4//1` with a reflex
corner, which is cut by ear clipping, and the square `f 1//1 2//1 5//1 4//1`, which is
cut as a fan. -/
def sampleFaces : List Command :=
  [.usemtl 0, .v (0, 0, 0), .v (1082130432, 0, 0), .v (1065353216, 1065353216, 0),
   .v (0, 1082130432, 0), .v (1082130432, 1082130432, 0), .vn (0, 0, 127, 0),
   .f dartCorners dartTests, .f [(1, 0, 1), (2, 0, 1), (5, 0, 1), (4, 0, 1)] fanTests]

/-- Four positions, the corners (0,0,0), (5000,0,0), (5000,5000,0) and (0,5000,0) of the
file scaled by `1e-6f` (the bit pattern of `5000.0f * 1e-6f` is 1000593162), the normal
(0,0,-1) as (0, 0, -127, 0), and one fresh object. -/
def sampleSmallSquare : ParseState :=
  { emptyParse with
    v_list := [(0, 0, 0), (1000593162, 0, 0), (1000593162, 1000593162, 0), (0, 1000593162, 0)]
    n_list := [(0, 0, -127, 0)]
    objects := [ParsedObject.new 0] }

/-- The positions of `sampleSmallSquare` as the file gives them, before the scaling by the
positive factor `1e-6f`: a square that runs counter-clockwise about the z axis. -/
def smallSquareFile : List (Int × Int × Int) :=
  [(0, 0, 0), (5000, 0, 0), (5000, 5000, 0), (0, 5000, 0)]

/-- The outcomes of the tests of lines 1029-1037 on the square of `sampleSmallSquare`
with the normal (0,0,-1): every corner cross product is (0, 0, 2.5e-5), every dot product
with the normal is -2.5e-5, which is neither above `1e-4` nor below `-1e-4`. -/
def smallSquareTests : FaceTests := { hp := false, hn := false, verdict := fun _ _ _ => .reflex }

/-- Four positions, the corners (0,0,0), (4,0,0), (0,4,0) and (6,6,0) of a quadrilateral
whose sides (4,0)-(0,4) and (6,6)-(0,0) cross, as the bit patterns of 0.0f, 4.0f and
6.0f, the normal (0,0,1), and one fresh object. -/
def sampleBowtie : ParseState :=
  { emptyParse with
    v_list := [(0, 0, 0), (1082130432, 0, 0), (0, 1082130432, 0), (1086324736, 1086324736, 0)]
    n_list := [(0, 0, 127, 0)]
    objects := [ParsedObject.new 0] }

/-- The positions of `sampleBowtie` as whole numbers. -/
def bowtieFile : List (Int × Int × Int) := [(0, 0, 0), (4, 0, 0), (0, 4, 0), (6, 6, 0)]

/-- The outcomes of the tests on the quadrilateral of `sampleBowtie`: the corner cross
products are 24, 16, -32 and -24 (times the normal (0,0,1)), so both flags are set; the
fan sum is 16 - 24 = -8, so the normal of the ear tests is (0,0,-1); against it the
corners 0 and 1 turn the wrong way (-24, -16), and the corners 2 and 3 are ears (32 and
24, the one other corner not inside: the tests give -24, -24, 16 for corner 2). -/
def bowtieTests : FaceTests :=
  { hp := true
    hn := true
    verdict := fun _ working i =>
      if working = [0, 1, 2, 3] then (if i = 2 ∨ i = 3 then .ear else .reflex) else .reflex }

/-! # Theorems -/

/-! ## Elementary facts -/

theorem mem_unique (x : Nat) : ∀ l : List Nat, x ∈ unique l ↔ x ∈ l
  | [] => by simp [unique]
  | [a] => by simp [unique]
  | a :: b :: t => by
    have ih := mem_unique x (b :: t)
    unfold unique
    split
    · rename_i h
      subst h
      rw [ih]
      simp
    · simp only [List.mem_cons] at ih ⊢
      rw [ih]

theorem unique_sorted : ∀ l : List Nat, l.Sorted (· ≤ ·) → (unique l).Sorted (· < ·)
  | [] => by simp [unique]
  | [a] => by simp [unique]
  | a :: b :: t => by
    intro h
    have hs : (b :: t).Sorted (· ≤ ·) := h.of_cons
    have ih := unique_sorted (b :: t) hs
    unfold unique
    split
    · exact ih
    · rename_i hab
      refine List.sorted_cons.2 ⟨?_, ih⟩
      intro y hy
      rw [mem_unique] at hy
      have h1 : a ≤ b := List.rel_of_sorted_cons h b (List.mem_cons_self _ _)
      have h2 : b ≤ y := by
        rcases List.mem_cons.1 hy with rfl | hy
        · exact le_refl _
        · exact List.rel_of_sorted_cons hs y hy
      omega

theorem length_le_of_nodup_lt {l : List Nat} {n : Nat} (hn : l.Nodup) (h : ∀ x ∈ l, x < n) :
    l.length ≤ n := by
  have hc := Finset.card_le_card (s := l.toFinset) (t := Finset.range n)
    (by intro x hx; simp only [List.mem_toFinset] at hx; simp only [Finset.mem_range]; exact h x hx)
  rwa [List.toFinset_card_of_nodup hn, Finset.card_range] at hc

theorem chunk3_length_elem {α : Type} : ∀ (l : List α) (c : List α), c ∈ chunk3 l → c.length = 3
  | [], c, h => by simp [chunk3] at h
  | [_], c, h => by simp [chunk3] at h
  | [_, _], c, h => by simp [chunk3] at h
  | a :: b :: d :: rest, c, h => by
    simp only [chunk3, List.mem_cons] at h
    rcases h with rfl | h
    · rfl
    · exact chunk3_length_elem rest c h

theorem mem_of_mem_chunk3 {α : Type} : ∀ (l : List α) (c : List α) (x : α),
    c ∈ chunk3 l → x ∈ c → x ∈ l
  | [], c, x, h, _ => by simp [chunk3] at h
  | [_], c, x, h, _ => by simp [chunk3] at h
  | [_, _], c, x, h, _ => by simp [chunk3] at h
  | a :: b :: d :: rest, c, x, h, hx => by
    simp only [chunk3, List.mem_cons] at h
    rcases h with rfl | h
    · simp only [List.mem_cons, List.mem_singleton, List.not_mem_nil, or_false] at hx
      rcases hx with rfl | rfl | rfl <;> simp
    · have := mem_of_mem_chunk3 rest c x h hx
      simp [this]

theorem length_chunk3 {α : Type} : ∀ l : List α, (chunk3 l).length = l.length / 3
  | [] => by simp [chunk3]
  | [_] => by simp [chunk3]
  | [_, _] => by simp [chunk3]
  | a :: b :: d :: rest => by
    simp only [chunk3, List.length_cons, length_chunk3 rest]
    omega

theorem chunk3_append3 {α : Type} (a b c : α) : ∀ l : List α, l.length % 3 = 0 →
    chunk3 (l ++ [a, b, c]) = chunk3 l ++ [[a, b, c]]
  | [], _ => by simp [chunk3]
  | [_], h => by simp at h
  | [_, _], h => by simp at h
  | x :: y :: z :: rest, h => by
    have h1 : rest.length % 3 = 0 := by
      simp only [List.length_cons] at h
      omega
    have ih := chunk3_append3 a b c rest h1
    show chunk3 (x :: y :: z :: (rest ++ [a, b, c])) = chunk3 (x :: y :: z :: rest) ++ [[a, b, c]]
    simp only [chunk3, ih, List.cons_append]

theorem chunk3_map {α β : Type} (f : α → β) : ∀ l : List α,
    chunk3 (l.map f) = (chunk3 l).map (List.map f)
  | [] => by simp [chunk3]
  | [_] => by simp [chunk3]
  | [_, _] => by simp [chunk3]
  | a :: b :: d :: rest => by
    simp only [List.map_cons, chunk3, chunk3_map f rest, List.map_nil]

/-! ## Triangles as built -/

theorem mem_rawBones {infl : List (List Influence)} {verts : List Nat} {b : Nat}
    (h : b ∈ rawBones infl verts) :
    ∃ infs ∈ infl, ∃ inf ∈ infs, inf.x04 ≠ 0 ∧ inf.x00 = b := by
  simp only [rawBones, List.mem_flatMap, List.mem_map, List.mem_filter, decide_eq_true_eq] at h
  obtain ⟨v, _, inf, ⟨hinf, hw⟩, rfl⟩ := h
  rw [List.getD_eq_getElem?_getD] at hinf
  cases hv : infl[v]? with
  | none => simp [hv] at hinf
  | some infs =>
    simp only [hv, Option.getD_some] at hinf
    exact ⟨infs, List.getElem?_mem hv, inf, hinf, hw, rfl⟩

theorem mkTriangle_ok (infl : List (List Influence)) (verts : List Nat)
    (hlen : verts.length = 3) (hv : ∀ v ∈ verts, v < UINT16)
    (hb : ∀ infs ∈ infl, ∀ inf ∈ infs, inf.x04 ≠ 0 → inf.x00 < MAX_BONES) :
    TriOK (mkTriangle infl verts) := by
  refine ⟨?_, ?_, hlen, hv⟩
  · exact (unique_sorted _ (List.sorted_insertionSort _ _)).nodup
  · intro b hb1
    simp only [mkTriangle, mem_unique, List.mem_insertionSort] at hb1
    obtain ⟨infs, h1, inf, h2, h3, rfl⟩ := mem_rawBones hb1
    exact hb infs h1 inf h2 h3

theorem buildTriangles_WF (obj : SubObject) (h : BonesBelow obj MAX_BONES) :
    WF (buildTriangles obj) := by
  intro t ht
  simp only [buildTriangles, List.mem_map] at ht
  obtain ⟨c, hc, rfl⟩ := ht
  refine mkTriangle_ok _ _ (chunk3_length_elem _ _ hc) ?_ h
  intro v hv
  have := mem_of_mem_chunk3 _ _ _ hc hv
  simp only [List.mem_map] at this
  obtain ⟨w, _, rfl⟩ := this
  exact w.isLt

theorem buildTriangles_group (obj : SubObject) : ∀ t ∈ buildTriangles obj, t.group = none := by
  intro t ht
  simp only [buildTriangles, List.mem_map] at ht
  obtain ⟨c, _, rfl⟩ := ht
  rfl

theorem buildTriangles_verts (obj : SubObject) :
    (buildTriangles obj).map (fun t => t.verts) = chunk3 (obj.x038_short.map Fin.val) := by
  simp only [buildTriangles, List.map_map]
  conv_rhs => rw [← List.map_id (chunk3 _)]
  apply List.map_congr_left
  intro c _
  rfl

/-! ## Frames -/

theorem frame_eq_iff (t t1 : Triangle) :
    frame t = frame t1 ↔ t.verts = t1.verts ∧ t.bones = t1.bones ∧ t.group = t1.group := by
  cases t; cases t1
  simp [frame]

theorem frames_getElem? {ts ts1 : List Triangle} (h : ts1.map frame = ts.map frame) {i : Nat}
    {t1 : Triangle} (h1 : ts1[i]? = some t1) : ∃ t : Triangle, ts[i]? = some t ∧ frame t = frame t1 := by
  have h2 : (ts1.map frame)[i]? = (ts.map frame)[i]? := by rw [h]
  simp only [List.getElem?_map, h1, Option.map_some'] at h2
  cases ht : ts[i]? with
  | none => simp [ht] at h2
  | some t =>
    simp only [ht, Option.map_some', Option.some.injEq] at h2
    exact ⟨t, rfl, h2.symm⟩

theorem getElem?_set_some {l : List Triangle} {i j : Nat} {t x : Triangle}
    (h : (l.set i t)[j]? = some x) : (j = i ∧ x = t) ∨ (j ≠ i ∧ l[j]? = some x) := by
  rw [List.getElem?_set] at h
  by_cases hij : i = j
  · subst hij
    simp only [if_true] at h
    split at h
    · left
      exact ⟨rfl, (Option.some.inj h).symm⟩
    · exact absurd h (by simp)
  · simp only [hij, if_false] at h
    right
    exact ⟨fun e => hij e.symm, h⟩

theorem getElem?_set_self_of_some {l : List Triangle} {i : Nat} {t x : Triangle}
    (h : l[i]? = some x) : (l.set i t)[i]? = some t := by
  have hlt : i < l.length := by
    rcases List.getElem?_eq_some.1 h with ⟨hlt, _⟩
    exact hlt
  exact List.getElem?_set_self hlt

theorem map_set_of_eq {β : Type} (f : Triangle → β) {ts : List Triangle} {i : Nat}
    {t t1 : Triangle} (h : ts[i]? = some t) (hf : f t1 = f t) :
    (ts.set i t1).map f = ts.map f := by
  apply List.ext_getElem?
  intro n
  simp only [List.getElem?_map, List.getElem?_set]
  by_cases hn : i = n
  · subst hn
    have hlt : i < ts.length := (List.getElem?_eq_some.1 h).1
    simp [hlt, h, hf]
  · simp [hn]

theorem map_frame_set {ts : List Triangle} {i : Nat} {t t1 : Triangle}
    (h : ts[i]? = some t) (hf : frame t1 = frame t) : (ts.set i t1).map frame = ts.map frame :=
  map_set_of_eq frame h hf

theorem shape_of_frames {ts ts1 : List Triangle} (h : ts1.map frame = ts.map frame) :
    ts1.map (fun t => (t.verts, t.bones)) = ts.map (fun t => (t.verts, t.bones)) := by
  have key : ∀ l : List Triangle, l.map (fun t => (t.verts, t.bones)) =
      (l.map frame).map (fun t => (t.verts, t.bones)) := by
    intro l
    simp only [List.map_map]
    rfl
  rw [key, key ts, h]

theorem WF_of_frames {ts ts1 : List Triangle} (h : ts1.map frame = ts.map frame) (hwf : WF ts) :
    WF ts1 := by
  intro t1 ht1
  obtain ⟨i, hi⟩ := List.mem_iff_getElem?.1 ht1
  obtain ⟨t, ht, hf⟩ := frames_getElem? h hi
  have hok := hwf t (List.getElem?_mem ht)
  rw [frame_eq_iff] at hf
  unfold TriOK at hok ⊢
  rw [← hf.1, ← hf.2.1]
  exact hok

theorem pending_of_frames {ts ts1 : List Triangle} (h : ts1.map frame = ts.map frame) :
    pending ts1 = pending ts := by
  have key : ∀ l : List Triangle, pending l =
      ((l.map frame).filter fun t => decide (t.group = none)).map fun t => t.verts.map some := by
    intro l
    simp only [pending, List.filter_map, List.map_map]
    rfl
  rw [key, key, h]

/-! ## Counting new bones -/

theorem newBones_le (B : Finset Nat) (bs : List Nat) : newBones B bs ≤ bs.length :=
  List.length_filter_le _ _

theorem newBones_empty (bs : List Nat) : newBones ∅ bs = bs.length := by
  simp [newBones]

theorem newBones_cons (B : Finset Nat) (b : Nat) (bs : List Nat) :
    newBones B (b :: bs) = (if b ∈ B then 0 else 1) + newBones B bs := by
  simp only [newBones, List.filter_cons]
  by_cases h : b ∈ B
  · simp [h]
  · simp [h]
    omega

theorem newBones_insert_of_not_mem (B : Finset Nat) (b : Nat) :
    ∀ bs : List Nat, b ∉ bs → newBones (insert b B) bs = newBones B bs
  | [], _ => rfl
  | a :: bs, h => by
    have hab : a ≠ b := fun e => h (by simp [e])
    have hbs : b ∉ bs := fun e => h (by simp [e])
    rw [newBones_cons, newBones_cons, newBones_insert_of_not_mem B b bs hbs]
    simp [Finset.mem_insert, hab]

theorem newBones_insert_of_mem (B : Finset Nat) (b : Nat) (hB : b ∉ B) :
    ∀ bs : List Nat, bs.Nodup → b ∈ bs → newBones B bs = newBones (insert b B) bs + 1
  | [], _, h => by simp at h
  | a :: bs, hn, h => by
    rw [newBones_cons, newBones_cons]
    have hn1 := List.nodup_cons.1 hn
    by_cases hab : a = b
    · subst hab
      rw [newBones_insert_of_not_mem B a bs hn1.1]
      simp [hB]
      omega
    · have hbs : b ∈ bs := by
        rcases List.mem_cons.1 h with e | e
        · exact absurd e.symm hab
        · exact e
      rw [newBones_insert_of_mem B b hB bs hn1.2 hbs]
      simp only [Finset.mem_insert, hab, false_or]
      omega

/-! ## The queue -/

theorem mem_setEmplace {r x : Ref} {q : List Ref} : x ∈ setEmplace r q ↔ x = r ∨ x ∈ q := by
  unfold setEmplace
  split
  · rename_i h
    constructor
    · intro hx
      exact Or.inr hx
    · rintro (rfl | hx)
      · exact h
      · exact hx
  · exact List.mem_orderedInsert _

theorem nodup_setEmplace {r : Ref} {q : List Ref} (h : q.Nodup) : (setEmplace r q).Nodup := by
  unfold setEmplace
  split
  · exact h
  · rename_i hr
    exact ((List.perm_orderedInsert _ r q).nodup_iff).2 (List.nodup_cons.2 ⟨hr, h⟩)

theorem length_setEmplace_le (r : Ref) (q : List Ref) : (setEmplace r q).length ≤ q.length + 1 := by
  unfold setEmplace
  split
  · omega
  · rw [List.orderedInsert_length]

theorem length_setEmplace_of_not_mem {r : Ref} {q : List Ref} (h : r ∉ q) :
    (setEmplace r q).length = q.length + 1 := by
  unfold setEmplace
  rw [if_neg h, List.orderedInsert_length]

/-! ## `TriangleSet::reduce` -/

theorem reduceOne_eq {i : Nat} {q : List Ref} {ts : List Triangle} {t : Triangle}
    (h : ts[i]? = some t) :
    reduceOne i q ts =
      if t.group ≠ none then .ok (q, ts)
      else if (toInt32 t.unused, i) ∈ q then
        .ok (setEmplace (toInt32 ((t.unused + (UINT32 - 1)) % UINT32), i)
              (q.erase (toInt32 t.unused, i)),
             ts.set i { t with unused := (t.unused + (UINT32 - 1)) % UINT32 })
      else .error .uhOh := by
  unfold reduceOne
  rw [h]

theorem reduceOne_spec {b : Nat} {B : Finset Nat} (hbB : b ∉ B) {rest : List Nat} {i : Nat}
    (hi : i ∉ rest) {q : List Ref} {ts : List Triangle} (hwf : WF ts)
    (hb : ∃ t : Triangle, ts[i]? = some t ∧ b ∈ t.bones)
    (R : RInv b B (i :: rest) q ts) :
    ∃ q1 ts1, reduceOne i q ts = .ok (q1, ts1) ∧ ts1.map frame = ts.map frame ∧
      RInv b B rest q1 ts1 ∧ q1.length = q.length := by
  obtain ⟨t, ht, hbt⟩ := hb
  rw [reduceOne_eq ht]
  by_cases hg : t.group = none
  · have hmem := R.qcomplete i t ht hg
    have hcnt := R.count i t ht hg
    simp only [List.mem_cons, true_or, if_true] at hcnt
    have hok := hwf t (List.getElem?_mem ht)
    have hstep := newBones_insert_of_mem B b hbB t.bones hok.1 hbt
    have hlen := length_le_of_nodup_lt hok.1 hok.2.1
    have hle := newBones_le B t.bones
    have hu : (t.unused + (UINT32 - 1)) % UINT32 = newBones (insert b B) t.bones := by
      simp only [UINT32, MAX_BONES] at *
      omega
    rw [if_neg (not_not.2 hg), if_pos hmem]
    simp only [hu]
    have hnew : (toInt32 (newBones (insert b B) t.bones), i) ∉ q.erase (toInt32 t.unused, i) := by
      intro e
      have he := (R.qnodup.mem_erase_iff).1 e
      obtain ⟨tj, htj, _, hk⟩ := R.qsound _ _ he.2
      rw [ht] at htj
      cases htj
      exact he.1 (by rw [hk])
    refine ⟨_, _, rfl, map_frame_set ht (by simp [frame]), ?_, ?_⟩
    swap
    · rw [length_setEmplace_of_not_mem hnew, List.length_erase_of_mem hmem]
      have : 0 < q.length := List.length_pos_of_mem hmem
      omega
    constructor
    · exact nodup_setEmplace (R.qnodup.erase _)
    · intro k j hkj
      rcases mem_setEmplace.1 hkj with e | e
      · cases e
        exact ⟨_, getElem?_set_self_of_some ht, hg, rfl⟩
      · have he := (R.qnodup.mem_erase_iff).1 e
        obtain ⟨tj, htj, hgj, hk⟩ := R.qsound k j he.2
        have hji : j ≠ i := by
          rintro rfl
          rw [ht] at htj
          cases htj
          exact he.1 (by rw [hk])
        exact ⟨tj, by rw [List.getElem?_set_ne (Ne.symm hji)]; exact htj, hgj, hk⟩
    · intro j tj htj hgj
      rcases getElem?_set_some htj with ⟨rfl, rfl⟩ | ⟨hji, htj⟩
      · exact mem_setEmplace.2 (Or.inl rfl)
      · refine mem_setEmplace.2 (Or.inr ?_)
        refine (R.qnodup.mem_erase_iff).2 ⟨?_, R.qcomplete j tj htj hgj⟩
        intro e
        exact hji (congrArg Prod.snd e)
    · intro j tj htj hgj
      rcases getElem?_set_some htj with ⟨rfl, rfl⟩ | ⟨hji, htj⟩
      · simp [hi]
      · have hc := R.count j tj htj hgj
        simp only [List.mem_cons, hji, false_or] at hc
        exact hc
  · rw [if_pos hg]
    refine ⟨_, _, rfl, rfl, ?_, rfl⟩
    constructor
    · exact R.qnodup
    · exact R.qsound
    · exact R.qcomplete
    · intro j tj htj hgj
      have hji : j ≠ i := by
        rintro rfl
        rw [ht] at htj
        cases htj
        exact hg hgj
      have hc := R.count j tj htj hgj
      simp only [List.mem_cons, hji, false_or] at hc
      exact hc

theorem reduceLoop_spec {b : Nat} {B : Finset Nat} (hbB : b ∉ B) :
    ∀ (rest : List Nat) (q : List Ref) (ts : List Triangle), rest.Nodup → WF ts →
      (∀ i ∈ rest, ∃ t : Triangle, ts[i]? = some t ∧ b ∈ t.bones) → RInv b B rest q ts →
      ∃ q1 ts1, reduceLoop rest q ts = .ok (q1, ts1) ∧ ts1.map frame = ts.map frame ∧
        RInv b B [] q1 ts1 ∧ q1.length = q.length
  | [], q, ts, _, _, _, R => ⟨q, ts, rfl, rfl, R, rfl⟩
  | i :: rest, q, ts, hn, hwf, hb, R => by
    have hn1 := List.nodup_cons.1 hn
    obtain ⟨q1, ts1, h1, hf1, R1, hl1⟩ :=
      reduceOne_spec hbB hn1.1 hwf (hb i (List.mem_cons_self _ _)) R
    have hb1 : ∀ j ∈ rest, ∃ t : Triangle, ts1[j]? = some t ∧ b ∈ t.bones := by
      intro j hj
      obtain ⟨t, ht, hbt⟩ := hb j (List.mem_cons_of_mem _ hj)
      obtain ⟨t1, ht1, hft⟩ := frames_getElem? hf1.symm ht
      rw [frame_eq_iff] at hft
      exact ⟨t1, ht1, by rw [hft.2.1]; exact hbt⟩
    obtain ⟨q2, ts2, h2, hf2, R2, hl2⟩ :=
      reduceLoop_spec hbB rest q1 ts1 hn1.2 (WF_of_frames hf1 hwf) hb1 R1
    refine ⟨q2, ts2, ?_, hf2.trans hf1, R2, hl2.trans hl1⟩
    simp only [reduceLoop, h1, h2]

theorem reduce_spec {ts : List Triangle} {s : TriangleSet} {B : Finset Nat} {b : Nat}
    (hwf : WF ts) (C : Core ts s B) (hb : b < MAX_BONES) (hbB : b ∉ B) :
    ∃ s1 ts1, s.reduce ts b = .ok (s1, ts1) ∧ ts1.map frame = ts.map frame ∧
      Core ts1 s1 (insert b B) ∧ s1.queue.length = s.queue.length ∧ s1.list = s.list := by
  have R : RInv b B (s.list.getD b []) s.queue ts := by
    refine ⟨C.qnodup, C.qsound, C.qcomplete, ?_⟩
    intro i t ht hg
    rw [C.count i t ht hg]
    split
    · rfl
    · rename_i hi
      have hbt : b ∉ t.bones := fun h => hi (C.bcomplete i t b ht hg h)
      rw [newBones_insert_of_not_mem B b t.bones hbt]
  obtain ⟨q1, ts1, h1, hf1, R1, hl1⟩ :=
    reduceLoop_spec hbB _ s.queue ts (C.bnodup b) hwf (C.bsound b) R
  refine ⟨{ s with queue := q1 }, ts1, ?_, hf1, ?_, hl1, rfl⟩
  · simp only [TriangleSet.reduce, hb, if_true, h1]
  · refine ⟨C.llen, R1.qnodup, R1.qsound, R1.qcomplete, ?_, ?_, C.bnodup, ?_⟩
    · intro i t ht hg
      have hc := R1.count i t ht hg
      simpa using hc
    · intro c i hi
      obtain ⟨t, ht, hct⟩ := C.bsound c i hi
      obtain ⟨t1, ht1, hft⟩ := frames_getElem? hf1.symm ht
      rw [frame_eq_iff] at hft
      exact ⟨t1, ht1, by rw [hft.2.1]; exact hct⟩
    · intro i t1 c ht1 hg hc
      obtain ⟨t, ht, hft⟩ := frames_getElem? hf1 ht1
      rw [frame_eq_iff] at hft
      exact C.bcomplete i t c ht (by rw [hft.2.2]; exact hg) (by rw [hft.2.1]; exact hc)

/-! ## Activating the bones of a committed triangle -/

theorem activateBone_spec {st : Build} {b : Nat} (hwf : WF st.triangles)
    (C : Core st.triangles st.tris st.group.bones) (hb : b < MAX_BONES)
    (hu : st.used = st.group.bones.card)
    (hcap : st.used + (if b ∈ st.group.bones then 0 else 1) ≤ MAX_GROUP_BONES) :
    ∃ st1, activateBone st b = .ok st1 ∧
      st1.triangles.map frame = st.triangles.map frame ∧
      Core st1.triangles st1.tris st1.group.bones ∧
      st1.group.bones = insert b st.group.bones ∧
      st1.used = st1.group.bones.card ∧
      st1.group.vertices = st.group.vertices ∧ st1.group.indices = st.group.indices ∧
      st1.tris.queue.length = st.tris.queue.length := by
  by_cases hmem : b ∈ st.group.bones
  · refine ⟨st, ?_, rfl, C, (Finset.insert_eq_of_mem hmem).symm, hu, rfl, rfl, rfl⟩
    simp only [activateBone, bitsetTest, hb, if_true, hmem, decide_True]
  · obtain ⟨s1, ts1, h1, hf1, C1, hl1, _⟩ := reduce_spec hwf C hb hmem
    rw [if_neg hmem] at hcap
    have hcard : (insert b st.group.bones).card = st.group.bones.card + 1 :=
      Finset.card_insert_of_not_mem hmem
    refine ⟨{ triangles := ts1, tris := s1,
              group := { st.group with bones := insert b st.group.bones },
              used := (st.used + 1) % UINT32 }, ?_, hf1, C1, rfl, ?_, rfl, rfl, hl1⟩
    · simp only [activateBone, bitsetTest, hb, if_true, hmem, decide_False, h1, bitsetSet]
    · show (st.used + 1) % UINT32 = (insert b st.group.bones).card
      rw [hcard, hu]
      simp only [UINT32, MAX_GROUP_BONES] at *
      omega

theorem activate_spec : ∀ (bs : List Nat) (st : Build), bs.Nodup → (∀ b ∈ bs, b < MAX_BONES) →
    WF st.triangles → Core st.triangles st.tris st.group.bones →
    st.used = st.group.bones.card →
    st.used + newBones st.group.bones bs ≤ MAX_GROUP_BONES →
    ∃ st1, activate bs st = .ok st1 ∧
      st1.triangles.map frame = st.triangles.map frame ∧
      Core st1.triangles st1.tris st1.group.bones ∧
      st.group.bones ⊆ st1.group.bones ∧ (∀ b ∈ bs, b ∈ st1.group.bones) ∧
      st1.used = st1.group.bones.card ∧ st1.used ≤ MAX_GROUP_BONES ∧
      st1.group.vertices = st.group.vertices ∧ st1.group.indices = st.group.indices ∧
      st1.tris.queue.length = st.tris.queue.length ∧
      (∀ x ∈ st1.group.bones, x ∈ st.group.bones ∨ x ∈ bs)
  | [], st, _, _, _, C, hu, hcap => by
    refine ⟨st, rfl, rfl, C, Finset.Subset.refl _, ?_, hu, ?_, rfl, rfl, rfl,
      fun x hx => Or.inl hx⟩
    · intro b hb
      simp at hb
    · simp only [newBones, List.filter_nil, List.length_nil] at hcap
      omega
  | b :: bs, st, hn, hlt, hwf, C, hu, hcap => by
    have hn1 := List.nodup_cons.1 hn
    rw [newBones_cons] at hcap
    obtain ⟨st1, h1, hf1, C1, hB1, hu1, hv1, hi1, hq1⟩ :=
      activateBone_spec hwf C (hlt b (List.mem_cons_self _ _)) hu (by omega)
    have hused1 : st1.used = st.used + (if b ∈ st.group.bones then 0 else 1) := by
      rw [hu1, hB1, hu]
      by_cases hmem : b ∈ st.group.bones
      · simp [hmem]
      · simp [hmem, Finset.card_insert_of_not_mem hmem]
    have hcap1 : st1.used + newBones st1.group.bones bs ≤ MAX_GROUP_BONES := by
      rw [hB1, newBones_insert_of_not_mem _ b bs hn1.1, hused1]
      omega
    obtain ⟨st2, h2, hf2, C2, hB2, hall2, hu2, hle2, hv2, hi2, hq2, hor2⟩ :=
      activate_spec bs st1 hn1.2 (fun c hc => hlt c (List.mem_cons_of_mem _ hc))
        (WF_of_frames hf1 hwf) C1 hu1 hcap1
    refine ⟨st2, ?_, hf2.trans hf1, C2, ?_, ?_, hu2, hle2, hv2.trans hv1, hi2.trans hi1,
      hq2.trans hq1, ?_⟩
    rotate_right
    · intro x hx
      rcases hor2 x hx with h | h
      · rw [hB1] at h
        rcases Finset.mem_insert.1 h with e | e
        · exact Or.inr (by rw [e]; exact List.mem_cons_self _ _)
        · exact Or.inl e
      · exact Or.inr (List.mem_cons_of_mem _ h)
    · simp only [activate, h1, h2]
    · intro x hx
      apply hB2
      rw [hB1]
      exact Finset.mem_insert_of_mem hx
    · intro c hc
      rcases List.mem_cons.1 hc with rfl | hc
      · apply hB2
        rw [hB1]
        exact Finset.mem_insert_self _ _
      · exact hall2 c hc

/-! ## The vertex map of a group -/

theorem mapFind_none {k : Nat} {m : List (Nat × Nat)} (h : mapFind k m = none) :
    ∀ e ∈ m, e.1 ≠ k := by
  intro e he
  have := List.find?_eq_none.1 h e he
  simpa using this

theorem mapFind_some {k : Nat} {m : List (Nat × Nat)} {e : Nat × Nat} (h : mapFind k m = some e) :
    e ∈ m ∧ e.1 = k := by
  refine ⟨List.mem_of_find?_eq_some h, ?_⟩
  have := List.find?_some h
  simpa using this

theorem origOf_of_mem : ∀ (m : List (Nat × Nat)) (v k : Nat), (m.map Prod.snd).Nodup →
    (v, k) ∈ m → origOf m k = some v
  | [], _, _, _, h => by simp at h
  | e :: m, v, k, hn, h => by
    simp only [List.map_cons, List.nodup_cons] at hn
    by_cases hek : e.2 = k
    · have hev : e = (v, k) := by
        rcases List.mem_cons.1 h with h1 | h1
        · exact h1.symm
        · exfalso
          apply hn.1
          rw [hek]
          exact List.mem_map.2 ⟨(v, k), h1, rfl⟩
      subst hev
      simp [origOf]
    · have hne : (v, k) ≠ e := by
        rintro rfl
        exact hek rfl
      have hm : (v, k) ∈ m := by
        rcases List.mem_cons.1 h with h1 | h1
        · exact absurd h1 hne
        · exact h1
      have ih := origOf_of_mem m v k hn.2 hm
      simp only [origOf, List.find?_cons, hek, decide_False] at ih ⊢
      exact ih

theorem GroupOK.vals_nodup {g : Group} (h : GroupOK g) : (g.vertices.map Prod.snd).Nodup :=
  (h.vals.nodup_iff).2 (List.nodup_range _)

theorem GroupOK.new : GroupOK Group.new := by
  constructor <;> simp [Group.new]

theorem commitVert_spec {g : Group} {v : Nat} (h : GroupOK g) (hv : v < UINT16) :
    GroupOK (commitVert g v) ∧ (∀ e ∈ g.vertices, e ∈ (commitVert g v).vertices) ∧
      (∃ k, (commitVert g v).indices = g.indices ++ [k] ∧ (v, k) ∈ (commitVert g v).vertices) ∧
      (commitVert g v).bones = g.bones ∧
      (∀ e ∈ (commitVert g v).vertices, e ∈ g.vertices ∨ e.1 = v) := by
  unfold commitVert
  cases hf : mapFind v g.vertices with
  | some it =>
    obtain ⟨hmem, hkey⟩ := mapFind_some hf
    have hit : it = (v, it.2) := by
      rw [← hkey]
    refine ⟨⟨h.keys_lt, h.keys_nodup, h.vals, ?_⟩, fun e he => he, ⟨it.2, rfl, ?_⟩, rfl,
      fun e he => Or.inl he⟩
    · intro k hk
      rcases List.mem_append.1 hk with hk | hk
      · exact h.idx k hk
      · simp only [List.mem_singleton] at hk
        subst hk
        exact List.mem_map.2 ⟨it, hmem, rfl⟩
    · rw [← hit]
      exact hmem
  | none =>
    have hnot := mapFind_none hf
    have hlen : g.vertices.length % UINT16 = g.vertices.length := by
      apply Nat.mod_eq_of_lt
      have hnd : (v :: g.vertices.map Prod.fst).Nodup := by
        refine List.nodup_cons.2 ⟨?_, h.keys_nodup⟩
        intro hm
        obtain ⟨e, he, hev⟩ := List.mem_map.1 hm
        exact hnot e he hev
      have hall : ∀ x ∈ v :: g.vertices.map Prod.fst, x < UINT16 := by
        intro x hx
        rcases List.mem_cons.1 hx with rfl | hx
        · exact hv
        · obtain ⟨e, he, rfl⟩ := List.mem_map.1 hx
          exact h.keys_lt e he
      have := length_le_of_nodup_lt hnd hall
      simp only [List.length_cons, List.length_map] at this
      omega
    have hperm : (mapAssign v g.vertices.length g.vertices).Perm
        ((v, g.vertices.length) :: g.vertices) := by
      unfold mapAssign
      rw [hf]
      exact List.perm_orderedInsert _ _ _
    simp only [hlen]
    refine ⟨⟨?_, ?_, ?_, ?_⟩, ?_, ⟨g.vertices.length, rfl, ?_⟩, trivial, ?_⟩
    rotate_right
    · intro e he
      rcases List.mem_cons.1 (hperm.mem_iff.1 he) with rfl | he
      · exact Or.inr rfl
      · exact Or.inl he
    · intro e he
      rcases List.mem_cons.1 (hperm.mem_iff.1 he) with rfl | he
      · exact hv
      · exact h.keys_lt e he
    · refine ((hperm.map Prod.fst).nodup_iff).2 ?_
      simp only [List.map_cons]
      refine List.nodup_cons.2 ⟨?_, h.keys_nodup⟩
      intro hm
      obtain ⟨e, he, hev⟩ := List.mem_map.1 hm
      exact hnot e he hev
    · refine (hperm.map Prod.snd).trans ?_
      rw [hperm.length_eq]
      simp only [List.map_cons, List.length_cons]
      rw [List.range_succ]
      refine (List.Perm.cons _ h.vals).trans ?_
      exact (List.perm_append_singleton _ _).symm
    · intro k hk
      rcases List.mem_append.1 hk with hk | hk
      · obtain ⟨e, he, hek⟩ := List.mem_map.1 (h.idx k hk)
        exact List.mem_map.2 ⟨e, hperm.mem_iff.2 (List.mem_cons_of_mem _ he), hek⟩
      · simp only [List.mem_singleton] at hk
        subst hk
        exact List.mem_map.2 ⟨_, hperm.mem_iff.2 (List.mem_cons_self _ _), rfl⟩
    · intro e he
      exact hperm.mem_iff.2 (List.mem_cons_of_mem _ he)
    · exact hperm.mem_iff.2 (List.mem_cons_self _ _)

theorem commitVerts_spec : ∀ (vs : List Nat) (g : Group), GroupOK g → (∀ v ∈ vs, v < UINT16) →
    GroupOK (commitVerts g vs) ∧ (∀ e ∈ g.vertices, e ∈ (commitVerts g vs).vertices) ∧
      (∃ locs, (commitVerts g vs).indices = g.indices ++ locs ∧
        locs.map (origOf (commitVerts g vs).vertices) = vs.map some) ∧
      (commitVerts g vs).bones = g.bones ∧
      (∀ e ∈ (commitVerts g vs).vertices, e ∈ g.vertices ∨ e.1 ∈ vs)
  | [], g, h, _ =>
    ⟨h, fun _ he => he, ⟨[], by simp [commitVerts], rfl⟩, rfl, fun _ he => Or.inl he⟩
  | v :: vs, g, h, hv => by
    obtain ⟨h1, hsub1, ⟨k, hk, hvk⟩, hb1, hsrc1⟩ :=
      commitVert_spec h (hv v (List.mem_cons_self _ _))
    obtain ⟨h2, hsub2, ⟨locs, hl, hmap⟩, hb2, hsrc2⟩ :=
      commitVerts_spec vs (commitVert g v) h1 (fun w hw => hv w (List.mem_cons_of_mem _ hw))
    have he : commitVerts g (v :: vs) = commitVerts (commitVert g v) vs := rfl
    rw [he]
    refine ⟨h2, fun e he => hsub2 e (hsub1 e he), ⟨k :: locs, ?_, ?_⟩, hb2.trans hb1, ?_⟩
    rotate_left 2
    · intro e he1
      rcases hsrc2 e he1 with h3 | h3
      · rcases hsrc1 e h3 with h4 | h4
        · exact Or.inl h4
        · exact Or.inr (by rw [h4]; exact List.mem_cons_self _ _)
      · exact Or.inr (List.mem_cons_of_mem _ h3)
    · rw [hl, hk]
      simp
    · simp only [List.map_cons, hmap]
      rw [origOf_of_mem _ v k h2.vals_nodup (hsub2 _ hvk)]

theorem decode_commit {g : Group} {vs : List Nat} (h : GroupOK g) (h3 : g.indices.length % 3 = 0)
    (hlen : vs.length = 3) (hv : ∀ v ∈ vs, v < UINT16) :
    decode (commitVerts g vs) = decode g ++ [vs.map some] ∧
      (commitVerts g vs).indices.length = g.indices.length + 3 := by
  obtain ⟨h2, hsub, ⟨locs, hl, hmap⟩, _, _⟩ := commitVerts_spec vs g h hv
  have hll : locs.length = 3 := by
    have := congrArg List.length hmap
    simpa [hlen] using this
  obtain ⟨a, b, c, rfl⟩ : ∃ a b c, locs = [a, b, c] := by
    match locs, hll with
    | [a, b, c], _ => exact ⟨a, b, c, rfl⟩
  refine ⟨?_, by rw [hl]; simp⟩
  unfold decode
  rw [hl, chunk3_append3 a b c _ h3, List.map_append, List.map_singleton, hmap]
  congr 1
  apply List.map_congr_left
  intro ch hch
  apply List.map_congr_left
  intro k hk
  have hki := mem_of_mem_chunk3 _ _ _ hch hk
  obtain ⟨e, he, hek⟩ := List.mem_map.1 (h.idx k hki)
  have e1 : origOf g.vertices k = some e.1 :=
    origOf_of_mem _ _ _ h.vals_nodup (by rw [← hek]; exact he)
  have e2 : origOf (commitVerts g vs).vertices k = some e.1 :=
    origOf_of_mem _ _ _ h2.vals_nodup (by rw [← hek]; exact hsub e he)
  rw [e1, e2]

theorem length_decode (g : Group) : (decode g).length = g.indices.length / 3 := by
  simp [decode, length_chunk3]

/-! ## One pass of the inner loop -/

theorem filter_set_perm {α : Type} (p : α → Bool) (a x : α) (hx : p x = true) (ha : p a = false) :
    ∀ (l : List α) (i : Nat), l[i]? = some x → (l.filter p).Perm (x :: (l.set i a).filter p)
  | [], i, h => by simp at h
  | y :: l, 0, h => by
    simp only [List.getElem?_cons_zero, Option.some.injEq] at h
    subst h
    simp [List.filter_cons, hx, ha]
  | y :: l, i + 1, h => by
    simp only [List.getElem?_cons_succ] at h
    have ih := filter_set_perm p a x hx ha l i h
    simp only [List.set_cons_succ, List.filter_cons]
    split
    · exact (List.Perm.cons y ih).trans (List.Perm.swap x y _)
    · exact ih

theorem pending_set_assign {ts : List Triangle} {i : Nat} {t : Triangle} (ht : ts[i]? = some t)
    (hg : t.group = none) (gid : Nat) :
    (pending ts).Perm (t.verts.map some :: pending (ts.set i { t with group := some gid })) := by
  unfold pending
  have h := filter_set_perm (fun t : Triangle => decide (t.group = none))
    { t with group := some gid } t (by simp [hg]) (by simp) ts i ht
  exact h.map _

theorem GroupOK_congr {g g1 : Group} (hv : g1.vertices = g.vertices) (hi : g1.indices = g.indices)
    (h : GroupOK g) : GroupOK g1 := by
  constructor
  · rw [hv]; exact h.keys_lt
  · rw [hv]; exact h.keys_nodup
  · rw [hv]; exact h.vals
  · rw [hv, hi]; exact h.idx

theorem decode_congr {g g1 : Group} (hv : g1.vertices = g.vertices) (hi : g1.indices = g.indices) :
    decode g1 = decode g := by
  unfold decode
  rw [hv, hi]

theorem growStep_nil {gid : Nat} {st : Build} (hq : st.tris.queue = []) :
    growStep gid st = .ok (false, st) := by
  simp only [growStep, TriangleSet.pop, hq]

theorem growStep_cons {gid : Nat} {st : Build} {k : Int} {i : Nat} {q : List Ref} {t : Triangle}
    (hq : st.tris.queue = (k, i) :: q) (ht : st.triangles[i]? = some t) :
    growStep gid st =
      if (t.unused + st.used) % UINT32 > MAX_GROUP_BONES then
        .ok (false, { st with tris := { st.tris with queue := q } })
      else
        match activate t.bones
            { triangles := st.triangles.set i { t with group := some gid }
              tris := { st.tris with queue := q }
              group := commitVerts st.group t.verts
              used := st.used } with
        | .error e => .error e
        | .ok st1 => .ok (true, st1) := by
  simp only [growStep, TriangleSet.pop, hq, ht]

theorem Core_commit {ts : List Triangle} {s : TriangleSet} {B : Finset Nat} {k : Int} {i : Nat}
    {q : List Ref} (C : Core ts s B) (hq : s.queue = (k, i) :: q) {t : Triangle}
    (ht : ts[i]? = some t) (gid : Nat) :
    Core (ts.set i { t with group := some gid }) { s with queue := q } B := by
  have hnd : ((k, i) :: q).Nodup := hq ▸ C.qnodup
  have hnd1 := List.nodup_cons.1 hnd
  have hhead : k = toInt32 t.unused := by
    obtain ⟨t1, ht1, _, hk⟩ := C.qsound k i (by rw [hq]; exact List.mem_cons_self _ _)
    rw [ht] at ht1
    cases ht1
    exact hk
  have hne : ∀ (k1 : Int) (j : Nat), (k1, j) ∈ q → j ≠ i := by
    rintro k1 j hj rfl
    obtain ⟨t1, ht1, _, hk⟩ := C.qsound k1 j (by rw [hq]; exact List.mem_cons_of_mem _ hj)
    rw [ht] at ht1
    cases ht1
    apply hnd1.1
    rw [hhead, ← hk]
    exact hj
  constructor
  · exact C.llen
  · exact hnd1.2
  · intro k1 j hj
    obtain ⟨t1, ht1, hg1, hk⟩ := C.qsound k1 j (by rw [hq]; exact List.mem_cons_of_mem _ hj)
    refine ⟨t1, ?_, hg1, hk⟩
    rw [List.getElem?_set_ne (Ne.symm (hne k1 j hj))]
    exact ht1
  · intro j tj htj hgj
    rcases getElem?_set_some htj with ⟨rfl, rfl⟩ | ⟨hji, htj⟩
    · simp at hgj
    · have hm := C.qcomplete j tj htj hgj
      rw [hq] at hm
      rcases List.mem_cons.1 hm with e | e
      · exact absurd (congrArg Prod.snd e) hji
      · exact e
  · intro j tj htj hgj
    rcases getElem?_set_some htj with ⟨rfl, rfl⟩ | ⟨hji, htj⟩
    · simp at hgj
    · exact C.count j tj htj hgj
  · intro b j hj
    obtain ⟨t1, ht1, hb1⟩ := C.bsound b j hj
    by_cases hji : j = i
    · subst hji
      rw [ht] at ht1
      cases ht1
      exact ⟨_, getElem?_set_self_of_some ht, hb1⟩
    · exact ⟨t1, by rw [List.getElem?_set_ne (Ne.symm hji)]; exact ht1, hb1⟩
  · exact C.bnodup
  · intro j tj b htj hgj hb
    rcases getElem?_set_some htj with ⟨rfl, rfl⟩ | ⟨hji, htj⟩
    · simp at hgj
    · exact C.bcomplete j tj b htj hgj hb

theorem WF_set {ts : List Triangle} {i : Nat} {t1 : Triangle} (hwf : WF ts) (h1 : TriOK t1) :
    WF (ts.set i t1) := by
  intro x hx
  rcases List.mem_or_eq_of_mem_set hx with h | h
  · exact hwf x h
  · rw [h]
    exact h1

theorem growStep_spec {ts0 : List Triangle} {gid : Nat} {st : Build} (W : Weak ts0 gid st)
    (C : Core st.triangles st.tris st.group.bones) :
    ∃ b st1, growStep gid st = .ok (b, st1) ∧ Weak ts0 gid st1 ∧
      ((b = false ∧ st1.group = st.group ∧ st1.triangles = st.triangles ∧
          (st.tris.queue = [] ∨ ∃ k i q t, st.tris.queue = (k, i) :: q ∧
            st.triangles[i]? = some t ∧ t.unused + st.used > MAX_GROUP_BONES)) ∨
       (b = true ∧ Core st1.triangles st1.tris st1.group.bones ∧
          st1.tris.queue.length + 1 = st.tris.queue.length ∧
          st1.group.indices.length = st.group.indices.length + 3)) := by
  cases hq : st.tris.queue with
  | nil =>
    exact ⟨false, st, growStep_nil hq, W, Or.inl ⟨rfl, rfl, rfl, Or.inl rfl⟩⟩
  | cons r q =>
    obtain ⟨k, i⟩ := r
    obtain ⟨t, ht, hg, hk⟩ := C.qsound k i (by rw [hq]; exact List.mem_cons_self _ _)
    have hok := W.wf t (List.getElem?_mem ht)
    have hcnt := C.count i t ht hg
    have hlen := length_le_of_nodup_lt hok.1 hok.2.1
    have hle := newBones_le st.group.bones t.bones
    have hul := W.used_le
    have hmod : (t.unused + st.used) % UINT32 = t.unused + st.used := by
      apply Nat.mod_eq_of_lt
      simp only [UINT32, MAX_BONES, MAX_GROUP_BONES] at *
      omega
    rw [growStep_cons hq ht, hmod]
    by_cases hcap : t.unused + st.used > MAX_GROUP_BONES
    · rw [if_pos hcap]
      refine ⟨false, _, rfl, ?_, Or.inl ⟨rfl, rfl, rfl, Or.inr ⟨k, i, q, t, rfl, ht, hcap⟩⟩⟩
      exact ⟨W.wf, W.used_eq, W.used_le, W.gok, W.len3, W.sub, W.ledger, W.shape, W.grp,
        W.vsrc, W.bsrc⟩
    · rw [if_neg hcap]
      obtain ⟨hgok1, hsub1, _, hb1, hsrc1⟩ :=
        commitVerts_spec t.verts st.group W.gok hok.2.2.2
      obtain ⟨hdec, hilen⟩ := decode_commit W.gok W.len3 hok.2.2.1 hok.2.2.2
      have hwf1 : WF (st.triangles.set i { t with group := some gid }) := WF_set W.wf hok
      have C1 := Core_commit C hq ht gid
      obtain ⟨st2, h2, hf2, C2, hB2, hall2, hu2, hle2, hv2, hi2, hq2, hor2⟩ :=
        activate_spec t.bones
          { triangles := st.triangles.set i { t with group := some gid }
            tris := { st.tris with queue := q }
            group := commitVerts st.group t.verts
            used := st.used }
          hok.1 hok.2.1 hwf1 (by rw [hb1]; exact C1) (by rw [hb1]; exact W.used_eq)
          (by
            show st.used + newBones (commitVerts st.group t.verts).bones t.bones ≤ MAX_GROUP_BONES
            rw [hb1, ← hcnt]
            omega)
      dsimp only at hf2 hB2 hv2 hi2 hq2 hor2
      rw [h2]
      refine ⟨true, st2, rfl, ?_, Or.inr ⟨rfl, C2, ?_, ?_⟩⟩
      · constructor
        · exact WF_of_frames hf2 hwf1
        · exact hu2
        · exact hle2
        · exact GroupOK_congr hv2 hi2 hgok1
        · rw [hi2, hilen]
          have := W.len3
          omega
        · intro j tj htj hgj b hb
          obtain ⟨tj1, htj1, hfr⟩ := frames_getElem? hf2 htj
          rw [frame_eq_iff] at hfr
          rcases getElem?_set_some htj1 with ⟨_, rfl⟩ | ⟨_, htj1⟩
          · exact hall2 b (by rw [← hfr.2.1] at hb; exact hb)
          · apply hB2
            rw [hb1]
            exact W.sub j tj1 htj1 (by rw [hfr.2.2]; exact hgj) b (by rw [hfr.2.1]; exact hb)
        · rw [decode_congr hv2 hi2, hdec, pending_of_frames hf2]
          refine List.Perm.trans ?_ W.ledger
          rw [List.append_assoc]
          exact List.Perm.append_left _ (pending_set_assign ht hg gid).symm
        · have hset : (st.triangles.set i { t with group := some gid }).map
              (fun t => (t.verts, t.bones)) = st.triangles.map (fun t => (t.verts, t.bones)) :=
            map_set_of_eq (fun t => (t.verts, t.bones)) ht rfl
          rw [shape_of_frames hf2, hset]
          exact W.shape
        · intro j t0 tj ht0 htj
          obtain ⟨tj1, htj1, hfr⟩ := frames_getElem? hf2 htj
          rw [frame_eq_iff] at hfr
          rw [← hfr.2.2]
          rcases getElem?_set_some htj1 with ⟨rfl, rfl⟩ | ⟨_, htj1⟩
          · right
            refine ⟨?_, rfl⟩
            rcases W.grp j t0 t ht0 ht with h | h
            · rw [← h]; exact hg
            · exact h.1
          · exact W.grp j t0 tj1 ht0 htj1
        · intro e he
          rw [hv2] at he
          have hback : ∀ (j : Nat) (x : Triangle),
              (st.triangles.set i { t with group := some gid })[j]? = some x →
              x.group = some gid → e.1 ∈ x.verts →
              ∃ (j1 : Nat) (x1 : Triangle), st2.triangles[j1]? = some x1 ∧
                x1.group = some gid ∧ e.1 ∈ x1.verts := by
            intro j x hx hxg hxv
            obtain ⟨x2, hx2, hfr⟩ := frames_getElem? hf2.symm hx
            rw [frame_eq_iff] at hfr
            exact ⟨j, x2, hx2, by rw [hfr.2.2]; exact hxg, by rw [hfr.1]; exact hxv⟩
          rcases hsrc1 e he with h | h
          · obtain ⟨j, x, hx, hxg, hxv⟩ := W.vsrc e h
            have hji : j ≠ i := by
              rintro rfl
              rw [ht] at hx
              cases hx
              rw [hg] at hxg
              cases hxg
            exact hback j x (by rw [List.getElem?_set_ne (Ne.symm hji)]; exact hx) hxg hxv
          · exact hback i _ (getElem?_set_self_of_some ht) rfl h
        · intro b hb
          have hback : ∀ (j : Nat) (x : Triangle),
              (st.triangles.set i { t with group := some gid })[j]? = some x →
              x.group = some gid → b ∈ x.bones →
              ∃ (j1 : Nat) (x1 : Triangle), st2.triangles[j1]? = some x1 ∧
                x1.group = some gid ∧ b ∈ x1.bones := by
            intro j x hx hxg hxv
            obtain ⟨x2, hx2, hfr⟩ := frames_getElem? hf2.symm hx
            rw [frame_eq_iff] at hfr
            exact ⟨j, x2, hx2, by rw [hfr.2.2]; exact hxg, by rw [hfr.2.1]; exact hxv⟩
          rcases hor2 b hb with h | h
          · rw [hb1] at h
            obtain ⟨j, x, hx, hxg, hxv⟩ := W.bsrc b h
            have hji : j ≠ i := by
              rintro rfl
              rw [ht] at hx
              cases hx
              rw [hg] at hxg
              cases hxg
            exact hback j x (by rw [List.getElem?_set_ne (Ne.symm hji)]; exact hx) hxg hxv
          · exact hback i _ (getElem?_set_self_of_some ht) rfl h
      · rw [hq2]
        rfl
      · rw [hi2, hilen]

/-! ## The inner loop -/

theorem growGroup_spec {ts0 : List Triangle} {gid : Nat} : ∀ (fuel : Nat) (st : Build),
    Weak ts0 gid st → Core st.triangles st.tris st.group.bones →
    ∃ st1, growGroup gid fuel st = .ok st1 ∧ Weak ts0 gid st1 ∧
      st.group.indices.length ≤ st1.group.indices.length ∧
      (∀ k i q t, st.tris.queue = (k, i) :: q → st.triangles[i]? = some t →
        t.unused + st.used ≤ MAX_GROUP_BONES → 0 < fuel →
        st.group.indices.length + 3 ≤ st1.group.indices.length)
  | 0, st, W, _ => ⟨st, rfl, W, le_refl _, fun _ _ _ _ _ _ _ h => absurd h (lt_irrefl 0)⟩
  | fuel + 1, st, W, C => by
    obtain ⟨b, st1, h1, W1, hcase⟩ := growStep_spec W C
    rcases hcase with ⟨rfl, hg, _, hrej⟩ | ⟨rfl, C1, _, hlen⟩
    · refine ⟨st1, ?_, W1, by rw [hg], ?_⟩
      · simp only [growGroup, h1]
      · intro k i q t hq ht hfit _
        exfalso
        rcases hrej with hnil | ⟨k1, i1, q1, t1, hq1, ht1, hbig⟩
        · rw [hq] at hnil
          cases hnil
        · rw [hq] at hq1
          cases hq1
          rw [ht] at ht1
          cases ht1
          omega
    · obtain ⟨st2, h2, W2, hmono, _⟩ := growGroup_spec fuel st1 W1 C1
      refine ⟨st2, ?_, W2, by omega, ?_⟩
      · simp only [growGroup, h1, h2]
      · intro _ _ _ _ _ _ _ _
        omega

theorem growGroup_fuel {ts0 : List Triangle} {gid : Nat} : ∀ (fuel fuel1 : Nat) (st : Build),
    Weak ts0 gid st → Core st.triangles st.tris st.group.bones →
    st.tris.queue.length < fuel → st.tris.queue.length < fuel1 →
    growGroup gid fuel st = growGroup gid fuel1 st
  | 0, _, _, _, _, h, _ => absurd h (Nat.not_lt_zero _)
  | _ + 1, 0, _, _, _, _, h => absurd h (Nat.not_lt_zero _)
  | fuel + 1, fuel1 + 1, st, W, C, h, h1 => by
    obtain ⟨b, st1, hs, W1, hcase⟩ := growStep_spec W C
    rcases hcase with ⟨rfl, _⟩ | ⟨rfl, C1, hlen, _⟩
    · simp only [growGroup, hs]
    · simp only [growGroup, hs]
      exact growGroup_fuel fuel fuel1 st1 W1 C1 (by omega) (by omega)

/-! ## Filling the `TriangleSet` -/

theorem getD_set (l : List (List Nat)) (b c : Nat) (x : List Nat) (hb : b < l.length) :
    (l.set b x).getD c [] = if c = b then x else l.getD c [] := by
  rw [List.getD_eq_getElem?_getD, List.getD_eq_getElem?_getD, List.getElem?_set]
  by_cases h : b = c
  · subst h
    simp [hb]
  · have h1 : ¬ c = b := fun e => h e.symm
    simp [h, h1]

theorem addBuckets_spec (i : Nat) : ∀ (bs : List Nat) (l : List (List Nat)), bs.Nodup →
    (∀ b ∈ bs, b < MAX_BONES) → l.length = MAX_BONES →
    ∃ l1, addBuckets i bs l = .ok l1 ∧ l1.length = MAX_BONES ∧
      ∀ c, l1.getD c [] = l.getD c [] ++ (if c ∈ bs then [i] else [])
  | [], l, _, _, hl => ⟨l, rfl, hl, by simp⟩
  | b :: bs, l, hn, hlt, hl => by
    have hn1 := List.nodup_cons.1 hn
    have hb : b < MAX_BONES := hlt b (List.mem_cons_self _ _)
    obtain ⟨l1, h1, hl1, hget⟩ := addBuckets_spec i bs (l.set b (l.getD b [] ++ [i])) hn1.2
      (fun c hc => hlt c (List.mem_cons_of_mem _ hc)) (by rw [List.length_set]; exact hl)
    refine ⟨l1, ?_, hl1, ?_⟩
    · simp only [addBuckets, hb, if_true, h1]
    · intro c
      rw [hget c, getD_set _ _ _ _ (by rw [hl]; exact hb)]
      by_cases hcb : c = b
      · subst hcb
        simp [hn1.1]
      · simp [hcb]

theorem add_spec {rest : List Nat} {ts : List Triangle} {s : TriangleSet} {i : Nat} {t : Triangle}
    (hwf : WF ts) (P : Building (i :: rest) ts s) (hi : i ∉ rest) (ht : ts[i]? = some t)
    (hg : t.group = none) :
    ∃ s1 ts1, s.add ts i = .ok (s1, ts1) ∧ ts1.map frame = ts.map frame ∧
      Building rest ts1 s1 := by
  have hok := hwf t (List.getElem?_mem ht)
  obtain ⟨l1, h1, hl1, hget⟩ := addBuckets_spec i t.bones s.list hok.1 hok.2.1 P.llen
  have hlen := length_le_of_nodup_lt hok.1 hok.2.1
  have hu : t.bones.length % UINT32 = t.bones.length := by
    apply Nat.mod_eq_of_lt
    simp only [UINT32, MAX_BONES] at *
    omega
  refine ⟨{ queue := setEmplace (toInt32 t.bones.length, i) s.queue, list := l1 },
    ts.set i { t with unused := t.bones.length }, ?_, map_frame_set ht (by simp [frame]), ?_⟩
  · simp only [TriangleSet.add, ht, h1, hu]
  · constructor
    · exact hl1
    · exact nodup_setEmplace P.qnodup
    · intro k j hj
      rcases mem_setEmplace.1 hj with e | e
      · cases e
        exact ⟨hi, _, getElem?_set_self_of_some ht, hg, rfl⟩
      · obtain ⟨hjr, tj, htj, hgj, hk⟩ := P.qsound k j e
        have hji : j ≠ i := fun e1 => hjr (by rw [e1]; exact List.mem_cons_self _ _)
        exact ⟨fun h => hjr (List.mem_cons_of_mem _ h), tj,
          by rw [List.getElem?_set_ne (Ne.symm hji)]; exact htj, hgj, hk⟩
    · intro j tj htj hgj hjr
      rcases getElem?_set_some htj with ⟨rfl, rfl⟩ | ⟨hji, htj⟩
      · exact mem_setEmplace.2 (Or.inl rfl)
      · refine mem_setEmplace.2 (Or.inr (P.qcomplete j tj htj hgj ?_))
        intro h
        rcases List.mem_cons.1 h with e | e
        · exact hji e
        · exact hjr e
    · intro j tj htj hgj hjr
      rcases getElem?_set_some htj with ⟨rfl, rfl⟩ | ⟨hji, htj⟩
      · rfl
      · refine P.count j tj htj hgj ?_
        intro h
        rcases List.mem_cons.1 h with e | e
        · exact hji e
        · exact hjr e
    · intro b j hj
      rw [show ({ queue := setEmplace (toInt32 t.bones.length, i) s.queue, list := l1 } :
        TriangleSet).list = l1 from rfl, hget b] at hj
      rcases List.mem_append.1 hj with e | e
      · obtain ⟨hjr, tj, htj, hb⟩ := P.bsound b j e
        have hji : j ≠ i := fun e1 => hjr (by rw [e1]; exact List.mem_cons_self _ _)
        exact ⟨fun h => hjr (List.mem_cons_of_mem _ h), tj,
          by rw [List.getElem?_set_ne (Ne.symm hji)]; exact htj, hb⟩
      · by_cases hb : b ∈ t.bones
        · simp only [hb, if_true, List.mem_singleton] at e
          subst e
          exact ⟨hi, _, getElem?_set_self_of_some ht, hb⟩
        · simp [hb] at e
    · intro b
      rw [show ({ queue := setEmplace (toInt32 t.bones.length, i) s.queue, list := l1 } :
        TriangleSet).list = l1 from rfl, hget b]
      by_cases hb : b ∈ t.bones
      · simp only [hb, if_true]
        refine List.Nodup.append (P.bnodup b) (List.nodup_singleton _) ?_
        intro x hx hx1
        simp only [List.mem_singleton] at hx1
        subst hx1
        exact (P.bsound b x hx).1 (List.mem_cons_self _ _)
      · simp only [hb, if_false, List.append_nil]
        exact P.bnodup b
    · intro j tj b htj hgj hb hjr
      rw [show ({ queue := setEmplace (toInt32 t.bones.length, i) s.queue, list := l1 } :
        TriangleSet).list = l1 from rfl, hget b]
      rcases getElem?_set_some htj with ⟨rfl, rfl⟩ | ⟨hji, htj⟩
      · simp [show b ∈ t.bones from hb]
      · refine List.mem_append_left _ (P.bcomplete j tj b htj hgj hb ?_)
        intro h
        rcases List.mem_cons.1 h with e | e
        · exact hji e
        · exact hjr e

theorem buildSet_spec : ∀ (rest : List Nat) (s : TriangleSet) (ts : List Triangle),
    rest.Nodup → (∀ i ∈ rest, i < ts.length) → WF ts → Building rest ts s →
    ∃ s1 ts1, buildSet rest s ts = .ok (s1, ts1) ∧ ts1.map frame = ts.map frame ∧
      Building [] ts1 s1
  | [], s, ts, _, _, _, P => ⟨s, ts, rfl, rfl, P⟩
  | i :: rest, s, ts, hn, hlt, hwf, P => by
    have hn1 := List.nodup_cons.1 hn
    have hi : i < ts.length := hlt i (List.mem_cons_self _ _)
    have ht : ts[i]? = some ts[i] := List.getElem?_eq_getElem hi
    by_cases hg : ts[i].group = none
    · obtain ⟨s1, ts1, h1, hf1, P1⟩ := add_spec hwf P hn1.1 ht hg
      have hlen1 : ts1.length = ts.length := by
        have := congrArg List.length hf1
        simpa using this
      obtain ⟨s2, ts2, h2, hf2, P2⟩ := buildSet_spec rest s1 ts1 hn1.2
        (fun j hj => by rw [hlen1]; exact hlt j (List.mem_cons_of_mem _ hj))
        (WF_of_frames hf1 hwf) P1
      refine ⟨s2, ts2, ?_, hf2.trans hf1, P2⟩
      simp only [buildSet, ht, hg, if_true, h1, h2]
    · have hne : ∀ (j : Nat) (tj : Triangle), ts[j]? = some tj → tj.group = none → j ≠ i := by
        rintro j tj htj hgj rfl
        rw [ht] at htj
        cases htj
        exact hg hgj
      have P1 : Building rest ts s := by
        constructor
        · exact P.llen
        · exact P.qnodup
        · intro k j hj
          obtain ⟨hjr, h⟩ := P.qsound k j hj
          exact ⟨fun e => hjr (List.mem_cons_of_mem _ e), h⟩
        · intro j tj htj hgj hjr
          refine P.qcomplete j tj htj hgj ?_
          intro h
          rcases List.mem_cons.1 h with e | e
          · exact hne j tj htj hgj e
          · exact hjr e
        · intro j tj htj hgj hjr
          refine P.count j tj htj hgj ?_
          intro h
          rcases List.mem_cons.1 h with e | e
          · exact hne j tj htj hgj e
          · exact hjr e
        · intro b j hj
          obtain ⟨hjr, h⟩ := P.bsound b j hj
          exact ⟨fun e => hjr (List.mem_cons_of_mem _ e), h⟩
        · exact P.bnodup
        · intro j tj b htj hgj hb hjr
          refine P.bcomplete j tj b htj hgj hb ?_
          intro h
          rcases List.mem_cons.1 h with e | e
          · exact hne j tj htj hgj e
          · exact hjr e
      obtain ⟨s2, ts2, h2, hf2, P2⟩ := buildSet_spec rest s ts hn1.2
        (fun j hj => hlt j (List.mem_cons_of_mem _ hj)) hwf P1
      refine ⟨s2, ts2, ?_, hf2, P2⟩
      simp only [buildSet, ht, hg, if_false, h2]

theorem Building_new (ts : List Triangle) :
    Building (List.range ts.length) ts TriangleSet.new := by
  have hb : ∀ b : Nat, TriangleSet.new.list.getD b [] = [] := by
    intro b
    rw [List.getD_eq_getElem?_getD]
    simp only [TriangleSet.new, List.getElem?_replicate]
    split <;> rfl
  have hin : ∀ (i : Nat) (t : Triangle), ts[i]? = some t → i ∈ List.range ts.length := by
    intro i t ht
    exact List.mem_range.2 (List.getElem?_eq_some.1 ht).1
  constructor
  · simp [TriangleSet.new]
  · simp [TriangleSet.new]
  · intro k i h
    simp [TriangleSet.new] at h
  · intro i t ht _ hi
    exact absurd (hin i t ht) hi
  · intro i t ht _ hi
    exact absurd (hin i t ht) hi
  · intro b i h
    rw [hb b] at h
    simp at h
  · intro b
    rw [hb b]
    exact List.nodup_nil
  · intro i t b ht _ _ hi
    exact absurd (hin i t ht) hi

theorem Core_of_Building {ts : List Triangle} {s : TriangleSet} (P : Building [] ts s) :
    Core ts s ∅ := by
  constructor
  · exact P.llen
  · exact P.qnodup
  · intro k i h
    exact (P.qsound k i h).2
  · intro i t ht hg
    exact P.qcomplete i t ht hg (List.not_mem_nil _)
  · intro i t ht hg
    rw [newBones_empty]
    exact P.count i t ht hg (List.not_mem_nil _)
  · intro b i h
    exact (P.bsound b i h).2
  · exact P.bnodup
  · intro i t b ht hg hb
    exact P.bcomplete i t b ht hg hb (List.not_mem_nil _)

theorem fresh_set {ts : List Triangle} (hwf : WF ts) :
    ∃ s1 ts1, buildSet (List.range ts.length) TriangleSet.new ts = .ok (s1, ts1) ∧
      ts1.map frame = ts.map frame ∧ Core ts1 s1 ∅ := by
  obtain ⟨s1, ts1, h1, hf1, P1⟩ := buildSet_spec (List.range ts.length) TriangleSet.new ts
    (List.nodup_range _) (fun i hi => List.mem_range.1 hi) hwf (Building_new ts)
  exact ⟨s1, ts1, h1, hf1, Core_of_Building P1⟩

/-! ## The outer loop -/

theorem map_getElem?_of_eq {β : Type} (f : Triangle → β) {ts ts1 : List Triangle}
    (h : ts1.map f = ts.map f) {i : Nat} {t1 : Triangle} (h1 : ts1[i]? = some t1) :
    ∃ t, ts[i]? = some t ∧ f t = f t1 := by
  have h2 : (ts1.map f)[i]? = (ts.map f)[i]? := by rw [h]
  simp only [List.getElem?_map, h1, Option.map_some'] at h2
  cases ht : ts[i]? with
  | none => simp [ht] at h2
  | some t =>
    simp only [ht, Option.map_some', Option.some.injEq] at h2
    exact ⟨t, rfl, h2.symm⟩

theorem decode_new : decode Group.new = [] := by
  simp [decode, Group.new, chunk3]

theorem Weak_fresh {ts0 : List Triangle} {p : Partition} (O : Outer ts0 p) {ts : List Triangle}
    (hf : ts.map frame = p.triangles.map frame) (tris : TriangleSet) :
    Weak ts p.groups.length { triangles := ts, tris := tris, group := Group.new, used := 0 } := by
  constructor
  · exact WF_of_frames hf O.wf
  · simp [Group.new]
  · simp
  · exact GroupOK.new
  · simp [Group.new]
  · intro j t ht hg
    exfalso
    obtain ⟨tp, htp, hfr⟩ := frames_getElem? hf ht
    rw [frame_eq_iff] at hfr
    obtain ⟨g, hg1, _⟩ := O.sub j tp p.groups.length htp (by rw [hfr.2.2]; exact hg)
    rw [List.getElem?_eq_none (le_refl _)] at hg1
    cases hg1
  · rw [decode_new]
    exact List.Perm.refl _
  · rfl
  · intro j t0 t ht0 ht
    rw [show ({ triangles := ts, tris := tris, group := Group.new, used := 0 } :
      Build).triangles = ts from rfl, ht0] at ht
    cases ht
    exact Or.inl rfl
  · intro e he
    simp [Group.new] at he
  · intro b hb
    simp [Group.new] at hb

theorem outerStep_spec {ts0 : List Triangle} {p : Partition} (O : Outer ts0 p) :
    ∃ r, outerStep p = .ok r ∧ (r = none → ∀ t ∈ p.triangles, t.group ≠ none) ∧
      ∀ p1, r = some p1 → Outer ts0 p1 ∧ ∃ g, p1.groups = p.groups ++ [g] ∧
        ((∀ t ∈ p.triangles, t.bones.length ≤ MAX_GROUP_BONES) → 3 ≤ g.indices.length) := by
  obtain ⟨tris, ts, hb, hf, C⟩ := fresh_set O.wf
  cases hq : tris.queue with
  | nil =>
    refine ⟨none, ?_, ?_, ?_⟩
    · simp only [outerStep, hb, TriangleSet.empty, hq, List.isEmpty_nil, if_true]
    · intro _ t ht hg
      obtain ⟨i, hi⟩ := List.mem_iff_getElem?.1 ht
      obtain ⟨t1, ht1, hfr⟩ := frames_getElem? hf.symm hi
      rw [frame_eq_iff] at hfr
      have := C.qcomplete i t1 ht1 (by rw [hfr.2.2]; exact hg)
      rw [hq] at this
      simp at this
    · intro p1 h
      cases h
  | cons r q =>
    obtain ⟨k, i⟩ := r
    have W0 := Weak_fresh O hf tris
    obtain ⟨st1, h1, W1, _, hprog⟩ := growGroup_spec (tris.queue.length + 1) _ W0 C
    refine ⟨some { triangles := st1.triangles, groups := p.groups ++ [st1.group] }, ?_, ?_, ?_⟩
    · simp only [outerStep, hb, TriangleSet.empty, hq, List.isEmpty_cons, if_false]
      rw [hq] at h1
      simp only [Bool.false_eq_true, if_false, h1]
    · intro h
      cases h
    · intro p1 hp1
      cases hp1
      refine ⟨?_, st1.group, rfl, ?_⟩
      · constructor
        · exact W1.wf
        · rw [W1.shape, shape_of_frames hf]
          exact O.shape
        · refine List.Perm.trans ?_ O.ledger
          simp only [List.flatMap_append, List.flatMap_cons, List.flatMap_nil, List.append_nil,
            List.append_assoc]
          refine List.Perm.append_left _ ?_
          rw [← pending_of_frames hf]
          exact W1.ledger
        · intro g hg
          rcases List.mem_append.1 hg with h | h
          · exact O.cap g h
          · simp only [List.mem_singleton] at h
            subst h
            rw [← W1.used_eq]
            exact W1.used_le
        · intro g hg
          rcases List.mem_append.1 hg with h | h
          · exact O.gok g h
          · simp only [List.mem_singleton] at h
            subst h
            exact ⟨W1.gok, W1.len3⟩
        · intro j t m ht hg
          obtain ⟨t0, ht0, hsh⟩ := map_getElem?_of_eq _ W1.shape ht
          rcases W1.grp j t0 t ht0 ht with h | ⟨_, h⟩
          · obtain ⟨tp, htp, hfr⟩ := frames_getElem? hf ht0
            rw [frame_eq_iff] at hfr
            have hbones : t.bones = tp.bones := by
              have := congrArg Prod.snd hsh
              simp only at this
              rw [← this, hfr.2.1]
            obtain ⟨g, hg1, hsub⟩ := O.sub j tp m htp (by rw [hfr.2.2, ← h]; exact hg)
            refine ⟨g, ?_, ?_⟩
            · have hlt : m < p.groups.length := (List.getElem?_eq_some.1 hg1).1
              show (p.groups ++ [st1.group])[m]? = some g
              rw [List.getElem?_append_left hlt]
              exact hg1
            · rw [hbones]
              exact hsub
          · rw [h] at hg
            cases hg
            refine ⟨st1.group, ?_, W1.sub j t ht h⟩
            show (p.groups ++ [st1.group])[p.groups.length]? = some st1.group
            simp
        · intro j g hjg e he
          have hjg1 : (p.groups ++ [st1.group])[j]? = some g := hjg
          by_cases hj : j < p.groups.length
          · rw [List.getElem?_append_left hj] at hjg1
            obtain ⟨m, tp, htp, hgp, hvp⟩ := O.vsrc j g hjg1 e he
            obtain ⟨t0, ht0, hfr⟩ := frames_getElem? hf.symm htp
            rw [frame_eq_iff] at hfr
            obtain ⟨t1, ht1, hsh⟩ := map_getElem?_of_eq _ W1.shape.symm ht0
            have hverts : t1.verts = t0.verts := by
              have := congrArg Prod.fst hsh
              simpa using this
            refine ⟨m, t1, ht1, ?_, by rw [hverts, hfr.1]; exact hvp⟩
            rcases W1.grp m t0 t1 ht0 ht1 with h | ⟨h, _⟩
            · rw [h, hfr.2.2]
              exact hgp
            · rw [hfr.2.2, hgp] at h
              cases h
          · have hjl : j = p.groups.length := by
              have hlt : j < (p.groups ++ [st1.group]).length :=
                (List.getElem?_eq_some.1 hjg1).1
              simp only [List.length_append, List.length_singleton] at hlt
              omega
            subst hjl
            simp only [List.getElem?_concat_length, Option.some.injEq] at hjg1
            subst hjg1
            exact W1.vsrc e he
        · intro j g hjg b hb
          have hjg1 : (p.groups ++ [st1.group])[j]? = some g := hjg
          by_cases hj : j < p.groups.length
          · rw [List.getElem?_append_left hj] at hjg1
            obtain ⟨m, tp, htp, hgp, hvp⟩ := O.bsrc j g hjg1 b hb
            obtain ⟨t0, ht0, hfr⟩ := frames_getElem? hf.symm htp
            rw [frame_eq_iff] at hfr
            obtain ⟨t1, ht1, hsh⟩ := map_getElem?_of_eq _ W1.shape.symm ht0
            have hbones : t1.bones = t0.bones := by
              have := congrArg Prod.snd hsh
              simpa using this
            refine ⟨m, t1, ht1, ?_, by rw [hbones, hfr.2.1]; exact hvp⟩
            rcases W1.grp m t0 t1 ht0 ht1 with h | ⟨h, _⟩
            · rw [h, hfr.2.2]
              exact hgp
            · rw [hfr.2.2, hgp] at h
              cases h
          · have hjl : j = p.groups.length := by
              have hlt : j < (p.groups ++ [st1.group]).length :=
                (List.getElem?_eq_some.1 hjg1).1
              simp only [List.length_append, List.length_singleton] at hlt
              omega
            subst hjl
            simp only [List.getElem?_concat_length, Option.some.injEq] at hjg1
            subst hjg1
            exact W1.bsrc b hb
      · intro h24
        obtain ⟨t, ht, hg, _⟩ := C.qsound k i (by rw [hq]; exact List.mem_cons_self _ _)
        have hcnt := C.count i t ht hg
        rw [newBones_empty] at hcnt
        obtain ⟨tp, htp, hfr⟩ := frames_getElem? hf ht
        rw [frame_eq_iff] at hfr
        have hle := h24 tp (List.getElem?_mem htp)
        have := hprog k i q t hq ht (by
          show t.unused + 0 ≤ MAX_GROUP_BONES
          rw [hcnt, ← hfr.2.1]
          exact hle) (Nat.succ_pos _)
        simpa [Group.new] using this

theorem partitionLoop_spec {ts0 : List Triangle} : ∀ (fuel : Nat) (p : Partition), Outer ts0 p →
    ∃ b p1, partitionLoop fuel p = .ok (b, p1) ∧ Outer ts0 p1 ∧
      (b = true → ∀ t ∈ p1.triangles, t.group ≠ none)
  | 0, p, O => ⟨false, p, rfl, O, fun h => by cases h⟩
  | fuel + 1, p, O => by
    obtain ⟨r, h1, hnone, hsome⟩ := outerStep_spec O
    cases r with
    | none =>
      refine ⟨true, p, ?_, O, fun _ => hnone rfl⟩
      simp only [partitionLoop, h1]
    | some p1 =>
      obtain ⟨O1, _⟩ := hsome p1 rfl
      obtain ⟨b, p2, h2, O2, hall⟩ := partitionLoop_spec fuel p1 O1
      refine ⟨b, p2, ?_, O2, hall⟩
      simp only [partitionLoop, h1, h2]

theorem Outer.bones_le {ts0 : List Triangle} {p : Partition} (O : Outer ts0 p) {n : Nat}
    (h : ∀ t ∈ ts0, t.bones.length ≤ n) : ∀ t ∈ p.triangles, t.bones.length ≤ n := by
  intro t ht
  obtain ⟨i, hi⟩ := List.mem_iff_getElem?.1 ht
  obtain ⟨t0, ht0, hsh⟩ := map_getElem?_of_eq _ O.shape hi
  have hb := congrArg Prod.snd hsh
  simp only at hb
  rw [← hb]
  exact h t0 (List.getElem?_mem ht0)

theorem Outer.count {ts0 : List Triangle} {p : Partition} (O : Outer ts0 p) :
    (p.groups.flatMap decode).length + (pending p.triangles).length = ts0.length := by
  have := O.ledger.length_eq
  simpa using this

theorem partitionLoop_progress {ts0 : List Triangle}
    (h24 : ∀ t ∈ ts0, t.bones.length ≤ MAX_GROUP_BONES) : ∀ (fuel : Nat) (p : Partition),
    Outer ts0 p → (∀ g ∈ p.groups, 3 ≤ g.indices.length) →
    (pending p.triangles).length < fuel →
    ∃ p1, partitionLoop fuel p = .ok (true, p1) ∧ Outer ts0 p1 ∧
      (∀ t ∈ p1.triangles, t.group ≠ none) ∧ ∀ g ∈ p1.groups, 3 ≤ g.indices.length
  | 0, _, _, _, h => absurd h (Nat.not_lt_zero _)
  | fuel + 1, p, O, hne, hfuel => by
    obtain ⟨r, h1, hnone, hsome⟩ := outerStep_spec O
    cases r with
    | none =>
      refine ⟨p, ?_, O, hnone rfl, hne⟩
      simp only [partitionLoop, h1]
    | some p1 =>
      obtain ⟨O1, g, hg, h3⟩ := hsome p1 rfl
      have hg3 := h3 (O.bones_le h24)
      have hc := O.count
      have hc1 := O1.count
      rw [hg] at hc1
      simp only [List.flatMap_append, List.flatMap_cons, List.flatMap_nil, List.append_nil,
        List.length_append, length_decode] at hc1
      have hd : 1 ≤ g.indices.length / 3 := (Nat.one_le_div_iff (by decide)).2 hg3
      obtain ⟨p2, h2, O2, hall, hne2⟩ := partitionLoop_progress h24 fuel p1 O1
        (by
          intro g1 hg1
          rw [hg] at hg1
          rcases List.mem_append.1 hg1 with h | h
          · exact hne g1 h
          · simp only [List.mem_singleton] at h
            rw [h]
            exact hg3)
        (by omega)
      refine ⟨p2, ?_, O2, hall, hne2⟩
      simp only [partitionLoop, h1, h2]

theorem pending_all_none : ∀ ts : List Triangle, (∀ t ∈ ts, t.group = none) →
    pending ts = ts.map fun t => t.verts.map some
  | [], _ => rfl
  | t :: ts, h => by
    have ih := pending_all_none ts (fun x hx => h x (List.mem_cons_of_mem _ hx))
    have ht := h t (List.mem_cons_self _ _)
    unfold pending at ih ⊢
    simp only [List.filter_cons, ht, decide_True, if_true, List.map_cons, ih]

theorem pending_none_left : ∀ ts : List Triangle, (∀ t ∈ ts, t.group ≠ none) → pending ts = []
  | [], _ => rfl
  | t :: ts, h => by
    have ih := pending_none_left ts (fun x hx => h x (List.mem_cons_of_mem _ hx))
    have ht := h t (List.mem_cons_self _ _)
    unfold pending at ih ⊢
    simp only [List.filter_cons, ht, decide_False, Bool.false_eq_true, if_false, ih]

theorem buildTriangles_WF_of (obj : SubObject)
    (h : ∀ t ∈ buildTriangles obj, ∀ b ∈ t.bones, b < MAX_BONES) : WF (buildTriangles obj) := by
  intro t ht
  have hb := h t ht
  simp only [buildTriangles, List.mem_map] at ht
  obtain ⟨c, hc, rfl⟩ := ht
  refine ⟨(unique_sorted _ (List.sorted_insertionSort _ _)).nodup, hb, chunk3_length_elem _ _ hc, ?_⟩
  intro v hv
  have := mem_of_mem_chunk3 _ _ _ hc hv
  simp only [List.mem_map] at this
  obtain ⟨w, _, rfl⟩ := this
  exact w.isLt

theorem Outer_init (obj : SubObject)
    (h : ∀ t ∈ buildTriangles obj, ∀ b ∈ t.bones, b < MAX_BONES) :
    Outer (buildTriangles obj) { triangles := buildTriangles obj, groups := [] } := by
  constructor
  · exact buildTriangles_WF_of obj h
  · rfl
  · simp only [List.flatMap_nil, List.nil_append]
    rw [pending_all_none _ (buildTriangles_group obj)]
  · intro g hg
    simp at hg
  · intro g hg
    simp at hg
  · intro i t j ht hg
    rw [buildTriangles_group obj t (List.getElem?_mem ht)] at hg
    cases hg
  · intro j g hg
    simp at hg
  · intro j g hg
    simp at hg

theorem length_buildTriangles (obj : SubObject) :
    (buildTriangles obj).length = obj.x038_short.length / 3 := by
  simp [buildTriangles, length_chunk3]

theorem triples_buildTriangles (obj : SubObject) :
    ((buildTriangles obj).map fun t => t.verts.map some) =
      (chunk3 (obj.x038_short.map Fin.val)).map (List.map some) := by
  rw [← buildTriangles_verts obj, List.map_map]
  rfl

/-! ## Bone ids outside the bit set -/

theorem addBuckets_ok (i : Nat) : ∀ (bs : List Nat) (l l1 : List (List Nat)),
    addBuckets i bs l = .ok l1 → ∀ b ∈ bs, b < MAX_BONES
  | [], _, _, _, b, hb => by simp at hb
  | a :: bs, l, l1, h, b, hb => by
    by_cases ha : a < MAX_BONES
    · simp only [addBuckets, ha, if_true] at h
      rcases List.mem_cons.1 hb with rfl | hb
      · exact ha
      · exact addBuckets_ok i bs _ l1 h b hb
    · simp only [addBuckets, ha, if_false] at h
      cases h

theorem buildSet_ok : ∀ (rest : List Nat) (s : TriangleSet) (ts : List Triangle)
    (r : TriangleSet × List Triangle), buildSet rest s ts = .ok r →
    ∀ i ∈ rest, ∀ t : Triangle, ts[i]? = some t → t.group = none → ∀ b ∈ t.bones, b < MAX_BONES
  | [], _, _, _, _, i, hi => by simp at hi
  | j :: rest, s, ts, r, h, i, hi => by
    intro t ht hg b hb
    cases htj : ts[j]? with
    | none =>
      simp only [buildSet, htj] at h
      cases h
    | some tj =>
      by_cases hgj : tj.group = none
      · simp only [buildSet, htj, hgj, if_true, TriangleSet.add] at h
        cases hadd : addBuckets j tj.bones s.list with
        | error e =>
          simp only [hadd] at h
          cases h
        | ok l1 =>
          simp only [hadd] at h
          have hbj := addBuckets_ok j tj.bones s.list l1 hadd
          by_cases hij : i = j
          · subst hij
            rw [htj] at ht
            cases ht
            exact hbj b hb
          · have hir : i ∈ rest := by
              rcases List.mem_cons.1 hi with e | e
              · exact absurd e hij
              · exact e
            refine buildSet_ok rest _ _ r h i hir t ?_ hg b hb
            rw [List.getElem?_set_ne (Ne.symm hij)]
            exact ht
      · simp only [buildSet, htj, hgj, if_false] at h
        have hij : i ≠ j := by
          rintro rfl
          rw [htj] at ht
          cases ht
          exact hgj hg
        have hir : i ∈ rest := by
          rcases List.mem_cons.1 hi with e | e
          · exact absurd e hij
          · exact e
        exact buildSet_ok rest s ts r h i hir t ht hg b hb

theorem bones_lt_of_outerStep {obj : SubObject} {r : Option Partition}
    (h : outerStep { triangles := buildTriangles obj, groups := [] } = .ok r) :
    ∀ t ∈ buildTriangles obj, ∀ b ∈ t.bones, b < MAX_BONES := by
  intro t ht b hb
  cases hbs : buildSet (List.range (buildTriangles obj).length) TriangleSet.new
      (buildTriangles obj) with
  | error e =>
    simp only [outerStep, hbs] at h
    cases h
  | ok r1 =>
    obtain ⟨i, hi⟩ := List.mem_iff_getElem?.1 ht
    exact buildSet_ok _ _ _ r1 hbs i (List.mem_range.2 (List.getElem?_eq_some.1 hi).1) t hi
      (buildTriangles_group obj t ht) b hb

theorem construct_skinned (fuel : Nat) (obj : SubObject) (maxBones : Nat)
    (hs : obj.x020_VertInfluences ≠ []) (hin : IndicesInRange obj) (hfit : BonesFit obj) :
    construct fuel obj maxBones =
      partitionLoop fuel { triangles := buildTriangles obj, groups := [] } := by
  have : ¬ obj.x020_VertInfluences.length = 0 := by
    intro h
    exact hs (List.length_eq_zero.1 h)
  simp only [construct, this, if_false, hin, hfit, if_true]

theorem construct_overrun (fuel : Nat) (obj : SubObject) (maxBones : Nat)
    (hs : obj.x020_VertInfluences ≠ []) (hfit : ¬ BonesFit obj) :
    construct fuel obj maxBones = .error .outOfRange := by
  have : ¬ obj.x020_VertInfluences.length = 0 := by
    intro h
    exact hs (List.length_eq_zero.1 h)
  by_cases hin : IndicesInRange obj
  · simp only [construct, this, if_false, hin, hfit, if_true]
  · simp only [construct, this, if_false, hin]

theorem construct_out_of_range (fuel : Nat) (obj : SubObject) (maxBones : Nat)
    (hs : obj.x020_VertInfluences ≠ []) (hin : ¬ IndicesInRange obj) :
    construct fuel obj maxBones = .error .outOfRange := by
  have : ¬ obj.x020_VertInfluences.length = 0 := by
    intro h
    exact hs (List.length_eq_zero.1 h)
  simp only [construct, this, if_false, hin]

theorem inRange_of_ok {fuel : Nat} {obj : SubObject} {maxBones : Nat} {r : Bool × Partition}
    (hs : obj.x020_VertInfluences ≠ []) (h : construct fuel obj maxBones = .ok r) :
    IndicesInRange obj := by
  by_contra hin
  rw [construct_out_of_range fuel obj maxBones hs hin] at h
  cases h

theorem fit_of_ok {fuel : Nat} {obj : SubObject} {maxBones : Nat} {r : Bool × Partition}
    (hs : obj.x020_VertInfluences ≠ []) (h : construct fuel obj maxBones = .ok r) :
    BonesFit obj := by
  by_contra hfit
  rw [construct_overrun fuel obj maxBones hs hfit] at h
  cases h

theorem bones_lt_of_returned {fuel : Nat} {obj : SubObject} {maxBones : Nat} {p : Partition}
    (hs : obj.x020_VertInfluences ≠ []) (h : construct fuel obj maxBones = .ok (true, p)) :
    ∀ t ∈ buildTriangles obj, ∀ b ∈ t.bones, b < MAX_BONES := by
  rw [construct_skinned fuel obj maxBones hs (inRange_of_ok hs h) (fit_of_ok hs h)] at h
  cases fuel with
  | zero =>
    simp only [partitionLoop] at h
    cases h
  | succ n =>
    cases hstep : outerStep { triangles := buildTriangles obj, groups := [] } with
    | error e =>
      simp only [partitionLoop, hstep] at h
      cases h
    | ok r => exact bones_lt_of_outerStep hstep

theorem fault_of_big_bone {fuel : Nat} {obj : SubObject} {maxBones : Nat}
    (hs : obj.x020_VertInfluences ≠ []) (hin : IndicesInRange obj) (hfit : BonesFit obj)
    (hbig : ¬ ∀ t ∈ buildTriangles obj, ∀ b ∈ t.bones, b < MAX_BONES) :
    ∃ e, construct (fuel + 1) obj maxBones = .error e := by
  rw [construct_skinned _ obj maxBones hs hin hfit]
  cases hstep : outerStep { triangles := buildTriangles obj, groups := [] } with
  | error e =>
    exact ⟨e, by simp only [partitionLoop, hstep]⟩
  | ok r => exact absurd (bones_lt_of_outerStep hstep) hbig

theorem bones_lt_of_BonesBelow {obj : SubObject} (h : BonesBelow obj MAX_BONES) :
    ∀ t ∈ buildTriangles obj, ∀ b ∈ t.bones, b < MAX_BONES :=
  fun t ht => (buildTriangles_WF obj h t ht).2.1

/-! ## The unskinned path -/

theorem setAll_eq : ∀ (l : List Nat) (s : Finset Nat), (∀ i ∈ l, i < MAX_BONES) →
    setAll l s = .ok (l.foldl (fun acc i => insert i acc) s)
  | [], _, _ => rfl
  | i :: l, s, h => by
    have hi : i < MAX_BONES := h i (List.mem_cons_self _ _)
    simp only [setAll, bitsetSet, hi, if_true, List.foldl_cons]
    exact setAll_eq l _ (fun j hj => h j (List.mem_cons_of_mem _ hj))

theorem foldl_insert_range : ∀ n : Nat,
    (List.range n).foldl (fun acc i => insert i acc) (∅ : Finset Nat) = Finset.range n
  | 0 => rfl
  | n + 1 => by
    rw [List.range_succ, List.foldl_append, foldl_insert_range n]
    simp [Finset.range_succ]

theorem setAll_range {n : Nat} (h : n ≤ MAX_BONES) :
    setAll (List.range n) ∅ = .ok (Finset.range n) := by
  rw [setAll_eq _ _ (fun i hi => lt_of_lt_of_le (List.mem_range.1 hi) h), foldl_insert_range]

theorem orderedInsert_last (r : Nat × Nat → Nat × Nat → Prop) [DecidableRel r] (a : Nat × Nat) :
    ∀ l : List (Nat × Nat), (∀ b ∈ l, ¬ r a b) → l.orderedInsert r a = l ++ [a]
  | [], _ => rfl
  | b :: l, h => by
    have hb : ¬ r a b := h b (List.mem_cons_self _ _)
    simp only [List.orderedInsert, hb, if_false, List.cons_append]
    rw [orderedInsert_last r a l (fun c hc => h c (List.mem_cons_of_mem _ hc))]

theorem identityMap_eq : ∀ n : Nat, n ≤ UINT16 →
    identityMap n = (List.range n).map fun i => (i, i)
  | 0, _ => rfl
  | n + 1, h => by
    have ih := identityMap_eq n (by omega)
    have hmod : n % UINT16 = n := Nat.mod_eq_of_lt (by omega)
    unfold identityMap at ih ⊢
    rw [List.range_succ, List.foldl_append, ih]
    simp only [List.foldl_cons, List.foldl_nil, hmod, List.map_append, List.map_cons, List.map_nil]
    have hnone : mapFind n ((List.range n).map fun i => (i, i)) = none := by
      unfold mapFind
      rw [List.find?_eq_none]
      intro e he
      simp only [List.mem_map, List.mem_range] at he
      obtain ⟨i, hi, rfl⟩ := he
      simp only [decide_eq_true_eq]
      omega
    unfold mapAssign
    rw [hnone]
    simp only [Option.isSome_none, Bool.false_eq_true, if_false]
    apply orderedInsert_last
    intro e he
    simp only [List.mem_map, List.mem_range] at he
    obtain ⟨i, hi, rfl⟩ := he
    simp only [not_le]
    exact hi

theorem construct_rigid (fuel : Nat) (obj : SubObject) (maxBones : Nat)
    (hs : obj.x020_VertInfluences = []) (hm : maxBones ≤ MAX_BONES) :
    construct fuel obj maxBones = .ok (true,
      { triangles := []
        groups := [{ bones := Finset.range maxBones
                     vertices := identityMap obj.x010_FatVertexs.length
                     indices := obj.x038_short.map Fin.val }] }) := by
  simp only [construct, hs, List.length_nil, if_true, rigidGroup, setAll_range hm]

/-! ## Counting groups and triangles -/

theorem length_flatMap_decode : ∀ gs : List Group,
    (gs.flatMap decode).length = (gs.map fun g => g.indices.length / 3).sum
  | [] => rfl
  | g :: gs => by
    simp only [List.flatMap_cons, List.length_append, List.map_cons, List.sum_cons,
      length_decode, length_flatMap_decode gs]

theorem length_le_flatMap_decode : ∀ gs : List Group, (∀ g ∈ gs, 3 ≤ g.indices.length) →
    gs.length ≤ (gs.flatMap decode).length
  | [], _ => le_refl _
  | g :: gs, h => by
    have ih := length_le_flatMap_decode gs (fun x hx => h x (List.mem_cons_of_mem _ hx))
    have hg : 1 ≤ g.indices.length / 3 :=
      (Nat.one_le_div_iff (by decide)).2 (h g (List.mem_cons_self _ _))
    simp only [List.flatMap_cons, List.length_append, List.length_cons, length_decode]
    omega

theorem partition_complete {obj : SubObject} {fuel : Nat}
    (hbl : ∀ t ∈ buildTriangles obj, ∀ b ∈ t.bones, b < MAX_BONES)
    (h24 : ∀ t ∈ buildTriangles obj, t.bones.length ≤ MAX_GROUP_BONES)
    (hfuel : obj.x038_short.length / 3 < fuel) :
    ∃ p, partitionLoop fuel { triangles := buildTriangles obj, groups := [] } = .ok (true, p) ∧
      Outer (buildTriangles obj) p ∧ (∀ t ∈ p.triangles, t.group ≠ none) ∧
      (∀ g ∈ p.groups, 3 ≤ g.indices.length) ∧
      (p.groups.flatMap decode).Perm ((chunk3 (obj.x038_short.map Fin.val)).map (List.map some)) := by
  have O0 := Outer_init obj hbl
  obtain ⟨p, h, O, hall, hne⟩ := partitionLoop_progress h24 fuel _ O0 (by simp)
    (by
      show (pending (buildTriangles obj)).length < fuel
      rw [pending_all_none _ (buildTriangles_group obj), List.length_map, length_buildTriangles]
      exact hfuel)
  refine ⟨p, h, O, hall, hne, ?_⟩
  have hl := O.ledger
  rw [pending_none_left _ hall, List.append_nil, triples_buildTriangles] at hl
  exact hl

/-! ## Claims on the `ObjectData` constructor -/

/-- C1. For a sub-object with influence data for every vertex it indexes, bone ids
below 128, room in every triangle for its bones and at most 24 distinct bones per
triangle, whose index list holds `T` whole triangles, the constructor returns (the outer loop ends within `T + 1`
passes); every one of the `T` triangles then carries the id of one existing
group; the index lists of the groups, read three entries at a time and mapped
back through each group's vertex map, are a permutation of the `T` original
vertex triples; and the groups' index counts divided by three add up to `T`. -/
theorem partition_reproduces_triangles (obj : SubObject) (maxBones fuel : Nat)
    (hs : obj.x020_VertInfluences ≠ []) (hin : IndicesInRange obj) (hfit : BonesFit obj)
    (hb : BonesBelow obj MAX_BONES)
    (h24 : ∀ t ∈ buildTriangles obj, t.bones.length ≤ MAX_GROUP_BONES)
    (hfuel : obj.x038_short.length / 3 < fuel) :
    ∃ p, construct fuel obj maxBones = .ok (true, p) ∧
      p.triangles.map (fun t => t.verts) = chunk3 (obj.x038_short.map Fin.val) ∧
      (∀ t ∈ p.triangles, ∃ j, t.group = some j ∧ j < p.groups.length) ∧
      (p.groups.flatMap decode).Perm
        ((chunk3 (obj.x038_short.map Fin.val)).map (List.map some)) ∧
      (p.groups.map fun g => g.indices.length / 3).sum = obj.x038_short.length / 3 := by
  obtain ⟨p, h, O, hall, _, hperm⟩ := partition_complete (bones_lt_of_BonesBelow hb) h24 hfuel
  refine ⟨p, by rw [construct_skinned fuel obj maxBones hs hin hfit]; exact h, ?_, ?_, hperm, ?_⟩
  · have h1 := congrArg (List.map Prod.fst) O.shape
    simp only [List.map_map] at h1
    rw [← buildTriangles_verts obj]
    exact h1
  · intro t ht
    obtain ⟨i, hi⟩ := List.mem_iff_getElem?.1 ht
    cases hg : t.group with
    | none => exact absurd hg (hall t ht)
    | some j =>
      obtain ⟨g, hg1, _⟩ := O.sub i t j hi hg
      exact ⟨j, rfl, (List.getElem?_eq_some.1 hg1).1⟩
  · rw [← length_flatMap_decode, hperm.length_eq, List.length_map, length_chunk3,
      List.length_map]

/-- C1, at the sample skinned sub-object. -/
theorem partition_reproduces_triangles_witness :
    ∃ p, construct 3 sampleSkinned 4 = .ok (true, p) ∧
      p.triangles.map (fun t => t.verts) = chunk3 (sampleSkinned.x038_short.map Fin.val) ∧
      (∀ t ∈ p.triangles, ∃ j, t.group = some j ∧ j < p.groups.length) ∧
      (p.groups.flatMap decode).Perm
        ((chunk3 (sampleSkinned.x038_short.map Fin.val)).map (List.map some)) ∧
      (p.groups.map fun g => g.indices.length / 3).sum = sampleSkinned.x038_short.length / 3 :=
  partition_reproduces_triangles sampleSkinned 4 3 (by decide) (by decide) (by decide)
    (by decide) (by decide) (by decide)

/-- C2. For a sub-object with influence data for every vertex it indexes, room in
every triangle for its bones and bone ids below 128, the construction never faults, and after any number of passes of
the outer loop every group has at most 24 active bones; so has the group under
construction after any number of passes of the inner loop. -/
theorem group_bones_capped (obj : SubObject) (maxBones : Nat)
    (hs : obj.x020_VertInfluences ≠ []) (hin : IndicesInRange obj) (hfit : BonesFit obj)
    (hb : BonesBelow obj MAX_BONES) (fuel : Nat) :
    ∃ b p, construct fuel obj maxBones = .ok (b, p) ∧
      (∀ g ∈ p.groups, g.bones.card ≤ MAX_GROUP_BONES) ∧
      ∃ tris ts, buildSet (List.range p.triangles.length) TriangleSet.new p.triangles =
          .ok (tris, ts) ∧
        ∀ k, ∃ st, growGroup p.groups.length k
            { triangles := ts, tris := tris, group := Group.new, used := 0 } = .ok st ∧
          st.group.bones.card ≤ MAX_GROUP_BONES := by
  have O0 := Outer_init obj (bones_lt_of_BonesBelow hb)
  obtain ⟨b, p, h, O, _⟩ := partitionLoop_spec fuel _ O0
  obtain ⟨tris, ts, hbs, hf, C⟩ := fresh_set O.wf
  refine ⟨b, p, by rw [construct_skinned fuel obj maxBones hs hin hfit]; exact h, O.cap, tris, ts,
    hbs, ?_⟩
  intro k
  obtain ⟨st, hst, W, _⟩ := growGroup_spec k _ (Weak_fresh O hf tris) C
  exact ⟨st, hst, by rw [← W.used_eq]; exact W.used_le⟩

/-- C2, at the sample skinned sub-object after two passes of the outer loop. -/
theorem group_bones_capped_witness :
    ∃ b p, construct 2 sampleSkinned 4 = .ok (b, p) ∧
      (∀ g ∈ p.groups, g.bones.card ≤ MAX_GROUP_BONES) ∧
      ∃ tris ts, buildSet (List.range p.triangles.length) TriangleSet.new p.triangles =
          .ok (tris, ts) ∧
        ∀ k, ∃ st, growGroup p.groups.length k
            { triangles := ts, tris := tris, group := Group.new, used := 0 } = .ok st ∧
          st.group.bones.card ≤ MAX_GROUP_BONES :=
  group_bones_capped sampleSkinned 4 (by decide) (by decide) (by decide) (by decide) 2

theorem Outer_of_ok {fuel : Nat} {obj : SubObject} {maxBones : Nat} {b : Bool} {p : Partition}
    (hs : obj.x020_VertInfluences ≠ []) (h : construct fuel obj maxBones = .ok (b, p)) :
    (fuel = 0 ∧ b = false ∧ p = { triangles := buildTriangles obj, groups := [] }) ∨
    (Outer (buildTriangles obj) p ∧ (b = true → ∀ t ∈ p.triangles, t.group ≠ none)) := by
  rw [construct_skinned fuel obj maxBones hs (inRange_of_ok hs h) (fit_of_ok hs h)] at h
  cases fuel with
  | zero =>
    simp only [partitionLoop] at h
    cases h
    exact Or.inl ⟨rfl, rfl, rfl⟩
  | succ n =>
    cases hstep : outerStep { triangles := buildTriangles obj, groups := [] } with
    | error e =>
      simp only [partitionLoop, hstep] at h
      cases h
    | ok r =>
      have O0 := Outer_init obj (bones_lt_of_outerStep hstep)
      obtain ⟨b1, p1, h1, O, hall⟩ := partitionLoop_spec (n + 1) _ O0
      rw [h1] at h
      cases h
      exact Or.inr ⟨O, hall⟩

/-- C3. For a sub-object with influence data, when the constructor returns, every
triangle carries the id of a group whose active-bone set contains every bone of
the triangle's bone list. -/
theorem triangle_bones_in_group (obj : SubObject) (maxBones fuel : Nat) (p : Partition)
    (hs : obj.x020_VertInfluences ≠ []) (h : construct fuel obj maxBones = .ok (true, p)) :
    ∀ t ∈ p.triangles, ∃ j g, t.group = some j ∧ p.groups[j]? = some g ∧
      ∀ b ∈ t.bones, b ∈ g.bones := by
  rcases Outer_of_ok hs h with ⟨_, hb, _⟩ | ⟨O, hall⟩
  · cases hb
  · intro t ht
    obtain ⟨i, hi⟩ := List.mem_iff_getElem?.1 ht
    cases hg : t.group with
    | none => exact absurd hg (hall rfl t ht)
    | some j =>
      obtain ⟨g, hg1, hsub⟩ := O.sub i t j hi hg
      exact ⟨j, g, rfl, hg1, hsub⟩

/-- C3, at the sample skinned sub-object. -/
theorem triangle_bones_in_group_witness :
    ∃ p, construct 3 sampleSkinned 4 = .ok (true, p) ∧
      ∀ t ∈ p.triangles, ∃ j g, t.group = some j ∧ p.groups[j]? = some g ∧
        ∀ b ∈ t.bones, b ∈ g.bones :=
  ⟨_, rfl, triangle_bones_in_group sampleSkinned 4 3 _ (by decide) rfl⟩

/-- C4, as stated, fails: for an unskinned sub-object and a skeleton of 25 bones the
constructor returns one group with 25 active bones. -/
theorem rigid_group_exceeds_cap :
    ∃ p, construct 1 sampleRigid 25 = .ok (true, p) ∧
      ∃ g ∈ p.groups, ¬ g.bones.card ≤ MAX_GROUP_BONES :=
  ⟨_, rfl, _, List.mem_singleton.2 rfl, by decide⟩

/-- C4, amended. For every sub-object and every skeleton size `maxBones` up to 128,
each group that the constructor has built after any number of passes either
belongs to a sub-object with influence data and has at most 24 active bones, or
is the single group of a sub-object without influence data and has exactly the
`maxBones` bones of the skeleton active. -/
theorem group_bones_skinned_or_full (obj : SubObject) (maxBones fuel : Nat) (b : Bool)
    (p : Partition) (hm : maxBones ≤ MAX_BONES)
    (h : construct fuel obj maxBones = .ok (b, p)) :
    ∀ g ∈ p.groups,
      (obj.x020_VertInfluences ≠ [] ∧ g.bones.card ≤ MAX_GROUP_BONES) ∨
      (obj.x020_VertInfluences = [] ∧ p.groups = [g] ∧ g.bones = Finset.range maxBones ∧
        g.bones.card = maxBones) := by
  intro g hg
  by_cases hs : obj.x020_VertInfluences = []
  · right
    rw [construct_rigid fuel obj maxBones hs hm] at h
    cases h
    simp only [List.mem_singleton] at hg
    subst hg
    exact ⟨hs, rfl, rfl, Finset.card_range _⟩
  · left
    refine ⟨hs, ?_⟩
    rcases Outer_of_ok hs h with ⟨_, _, hp⟩ | ⟨O, _⟩
    · rw [hp] at hg
      simp at hg
    · exact O.cap g hg

/-- C4 amended, at the sample unskinned sub-object with a skeleton of 25 bones. -/
theorem group_bones_skinned_or_full_witness :
    ∃ p, construct 1 sampleRigid 25 = .ok (true, p) ∧
      ∀ g ∈ p.groups,
        (sampleRigid.x020_VertInfluences ≠ [] ∧ g.bones.card ≤ MAX_GROUP_BONES) ∨
        (sampleRigid.x020_VertInfluences = [] ∧ p.groups = [g] ∧
          g.bones = Finset.range 25 ∧ g.bones.card = 25) :=
  ⟨_, rfl, group_bones_skinned_or_full sampleRigid 25 1 true _ (by decide) rfl⟩

/-- C5. For a sub-object whose influence list is empty, with `maxBones ≤ 128` and at
most 65536 vertices, the constructor returns exactly one group: its active bones
are `0 .. maxBones-1`, its vertex map sends every `i` below the vertex count to
`i`, and its index list is the index list of the sub-object. -/
theorem rigid_single_group (obj : SubObject) (maxBones fuel : Nat)
    (hs : obj.x020_VertInfluences = []) (hm : maxBones ≤ MAX_BONES)
    (hv : obj.x010_FatVertexs.length ≤ UINT16) :
    ObjectData.make fuel obj maxBones = .ok (some
      { groups := [{ bones := Finset.range maxBones
                     vertices := (List.range obj.x010_FatVertexs.length).map fun i => (i, i)
                     indices := obj.x038_short.map Fin.val }]
        original := obj }) := by
  simp only [ObjectData.make, construct_rigid fuel obj maxBones hs hm, identityMap_eq _ hv]

/-- C5, at the sample unskinned sub-object with a skeleton of two bones. -/
theorem rigid_single_group_witness :
    ObjectData.make 0 sampleRigid 2 = .ok (some
      { groups := [{ bones := Finset.range 2
                     vertices := (List.range sampleRigid.x010_FatVertexs.length).map
                       fun i => (i, i)
                     indices := sampleRigid.x038_short.map Fin.val }]
        original := sampleRigid }) :=
  rigid_single_group sampleRigid 2 0 (by decide) (by decide) (by decide)

/-- C6. For a sub-object with influence data in which every triangle has at most 24
distinct bones and whose index list holds `T` whole triangles, the outer loop is
over within `T + 1` passes. When every indexed vertex has influence data, every
triangle has room for its bones and all bone ids are below 128 the constructor returns, every triangle is assigned, every
group has a non-empty index list and there are at most `T` groups; otherwise the
construction faults. A pop that the cap check rejects ends the inner loop and
leaves every triangle as it was, the rejected one unassigned. -/
theorem partition_terminates (obj : SubObject) (maxBones fuel : Nat)
    (hs : obj.x020_VertInfluences ≠ [])
    (h24 : ∀ t ∈ buildTriangles obj, t.bones.length ≤ MAX_GROUP_BONES)
    (hfuel : obj.x038_short.length / 3 < fuel) :
    ((IndicesInRange obj ∧ BonesFit obj ∧
        ∀ t ∈ buildTriangles obj, ∀ b ∈ t.bones, b < MAX_BONES) →
      ∃ p, construct fuel obj maxBones = .ok (true, p) ∧
        (∀ t ∈ p.triangles, t.group ≠ none) ∧ (∀ g ∈ p.groups, g.indices ≠ []) ∧
        p.groups.length ≤ obj.x038_short.length / 3) ∧
    ((¬ (IndicesInRange obj ∧ BonesFit obj ∧
        ∀ t ∈ buildTriangles obj, ∀ b ∈ t.bones, b < MAX_BONES)) →
      ∃ e, construct fuel obj maxBones = .error e) ∧
    (∀ (gid : Nat) (st : Build) (k : Int) (i : Nat) (q : List Ref) (t : Triangle),
      st.tris.queue = (k, i) :: q → st.triangles[i]? = some t →
      (t.unused + st.used) % UINT32 > MAX_GROUP_BONES →
      growStep gid st = .ok (false, { st with tris := { st.tris with queue := q } })) := by
  refine ⟨?_, ?_, ?_⟩
  · rintro ⟨hin, hfit, hbl⟩
    obtain ⟨p, h, _, hall, hne, hperm⟩ := partition_complete hbl h24 hfuel
    refine ⟨p, by rw [construct_skinned fuel obj maxBones hs hin hfit]; exact h, hall, ?_, ?_⟩
    · intro g hg he
      have := hne g hg
      rw [he] at this
      simp at this
    · have h1 := length_le_flatMap_decode p.groups hne
      rw [hperm.length_eq, List.length_map, length_chunk3, List.length_map] at h1
      exact h1
  · intro hbig
    by_cases hin : IndicesInRange obj
    · by_cases hfit : BonesFit obj
      · obtain ⟨n, rfl⟩ : ∃ n, fuel = n + 1 := ⟨fuel - 1, by omega⟩
        exact fault_of_big_bone hs hin hfit (fun h => hbig ⟨hin, hfit, h⟩)
      · exact ⟨_, construct_overrun fuel obj maxBones hs hfit⟩
    · exact ⟨_, construct_out_of_range fuel obj maxBones hs hin⟩
  · intro gid st k i q t hq ht hcap
    rw [growStep_cons hq ht, if_pos hcap]

/-- C6, at the sample skinned sub-object. -/
theorem partition_terminates_witness :
    ((IndicesInRange sampleSkinned ∧ BonesFit sampleSkinned ∧
        ∀ t ∈ buildTriangles sampleSkinned, ∀ b ∈ t.bones, b < MAX_BONES) →
      ∃ p, construct 3 sampleSkinned 4 = .ok (true, p) ∧
        (∀ t ∈ p.triangles, t.group ≠ none) ∧ (∀ g ∈ p.groups, g.indices ≠ []) ∧
        p.groups.length ≤ sampleSkinned.x038_short.length / 3) ∧
    ((¬ (IndicesInRange sampleSkinned ∧ BonesFit sampleSkinned ∧
        ∀ t ∈ buildTriangles sampleSkinned, ∀ b ∈ t.bones, b < MAX_BONES)) →
      ∃ e, construct 3 sampleSkinned 4 = .error e) ∧
    (∀ (gid : Nat) (st : Build) (k : Int) (i : Nat) (q : List Ref) (t : Triangle),
      st.tris.queue = (k, i) :: q → st.triangles[i]? = some t →
      (t.unused + st.used) % UINT32 > MAX_GROUP_BONES →
      growStep gid st = .ok (false, { st with tris := { st.tris with queue := q } })) :=
  partition_terminates sampleSkinned 4 3 (by decide) (by decide) (by decide)

/-! ## DoWriteModel: the running file size -/

theorem add_mul_mod (a c n : Nat) : (a + c * (n % UINT32)) % UINT32 = (a + c * n) % UINT32 := by
  have h : c * (n % UINT32) ≡ c * n [MOD UINT32] := (Nat.mod_modEq n UINT32).mul_left c
  exact Nat.ModEq.add_left a h

theorem mod_add_eq (a b : Nat) : (a % UINT32 + b) % UINT32 = (a + b) % UINT32 :=
  Nat.mod_add_mod a UINT32 b

theorem appendixBytes_cons (sz : Sizes) (recs : List AppendixRec) (l : List (List AppendixRec)) :
    appendixBytes sz (recs :: l) = (recs.map (AppendixRec.bytes sz)).sum + appendixBytes sz l := by
  simp [appendixBytes]

theorem bytes_boneAppendix (sz : Sizes) (src : BoneStructure) :
    ((boneAppendix src).map (AppendixRec.bytes sz)).sum = boneAppendixBytes sz src := by
  unfold boneAppendix boneAppendixBytes
  by_cases h1 : src.x118_CollisionShapes.length ≠ 0 <;>
    by_cases h2 : src.x128_ConstraintParameters.length ≠ 0 <;>
    simp [h1, h2, AppendixRec.bytes]

theorem writeBones_length (sz : Sizes) : ∀ (bones : List BoneStructure) (fs : Nat),
    (writeBones sz bones fs).1.length = bones.length
  | [], _ => rfl
  | _ :: rest, _ => by
    simp only [writeBones, List.length_cons, writeBones_length sz rest]

theorem writeBones_step (sz : Sizes) (src : BoneStructure) (fs : Nat) (hfs : fs < UINT32) :
    (if src.x128_ConstraintParameters.length ≠ 0 then
        ((if src.x118_CollisionShapes.length ≠ 0 then (fs + sz.capsuleInfo) % UINT32 else fs) +
          sz.constraint) % UINT32
      else (if src.x118_CollisionShapes.length ≠ 0 then (fs + sz.capsuleInfo) % UINT32 else fs)) =
      (fs + boneAppendixBytes sz src) % UINT32 := by
  unfold boneAppendixBytes
  by_cases h1 : src.x118_CollisionShapes.length ≠ 0 <;>
    by_cases h2 : src.x128_ConstraintParameters.length ≠ 0
  · simp only [if_pos h1, if_pos h2, mod_add_eq, Nat.add_assoc]
  · simp only [if_pos h1, if_neg h2, Nat.add_zero]
  · simp only [if_neg h1, if_pos h2, Nat.zero_add]
  · simp only [if_neg h1, if_neg h2, Nat.add_zero]
    exact (Nat.mod_eq_of_lt hfs).symm

theorem writeBones_snd (sz : Sizes) : ∀ (bones : List BoneStructure) (fs : Nat), fs < UINT32 →
    (writeBones sz bones fs).2 = (fs + appendixBytes sz (bones.map boneAppendix)) % UINT32
  | [], fs, h => by
    simp only [writeBones, List.map_nil, appendixBytes, List.sum_nil, Nat.add_zero]
    exact (Nat.mod_eq_of_lt h).symm
  | src :: rest, fs, h => by
    simp only [writeBones, List.map_cons, appendixBytes_cons, bytes_boneAppendix]
    rw [writeBones_step sz src fs h,
      writeBones_snd sz rest _ (Nat.mod_lt _ (by decide)), mod_add_eq, Nat.add_assoc]

theorem writeBones_get (sz : Sizes) : ∀ (bones : List BoneStructure) (fs i : Nat)
    (rec : BoneRec) (src : BoneStructure), fs < UINT32 →
    (writeBones sz bones fs).1[i]? = some rec → bones[i]? = some src →
    rec.capsuleOffset =
      (if src.x118_CollisionShapes.length ≠ 0 then
        (fs + appendixBytes sz ((bones.take i).map boneAppendix)) % UINT32 else 0) ∧
    rec.constraintOffset =
      (if src.x128_ConstraintParameters.length ≠ 0 then
        (fs + appendixBytes sz ((bones.take i).map boneAppendix) +
          (if src.x118_CollisionShapes.length ≠ 0 then sz.capsuleInfo else 0)) % UINT32 else 0)
  | [], _, _, _, _, _, _, h => by simp at h
  | b :: rest, fs, 0, rec, src, hfs, hrec, hsrc => by
    simp only [List.getElem?_cons_zero, Option.some.injEq] at hsrc
    subst hsrc
    simp only [writeBones, List.getElem?_cons_zero, Option.some.injEq] at hrec
    subst hrec
    simp only [List.take_zero, List.map_nil, appendixBytes, List.sum_nil, Nat.add_zero]
    by_cases h1 : b.x118_CollisionShapes.length ≠ 0 <;>
      by_cases h2 : b.x128_ConstraintParameters.length ≠ 0
    · simp only [if_pos h1, if_pos h2, Nat.mod_eq_of_lt hfs, and_self]
    · simp only [if_pos h1, if_neg h2, Nat.mod_eq_of_lt hfs, and_self]
    · simp only [if_neg h1, if_pos h2, Nat.mod_eq_of_lt hfs, and_self, Nat.add_zero]
    · simp only [if_neg h1, if_neg h2, and_self]
  | b :: rest, fs, i + 1, rec, src, hfs, hrec, hsrc => by
    simp only [List.getElem?_cons_succ] at hsrc
    simp only [writeBones, List.getElem?_cons_succ] at hrec
    rw [writeBones_step sz b fs hfs] at hrec
    have ih := writeBones_get sz rest _ i rec src (Nat.mod_lt _ (by decide)) hrec hsrc
    simp only [List.take_succ_cons, List.map_cons, appendixBytes_cons, bytes_boneAppendix]
    rw [ih.1, ih.2]
    simp only [mod_add_eq, Nat.add_assoc]
    exact ⟨trivial, trivial⟩

theorem writeObjects_length (sz : Sizes) (mats : List AppearanceMaterial) :
    ∀ (datas : List ObjectData) (fs : Nat), (writeObjects sz mats datas fs).1.length = datas.length
  | [], _ => rfl
  | _ :: rest, _ => by
    simp only [writeObjects, List.length_cons, writeObjects_length sz mats rest]

theorem writeObjects_snd (sz : Sizes) (mats : List AppearanceMaterial) :
    ∀ (datas : List ObjectData) (fs : Nat), fs < UINT32 →
    (writeObjects sz mats datas fs).2 =
      (fs + sz.objectGroup * (datas.map fun d => d.groups.length).sum) % UINT32
  | [], fs, h => by
    simp only [writeObjects, List.map_nil, List.sum_nil, Nat.mul_zero, Nat.add_zero]
    exact (Nat.mod_eq_of_lt h).symm
  | d :: rest, fs, _ => by
    simp only [writeObjects, List.map_cons, List.sum_cons]
    rw [writeObjects_snd sz mats rest _ (Nat.mod_lt _ (by decide)), add_mul_mod, mod_add_eq,
      Nat.mul_add, Nat.add_assoc]

theorem writeObjects_get (sz : Sizes) (mats : List AppearanceMaterial) :
    ∀ (datas : List ObjectData) (fs k : Nat) (rec : ObjectRec), fs < UINT32 →
    (writeObjects sz mats datas fs).1[k]? = some rec →
    rec.groupOffset =
      (fs + sz.objectGroup * ((datas.take k).map fun d => d.groups.length).sum) % UINT32
  | [], _, _, _, _, h => by simp [writeObjects] at h
  | d :: rest, fs, 0, rec, hfs, h => by
    simp only [writeObjects, List.getElem?_cons_zero, Option.some.injEq] at h
    subst h
    simp only [List.take_zero, List.map_nil, List.sum_nil, Nat.mul_zero, Nat.add_zero]
    exact (Nat.mod_eq_of_lt hfs).symm
  | d :: rest, fs, k + 1, rec, _, h => by
    simp only [writeObjects, List.getElem?_cons_succ] at h
    rw [writeObjects_get sz mats rest _ k rec (Nat.mod_lt _ (by decide)) h]
    simp only [List.take_succ_cons, List.map_cons, List.sum_cons]
    rw [add_mul_mod, mod_add_eq, Nat.mul_add, Nat.add_assoc]

theorem indexReserve_eq {n : Nat} (h : n + 1 < UINT32) :
    indexReserve (n % UINT32) = 2 * (2 * ((n + 1) / 2)) := by
  unfold indexReserve
  have h1 : n % UINT32 = n := Nat.mod_eq_of_lt (by omega)
  rw [h1, Nat.mod_eq_of_lt h]
  omega

theorem groupRecord_snd (sz : Sizes) (g : Group) (fs : Nat) (h : g.indices.length + 1 < UINT32) :
    (groupRecord sz g fs).2 = (fs + groupReserve sz g) % UINT32 := by
  simp only [groupRecord, groupReserve, indexReserve_eq h, add_mul_mod, mod_add_eq, Nat.add_assoc]

theorem groupRecord_fst (sz : Sizes) (g : Group) (fs : Nat) (hfs : fs < UINT32) :
    (groupRecord sz g fs).1.boneOffset = fs % UINT32 ∧
    (groupRecord sz g fs).1.vertexOffset = (fs + sz.boneIndex * g.bones.card) % UINT32 ∧
    (groupRecord sz g fs).1.indexOffset =
      (fs + sz.boneIndex * g.bones.card + sz.vertex * g.vertices.length) % UINT32 ∧
    (groupRecord sz g fs).1.numBones = g.bones.card % UINT32 ∧
    (groupRecord sz g fs).1.numVertices = g.vertices.length % UINT32 ∧
    (groupRecord sz g fs).1.numIndices = g.indices.length % UINT32 := by
  simp only [groupRecord, add_mul_mod, mod_add_eq, Nat.mod_eq_of_lt hfs, and_self]

theorem writeGroupRecs_length (sz : Sizes) : ∀ (gs : List Group) (fs : Nat),
    (writeGroupRecs sz gs fs).1.length = gs.length
  | [], _ => rfl
  | _ :: rest, _ => by
    simp only [writeGroupRecs, List.length_cons, writeGroupRecs_length sz rest]

theorem writeGroupRecs_snd (sz : Sizes) : ∀ (gs : List Group) (fs : Nat), fs < UINT32 →
    (∀ g ∈ gs, g.indices.length + 1 < UINT32) →
    (writeGroupRecs sz gs fs).2 = (fs + (gs.map (groupReserve sz)).sum) % UINT32
  | [], fs, h, _ => by
    simp only [writeGroupRecs, List.map_nil, List.sum_nil, Nat.add_zero]
    exact (Nat.mod_eq_of_lt h).symm
  | g :: rest, fs, _, hi => by
    simp only [writeGroupRecs, List.map_cons, List.sum_cons]
    rw [groupRecord_snd sz g fs (hi g (List.mem_cons_self _ _)),
      writeGroupRecs_snd sz rest _ (Nat.mod_lt _ (by decide))
        (fun x hx => hi x (List.mem_cons_of_mem _ hx)), mod_add_eq, Nat.add_assoc]

theorem writeGroupRecs_get (sz : Sizes) : ∀ (gs : List Group) (fs j : Nat) (rec : GroupRec)
    (g : Group), fs < UINT32 → (∀ g ∈ gs, g.indices.length + 1 < UINT32) →
    (writeGroupRecs sz gs fs).1[j]? = some rec → gs[j]? = some g →
    rec = (groupRecord sz g ((fs + ((gs.take j).map (groupReserve sz)).sum) % UINT32)).1
  | [], _, _, _, _, _, _, _, h => by simp at h
  | g0 :: rest, fs, 0, rec, g, hfs, _, hrec, hg => by
    simp only [List.getElem?_cons_zero, Option.some.injEq] at hg
    subst hg
    simp only [writeGroupRecs, List.getElem?_cons_zero, Option.some.injEq] at hrec
    subst hrec
    simp only [List.take_zero, List.map_nil, List.sum_nil, Nat.add_zero, Nat.mod_eq_of_lt hfs]
  | g0 :: rest, fs, j + 1, rec, g, _, hi, hrec, hg => by
    simp only [List.getElem?_cons_succ] at hg
    simp only [writeGroupRecs, List.getElem?_cons_succ] at hrec
    rw [groupRecord_snd sz g0 fs (hi g0 (List.mem_cons_self _ _))] at hrec
    rw [writeGroupRecs_get sz rest _ j rec g (Nat.mod_lt _ (by decide))
      (fun x hx => hi x (List.mem_cons_of_mem _ hx)) hrec hg]
    simp only [List.take_succ_cons, List.map_cons, List.sum_cons, mod_add_eq, Nat.add_assoc]

theorem writeGroups_lengths (sz : Sizes) : ∀ (datas : List ObjectData) (fs : Nat),
    (writeGroups sz datas fs).1.map List.length = datas.map fun d => d.groups.length
  | [], _ => rfl
  | d :: rest, _ => by
    simp only [writeGroups, List.map_cons, writeGroupRecs_length, writeGroups_lengths sz rest]

theorem writeGroups_get (sz : Sizes) : ∀ (datas : List ObjectData) (fs k : Nat)
    (recs : List GroupRec) (d : ObjectData), fs < UINT32 →
    (∀ d ∈ datas, ∀ g ∈ d.groups, g.indices.length + 1 < UINT32) →
    (writeGroups sz datas fs).1[k]? = some recs → datas[k]? = some d →
    recs = (writeGroupRecs sz d.groups
      ((fs + ((datas.take k).map (objectReserve sz)).sum) % UINT32)).1
  | [], _, _, _, _, _, _, _, h => by simp at h
  | d0 :: rest, fs, 0, recs, d, hfs, _, hrecs, hd => by
    simp only [List.getElem?_cons_zero, Option.some.injEq] at hd
    subst hd
    simp only [writeGroups, List.getElem?_cons_zero, Option.some.injEq] at hrecs
    subst hrecs
    simp only [List.take_zero, List.map_nil, List.sum_nil, Nat.add_zero, Nat.mod_eq_of_lt hfs]
  | d0 :: rest, fs, k + 1, recs, d, hfs, hi, hrecs, hd => by
    simp only [List.getElem?_cons_succ] at hd
    simp only [writeGroups, List.getElem?_cons_succ] at hrecs
    rw [writeGroupRecs_snd sz d0.groups fs hfs (hi d0 (List.mem_cons_self _ _))] at hrecs
    rw [writeGroups_get sz rest _ k recs d (Nat.mod_lt _ (by decide))
      (fun x hx => hi x (List.mem_cons_of_mem _ hx)) hrecs hd]
    simp only [List.take_succ_cons, List.map_cons, List.sum_cons, mod_add_eq, Nat.add_assoc,
      objectReserve]

/-! ## DoWriteModel: the payload of a group -/

theorem bitsetTest_ok {B : Finset Nat} {i : Nat} {r : Bool} (h : bitsetTest B i = .ok r) :
    i < MAX_BONES ∧ r = decide (i ∈ B) := by
  unfold bitsetTest at h
  by_cases hi : i < MAX_BONES
  · rw [if_pos hi] at h
    cases h
    exact ⟨hi, rfl⟩
  · rw [if_neg hi] at h
    cases h

theorem boneMapLoop_spec (B : Finset Nat) : ∀ (l w : List Nat) (m : List (Option Nat)) (n : Nat)
    (w1 : List Nat) (m1 : List (Option Nat)),
    boneMapLoop B l w m n = .ok (w1, m1) → l.Nodup → n + l.length < UINT32 →
    m.length = MAX_BONES →
    w1 = w ++ l.filter (fun i => decide (i ∈ B)) ∧ (∀ i ∈ l, i < MAX_BONES) ∧
      m1.length = MAX_BONES ∧
      (∀ b, b ∈ l → b ∈ B →
        m1[b]? = some (some (n + (l.filter fun i => decide (i ∈ B)).indexOf b))) ∧
      (∀ b, ¬ (b ∈ l ∧ b ∈ B) → m1[b]? = m[b]?)
  | [], w, m, n, w1, m1, h, _, _, hm => by
    simp only [boneMapLoop, Except.ok.injEq, Prod.mk.injEq] at h
    obtain ⟨rfl, rfl⟩ := h
    refine ⟨by simp, by simp, hm, by simp, fun _ _ => rfl⟩
  | i :: rest, w, m, n, w1, m1, h, hn, hlen, hm => by
    have hn1 := List.nodup_cons.1 hn
    simp only [List.length_cons] at hlen
    cases ht : bitsetTest B i with
    | error e =>
      simp only [boneMapLoop, ht] at h
      cases h
    | ok r =>
      obtain ⟨hi, hr⟩ := bitsetTest_ok ht
      by_cases hiB : i ∈ B
      · have hr1 : r = true := by rw [hr]; exact decide_eq_true hiB
        subst hr1
        simp only [boneMapLoop, ht] at h
        have hmod : (n + 1) % UINT32 = n + 1 := Nat.mod_eq_of_lt (by omega)
        rw [hmod] at h
        obtain ⟨e1, e2, e3, e4, e5⟩ := boneMapLoop_spec B rest _ _ _ w1 m1 h hn1.2
          (by omega) (by rw [List.length_set]; exact hm)
        have hfil : (i :: rest).filter (fun i => decide (i ∈ B)) =
            i :: rest.filter (fun i => decide (i ∈ B)) := by
          simp [List.filter_cons, hiB]
        refine ⟨?_, ?_, e3, ?_, ?_⟩
        · rw [e1, hfil]
          simp
        · intro j hj
          rcases List.mem_cons.1 hj with rfl | hj
          · exact hi
          · exact e2 j hj
        · intro b hb hbB
          rw [hfil]
          by_cases hbi : b = i
          · subst hbi
            rw [List.indexOf_cons_self, Nat.add_zero, e5 b (fun hh => hn1.1 hh.1)]
            exact List.getElem?_set_self (by rw [hm]; exact hi)
          · have hbr : b ∈ rest := by
              rcases List.mem_cons.1 hb with e | e
              · exact absurd e hbi
              · exact e
            rw [e4 b hbr hbB, List.indexOf_cons_ne _ (Ne.symm hbi)]
            congr 2
            omega
        · intro b hb
          have hbi : b ≠ i := by
            rintro rfl
            exact hb ⟨List.mem_cons_self _ _, hiB⟩
          rw [e5 b (fun hh => hb ⟨List.mem_cons_of_mem _ hh.1, hh.2⟩),
            List.getElem?_set_ne (Ne.symm hbi)]
      · have hr1 : r = false := by rw [hr]; exact decide_eq_false hiB
        subst hr1
        simp only [boneMapLoop, ht] at h
        obtain ⟨e1, e2, e3, e4, e5⟩ := boneMapLoop_spec B rest _ _ _ w1 m1 h hn1.2
          (by omega) hm
        have hfil : (i :: rest).filter (fun i => decide (i ∈ B)) =
            rest.filter (fun i => decide (i ∈ B)) := by
          simp [List.filter_cons, hiB]
        refine ⟨by rw [e1, hfil], ?_, e3, ?_, ?_⟩
        · intro j hj
          rcases List.mem_cons.1 hj with rfl | hj
          · exact hi
          · exact e2 j hj
        · intro b hb hbB
          rw [hfil]
          have hbr : b ∈ rest := by
            rcases List.mem_cons.1 hb with e | e
            · rw [e] at hbB
              exact absurd hbB hiB
            · exact e
          exact e4 b hbr hbB
        · intro b hb
          exact e5 b (fun hh => hb ⟨List.mem_cons_of_mem _ hh.1, hh.2⟩)

theorem length_filter_range_lt (B : Finset Nat) (b : Nat) :
    ((List.range b).filter fun i => decide (i ∈ B)).length = (B.filter fun c => c < b).card := by
  rw [← List.toFinset_card_of_nodup ((List.nodup_range b).filter _)]
  congr 1
  ext x
  simp only [List.toFinset_filter, decide_eq_true_eq, Finset.mem_filter, List.mem_toFinset,
    List.mem_range]
  exact and_comm

theorem length_filter_range_all (B : Finset Nat) (n : Nat) (h : ∀ b ∈ B, b < n) :
    ((List.range n).filter fun i => decide (i ∈ B)).length = B.card := by
  rw [length_filter_range_lt]
  congr 1
  ext x
  simp only [Finset.mem_filter, and_iff_left_iff_imp]
  exact h x

theorem indexOf_filter_range (B : Finset Nat) (b : Nat) : ∀ n : Nat,
    ((List.range n).filter fun i => decide (i ∈ B)).indexOf b =
      if b < n ∧ b ∈ B then ((List.range b).filter fun i => decide (i ∈ B)).length
      else ((List.range n).filter fun i => decide (i ∈ B)).length
  | 0 => by simp
  | n + 1 => by
    have ih := indexOf_filter_range B b n
    rw [List.range_succ, List.filter_append]
    by_cases hmem : b < n ∧ b ∈ B
    · have hin : b ∈ (List.range n).filter fun i => decide (i ∈ B) := by
        simp [List.mem_filter, hmem.1, hmem.2]
      rw [List.indexOf_append_of_mem hin, ih, if_pos hmem, if_pos ⟨by omega, hmem.2⟩]
    · have hnin : b ∉ (List.range n).filter fun i => decide (i ∈ B) := by
        simp only [List.mem_filter, List.mem_range, decide_eq_true_eq]
        exact hmem
      rw [List.indexOf_append_of_not_mem hnin]
      by_cases hb : b = n ∧ b ∈ B
      · obtain ⟨rfl, hbB⟩ := hb
        rw [if_pos ⟨by omega, hbB⟩]
        simp [List.filter_cons, hbB]
      · have hneg : ¬ (b < n + 1 ∧ b ∈ B) := by
          rintro ⟨h1, h2⟩
          by_cases hbn : b = n
          · exact hb ⟨hbn, h2⟩
          · exact hmem ⟨by omega, h2⟩
        rw [if_neg hneg, List.length_append]
        congr 1
        by_cases hnB : n ∈ B
        · have hbn : b ≠ n := by
            rintro rfl
            exact hb ⟨rfl, hnB⟩
          simp [List.filter_cons, hnB, List.indexOf_cons_ne _ (Ne.symm hbn)]
        · simp [List.filter_cons, hnB]

theorem foldl_set_length : ∀ (es : List (Nat × Nat)) (tbl : List Nat),
    (es.foldl (fun tbl it => tbl.set it.2 it.1) tbl).length = tbl.length
  | [], _ => rfl
  | e :: es, tbl => by
    simp only [List.foldl_cons]
    rw [foldl_set_length es, List.length_set]

theorem foldl_set_other : ∀ (es : List (Nat × Nat)) (tbl : List Nat) (m : Nat),
    m ∉ es.map Prod.snd → (es.foldl (fun tbl it => tbl.set it.2 it.1) tbl)[m]? = tbl[m]?
  | [], _, _, _ => rfl
  | e :: es, tbl, m, h => by
    simp only [List.map_cons, List.mem_cons, not_or] at h
    simp only [List.foldl_cons]
    rw [foldl_set_other es _ m h.2, List.getElem?_set_ne (Ne.symm h.1)]

theorem foldl_set_mem : ∀ (es : List (Nat × Nat)) (tbl : List Nat), (es.map Prod.snd).Nodup →
    ∀ e ∈ es, e.2 < tbl.length →
      (es.foldl (fun tbl it => tbl.set it.2 it.1) tbl)[e.2]? = some e.1
  | [], _, _, e, he, _ => by simp at he
  | e0 :: es, tbl, hn, e, he, hlt => by
    simp only [List.map_cons, List.nodup_cons] at hn
    simp only [List.foldl_cons]
    rcases List.mem_cons.1 he with rfl | he
    · rw [foldl_set_other es _ e.2 hn.1]
      exact List.getElem?_set_self hlt
    · exact foldl_set_mem es _ hn.2 e he (by rw [List.length_set]; exact hlt)

theorem vertexTable_length (g : Group) : (vertexTable g).length = g.vertices.length := by
  unfold vertexTable
  rw [foldl_set_length, List.length_replicate]

theorem vertexTable_get {g : Group} (h : GroupOK g) {m v : Nat}
    (hv : (vertexTable g)[m]? = some v) : (v, m) ∈ g.vertices := by
  have hm : m < g.vertices.length := by
    have := (List.getElem?_eq_some.1 hv).1
    rwa [vertexTable_length] at this
  have hmem : m ∈ g.vertices.map Prod.snd := h.vals.mem_iff.2 (List.mem_range.2 hm)
  obtain ⟨e, he, hem⟩ := List.mem_map.1 hmem
  have hlt : e.2 < (List.replicate g.vertices.length 0).length := by
    rw [List.length_replicate, hem]
    exact hm
  have := foldl_set_mem g.vertices _ h.vals_nodup e he hlt
  unfold vertexTable at hv
  rw [hem] at this
  rw [this] at hv
  cases hv
  rw [← hem]
  exact he

theorem boneMapLoop_lt (B : Finset Nat) : ∀ (l w : List Nat) (m : List (Option Nat)) (n : Nat)
    (r : List Nat × List (Option Nat)), boneMapLoop B l w m n = .ok r → ∀ i ∈ l, i < MAX_BONES
  | [], _, _, _, _, _, i, hi => by simp at hi
  | a :: rest, w, m, n, r, h, i, hi => by
    cases ht : bitsetTest B a with
    | error e =>
      simp only [boneMapLoop, ht] at h
      cases h
    | ok b =>
      have ha := (bitsetTest_ok ht).1
      rcases List.mem_cons.1 hi with rfl | hi
      · exact ha
      · cases b with
        | true =>
          simp only [boneMapLoop, ht] at h
          exact boneMapLoop_lt B rest _ _ _ r h i hi
        | false =>
          simp only [boneMapLoop, ht] at h
          exact boneMapLoop_lt B rest _ _ _ r h i hi

theorem skeleton_le_of_ok {B : Finset Nat} {sk : Nat} {r : List Nat × List (Option Nat)}
    (h : boneMapLoop B (List.range sk) [] (List.replicate MAX_BONES none) 0 = .ok r) :
    sk ≤ MAX_BONES := by
  by_contra hlt
  have := boneMapLoop_lt B _ _ _ _ r h MAX_BONES (List.mem_range.2 (by omega))
  exact absurd this (lt_irrefl _)

theorem writeVertices_spec (orig : SubObject) (bm : List (Option Nat)) :
    ∀ (l : List Nat) (vs : List VertexRec), writeVertices orig bm l = .ok vs →
    vs.length = l.length ∧ ∀ (m : Nat) (v : VertexRec), vs[m]? = some v →
      ∃ index, l[m]? = some index ∧ writeVertex orig bm index = .ok v
  | [], vs, h => by
    simp only [writeVertices, Except.ok.injEq] at h
    subst h
    exact ⟨rfl, fun m v hv => by simp at hv⟩
  | index :: rest, vs, h => by
    cases h1 : writeVertex orig bm index with
    | error e =>
      simp only [writeVertices, h1] at h
      cases h
    | ok v0 =>
      cases h2 : writeVertices orig bm rest with
      | error e =>
        simp only [writeVertices, h1, h2] at h
        cases h
      | ok vs0 =>
        simp only [writeVertices, h1, h2, Except.ok.injEq] at h
        subst h
        obtain ⟨hl, hget⟩ := writeVertices_spec orig bm rest vs0 h2
        refine ⟨by simp [hl], ?_⟩
        intro m v hv
        cases m with
        | zero =>
          simp only [List.getElem?_cons_zero, Option.some.injEq] at hv
          subst hv
          exact ⟨index, List.getElem?_cons_zero, h1⟩
        | succ m =>
          simp only [List.getElem?_cons_succ] at hv
          obtain ⟨x, hx, hw⟩ := hget m v hv
          exact ⟨x, by rw [List.getElem?_cons_succ]; exact hx, hw⟩

theorem writeGroupPayload_spec {sk : Nat} {orig : SubObject} {g : Group} {p : GroupPayload}
    (h : writeGroupPayload sk orig g = .ok p) :
    ∃ bm, boneMapLoop g.bones (List.range sk) [] (List.replicate MAX_BONES none) 0 =
        .ok (p.boneIndices, bm) ∧
      writeVertices orig bm (vertexTable g) = .ok p.vertices ∧
      p.indices = g.indices ∧ p.filler = decide (g.indices.length % 2 = 1) := by
  unfold writeGroupPayload at h
  cases h1 : boneMapLoop g.bones (List.range sk) [] (List.replicate MAX_BONES none) 0 with
  | error e =>
    simp only [h1] at h
    cases h
  | ok r =>
    obtain ⟨w, bm⟩ := r
    cases h2 : writeVertices orig bm (vertexTable g) with
    | error e =>
      simp only [h1, h2] at h
      cases h
    | ok vs =>
      simp only [h1, h2, Except.ok.injEq] at h
      subst h
      exact ⟨bm, rfl, h2, rfl, rfl⟩

theorem boneIndices_eq {sk : Nat} {orig : SubObject} {g : Group} {p : GroupPayload}
    (h : writeGroupPayload sk orig g = .ok p) :
    sk ≤ MAX_BONES ∧ p.boneIndices = (List.range sk).filter fun i => decide (i ∈ g.bones) := by
  obtain ⟨bm, h1, _⟩ := writeGroupPayload_spec h
  have hsk := skeleton_le_of_ok h1
  obtain ⟨e1, _⟩ := boneMapLoop_spec g.bones _ _ _ _ _ _ h1 (List.nodup_range sk)
    (by
      rw [List.length_range]
      simp only [UINT32, MAX_BONES] at *
      omega)
    (List.length_replicate _ _)
  exact ⟨hsk, by rw [e1]; rfl⟩

theorem elements16_eq {sk : Nat} {orig : SubObject} {g : Group} {p : GroupPayload}
    (h : writeGroupPayload sk orig g = .ok p) :
    p.elements16 = 2 * ((g.indices.length + 1) / 2) := by
  obtain ⟨_, _, _, hi, hf⟩ := writeGroupPayload_spec h
  unfold GroupPayload.elements16
  rw [hi, hf]
  by_cases hodd : g.indices.length % 2 = 1
  · simp only [hodd, decide_True, if_true]
    omega
  · simp only [hodd, decide_False, Bool.false_eq_true, if_false]
    omega

theorem payload_bytes {sz : Sizes} {sk : Nat} {orig : SubObject} {g : Group} {p : GroupPayload}
    (h : writeGroupPayload sk orig g = .ok p) (hb : ∀ b ∈ g.bones, b < sk) :
    p.boneIndices.length = g.bones.card ∧ p.vertices.length = g.vertices.length ∧
      GroupPayload.bytes sz p = groupReserve sz g := by
  obtain ⟨bm, _, h2, _, _⟩ := writeGroupPayload_spec h
  have hbi : p.boneIndices.length = g.bones.card := by
    rw [(boneIndices_eq h).2, length_filter_range_all g.bones sk hb]
  have hvl : p.vertices.length = g.vertices.length := by
    rw [(writeVertices_spec orig bm _ _ h2).1, vertexTable_length]
  refine ⟨hbi, hvl, ?_⟩
  unfold GroupPayload.bytes groupReserve
  rw [hbi, hvl, elements16_eq h]

theorem writeObjectPayload_spec (sk : Nat) (orig : SubObject) :
    ∀ (gs : List Group) (ps : List GroupPayload), writeObjectPayload sk orig gs = .ok ps →
    ps.length = gs.length ∧ ∀ (j : Nat) (p : GroupPayload), ps[j]? = some p →
      ∃ g, gs[j]? = some g ∧ writeGroupPayload sk orig g = .ok p
  | [], ps, h => by
    simp only [writeObjectPayload, Except.ok.injEq] at h
    subst h
    exact ⟨rfl, fun j p hp => by simp at hp⟩
  | g :: rest, ps, h => by
    cases h1 : writeGroupPayload sk orig g with
    | error e =>
      simp only [writeObjectPayload, h1] at h
      cases h
    | ok p0 =>
      cases h2 : writeObjectPayload sk orig rest with
      | error e =>
        simp only [writeObjectPayload, h1, h2] at h
        cases h
      | ok ps0 =>
        simp only [writeObjectPayload, h1, h2, Except.ok.injEq] at h
        subst h
        obtain ⟨hl, hget⟩ := writeObjectPayload_spec sk orig rest ps0 h2
        refine ⟨by simp [hl], ?_⟩
        intro j p hp
        cases j with
        | zero =>
          simp only [List.getElem?_cons_zero, Option.some.injEq] at hp
          subst hp
          exact ⟨g, List.getElem?_cons_zero, h1⟩
        | succ j =>
          simp only [List.getElem?_cons_succ] at hp
          obtain ⟨x, hx, hw⟩ := hget j p hp
          exact ⟨x, by rw [List.getElem?_cons_succ]; exact hx, hw⟩

theorem writePayload_spec (sk : Nat) : ∀ (datas : List ObjectData)
    (pss : List (List GroupPayload)), writePayload sk datas = .ok pss →
    pss.length = datas.length ∧ ∀ (k : Nat) (ps : List GroupPayload), pss[k]? = some ps →
      ∃ d, datas[k]? = some d ∧ writeObjectPayload sk d.original d.groups = .ok ps
  | [], pss, h => by
    simp only [writePayload, Except.ok.injEq] at h
    subst h
    exact ⟨rfl, fun k ps hp => by simp at hp⟩
  | d :: rest, pss, h => by
    cases h1 : writeObjectPayload sk d.original d.groups with
    | error e =>
      simp only [writePayload, h1] at h
      cases h
    | ok p0 =>
      cases h2 : writePayload sk rest with
      | error e =>
        simp only [writePayload, h1, h2] at h
        cases h
      | ok ps0 =>
        simp only [writePayload, h1, h2, Except.ok.injEq] at h
        subst h
        obtain ⟨hl, hget⟩ := writePayload_spec sk rest ps0 h2
        refine ⟨by simp [hl], ?_⟩
        intro k ps hp
        cases k with
        | zero =>
          simp only [List.getElem?_cons_zero, Option.some.injEq] at hp
          subst hp
          exact ⟨d, List.getElem?_cons_zero, h1⟩
        | succ k =>
          simp only [List.getElem?_cons_succ] at hp
          obtain ⟨x, hx, hw⟩ := hget k ps hp
          exact ⟨x, by rw [List.getElem?_cons_succ]; exact hx, hw⟩

theorem objectPayload_bytes (sz : Sizes) (sk : Nat) (orig : SubObject) :
    ∀ (gs : List Group) (ps : List GroupPayload), writeObjectPayload sk orig gs = .ok ps →
    (∀ g ∈ gs, ∀ b ∈ g.bones, b < sk) →
    ps.map (GroupPayload.bytes sz) = gs.map (groupReserve sz)
  | [], ps, h, _ => by
    simp only [writeObjectPayload, Except.ok.injEq] at h
    subst h
    rfl
  | g :: rest, ps, h, hb => by
    cases h1 : writeGroupPayload sk orig g with
    | error e =>
      simp only [writeObjectPayload, h1] at h
      cases h
    | ok p0 =>
      cases h2 : writeObjectPayload sk orig rest with
      | error e =>
        simp only [writeObjectPayload, h1, h2] at h
        cases h
      | ok ps0 =>
        simp only [writeObjectPayload, h1, h2, Except.ok.injEq] at h
        subst h
        simp only [List.map_cons]
        rw [(payload_bytes h1 (hb g (List.mem_cons_self _ _))).2.2,
          objectPayload_bytes sz sk orig rest ps0 h2
            (fun x hx => hb x (List.mem_cons_of_mem _ hx))]

theorem payload_all_bytes (sz : Sizes) (sk : Nat) : ∀ (datas : List ObjectData)
    (pss : List (List GroupPayload)), writePayload sk datas = .ok pss →
    (∀ d ∈ datas, ∀ g ∈ d.groups, ∀ b ∈ g.bones, b < sk) →
    pss.map (payloadBytes sz) = datas.map (objectReserve sz)
  | [], pss, h, _ => by
    simp only [writePayload, Except.ok.injEq] at h
    subst h
    rfl
  | d :: rest, pss, h, hb => by
    cases h1 : writeObjectPayload sk d.original d.groups with
    | error e =>
      simp only [writePayload, h1] at h
      cases h
    | ok p0 =>
      cases h2 : writePayload sk rest with
      | error e =>
        simp only [writePayload, h1, h2] at h
        cases h
      | ok ps0 =>
        simp only [writePayload, h1, h2, Except.ok.injEq] at h
        subst h
        simp only [List.map_cons]
        rw [payload_all_bytes sz sk rest ps0 h2 (fun x hx => hb x (List.mem_cons_of_mem _ hx))]
        congr 1
        unfold payloadBytes objectReserve
        rw [objectPayload_bytes sz sk d.original d.groups p0 h1 (hb d (List.mem_cons_self _ _))]

/-! ## DoWriteModel: the objects -/

theorem make_spec {fuel : Nat} {src : SubObject} {mb : Nat} {d : ObjectData}
    (h : ObjectData.make fuel src mb = .ok (some d)) :
    d.original = src ∧ ∃ p, construct fuel src mb = .ok (true, p) ∧ d.groups = p.groups := by
  unfold ObjectData.make at h
  cases hc : construct fuel src mb with
  | error e =>
    simp only [hc] at h
    cases h
  | ok r =>
    obtain ⟨b, p⟩ := r
    cases b with
    | false =>
      simp only [hc] at h
      cases h
    | true =>
      simp only [hc, Except.ok.injEq, Option.some.injEq] at h
      subst h
      exact ⟨rfl, p, rfl, rfl⟩

theorem makeObjects_spec (fuel mb : Nat) : ∀ (srcs : List SubObject) (datas : List ObjectData),
    makeObjects fuel mb srcs = .ok (some datas) →
    datas.length = srcs.length ∧ ∀ (k : Nat) (d : ObjectData), datas[k]? = some d →
      ∃ src, srcs[k]? = some src ∧ ObjectData.make fuel src mb = .ok (some d)
  | [], datas, h => by
    simp only [makeObjects, Except.ok.injEq, Option.some.injEq] at h
    subst h
    exact ⟨rfl, fun k d hd => by simp at hd⟩
  | src :: rest, datas, h => by
    cases h1 : ObjectData.make fuel src mb with
    | error e =>
      simp only [makeObjects, h1] at h
      cases h
    | ok o =>
      cases o with
      | none =>
        simp only [makeObjects, h1] at h
        cases h
      | some d0 =>
        cases h2 : makeObjects fuel mb rest with
        | error e =>
          simp only [makeObjects, h1, h2] at h
          cases h
        | ok o2 =>
          cases o2 with
          | none =>
            simp only [makeObjects, h1, h2] at h
            cases h
          | some ds =>
            simp only [makeObjects, h1, h2, Except.ok.injEq, Option.some.injEq] at h
            subst h
            obtain ⟨hl, hget⟩ := makeObjects_spec fuel mb rest ds h2
            refine ⟨by simp [hl], ?_⟩
            intro k d hd
            cases k with
            | zero =>
              simp only [List.getElem?_cons_zero, Option.some.injEq] at hd
              subst hd
              exact ⟨src, List.getElem?_cons_zero, h1⟩
            | succ k =>
              simp only [List.getElem?_cons_succ] at hd
              obtain ⟨x, hx, hw⟩ := hget k d hd
              exact ⟨x, by rw [List.getElem?_cons_succ]; exact hx, hw⟩

theorem setAll_ok : ∀ (l : List Nat) (s s1 : Finset Nat), setAll l s = .ok s1 →
    s1 = l.foldl (fun acc i => insert i acc) s
  | [], s, s1, h => by
    simp only [setAll, Except.ok.injEq] at h
    exact h.symm
  | i :: l, s, s1, h => by
    by_cases hi : i < MAX_BONES
    · simp only [setAll, bitsetSet, hi, if_true] at h
      exact setAll_ok l _ s1 h
    · simp only [setAll, bitsetSet, hi, if_false] at h
      cases h

theorem rigid_bones {fuel : Nat} {obj : SubObject} {mb : Nat} {b : Bool} {p : Partition}
    (hs : obj.x020_VertInfluences = []) (h : construct fuel obj mb = .ok (b, p)) :
    ∃ g, p.groups = [g] ∧ g.bones = Finset.range mb ∧
      g.vertices = identityMap obj.x010_FatVertexs.length ∧
      g.indices = obj.x038_short.map Fin.val := by
  simp only [construct, hs, List.length_nil, if_true, rigidGroup] at h
  cases h1 : setAll (List.range mb) ∅ with
  | error e =>
    simp only [h1] at h
    cases h
  | ok bones =>
    simp only [h1, Except.ok.injEq, Prod.mk.injEq] at h
    obtain ⟨_, rfl⟩ := h
    refine ⟨_, rfl, ?_, rfl, rfl⟩
    rw [setAll_ok _ _ _ h1, foldl_insert_range]

theorem mem_bones_buildTriangles {obj : SubObject} {t : Triangle} {b : Nat}
    (ht : t ∈ buildTriangles obj) (hb : b ∈ t.bones) :
    ∃ infs ∈ obj.x020_VertInfluences, ∃ inf ∈ infs, inf.x04 ≠ 0 ∧ inf.x00 = b := by
  simp only [buildTriangles, List.mem_map] at ht
  obtain ⟨c, _, rfl⟩ := ht
  simp only [mkTriangle, mem_unique, List.mem_insertionSort] at hb
  exact mem_rawBones hb

theorem group_bones_below {fuel : Nat} {obj : SubObject} {mb n : Nat} {p : Partition}
    (h : construct fuel obj mb = .ok (true, p)) (hbb : BonesBelow obj n) (hmb : mb ≤ n) :
    ∀ g ∈ p.groups, ∀ b ∈ g.bones, b < n := by
  intro g hg b hb
  by_cases hs : obj.x020_VertInfluences = []
  · obtain ⟨g0, hg0, hbones, _⟩ := rigid_bones hs h
    rw [hg0, List.mem_singleton] at hg
    subst hg
    rw [hbones, Finset.mem_range] at hb
    omega
  · rcases Outer_of_ok hs h with ⟨_, hf, _⟩ | ⟨O, _⟩
    · cases hf
    · obtain ⟨j, hj⟩ := List.mem_iff_getElem?.1 hg
      obtain ⟨i, t, ht, _, hbt⟩ := O.bsrc j g hj b hb
      obtain ⟨t0, ht0, hsh⟩ := map_getElem?_of_eq _ O.shape ht
      have hbones : t0.bones = t.bones := by
        have := congrArg Prod.snd hsh
        simpa using this
      obtain ⟨infs, h1, inf, h2, h3, h4⟩ :=
        mem_bones_buildTriangles (List.getElem?_mem ht0) (by rw [hbones]; exact hbt)
      rw [← h4]
      exact hbb infs h1 inf h2 h3

theorem writeSubs_length : ∀ (subs : List SubObjectAppearance) (rs : List MaterialRec),
    writeSubs subs = .ok rs → rs.length = subs.length
  | [], rs, h => by
    simp only [writeSubs, Except.ok.injEq] at h
    subst h
    rfl
  | sub :: rest, rs, h => by
    cases h1 : materialRecord sub with
    | error e =>
      simp only [writeSubs, h1] at h
      cases h
    | ok r =>
      cases h2 : writeSubs rest with
      | error e =>
        simp only [writeSubs, h1, h2] at h
        cases h
      | ok rs0 =>
        simp only [writeSubs, h1, h2, Except.ok.injEq] at h
        subst h
        simp [writeSubs_length rest rs0 h2]

theorem writeMaterials_length : ∀ (mats : List AppearanceMaterial) (rs : List MaterialRec),
    writeMaterials mats = .ok rs →
    rs.length = (mats.map fun m => m.x88_SubObjectAppearances.length).sum
  | [], rs, h => by
    simp only [writeMaterials, Except.ok.injEq] at h
    subst h
    rfl
  | mat :: rest, rs, h => by
    cases h1 : writeSubs mat.x88_SubObjectAppearances with
    | error e =>
      simp only [writeMaterials, h1] at h
      cases h
    | ok r =>
      cases h2 : writeMaterials rest with
      | error e =>
        simp only [writeMaterials, h1, h2] at h
        cases h
      | ok rs0 =>
        simp only [writeMaterials, h1, h2, Except.ok.injEq] at h
        subst h
        simp [writeSubs_length _ r h1, writeMaterials_length rest rs0 h2]

theorem sum_map_const_length (mats : List AppearanceMaterial) (n : Nat)
    (h : ∀ m ∈ mats, m.x88_SubObjectAppearances.length = n) :
    (mats.map fun m => m.x88_SubObjectAppearances.length).sum = n * mats.length := by
  induction mats with
  | nil => simp
  | cons m rest ih =>
    simp only [List.map_cons, List.sum_cons, List.length_cons]
    rw [h m (List.mem_cons_self _ _), ih (fun x hx => h x (List.mem_cons_of_mem _ hx))]
    rw [Nat.mul_succ, Nat.add_comm]

theorem sum_take_le (l : List Nat) (k : Nat) : (l.take k).sum ≤ l.sum := by
  have := List.sum_take_add_sum_drop l k
  omega

/-! ## DoWriteModel: the file as a whole -/

theorem DoWriteModel_ok {sz : Sizes} {fuel : Nat} {app : Appearance} {f : ModelFile}
    (h : DoWriteModel sz fuel app = .ok (some f)) :
    ∃ datas fs,
      fs = ((modelHeader sz app).materialOffset +
        sz.material * (modelHeader sz app).numAppearances * (modelHeader sz app).numMaterials) %
          UINT32 ∧
      makeObjects fuel (app.x010_BoneStructures.length % UINT32) app.x10_SubObjects =
        .ok (some datas) ∧
      writeMaterials app.x1B0_AppearanceMaterials = .ok f.materials ∧
      writePayload app.x010_BoneStructures.length datas = .ok f.payload ∧
      f.header = modelHeader sz app ∧
      f.bones = (writeBones sz app.x010_BoneStructures fs).1 ∧
      f.hardpoints = app.x0F0_Hardpoints ∧
      f.objects = (writeObjects sz app.x1B0_AppearanceMaterials datas
        (writeBones sz app.x010_BoneStructures fs).2).1 ∧
      f.appendix = app.x010_BoneStructures.map boneAppendix ∧
      f.groups = (writeGroups sz datas (writeObjects sz app.x1B0_AppearanceMaterials datas
        (writeBones sz app.x010_BoneStructures fs).2).2).1 := by
  unfold DoWriteModel at h
  cases hm : makeObjects fuel (app.x010_BoneStructures.length % UINT32) app.x10_SubObjects with
  | error e =>
    simp only [hm] at h
    cases h
  | ok r =>
    cases r with
    | none =>
      simp only [hm] at h
      cases h
    | some datas =>
      cases hw : writeMaterials app.x1B0_AppearanceMaterials with
      | error e =>
        simp only [hm, hw] at h
        cases h
      | ok materials =>
        cases hp : writePayload app.x010_BoneStructures.length datas with
        | error e =>
          simp only [hm, hw, hp] at h
          cases h
        | ok payload =>
          simp only [hm, hw, hp, Except.ok.injEq, Option.some.injEq] at h
          subst h
          refine ⟨datas, _, rfl, ?_, ?_, ?_, rfl, rfl, rfl, rfl, rfl, rfl⟩
          all_goals first | rfl | exact hm | exact hw | exact hp

theorem modelHeader_offsets (sz : Sizes) (app : Appearance) :
    (modelHeader sz app).boneOffset = sz.header % UINT32 ∧
    (modelHeader sz app).hardpointOffset =
      (sz.header + sz.bone * app.x010_BoneStructures.length) % UINT32 ∧
    (modelHeader sz app).objectOffset =
      (sz.header + sz.bone * app.x010_BoneStructures.length +
        sz.hardpoint * app.x0F0_Hardpoints.length) % UINT32 ∧
    (modelHeader sz app).materialOffset =
      (sz.header + sz.bone * app.x010_BoneStructures.length +
        sz.hardpoint * app.x0F0_Hardpoints.length + sz.object * app.x10_SubObjects.length) %
          UINT32 := by
  simp only [modelHeader, mod_add_eq, Nat.mul_comm, and_self]

theorem materials_reserve (sz : Sizes) (app : Appearance) :
    ((modelHeader sz app).materialOffset +
      sz.material * (modelHeader sz app).numAppearances * (modelHeader sz app).numMaterials) %
        UINT32 =
    (sz.header + sz.bone * app.x010_BoneStructures.length +
      sz.hardpoint * app.x0F0_Hardpoints.length + sz.object * app.x10_SubObjects.length +
      sz.material * (app.x1C0_AppearanceLooks.length * app.x1B0_AppearanceMaterials.length)) %
        UINT32 := by
  rw [(modelHeader_offsets sz app).2.2.2]
  have h := (Nat.mod_modEq (sz.header + sz.bone * app.x010_BoneStructures.length +
      sz.hardpoint * app.x0F0_Hardpoints.length + sz.object * app.x10_SubObjects.length)
      UINT32).add
    (((Nat.ModEq.refl sz.material).mul (Nat.mod_modEq app.x1C0_AppearanceLooks.length UINT32)).mul
      (Nat.mod_modEq app.x1B0_AppearanceMaterials.length UINT32))
  rw [Nat.mul_assoc sz.material app.x1C0_AppearanceLooks.length] at h
  exact h

theorem capsule_mem_boneAppendix (src : BoneStructure) :
    AppendixRec.capsule ∈ boneAppendix src ↔ src.x118_CollisionShapes.length ≠ 0 := by
  unfold boneAppendix
  by_cases h1 : src.x118_CollisionShapes.length ≠ 0 <;>
    by_cases h2 : src.x128_ConstraintParameters.length ≠ 0 <;>
    simp [h1, h2]

theorem constraint_mem_boneAppendix (src : BoneStructure) :
    AppendixRec.constraint ∈ boneAppendix src ↔ src.x128_ConstraintParameters.length ≠ 0 := by
  unfold boneAppendix
  by_cases h1 : src.x118_CollisionShapes.length ≠ 0 <;>
    by_cases h2 : src.x128_ConstraintParameters.length ≠ 0 <;>
    simp [h1, h2]

theorem sum_take_add_le : ∀ (l : List Nat) (i a : Nat), l[i]? = some a →
    (l.take i).sum + a ≤ l.sum
  | [], _, _, h => by simp at h
  | x :: l, 0, a, h => by
    simp only [List.getElem?_cons_zero, Option.some.injEq] at h
    subst h
    simp
  | x :: l, i + 1, a, h => by
    simp only [List.getElem?_cons_succ] at h
    have := sum_take_add_le l i a h
    simp only [List.take_succ_cons, List.sum_cons]
    omega


theorem DoWriteModel_layout {sz : Sizes} {fuel : Nat} {app : Appearance} {f : ModelFile}
    (h : DoWriteModel sz fuel app = .ok (some f))
    (hmat : ∀ m ∈ app.x1B0_AppearanceMaterials,
      m.x88_SubObjectAppearances.length = app.x1C0_AppearanceLooks.length)
    (hbelow : ∀ obj ∈ app.x10_SubObjects, BonesBelow obj app.x010_BoneStructures.length)
    (hsize : f.bytes sz < UINT32) :
    ∃ datas,
      makeObjects fuel (app.x010_BoneStructures.length % UINT32) app.x10_SubObjects =
        .ok (some datas) ∧
      writePayload app.x010_BoneStructures.length datas = .ok f.payload ∧
      (∀ d ∈ datas, ∀ g ∈ d.groups, ∀ b ∈ g.bones, b < app.x010_BoneStructures.length) ∧
      (∀ d ∈ datas, ∀ g ∈ d.groups, g.indices.length + 1 < UINT32) ∧
      f.payload.map (payloadBytes sz) = datas.map (objectReserve sz) ∧
      f.groups.map List.length = datas.map (fun d => d.groups.length) ∧
      f.bones = (writeBones sz app.x010_BoneStructures (f.appendixStart sz % UINT32)).1 ∧
      f.objects = (writeObjects sz app.x1B0_AppearanceMaterials datas
        (f.groupStart sz % UINT32)).1 ∧
      f.groups = (writeGroups sz datas (f.payloadStart sz % UINT32)).1 ∧
      f.appendix = app.x010_BoneStructures.map boneAppendix ∧
      f.header = modelHeader sz app ∧
      f.bones.length = app.x010_BoneStructures.length ∧
      f.hardpoints = app.x0F0_Hardpoints ∧
      f.objects.length = app.x10_SubObjects.length := by
  obtain ⟨datas, fs, hfs, hmk, hwm, hwp, hH, hB, hHp, hO, hA, hG⟩ := DoWriteModel_ok h
  have hM : (0 : Nat) < UINT32 := by decide
  have lb : f.bones.length = app.x010_BoneStructures.length := by rw [hB, writeBones_length]
  have lo : f.objects.length = datas.length := by rw [hO, writeObjects_length]
  have ld : datas.length = app.x10_SubObjects.length := (makeObjects_spec _ _ _ _ hmk).1
  have lm : f.materials.length =
      app.x1C0_AppearanceLooks.length * app.x1B0_AppearanceMaterials.length := by
    rw [writeMaterials_length _ _ hwm, sum_map_const_length _ _ hmat]
  have hgb : ∀ d ∈ datas, ∀ g ∈ d.groups, ∀ b ∈ g.bones, b < app.x010_BoneStructures.length := by
    intro d hd g hg
    obtain ⟨k, hk⟩ := List.getElem?_of_mem hd
    obtain ⟨src, hsrc, hmake⟩ := (makeObjects_spec _ _ _ _ hmk).2 k d hk
    obtain ⟨_, p, hc, hgp⟩ := make_spec hmake
    rw [hgp] at hg
    exact group_bones_below hc (hbelow src (List.getElem?_mem hsrc)) (Nat.mod_le _ _) g hg
  have hpb : f.payload.map (payloadBytes sz) = datas.map (objectReserve sz) :=
    payload_all_bytes sz _ datas _ hwp hgb
  have hgl : f.groups.map List.length = datas.map (fun d => d.groups.length) := by
    rw [hG, writeGroups_lengths]
  have hidx : ∀ d ∈ datas, ∀ g ∈ d.groups, g.indices.length + 1 < UINT32 := by
    intro d hd g hg
    have h1 : groupReserve sz g ≤ objectReserve sz d :=
      List.le_sum_of_mem (List.mem_map_of_mem _ hg)
    have h2 : objectReserve sz d ≤ (datas.map (objectReserve sz)).sum :=
      List.le_sum_of_mem (List.mem_map_of_mem _ hd)
    have h3 : (datas.map (objectReserve sz)).sum ≤ f.bytes sz := by
      unfold ModelFile.bytes objectsPayloadBytes
      rw [hpb]
      omega
    unfold groupReserve at h1
    have hs : f.bytes sz < 4294967296 := hsize
    show g.indices.length + 1 < 4294967296
    omega
  have e5 : fs = f.appendixStart sz % UINT32 := by
    rw [hfs, materials_reserve]
    unfold ModelFile.appendixStart
    rw [lb, hHp, lo, ld, lm]
  have hfslt : fs < UINT32 := by
    rw [e5]
    exact Nat.mod_lt _ hM
  have e6 : (writeBones sz app.x010_BoneStructures fs).2 = f.groupStart sz % UINT32 := by
    rw [writeBones_snd _ _ _ hfslt, e5, mod_add_eq]
    unfold ModelFile.groupStart
    rw [hA]
  have e7 : (writeObjects sz app.x1B0_AppearanceMaterials datas
      (writeBones sz app.x010_BoneStructures fs).2).2 = f.payloadStart sz % UINT32 := by
    rw [writeObjects_snd _ _ _ _ (by rw [e6]; exact Nat.mod_lt _ hM), e6, mod_add_eq]
    unfold ModelFile.payloadStart groupCount
    rw [hgl]
  rw [e6] at hO
  rw [e7] at hG
  rw [e5] at hB
  exact ⟨datas, hmk, hwp, hgb, hidx, hpb, hgl, hB, hO, hG, hA, hH, lb, hHp, lo.trans ld⟩


theorem offsets_arith (P Y Z bi vx idx oR total bytes x1 x2 x3 : Nat)
    (hYle : Y + oR ≤ total) (hZle : Z + (bi + vx + idx) ≤ oR) (hb : P + total = bytes)
    (hs : bytes < 4294967296)
    (f1 : x1 = ((P % 4294967296 + Y) % 4294967296 + Z) % 4294967296 % 4294967296)
    (f2 : x2 = (((P % 4294967296 + Y) % 4294967296 + Z) % 4294967296 + bi) % 4294967296)
    (f3 : x3 = (((P % 4294967296 + Y) % 4294967296 + Z) % 4294967296 + bi + vx) % 4294967296) :
    x1 = P + Y + Z ∧ x2 = x1 + bi ∧ x3 = x2 + vx := by
  omega

theorem payload_lengths (sk : Nat) : ∀ (datas : List ObjectData)
    (pss : List (List GroupPayload)), writePayload sk datas = .ok pss →
    pss.map List.length = datas.map fun d => d.groups.length
  | [], pss, h => by
    simp only [writePayload, Except.ok.injEq] at h
    subst h
    rfl
  | d :: rest, pss, h => by
    cases h1 : writeObjectPayload sk d.original d.groups with
    | error e =>
      simp only [writePayload, h1] at h
      cases h
    | ok p0 =>
      cases h2 : writePayload sk rest with
      | error e =>
        simp only [writePayload, h1, h2] at h
        cases h
      | ok ps0 =>
        simp only [writePayload, h1, h2, Except.ok.injEq] at h
        subst h
        simp only [List.map_cons, payload_lengths sk rest ps0 h2,
          (writeObjectPayload_spec sk d.original d.groups p0 h1).1]

theorem appendix_take_le (sz : Sizes) (bones : List BoneStructure) (i : Nat)
    (src : BoneStructure) (h : bones[i]? = some src) :
    appendixBytes sz ((bones.take i).map boneAppendix) + boneAppendixBytes sz src ≤
      appendixBytes sz (bones.map boneAppendix) := by
  unfold appendixBytes
  rw [List.map_map, List.map_map, List.map_take]
  apply sum_take_add_le
  rw [List.getElem?_map, h]
  simp only [Option.map_some', Function.comp_apply, bytes_boneAppendix]

/-! ## Claims on `DoWriteModel` -/

/-- C7, counterexample: on `sampleBareMaterial`, whose one material has no
sub-object appearance for its one look, the one bone records the capsule offset
160 although its capsule record is written at byte 144, the space of one `Material`
record having been counted and no such record written. -/
theorem capsule_offset_past_position :
    ∃ (f : ModelFile) (rec : BoneRec),
      DoWriteModel sampleSizes 1 sampleBareMaterial = .ok (some f) ∧
      f.bones[0]? = some rec ∧ f.appendix[0]? = some [AppendixRec.capsule] ∧
      rec.capsuleOffset = 160 ∧
      f.appendixStart sampleSizes + appendixBytes sampleSizes (f.appendix.take 0) = 144 :=
  ⟨_, _, rfl, rfl, rfl, rfl, rfl⟩

/-- C7, amended: when every material has one sub-object appearance per look, every
bone id of a non-zero weight is below the number of bone structures, and the
written file is shorter than `2^32` bytes, every offset that `DoWriteModel` records
is the number of bytes written before the data it points to: the four section
offsets of the header, the capsule and constraint offset of every bone that has
such a record (0 otherwise), the group offset of every object, and the bone,
vertex and index offset of every group; the appendix has one entry per bone, and
the group records and payloads are aligned with the objects. -/
theorem model_offsets_are_positions (sz : Sizes) (fuel : Nat) (app : Appearance) (f : ModelFile)
    (h : DoWriteModel sz fuel app = .ok (some f))
    (hmat : ∀ m ∈ app.x1B0_AppearanceMaterials,
      m.x88_SubObjectAppearances.length = app.x1C0_AppearanceLooks.length)
    (hbelow : ∀ obj ∈ app.x10_SubObjects, BonesBelow obj app.x010_BoneStructures.length)
    (hsize : f.bytes sz < UINT32) :
    f.header.boneOffset = sz.header ∧
    f.header.hardpointOffset = sz.header + sz.bone * f.bones.length ∧
    f.header.objectOffset =
      sz.header + sz.bone * f.bones.length + sz.hardpoint * f.hardpoints.length ∧
    f.header.materialOffset =
      sz.header + sz.bone * f.bones.length + sz.hardpoint * f.hardpoints.length +
        sz.object * f.objects.length ∧
    f.appendix.length = f.bones.length ∧ f.groups.length = f.objects.length ∧
    f.payload.map List.length = f.groups.map List.length ∧
    (∀ (i : Nat) (rec : BoneRec) (recs : List AppendixRec),
      f.bones[i]? = some rec → f.appendix[i]? = some recs →
      (AppendixRec.capsule ∈ recs →
        rec.capsuleOffset = f.appendixStart sz + appendixBytes sz (f.appendix.take i)) ∧
      (AppendixRec.constraint ∈ recs →
        rec.constraintOffset = f.appendixStart sz + appendixBytes sz (f.appendix.take i) +
          (if AppendixRec.capsule ∈ recs then sz.capsuleInfo else 0)) ∧
      (AppendixRec.capsule ∉ recs → rec.capsuleOffset = 0) ∧
      (AppendixRec.constraint ∉ recs → rec.constraintOffset = 0)) ∧
    (∀ (k : Nat) (rec : ObjectRec), f.objects[k]? = some rec →
      rec.groupOffset = f.groupStart sz + sz.objectGroup * groupCount (f.groups.take k)) ∧
    (∀ (k j : Nat) (recs : List GroupRec) (ps : List GroupPayload) (rec : GroupRec)
      (p : GroupPayload), f.groups[k]? = some recs → f.payload[k]? = some ps →
      recs[j]? = some rec → ps[j]? = some p →
      rec.boneOffset = f.payloadStart sz + objectsPayloadBytes sz (f.payload.take k) +
        payloadBytes sz (ps.take j) ∧
      rec.vertexOffset = rec.boneOffset + sz.boneIndex * p.boneIndices.length ∧
      rec.indexOffset = rec.vertexOffset + sz.vertex * p.vertices.length) := by
  obtain ⟨datas, hmk, hwp, hgb, hidx, hpb, hgl, hB, hO, hG, hA, hH, lb, hHp, lo⟩ :=
    DoWriteModel_layout h hmat hbelow hsize
  have hM : (0 : Nat) < UINT32 := by decide
  have b4 : sz.header + sz.bone * f.bones.length + sz.hardpoint * f.hardpoints.length +
      sz.object * f.objects.length + sz.material * f.materials.length = f.appendixStart sz := rfl
  have b5 : f.appendixStart sz + appendixBytes sz f.appendix = f.groupStart sz := rfl
  have b6 : f.groupStart sz + sz.objectGroup * groupCount f.groups = f.payloadStart sz := rfl
  have b7 : f.payloadStart sz + objectsPayloadBytes sz f.payload = f.bytes sz := rfl
  have hoff := modelHeader_offsets sz app
  rw [← hH, ← lb, ← hHp, ← lo] at hoff
  have ld : datas.length = f.objects.length := by rw [hO, writeObjects_length]
  refine ⟨?_, ?_, ?_, ?_, ?_, ?_, ?_, ?_, ?_, ?_⟩
  · rw [hoff.1]
    exact Nat.mod_eq_of_lt (lt_of_le_of_lt (by omega) hsize)
  · rw [hoff.2.1]
    exact Nat.mod_eq_of_lt (lt_of_le_of_lt (by omega) hsize)
  · rw [hoff.2.2.1]
    exact Nat.mod_eq_of_lt (lt_of_le_of_lt (by omega) hsize)
  · rw [hoff.2.2.2]
    exact Nat.mod_eq_of_lt (lt_of_le_of_lt (by omega) hsize)
  · rw [hA, List.length_map, lb]
  · have := congrArg List.length hgl
    simp only [List.length_map] at this
    rw [this, ld]
  · rw [hgl]
    exact payload_lengths _ _ _ hwp
  · intro i rec recs hrec hrecs
    rw [hA, List.getElem?_map] at hrecs
    obtain ⟨src, hsrc, rfl⟩ := Option.map_eq_some'.1 hrecs
    rw [hB] at hrec
    obtain ⟨hc, hk⟩ := writeBones_get sz _ _ i rec src (Nat.mod_lt _ hM) hrec hsrc
    have htake : f.appendix.take i = (app.x010_BoneStructures.take i).map boneAppendix := by
      rw [hA, List.map_take]
    have hle := appendix_take_le sz _ i src hsrc
    rw [← htake, ← hA] at hle
    rw [← htake, mod_add_eq] at hc
    rw [← htake, Nat.add_assoc, mod_add_eq, ← Nat.add_assoc] at hk
    unfold boneAppendixBytes at hle
    simp only [capsule_mem_boneAppendix, constraint_mem_boneAppendix]
    by_cases h1 : src.x118_CollisionShapes.length ≠ 0 <;>
      by_cases h2 : src.x128_ConstraintParameters.length ≠ 0
    · rw [if_pos h1, if_pos h2] at hle
      rw [if_pos h1] at hc
      rw [if_pos h2, if_pos h1] at hk
      rw [if_pos h1, hc, hk]
      exact ⟨fun _ => Nat.mod_eq_of_lt (lt_of_le_of_lt (by omega) hsize),
        fun _ => Nat.mod_eq_of_lt (lt_of_le_of_lt (by omega) hsize),
        fun hn => absurd h1 hn, fun hn => absurd h2 hn⟩
    · rw [if_pos h1, if_neg h2] at hle
      rw [if_pos h1] at hc
      rw [if_neg h2] at hk
      rw [if_pos h1, hc, hk]
      exact ⟨fun _ => Nat.mod_eq_of_lt (lt_of_le_of_lt (by omega) hsize),
        fun hn => absurd hn h2, fun hn => absurd h1 hn, fun _ => rfl⟩
    · rw [if_neg h1, if_pos h2] at hle
      rw [if_neg h1] at hc
      rw [if_pos h2, if_neg h1] at hk
      rw [if_neg h1, hc, hk]
      exact ⟨fun hn => absurd hn h1,
        fun _ => Nat.mod_eq_of_lt (lt_of_le_of_lt (by omega) hsize),
        fun _ => rfl, fun hn => absurd h2 hn⟩
    · rw [if_neg h1] at hc
      rw [if_neg h2] at hk
      rw [if_neg h1, hc, hk]
      exact ⟨fun hn => absurd hn h1, fun hn => absurd hn h2, fun _ => rfl, fun _ => rfl⟩
  · intro k rec hrec
    rw [hO] at hrec
    have hg := writeObjects_get sz _ datas _ k rec (Nat.mod_lt _ hM) hrec
    have hcount : groupCount (f.groups.take k) =
        ((datas.take k).map fun d => d.groups.length).sum := by
      unfold groupCount
      rw [List.map_take, hgl, ← List.map_take]
    have hle : groupCount (f.groups.take k) ≤ groupCount f.groups := by
      unfold groupCount
      rw [List.map_take]
      exact sum_take_le _ _
    have hmul := Nat.mul_le_mul_left sz.objectGroup hle
    rw [← hcount, mod_add_eq] at hg
    rw [hg]
    exact Nat.mod_eq_of_lt (lt_of_le_of_lt (by omega) hsize)
  · intro k j recs ps rec p hrecs hps hrec hp
    obtain ⟨d, hd, hop⟩ := (writePayload_spec _ datas _ hwp).2 k ps hps
    obtain ⟨g, hg, hgp⟩ := (writeObjectPayload_spec _ d.original d.groups ps hop).2 j p hp
    have hdm : d ∈ datas := List.getElem?_mem hd
    rw [hG] at hrecs
    have e1 := writeGroups_get sz datas _ k recs d (Nat.mod_lt _ hM) hidx hrecs hd
    rw [e1] at hrec
    have e2 := writeGroupRecs_get sz d.groups _ j rec g (Nat.mod_lt _ hM) (hidx d hdm) hrec hg
    obtain ⟨f1, f2, f3, _⟩ := groupRecord_fst sz g
      (((f.payloadStart sz % UINT32 + ((datas.take k).map (objectReserve sz)).sum) % UINT32 +
        ((d.groups.take j).map (groupReserve sz)).sum) % UINT32) (Nat.mod_lt _ hM)
    rw [← e2] at f1 f2 f3
    obtain ⟨pb, pv, _⟩ := @payload_bytes sz _ _ _ _ hgp (hgb d hdm g (List.getElem?_mem hg))
    have hY : objectsPayloadBytes sz (f.payload.take k) =
        ((datas.take k).map (objectReserve sz)).sum := by
      unfold objectsPayloadBytes
      rw [List.map_take, hpb, ← List.map_take]
    have hZ : payloadBytes sz (ps.take j) = ((d.groups.take j).map (groupReserve sz)).sum := by
      unfold payloadBytes
      rw [List.map_take, objectPayload_bytes sz _ _ _ _ hop (hgb d hdm), ← List.map_take]
    have hYle : objectsPayloadBytes sz (f.payload.take k) + objectReserve sz d ≤
        objectsPayloadBytes sz f.payload := by
      rw [hY]
      unfold objectsPayloadBytes
      rw [hpb, List.map_take]
      apply sum_take_add_le
      rw [List.getElem?_map, hd]
      rfl
    have hZle : payloadBytes sz (ps.take j) + groupReserve sz g ≤ objectReserve sz d := by
      rw [hZ]
      unfold objectReserve
      rw [List.map_take]
      apply sum_take_add_le
      rw [List.getElem?_map, hg]
      rfl
    have hgr : groupReserve sz g = sz.boneIndex * g.bones.card + sz.vertex * g.vertices.length +
        2 * (2 * ((g.indices.length + 1) / 2)) := rfl
    rw [← hY, ← hZ] at f1 f2 f3
    rw [pb, pv]
    exact offsets_arith _ _ _ _ _ _ _ _ _ _ _ _ hYle (hgr ▸ hZle) b7 hsize f1 f2 f3


set_option maxRecDepth 100000 in
/-- C7, the amended statement at `sampleAppearance` with `sampleSizes`. -/
theorem model_offsets_are_positions_witness :
    ∃ f, DoWriteModel sampleSizes 3 sampleAppearance = .ok (some f) ∧
      f.bytes sampleSizes = 1128 ∧
      f.header.materialOffset = 44 + 100 * f.bones.length + 80 * f.hardpoints.length +
        12 * f.objects.length :=
  ⟨_, rfl, rfl,
    (model_offsets_are_positions sampleSizes 3 sampleAppearance _ rfl (by decide) (by decide)
      (by decide)).2.2.2.1⟩


/-! ## DoWriteModel: the bones of a written vertex -/

theorem bones_of_vertex {obj : SubObject} {t : Triangle} (ht : t ∈ buildTriangles obj)
    {v : Nat} (hv : v ∈ t.verts) {inf : Influence}
    (hinf : inf ∈ obj.x020_VertInfluences.getD v []) (hw : inf.x04 ≠ 0) : inf.x00 ∈ t.bones := by
  simp only [buildTriangles, List.mem_map] at ht
  obtain ⟨c, _, rfl⟩ := ht
  show inf.x00 ∈ unique ((rawBones obj.x020_VertInfluences c).insertionSort (· ≤ ·))
  rw [mem_unique, List.mem_insertionSort]
  simp only [rawBones, List.mem_flatMap, List.mem_map, List.mem_filter, decide_eq_true_eq]
  exact ⟨v, hv, inf, ⟨hinf, hw⟩, rfl⟩

theorem vertex_bones_active {fuel : Nat} {obj : SubObject} {mb : Nat} {b : Bool} {p : Partition}
    (hs : obj.x020_VertInfluences ≠ []) (h : construct fuel obj mb = .ok (b, p))
    {j : Nat} {g : Group} (hg : p.groups[j]? = some g) :
    GroupOK g ∧ g.bones.card ≤ MAX_GROUP_BONES ∧
    ∀ e ∈ g.vertices, e.1 < obj.x020_VertInfluences.length ∧
      ∀ inf ∈ obj.x020_VertInfluences.getD e.1 [], inf.x04 ≠ 0 → inf.x00 ∈ g.bones := by
  have hin := inRange_of_ok hs h
  rcases Outer_of_ok hs h with ⟨_, _, rfl⟩ | ⟨ho, _⟩
  · simp at hg
  · have hgm : g ∈ p.groups := List.getElem?_mem hg
    refine ⟨(ho.gok g hgm).1, ho.cap g hgm, ?_⟩
    intro e he
    obtain ⟨i, t, hti, htg, hev⟩ := ho.vsrc j g hg e he
    obtain ⟨g1, hg1, hsub⟩ := ho.sub i t j hti htg
    rw [hg] at hg1
    cases hg1
    obtain ⟨t0, ht0, hshape⟩ := map_getElem?_of_eq (fun t => (t.verts, t.bones)) ho.shape hti
    simp only [Prod.mk.injEq] at hshape
    have ht0m : t0 ∈ buildTriangles obj := List.getElem?_mem ht0
    rw [← hshape.1] at hev
    constructor
    · apply hin t0.verts _ e.1 hev
      rw [← buildTriangles_verts]
      exact List.mem_map_of_mem _ ht0m
    · intro inf hinf hw
      apply hsub
      rw [← hshape.2]
      exact bones_of_vertex ht0m hev hinf hw

theorem influenceSlot_ok {bm : List (Option Nat)} {inf : List Influence} {s : Nat}
    {r : Option Nat × Int} (h : influenceSlot bm inf s = .ok r) :
    ∃ e, inf[s]? = some e ∧ bm[e.x00]? = some r.1 ∧ r.2 = e.x04 := by
  unfold influenceSlot at h
  cases h1 : inf[s]? with
  | none =>
    simp only [h1] at h
    cases h
  | some e =>
    cases h2 : bm[e.x00]? with
    | none =>
      simp only [h1, h2] at h
      cases h
    | some slot =>
      simp only [h1, h2, Except.ok.injEq] at h
      subst h
      exact ⟨e, rfl, h2, rfl⟩

theorem writeVertex_skinned {orig : SubObject} {bm : List (Option Nat)} {index : Nat}
    {v : VertexRec} (h : writeVertex orig bm index = .ok v)
    (hlt : index < orig.x020_VertInfluences.length) :
    ∀ s, s < 3 → ∃ (e : Influence) (slot : Option Nat),
      (orig.x020_VertInfluences.getD index [])[s]? = some e ∧ bm[e.x00]? = some slot ∧
      v.bone_idx[s]? = some slot ∧ v.bone_weight[s]? = some e.x04 := by
  unfold writeVertex at h
  cases hf : orig.x010_FatVertexs[index]? with
  | none =>
    simp only [hf] at h
    cases h
  | some src =>
    simp only [hf, gt_iff_lt, hlt, if_true] at h
    cases h0 : influenceSlot bm (orig.x020_VertInfluences.getD index []) 0 with
    | error e =>
      simp only [h0] at h
      cases h
    | ok s0 =>
      cases h1 : influenceSlot bm (orig.x020_VertInfluences.getD index []) 1 with
      | error e =>
        simp only [h0, h1] at h
        cases h
      | ok s1 =>
        cases h2 : influenceSlot bm (orig.x020_VertInfluences.getD index []) 2 with
        | error e =>
          simp only [h0, h1, h2] at h
          cases h
        | ok s2 =>
          simp only [h0, h1, h2, Except.ok.injEq] at h
          subst h
          obtain ⟨e0, a0, b0, c0⟩ := influenceSlot_ok h0
          obtain ⟨e1, a1, b1, c1⟩ := influenceSlot_ok h1
          obtain ⟨e2, a2, b2, c2⟩ := influenceSlot_ok h2
          intro s hs
          interval_cases s
          · exact ⟨e0, s0.1, a0, b0, rfl, by rw [← c0]; rfl⟩
          · exact ⟨e1, s1.1, a1, b1, rfl, by rw [← c1]; rfl⟩
          · exact ⟨e2, s2.1, a2, b2, rfl, by rw [← c2]; rfl⟩

theorem palette_slot {B : Finset Nat} {sk : Nat} {w : List Nat} {bm : List (Option Nat)}
    (h : boneMapLoop B (List.range sk) [] (List.replicate MAX_BONES none) 0 = .ok (w, bm))
    {b : Nat} (hb : b < sk) (hB : b ∈ B) :
    bm[b]? = some (some (w.indexOf b)) ∧ w.indexOf b = (B.filter fun c => c < b).card ∧
      w.indexOf b < w.length := by
  have hsk := skeleton_le_of_ok h
  obtain ⟨e1, _, _, e4, _⟩ := boneMapLoop_spec B _ _ _ _ _ _ h (List.nodup_range sk)
    (by
      rw [List.length_range]
      show 0 + sk < 4294967296
      have : sk ≤ 128 := hsk
      omega)
    (List.length_replicate _ _)
  rw [List.nil_append] at e1
  have hmem : b ∈ w := by
    rw [e1, List.mem_filter]
    exact ⟨List.mem_range.2 hb, decide_eq_true hB⟩
  have hidx : w.indexOf b = (B.filter fun c => c < b).card := by
    rw [e1, indexOf_filter_range, if_pos ⟨hb, hB⟩, length_filter_range_lt]
  refine ⟨?_, hidx, List.indexOf_lt_length.2 hmem⟩
  rw [e4 b (List.mem_range.2 hb) hB, Nat.zero_add, ← e1]

theorem boneIndices_sorted {sk : Nat} {orig : SubObject} {g : Group} {p : GroupPayload}
    (h : writeGroupPayload sk orig g = .ok p) (hb : ∀ b ∈ g.bones, b < sk) :
    p.boneIndices.Sorted (· < ·) ∧ ∀ b, b ∈ p.boneIndices ↔ b ∈ g.bones := by
  rw [(boneIndices_eq h).2]
  refine ⟨(List.pairwise_lt_range sk).filter _, fun b => ?_⟩
  simp only [List.mem_filter, List.mem_range, decide_eq_true_eq, and_iff_right_iff_imp]
  exact hb b

theorem writeGroupRecs_numBones (sz : Sizes) : ∀ (gs : List Group) (fs : Nat),
    (writeGroupRecs sz gs fs).1.map (fun r => r.numBones) =
      gs.map fun g => g.bones.card % UINT32
  | [], _ => rfl
  | g :: rest, fs => by
    simp only [writeGroupRecs, List.map_cons, writeGroupRecs_numBones sz rest]
    rfl

theorem writeGroups_numBones (sz : Sizes) : ∀ (datas : List ObjectData) (fs : Nat),
    (writeGroups sz datas fs).1.map (fun recs => recs.map fun r => r.numBones) =
      datas.map fun d => d.groups.map fun g => g.bones.card % UINT32
  | [], _ => rfl
  | d :: rest, fs => by
    simp only [writeGroups, List.map_cons, writeGroups_numBones sz rest,
      writeGroupRecs_numBones]

theorem numBones_get {sz : Sizes} {datas : List ObjectData} {fs k j : Nat}
    {recs : List GroupRec} {rec : GroupRec} {d : ObjectData} {g : Group}
    (hrecs : (writeGroups sz datas fs).1[k]? = some recs) (hrec : recs[j]? = some rec)
    (hd : datas[k]? = some d) (hg : d.groups[j]? = some g) :
    rec.numBones = g.bones.card % UINT32 := by
  have h1 := congrArg (fun l => l[k]?) (writeGroups_numBones sz datas fs)
  simp only [List.getElem?_map, hrecs, hd, Option.map_some', Option.some.injEq] at h1
  have h2 := congrArg (fun l => l[j]?) h1
  simp only [List.getElem?_map, hrec, hg, Option.map_some', Option.some.injEq] at h2
  exact h2

/-! ## Claims on the vertices that `DoWriteModel` writes -/

set_option maxRecDepth 100000 in
/-- C8, counterexample: on `sampleOrphanBone`, whose skeleton has one bone while
the vertices are bound to bone 1, the group of the sub-object has bone 1 active,
yet no bone index is written for it, and the bone index written for the pair of
weight 1 of vertex 0 is read from a table entry that was never assigned. -/
theorem orphan_bone_has_no_slot :
    ∃ (f : ModelFile) (p : GroupPayload) (v : VertexRec),
      DoWriteModel sampleSizes 2 sampleOrphanBone = .ok (some f) ∧
      f.payload[0]? = some [p] ∧ p.boneIndices = [] ∧ p.vertices[0]? = some v ∧
      v.bone_weight[0]? = some 1 ∧ v.bone_idx[0]? = some none :=
  ⟨_, _, _, rfl, rfl, rfl, rfl, rfl, rfl⟩

/-- C8, amended: when every bone id of a non-zero weight is below the number of
bone structures, then for every group of a skinned sub-object and every vertex
written for it, each of the three influence pairs of the vertex's original has its
weight written unchanged, and a pair of non-zero weight names a bone that is
active in the group and is written with the position of that bone in the group's
bone-index list as written; the list is ascending and holds exactly the active
bones, so the position is the number of smaller active bones, and it is below the
group's `numBones`, which is at most 24. -/
theorem vertex_bones_in_palette (sz : Sizes) (fuel : Nat) (app : Appearance) (f : ModelFile)
    (h : DoWriteModel sz fuel app = .ok (some f))
    (hbelow : ∀ obj ∈ app.x10_SubObjects, BonesBelow obj app.x010_BoneStructures.length)
    (k j m : Nat) (src : SubObject) (recs : List GroupRec) (rec : GroupRec)
    (ps : List GroupPayload) (p : GroupPayload) (v : VertexRec)
    (hsrc : app.x10_SubObjects[k]? = some src) (hskin : src.x020_VertInfluences ≠ [])
    (hrecs : f.groups[k]? = some recs) (hrec : recs[j]? = some rec)
    (hps : f.payload[k]? = some ps) (hp : ps[j]? = some p) (hv : p.vertices[m]? = some v) :
    ∃ (part : Partition) (g : Group) (orig : Nat),
      construct fuel src (app.x010_BoneStructures.length % UINT32) = .ok (true, part) ∧
      part.groups[j]? = some g ∧ (orig, m) ∈ g.vertices ∧
      rec.numBones = g.bones.card ∧ rec.numBones ≤ MAX_GROUP_BONES ∧
      p.boneIndices.Sorted (· < ·) ∧ (∀ b, b ∈ p.boneIndices ↔ b ∈ g.bones) ∧
      p.boneIndices.length = rec.numBones ∧
      ∀ s, s < 3 → ∃ e : Influence,
        (src.x020_VertInfluences.getD orig [])[s]? = some e ∧
        v.bone_weight[s]? = some e.x04 ∧
        (e.x04 ≠ 0 → e.x00 ∈ g.bones ∧
          v.bone_idx[s]? = some (some (p.boneIndices.indexOf e.x00)) ∧
          p.boneIndices.indexOf e.x00 = (g.bones.filter fun c => c < e.x00).card ∧
          p.boneIndices.indexOf e.x00 < rec.numBones) := by
  obtain ⟨datas, fs, _, hmk, _, hwp, _, _, _, _, _, hG⟩ := DoWriteModel_ok h
  obtain ⟨d, hd, hop⟩ := (writePayload_spec _ datas _ hwp).2 k ps hps
  obtain ⟨src1, hsrc1, hmake⟩ := (makeObjects_spec _ _ _ _ hmk).2 k d hd
  rw [hsrc] at hsrc1
  cases hsrc1
  obtain ⟨horig, part, hc, hgp⟩ := make_spec hmake
  obtain ⟨g, hg, hw⟩ := (writeObjectPayload_spec _ d.original d.groups ps hop).2 j p hp
  rw [horig] at hw
  obtain ⟨bm, hbm, hvs, _, _⟩ := writeGroupPayload_spec hw
  obtain ⟨orig, hot, hwv⟩ := (writeVertices_spec src bm _ _ hvs).2 m v hv
  have hgpart : part.groups[j]? = some g := by rw [← hgp]; exact hg
  obtain ⟨gok, hcap, hact⟩ := vertex_bones_active hskin hc hgpart
  have hmem : (orig, m) ∈ g.vertices := vertexTable_get gok hot
  obtain ⟨hlt, hbones⟩ := hact (orig, m) hmem
  have hgb : ∀ b ∈ g.bones, b < app.x010_BoneStructures.length :=
    group_bones_below hc (hbelow src (List.getElem?_mem hsrc)) (Nat.mod_le _ _) g
      (List.getElem?_mem hgpart)
  rw [hG] at hrecs
  have hnb : rec.numBones = g.bones.card := by
    rw [numBones_get hrecs hrec hd hg]
    apply Nat.mod_eq_of_lt
    show g.bones.card < 4294967296
    have : g.bones.card ≤ 24 := hcap
    omega
  obtain ⟨hsorted, hiff⟩ := boneIndices_sorted hw hgb
  have hlen : p.boneIndices.length = rec.numBones := by
    rw [hnb]
    exact (@payload_bytes sz _ _ _ _ hw hgb).1
  refine ⟨part, g, orig, hc, hgpart, hmem, hnb, by rw [hnb]; exact hcap, hsorted, hiff, hlen, ?_⟩
  intro s hs
  obtain ⟨e, slot, he, hslot, hidx, hwt⟩ := writeVertex_skinned hwv hlt s hs
  refine ⟨e, he, hwt, fun hne => ?_⟩
  have heB : e.x00 ∈ g.bones := hbones e (List.getElem?_mem he) hne
  obtain ⟨q1, q2, q3⟩ := palette_slot hbm (hgb _ heB) heB
  rw [q1] at hslot
  cases hslot
  exact ⟨heB, hidx, q2, by rw [← hlen]; exact q3⟩


set_option maxRecDepth 100000 in
/-- C8, the amended statement at vertex 3 of the first sub-object of
`sampleAppearance`, which is bound to bone 3. -/
theorem vertex_bones_in_palette_witness :
    ∃ (f : ModelFile),
      DoWriteModel sampleSizes 3 sampleAppearance = .ok (some f) ∧
      ∃ (part : Partition) (g : Group) (orig : Nat),
        construct 3 sampleSkinned (sampleAppearance.x010_BoneStructures.length % UINT32) =
          .ok (true, part) ∧
        part.groups[0]? = some g ∧ (orig, 3) ∈ g.vertices :=
  ⟨_, rfl, by
    obtain ⟨part, g, orig, h1, h2, h3, _⟩ :=
      vertex_bones_in_palette sampleSizes 3 sampleAppearance _ rfl (by decide) 0 0 3
        sampleSkinned _ _ _ _ _ rfl (by decide) rfl rfl rfl rfl rfl
    exact ⟨part, g, orig, h1, h2, h3⟩⟩

/-! ## The packed asset writer: alignment -/

theorem padLoop_spec (n : Nat) :
    n + (padLoop 4 n).length = 4 * ((n + 3) / 4) ∧ (∀ b ∈ padLoop 4 n, b = 0) ∧
      ∀ fuel, 3 ≤ fuel → padLoop fuel n = padLoop 3 n := by
  have key : ∀ fuel, 3 ≤ fuel → padLoop fuel n = List.replicate ((4 - n % 4) % 4) 0 := by
    intro fuel hf
    obtain ⟨k, rfl⟩ : ∃ k, fuel = k + 3 := ⟨fuel - 3, by omega⟩
    have h4 : n % 4 = 0 ∨ n % 4 = 1 ∨ n % 4 = 2 ∨ n % 4 = 3 := by omega
    rcases h4 with h | h | h | h
    · simp [padLoop, h]
    · have h1 : (n + 1) % 4 = 2 := by omega
      have h2 : (n + 1 + 1) % 4 = 3 := by omega
      have h3 : (n + 1 + 1 + 1) % 4 = 0 := by omega
      cases k <;> simp [padLoop, h, h1, h2, h3, List.replicate]
    · have h1 : (n + 1) % 4 = 3 := by omega
      have h2 : (n + 1 + 1) % 4 = 0 := by omega
      simp [padLoop, h, h1, h2, List.replicate]
    · have h1 : (n + 1) % 4 = 0 := by omega
      simp [padLoop, h, h1, List.replicate]
  refine ⟨?_, ?_, fun fuel hf => ?_⟩
  · rw [key 4 (by omega), List.length_replicate]
    omega
  · rw [key 4 (by omega)]
    intro b hb
    exact List.eq_of_mem_replicate hb
  · rw [key fuel hf, key 3 (le_refl 3)]

theorem align4_add (off n : Nat) (h4 : off % 4 = 0) (hlt : off + 4 * ((n + 3) / 4) < UINT32) :
    align4 ((off + n) % UINT32) = off + 4 * ((n + 3) / 4) := by
  unfold align4
  have hlt1 : off + 4 * ((n + 3) / 4) < 4294967296 := hlt
  show ((off + n) % 4294967296 + 3) % 4294967296 / 4 * 4 = off + 4 * ((n + 3) / 4)
  omega

theorem blobBytes_eq (mat : ObjMaterial) :
    blobBytes (if mat.tex.length ≠ 0 then
      some { data := mat.tex, padding := padLoop 4 mat.tex.length } else none) =
      4 * ((mat.tex.length + 3) / 4) := by
  by_cases h : mat.tex.length ≠ 0
  · rw [if_pos h]
    exact (padLoop_spec mat.tex.length).1
  · rw [if_neg h]
    have h0 : mat.tex.length = 0 := not_not.1 h
    rw [h0]
    rfl

theorem texturesBytes_cons (mat : ObjMaterial) (rest : List ObjMaterial) :
    texturesBytes (textureBlobs (mat :: rest)) =
      4 * ((mat.tex.length + 3) / 4) + texturesBytes (textureBlobs rest) := by
  unfold texturesBytes textureBlobs
  rw [List.map_cons, List.map_cons, List.sum_cons, blobBytes_eq]

theorem texturesBytes_mod4 : ∀ mats : List ObjMaterial,
    texturesBytes (textureBlobs mats) % 4 = 0
  | [] => rfl
  | mat :: rest => by
    have := texturesBytes_mod4 rest
    rw [texturesBytes_cons]
    omega

theorem modelOffset_eq : ∀ (mats : List ObjMaterial) (off : Nat), off % 4 = 0 →
    off + texturesBytes (textureBlobs mats) < UINT32 →
    modelOffset mats off = off + texturesBytes (textureBlobs mats)
  | [], off, _, _ => rfl
  | mat :: rest, off, h4, hlt => by
    rw [texturesBytes_cons] at hlt ⊢
    have hlt1 : off + 4 * ((mat.tex.length + 3) / 4) < UINT32 := by
      show _ < 4294967296
      have : off + (4 * ((mat.tex.length + 3) / 4) + texturesBytes (textureBlobs rest)) <
        4294967296 := hlt
      omega
    unfold modelOffset
    rw [align4_add off _ h4 hlt1, modelOffset_eq rest _ (by omega) (by rw [Nat.add_assoc]; exact hlt),
      Nat.add_assoc]

theorem materialRecords_length : ∀ (mats : List ObjMaterial) (off : Nat),
    (materialRecords mats off).length = mats.length
  | [], _ => rfl
  | mat :: rest, off => by
    simp only [materialRecords, List.length_cons, materialRecords_length rest]

theorem materialRecords_get : ∀ (mats : List ObjMaterial) (off i : Nat) (rec : PackedMaterial)
    (mat : ObjMaterial), off % 4 = 0 → off + texturesBytes (textureBlobs mats) < UINT32 →
    (materialRecords mats off)[i]? = some rec → mats[i]? = some mat →
    rec.texOffset = (if mat.tex.length ≠ 0 then
      off + texturesBytes (textureBlobs (mats.take i)) else 0) ∧
    rec.texSize = mat.tex.length
  | [], _, _, _, _, _, _, h, _ => by simp [materialRecords] at h
  | m :: rest, off, 0, rec, mat, h4, hlt, hrec, hmat => by
    simp only [List.getElem?_cons_zero, Option.some.injEq] at hmat
    subst hmat
    simp only [materialRecords, List.getElem?_cons_zero, Option.some.injEq] at hrec
    subst hrec
    rw [texturesBytes_cons] at hlt
    refine ⟨by simp [texturesBytes, textureBlobs], ?_⟩
    apply Nat.mod_eq_of_lt
    show _ < 4294967296
    have : off + (4 * ((m.tex.length + 3) / 4) + texturesBytes (textureBlobs rest)) <
      4294967296 := hlt
    omega
  | m :: rest, off, i + 1, rec, mat, h4, hlt, hrec, hmat => by
    simp only [List.getElem?_cons_succ] at hmat
    simp only [materialRecords, List.getElem?_cons_succ] at hrec
    rw [texturesBytes_cons] at hlt
    have hlt1 : off + 4 * ((m.tex.length + 3) / 4) < UINT32 := by
      show _ < 4294967296
      have : off + (4 * ((m.tex.length + 3) / 4) + texturesBytes (textureBlobs rest)) <
        4294967296 := hlt
      omega
    rw [align4_add off _ h4 hlt1] at hrec
    have ih := materialRecords_get rest _ i rec mat (by omega)
      (by rw [Nat.add_assoc]; exact hlt) hrec hmat
    rw [List.take_succ_cons, texturesBytes_cons, ← Nat.add_assoc]
    exact ih

/-! ## The packed asset writer: the objects -/

theorem indexElements_eq (mdl : Object) :
    (objectPayload mdl).indexElements = 2 * ((mdl.index_list.length + 1) / 2) := by
  unfold ObjectPayload.indexElements objectPayload
  by_cases hodd : mdl.index_list.length % 2 = 1
  · simp only [hodd, decide_True, if_true]
    omega
  · simp only [hodd, decide_False, Bool.false_eq_true, if_false]
    omega

theorem faceElements_eq (mdl : Object) :
    (objectPayload mdl).faceElements = 2 * ((mdl.face_list.length + 1) / 2) := by
  unfold ObjectPayload.faceElements objectPayload
  by_cases hodd : mdl.face_list.length % 2 = 1
  · simp only [hodd, decide_True, if_true]
    omega
  · simp only [hodd, decide_False, Bool.false_eq_true, if_false]
    omega

theorem packedObject_bytes (mdl : Object) :
    (objectPayload mdl).bytes 20 =
      20 * mdl.vertex_list.length + 2 * (2 * ((mdl.index_list.length + 1) / 2)) +
        4 * mdl.face_sizes.length + 2 * (2 * ((mdl.face_list.length + 1) / 2)) := by
  unfold ObjectPayload.bytes
  rw [indexElements_eq, faceElements_eq]
  simp only [objectPayload, List.length_map]

theorem object_step (off nv ni nfs nfl : Nat) (h4 : off % 4 = 0)
    (hlt : off + (20 * nv + 2 * (2 * ((ni + 1) / 2)) + 4 * nfs + 2 * (2 * ((nfl + 1) / 2))) <
      UINT32) :
    (off + nv * 20) % UINT32 = off + 20 * nv ∧
    align4 (((off + nv * 20) % UINT32 + ni * 2) % UINT32) =
      off + 20 * nv + 2 * (2 * ((ni + 1) / 2)) ∧
    (align4 (((off + nv * 20) % UINT32 + ni * 2) % UINT32) + nfs * 4) % UINT32 =
      off + 20 * nv + 2 * (2 * ((ni + 1) / 2)) + 4 * nfs ∧
    align4 (((align4 (((off + nv * 20) % UINT32 + ni * 2) % UINT32) + nfs * 4) % UINT32 +
        nfl * 2) % UINT32) =
      off + (20 * nv + 2 * (2 * ((ni + 1) / 2)) + 4 * nfs + 2 * (2 * ((nfl + 1) / 2))) := by
  have hlt1 : off + (20 * nv + 2 * (2 * ((ni + 1) / 2)) + 4 * nfs + 2 * (2 * ((nfl + 1) / 2))) <
      4294967296 := hlt
  have e1 : (off + nv * 20) % UINT32 = off + 20 * nv := by
    show (off + nv * 20) % 4294967296 = _
    omega
  have e2 : align4 ((off + 20 * nv + ni * 2) % UINT32) =
      off + 20 * nv + 2 * (2 * ((ni + 1) / 2)) := by
    show ((off + 20 * nv + ni * 2) % 4294967296 + 3) % 4294967296 / 4 * 4 = _
    omega
  have e3 : (off + 20 * nv + 2 * (2 * ((ni + 1) / 2)) + nfs * 4) % UINT32 =
      off + 20 * nv + 2 * (2 * ((ni + 1) / 2)) + 4 * nfs := by
    show _ % 4294967296 = _
    omega
  have e4 : align4 ((off + 20 * nv + 2 * (2 * ((ni + 1) / 2)) + 4 * nfs + nfl * 2) % UINT32) =
      off + (20 * nv + 2 * (2 * ((ni + 1) / 2)) + 4 * nfs + 2 * (2 * ((nfl + 1) / 2))) := by
    show ((off + 20 * nv + 2 * (2 * ((ni + 1) / 2)) + 4 * nfs + nfl * 2) % 4294967296 + 3) %
      4294967296 / 4 * 4 = _
    omega
  rw [e1, e2, e3, e4]
  exact ⟨rfl, rfl, rfl, rfl⟩

theorem packedPayloadBytes_cons (mdl : Object) (rest : List Object) :
    packedPayloadBytes 20 ((mdl :: rest).map objectPayload) =
      (20 * mdl.vertex_list.length + 2 * (2 * ((mdl.index_list.length + 1) / 2)) +
        4 * mdl.face_sizes.length + 2 * (2 * ((mdl.face_list.length + 1) / 2))) +
      packedPayloadBytes 20 (rest.map objectPayload) := by
  unfold packedPayloadBytes
  rw [List.map_cons, List.map_cons, List.sum_cons, packedObject_bytes]

theorem shaderOffset_eq : ∀ (objs : List Object) (off : Nat), off % 4 = 0 →
    off + packedPayloadBytes 20 (objs.map objectPayload) < UINT32 →
    shaderOffset 20 objs off = off + packedPayloadBytes 20 (objs.map objectPayload)
  | [], off, _, _ => rfl
  | mdl :: rest, off, h4, hlt => by
    rw [packedPayloadBytes_cons] at hlt ⊢
    have hlt1 : off + (20 * mdl.vertex_list.length +
        2 * (2 * ((mdl.index_list.length + 1) / 2)) + 4 * mdl.face_sizes.length +
        2 * (2 * ((mdl.face_list.length + 1) / 2))) < UINT32 := by
      rw [← Nat.add_assoc] at hlt
      exact lt_of_le_of_lt (Nat.le_add_right _ _) hlt
    obtain ⟨_, _, _, e4⟩ := object_step off _ _ _ _ h4 hlt1
    unfold shaderOffset
    simp only []
    rw [e4, shaderOffset_eq rest _ (by omega) (by rw [Nat.add_assoc]; exact hlt), Nat.add_assoc]

theorem objectRecords_length : ∀ (objs : List Object) (off : Nat),
    (objectRecords 20 objs off).length = objs.length
  | [], _ => rfl
  | mdl :: rest, off => by
    simp only [objectRecords, List.length_cons, objectRecords_length rest]

theorem objectRecords_get : ∀ (objs : List Object) (off k : Nat) (rec : PackedObject)
    (mdl : Object), off % 4 = 0 →
    off + packedPayloadBytes 20 (objs.map objectPayload) < UINT32 →
    (objectRecords 20 objs off)[k]? = some rec → objs[k]? = some mdl →
    rec.vertexOffset = off + packedPayloadBytes 20 ((objs.take k).map objectPayload) ∧
    rec.indexOffset = rec.vertexOffset + 20 * mdl.vertex_list.length ∧
    rec.faceSizeOffset = rec.indexOffset + 2 * (2 * ((mdl.index_list.length + 1) / 2)) ∧
    rec.faceOffset = rec.faceSizeOffset + 4 * mdl.face_sizes.length
  | [], _, _, _, _, _, _, h, _ => by simp [objectRecords] at h
  | m :: rest, off, 0, rec, mdl, h4, hlt, hrec, hmdl => by
    simp only [List.getElem?_cons_zero, Option.some.injEq] at hmdl
    subst hmdl
    simp only [objectRecords, List.getElem?_cons_zero, Option.some.injEq] at hrec
    subst hrec
    rw [packedPayloadBytes_cons, ← Nat.add_assoc] at hlt
    obtain ⟨e1, e2, e3, _⟩ := object_step off _ _ _ _ h4
      (lt_of_le_of_lt (Nat.le_add_right _ _) hlt)
    simp only []
    rw [e3, e2, e1]
    exact ⟨by simp [packedPayloadBytes], rfl, rfl, rfl⟩
  | m :: rest, off, k + 1, rec, mdl, h4, hlt, hrec, hmdl => by
    simp only [List.getElem?_cons_succ] at hmdl
    simp only [objectRecords, List.getElem?_cons_succ] at hrec
    rw [packedPayloadBytes_cons] at hlt
    obtain ⟨_, _, _, e4⟩ := object_step off _ _ _ _ h4
      (by rw [← Nat.add_assoc] at hlt; exact lt_of_le_of_lt (Nat.le_add_right _ _) hlt)
    rw [e4] at hrec
    have ih := objectRecords_get rest _ k rec mdl (by omega)
      (by rw [Nat.add_assoc]; exact hlt) hrec hmdl
    rw [List.take_succ_cons, packedPayloadBytes_cons, ← Nat.add_assoc]
    exact ih

/-! ## The packed asset writer: the buffer as a whole -/

theorem writePacked_layout (mats : List ObjMaterial) (objs : List Object) (vsh psh : List Nat)
    (hsize : (writePacked 20 mats objs vsh psh).bytes 20 < UINT32) :
    (32 + mats.length * 52) % UINT32 = 32 + 52 * mats.length ∧
    modelOffset mats (32 + 52 * mats.length) =
      32 + 52 * mats.length + texturesBytes (textureBlobs mats) ∧
    (32 + 52 * mats.length + texturesBytes (textureBlobs mats) + objs.length * 36) % UINT32 =
      32 + 52 * mats.length + texturesBytes (textureBlobs mats) + 36 * objs.length ∧
    shaderOffset 20 objs
        (32 + 52 * mats.length + texturesBytes (textureBlobs mats) + 36 * objs.length) =
      32 + 52 * mats.length + texturesBytes (textureBlobs mats) + 36 * objs.length +
        packedPayloadBytes 20 (objs.map objectPayload) ∧
    (32 + 52 * mats.length + texturesBytes (textureBlobs mats) + 36 * objs.length +
        packedPayloadBytes 20 (objs.map objectPayload) + vsh.length) % UINT32 =
      32 + 52 * mats.length + texturesBytes (textureBlobs mats) + 36 * objs.length +
        packedPayloadBytes 20 (objs.map objectPayload) + vsh.length ∧
    32 + 52 * mats.length + texturesBytes (textureBlobs mats) + 36 * objs.length +
        packedPayloadBytes 20 (objs.map objectPayload) + vsh.length + psh.length < 4294967296 := by
  have hb : (writePacked 20 mats objs vsh psh).bytes 20 =
      32 + 52 * mats.length + texturesBytes (textureBlobs mats) + 36 * objs.length +
        packedPayloadBytes 20 (objs.map objectPayload) + vsh.length + psh.length := by
    simp only [PackedFile.bytes, PackedFile.shaderStart, PackedFile.payloadStart,
      PackedFile.objectStart, PackedFile.textureStart, writePacked, materialRecords_length,
      objectRecords_length, PackedHeader.bytes, PackedMaterial.bytes, PackedObject.bytes]
  rw [hb] at hsize
  have hs : 32 + 52 * mats.length + texturesBytes (textureBlobs mats) + 36 * objs.length +
      packedPayloadBytes 20 (objs.map objectPayload) + vsh.length + psh.length < 4294967296 :=
    hsize
  have hT := texturesBytes_mod4 mats
  refine ⟨?_, ?_, ?_, ?_, ?_, hs⟩
  · show (32 + mats.length * 52) % 4294967296 = _
    omega
  · exact modelOffset_eq mats _ (by omega) (by show _ < 4294967296; omega)
  · show _ % 4294967296 = _
    omega
  · exact shaderOffset_eq objs _ (by omega) (by show _ < 4294967296; omega)
  · show _ % 4294967296 = _
    omega

theorem packed_starts (mats : List ObjMaterial) (objs : List Object) (vsh psh : List Nat)
    (hsize : (writePacked 20 mats objs vsh psh).bytes 20 < UINT32) :
    (writePacked 20 mats objs vsh psh).textureStart = 32 + 52 * mats.length ∧
    (writePacked 20 mats objs vsh psh).objectStart =
      32 + 52 * mats.length + texturesBytes (textureBlobs mats) ∧
    (writePacked 20 mats objs vsh psh).payloadStart =
      32 + 52 * mats.length + texturesBytes (textureBlobs mats) + 36 * objs.length ∧
    (writePacked 20 mats objs vsh psh).shaderStart 20 =
      32 + 52 * mats.length + texturesBytes (textureBlobs mats) + 36 * objs.length +
        packedPayloadBytes 20 (objs.map objectPayload) ∧
    (writePacked 20 mats objs vsh psh).header.modelOffset =
      32 + 52 * mats.length + texturesBytes (textureBlobs mats) ∧
    (writePacked 20 mats objs vsh psh).header.vshOffset =
      32 + 52 * mats.length + texturesBytes (textureBlobs mats) + 36 * objs.length +
        packedPayloadBytes 20 (objs.map objectPayload) := by
  obtain ⟨l1, l2, l3, l4, l5, hs⟩ := writePacked_layout mats objs vsh psh hsize
  have hts : (writePacked 20 mats objs vsh psh).textureStart = 32 + 52 * mats.length := by
    simp only [PackedFile.textureStart, writePacked, materialRecords_length,
      PackedHeader.bytes, PackedMaterial.bytes]
  have hos : (writePacked 20 mats objs vsh psh).objectStart =
      32 + 52 * mats.length + texturesBytes (textureBlobs mats) := by
    unfold PackedFile.objectStart
    rw [hts]
    rfl
  have hps : (writePacked 20 mats objs vsh psh).payloadStart =
      32 + 52 * mats.length + texturesBytes (textureBlobs mats) + 36 * objs.length := by
    unfold PackedFile.payloadStart
    rw [hos]
    simp only [writePacked, objectRecords_length, PackedObject.bytes]
  have hss : (writePacked 20 mats objs vsh psh).shaderStart 20 =
      32 + 52 * mats.length + texturesBytes (textureBlobs mats) + 36 * objs.length +
        packedPayloadBytes 20 (objs.map objectPayload) := by
    unfold PackedFile.shaderStart
    rw [hps]
    rfl
  have hmo : (writePacked 20 mats objs vsh psh).header.modelOffset =
      32 + 52 * mats.length + texturesBytes (textureBlobs mats) := by
    show modelOffset mats ((32 + mats.length * 52) % UINT32) = _
    rw [l1, l2]
  have hvo : (writePacked 20 mats objs vsh psh).header.vshOffset =
      32 + 52 * mats.length + texturesBytes (textureBlobs mats) + 36 * objs.length +
        packedPayloadBytes 20 (objs.map objectPayload) := by
    show shaderOffset 20 objs ((modelOffset mats ((32 + mats.length * 52) % UINT32) +
      objs.length * 36) % UINT32) = _
    rw [l1, l2, l3, l4]
  exact ⟨hts, hos, hps, hss, hmo, hvo⟩

theorem packed_object_get (mats : List ObjMaterial) (objs : List Object) (vsh psh : List Nat)
    (hsize : (writePacked 20 mats objs vsh psh).bytes 20 < UINT32) :
    ∀ (k : Nat) (rec : PackedObject) (p : ObjectPayload),
      (writePacked 20 mats objs vsh psh).objects[k]? = some rec →
      (writePacked 20 mats objs vsh psh).payload[k]? = some p →
      rec.vertexOffset = (writePacked 20 mats objs vsh psh).payloadStart +
        packedPayloadBytes 20 ((writePacked 20 mats objs vsh psh).payload.take k) ∧
      rec.indexOffset = rec.vertexOffset + 20 * p.vertices.length ∧
      rec.faceSizeOffset = rec.indexOffset + 2 * p.indexElements ∧
      rec.faceOffset = rec.faceSizeOffset + 4 * p.faceSizes.length := by
  obtain ⟨l1, l2, l3, l4, l5, hs⟩ := writePacked_layout mats objs vsh psh hsize
  obtain ⟨hts, hos, hps, hss, hmo, hvo⟩ := packed_starts mats objs vsh psh hsize
  have hT := texturesBytes_mod4 mats
  intro k rec p hrec hp
  have hrec1 : (objectRecords 20 objs ((modelOffset mats ((32 + mats.length * 52) % UINT32) +
      objs.length * 36) % UINT32))[k]? = some rec := hrec
  have hp1 : (objs.map objectPayload)[k]? = some p := hp
  rw [l1, l2, l3] at hrec1
  rw [List.getElem?_map] at hp1
  obtain ⟨mdl, hmdl, hpm⟩ := Option.map_eq_some'.1 hp1
  subst hpm
  obtain ⟨e1, e2, e3, e4⟩ := objectRecords_get objs _ k rec mdl (by omega)
    (by show _ < 4294967296; omega) hrec1 hmdl
  have htake : packedPayloadBytes 20 ((writePacked 20 mats objs vsh psh).payload.take k) =
      packedPayloadBytes 20 ((objs.take k).map objectPayload) := by
    show packedPayloadBytes 20 ((objs.map objectPayload).take k) = _
    rw [List.map_take]
  rw [indexElements_eq]
  refine ⟨by rw [e1, hps, htake], e2, e3, ?_⟩
  rw [e4]
  simp only [objectPayload, List.length_map]

/-! ## The fillers after the 16-bit lists -/

theorem writeGroupRecs_numIndices (sz : Sizes) : ∀ (gs : List Group) (fs : Nat),
    (writeGroupRecs sz gs fs).1.map (fun r => r.numIndices) =
      gs.map fun g => g.indices.length % UINT32
  | [], _ => rfl
  | g :: rest, fs => by
    simp only [writeGroupRecs, List.map_cons, writeGroupRecs_numIndices sz rest]
    rfl

theorem writeGroups_numIndices (sz : Sizes) : ∀ (datas : List ObjectData) (fs : Nat),
    (writeGroups sz datas fs).1.map (fun recs => recs.map fun r => r.numIndices) =
      datas.map fun d => d.groups.map fun g => g.indices.length % UINT32
  | [], _ => rfl
  | d :: rest, fs => by
    simp only [writeGroups, List.map_cons, writeGroups_numIndices sz rest,
      writeGroupRecs_numIndices]

theorem numIndices_get {sz : Sizes} {datas : List ObjectData} {fs k j : Nat}
    {recs : List GroupRec} {rec : GroupRec} {d : ObjectData} {g : Group}
    (hrecs : (writeGroups sz datas fs).1[k]? = some recs) (hrec : recs[j]? = some rec)
    (hd : datas[k]? = some d) (hg : d.groups[j]? = some g) :
    rec.numIndices = g.indices.length % UINT32 := by
  have h1 := congrArg (fun l => l[k]?) (writeGroups_numIndices sz datas fs)
  simp only [List.getElem?_map, hrecs, hd, Option.map_some', Option.some.injEq] at h1
  have h2 := congrArg (fun l => l[j]?) h1
  simp only [List.getElem?_map, hrec, hg, Option.map_some', Option.some.injEq] at h2
  exact h2

theorem indices_fit {sz : Sizes} {f : ModelFile} (hsize : f.bytes sz < UINT32) {k j : Nat}
    {ps : List GroupPayload} {p : GroupPayload} (hps : f.payload[k]? = some ps)
    (hp : ps[j]? = some p) : p.indices.length + 1 < UINT32 := by
  have h1 : p.bytes sz ≤ payloadBytes sz ps :=
    List.le_sum_of_mem (List.mem_map_of_mem _ (List.getElem?_mem hp))
  have h2 : payloadBytes sz ps ≤ objectsPayloadBytes sz f.payload :=
    List.le_sum_of_mem (List.mem_map_of_mem _ (List.getElem?_mem hps))
  have h3 : f.payloadStart sz + objectsPayloadBytes sz f.payload = f.bytes sz := rfl
  have h4 : sz.boneIndex * p.boneIndices.length + sz.vertex * p.vertices.length +
      2 * p.elements16 = p.bytes sz := rfl
  have h5 : p.indices.length ≤ p.elements16 := Nat.le_add_right _ _
  have hs : f.bytes sz < 4294967296 := hsize
  show p.indices.length + 1 < 4294967296
  omega

theorem packedPayloadBytes_take_succ (l : List ObjectPayload) (k : Nat) (p : ObjectPayload)
    (h : l[k]? = some p) :
    packedPayloadBytes 20 (l.take (k + 1)) = packedPayloadBytes 20 (l.take k) + p.bytes 20 := by
  unfold packedPayloadBytes
  rw [List.take_succ, h, List.map_append, List.sum_append]
  simp

/-! ## Claims on the fillers and on the packed asset writer -/

/-- C9: in the model writer and in the packed asset writer, a 16-bit zero follows
an index list (in the packed writer also a face list) of length `n` exactly when
`n` is odd, so `2 * ((n + 1) / 2)` 16-bit elements are written, an even number; and
when the written file is shorter than `2^32` bytes (the counts and offsets are 32
bits wide) this is what the offset computation reserves: in the model writer the
bytes of line 300, in the packed writer the advance of the running offset to the
face sizes, to the next object, or to the vertex shader. -/
theorem index_lists_padded (sz : Sizes) (fuel : Nat) (app : Appearance) (fm : ModelFile)
    (h : DoWriteModel sz fuel app = .ok (some fm))
    (mats : List ObjMaterial) (objs : List Object) (vsh psh : List Nat) (fp : PackedFile)
    (hf : writePacked 20 mats objs vsh psh = fp) :
    (∀ (k j : Nat) (recs : List GroupRec) (ps : List GroupPayload) (rec : GroupRec)
      (p : GroupPayload), fm.groups[k]? = some recs → fm.payload[k]? = some ps →
      recs[j]? = some rec → ps[j]? = some p →
      (p.filler = true ↔ p.indices.length % 2 = 1) ∧
      p.elements16 = 2 * ((p.indices.length + 1) / 2) ∧
      (fm.bytes sz < UINT32 →
        rec.numIndices = p.indices.length ∧ indexReserve rec.numIndices = 2 * p.elements16)) ∧
    (∀ (k : Nat) (rec : PackedObject) (p : ObjectPayload),
      fp.objects[k]? = some rec → fp.payload[k]? = some p →
      (p.indexFiller = true ↔ p.indices.length % 2 = 1) ∧
      p.indexElements = 2 * ((p.indices.length + 1) / 2) ∧
      (p.faceFiller = true ↔ p.faces.length % 2 = 1) ∧
      p.faceElements = 2 * ((p.faces.length + 1) / 2) ∧
      (fp.bytes 20 < UINT32 →
        rec.faceSizeOffset = rec.indexOffset + 2 * p.indexElements ∧
        (∀ rec1 : PackedObject, fp.objects[k + 1]? = some rec1 →
          rec1.vertexOffset = rec.faceOffset + 2 * p.faceElements) ∧
        (fp.objects[k + 1]? = none →
          fp.header.vshOffset = rec.faceOffset + 2 * p.faceElements))) := by
  constructor
  · intro k j recs ps rec p hrecs hps hrec hp
    obtain ⟨datas, fs, _, _, _, hwp, _, _, _, _, _, hG⟩ := DoWriteModel_ok h
    obtain ⟨d, hd, hop⟩ := (writePayload_spec _ datas _ hwp).2 k ps hps
    obtain ⟨g, hg, hw⟩ := (writeObjectPayload_spec _ d.original d.groups ps hop).2 j p hp
    obtain ⟨_, _, _, hi, hfl⟩ := writeGroupPayload_spec hw
    have hel := elements16_eq hw
    rw [← hi] at hel hfl
    refine ⟨by rw [hfl]; exact decide_eq_true_iff, hel, fun hsize => ?_⟩
    have hfit := indices_fit hsize hps hp
    rw [hG] at hrecs
    have hn : rec.numIndices = p.indices.length := by
      rw [numIndices_get hrecs hrec hd hg, ← hi]
      apply Nat.mod_eq_of_lt
      show _ < 4294967296
      have : p.indices.length + 1 < 4294967296 := hfit
      omega
    refine ⟨hn, ?_⟩
    have := indexReserve_eq hfit
    rw [Nat.mod_eq_of_lt (by
      show _ < 4294967296
      have : p.indices.length + 1 < 4294967296 := hfit
      omega)] at this
    rw [hn, this, hel]
  · subst hf
    intro k rec p hrec hp
    have hp1 : (objs.map objectPayload)[k]? = some p := hp
    rw [List.getElem?_map] at hp1
    obtain ⟨mdl, hmdl, hpm⟩ := Option.map_eq_some'.1 hp1
    subst hpm
    refine ⟨decide_eq_true_iff, indexElements_eq mdl, decide_eq_true_iff, faceElements_eq mdl,
      fun hsize => ?_⟩
    obtain ⟨e1, e2, e3, e4⟩ := packed_object_get mats objs vsh psh hsize k rec _ hrec hp
    have hnext := packedPayloadBytes_take_succ _ k _ hp
    have hb : (objectPayload mdl).bytes 20 = 20 * (objectPayload mdl).vertices.length +
        2 * (objectPayload mdl).indexElements + 4 * (objectPayload mdl).faceSizes.length +
        2 * (objectPayload mdl).faceElements := rfl
    refine ⟨e3, fun rec1 hrec1 => ?_, fun hnone => ?_⟩
    · have hlen1 : k + 1 < (writePacked 20 mats objs vsh psh).objects.length :=
        (List.getElem?_eq_some.1 hrec1).1
      have hlen2 : (writePacked 20 mats objs vsh psh).objects.length = objs.length :=
        objectRecords_length _ _
      have hlen3 : (writePacked 20 mats objs vsh psh).payload.length = objs.length := by
        simp only [writePacked, List.length_map]
      obtain ⟨p1, hp1⟩ : ∃ p1, (writePacked 20 mats objs vsh psh).payload[k + 1]? = some p1 :=
        ⟨_, List.getElem?_eq_getElem (by omega)⟩
      obtain ⟨n1, _, _, _⟩ := packed_object_get mats objs vsh psh hsize (k + 1) rec1 p1 hrec1 hp1
      rw [n1, hnext]
      omega
    · have hlen0 : k < (writePacked 20 mats objs vsh psh).objects.length :=
        (List.getElem?_eq_some.1 hrec).1
      have hlen1 : (writePacked 20 mats objs vsh psh).objects.length ≤ k + 1 :=
        List.getElem?_eq_none_iff.1 hnone
      have hlen2 : (writePacked 20 mats objs vsh psh).objects.length = objs.length :=
        objectRecords_length _ _
      have hlen3 : (writePacked 20 mats objs vsh psh).payload.length = objs.length := by
        simp only [writePacked, List.length_map]
      have hall : (writePacked 20 mats objs vsh psh).payload.take (k + 1) =
          (writePacked 20 mats objs vsh psh).payload := List.take_of_length_le (by omega)
      obtain ⟨_, _, hps, hss, _, hvo⟩ := packed_starts mats objs vsh psh hsize
      rw [hall] at hnext
      have hpay : packedPayloadBytes 20 (writePacked 20 mats objs vsh psh).payload =
          packedPayloadBytes 20 (objs.map objectPayload) := rfl
      rw [hvo]
      omega

set_option maxRecDepth 100000 in
/-- C9 at `sampleAppearance` and at the sample materials and objects, both files
being shorter than `2^32` bytes. -/
theorem index_lists_padded_witness :
    ∃ (fm : ModelFile) (fp : PackedFile),
      DoWriteModel sampleSizes 3 sampleAppearance = .ok (some fm) ∧
      writePacked 20 sampleMaterials sampleObjects [1, 2, 3] [4, 5] = fp ∧
      fm.bytes sampleSizes < UINT32 ∧ fp.bytes 20 < UINT32 ∧
      (∀ (k : Nat) (rec : PackedObject) (p : ObjectPayload),
        fp.objects[k]? = some rec → fp.payload[k]? = some p →
        p.indexElements = 2 * ((p.indices.length + 1) / 2)) :=
  ⟨_, _, rfl, rfl, by decide, by decide, fun k rec p h1 h2 =>
    ((index_lists_padded sampleSizes 3 sampleAppearance _ rfl sampleMaterials sampleObjects
      [1, 2, 3] [4, 5] _ rfl).2 k rec p h1 h2).2.1⟩

/-- C10: with a vertex record of 20 bytes and a buffer shorter than `2^32` bytes
(the offsets are 32 bits wide), every offset the packed asset writer records is the
byte position of the data in the buffer: the material offset is the 32 bytes of
the header; a material with a texture records the position of its blob, a multiple
of 4, and its size, a material without one records offset 0 and size 0; the object
offset is the end of the padded blobs; the vertex, index, face-size and face-list
offsets of an object are the positions of those payloads; the vertex-shader offset
is the end of the last payload and the pixel-shader offset is the vertex-shader
offset plus the size of the vertex shader. -/
theorem packed_offsets_are_positions (mats : List ObjMaterial) (objs : List Object)
    (vsh psh : List Nat) (f : PackedFile) (hf : writePacked 20 mats objs vsh psh = f)
    (hsize : f.bytes 20 < UINT32) :
    f.header.matOffset = PackedHeader.bytes ∧
    f.materials.length = mats.length ∧ f.textures.length = mats.length ∧
    f.objects.length = objs.length ∧ f.payload.length = objs.length ∧
    (∀ (i : Nat) (rec : PackedMaterial) (blob : Option TexBlob),
      f.materials[i]? = some rec → f.textures[i]? = some blob →
      (∀ b : TexBlob, blob = some b →
        rec.texOffset = f.textureStart + texturesBytes (f.textures.take i) ∧
        rec.texOffset % 4 = 0 ∧ rec.texSize = b.data.length ∧ b.data ≠ [] ∧
        (b.data.length + b.padding.length) % 4 = 0 ∧ b.padding.length < 4) ∧
      (blob = none → rec.texOffset = 0 ∧ rec.texSize = 0)) ∧
    f.header.modelOffset = f.objectStart ∧
    (∀ (k : Nat) (rec : PackedObject) (p : ObjectPayload),
      f.objects[k]? = some rec → f.payload[k]? = some p →
      rec.vertexOffset = f.payloadStart + packedPayloadBytes 20 (f.payload.take k) ∧
      rec.indexOffset = rec.vertexOffset + 20 * p.vertices.length ∧
      rec.faceSizeOffset = rec.indexOffset + 2 * p.indexElements ∧
      rec.faceOffset = rec.faceSizeOffset + 4 * p.faceSizes.length) ∧
    f.header.vshOffset = f.shaderStart 20 ∧
    f.header.pshOffset = f.header.vshOffset + f.vsh.length := by
  subst hf
  obtain ⟨l1, l2, l3, l4, l5, hs⟩ := writePacked_layout mats objs vsh psh hsize
  have hT := texturesBytes_mod4 mats
  obtain ⟨hts, hos, hps, hss, hmo, hvo⟩ := packed_starts mats objs vsh psh hsize
  refine ⟨rfl, ?_, ?_, ?_, ?_, ?_, ?_, ?_, ?_, ?_⟩
  · exact materialRecords_length _ _
  · simp only [writePacked, textureBlobs, List.length_map]
  · exact objectRecords_length _ _
  · simp only [writePacked, List.length_map]
  · intro i rec blob hrec hblob
    have hrec1 : (materialRecords mats ((32 + mats.length * 52) % UINT32))[i]? = some rec := hrec
    have hblob1 : (textureBlobs mats)[i]? = some blob := hblob
    rw [l1] at hrec1
    unfold textureBlobs at hblob1
    rw [List.getElem?_map] at hblob1
    obtain ⟨mat, hmat, hb⟩ := Option.map_eq_some'.1 hblob1
    obtain ⟨e1, e2⟩ := materialRecords_get mats _ i rec mat (by omega)
      (by show _ < 4294967296; omega) hrec1 hmat
    have htake : texturesBytes ((writePacked 20 mats objs vsh psh).textures.take i) =
        texturesBytes (textureBlobs (mats.take i)) := by
      show texturesBytes ((textureBlobs mats).take i) = _
      unfold textureBlobs
      rw [List.map_take]
    have hTi := texturesBytes_mod4 (mats.take i)
    by_cases hne : mat.tex.length ≠ 0
    · rw [if_pos hne] at hb e1
      subst hb
      refine ⟨fun b hbb => ?_, fun hn => by cases hn⟩
      cases hbb
      obtain ⟨p1, _, _⟩ := padLoop_spec mat.tex.length
      refine ⟨by rw [e1, hts, htake], by rw [e1]; omega, e2,
        fun h0 => hne (by have h1 : mat.tex = [] := h0; rw [h1]; rfl), ?_, ?_⟩
      · show (mat.tex.length + (padLoop 4 mat.tex.length).length) % 4 = 0
        omega
      · show (padLoop 4 mat.tex.length).length < 4
        omega
    · rw [if_neg hne] at hb e1
      subst hb
      refine ⟨fun b hbb => (by cases hbb), fun _ => ⟨e1, ?_⟩⟩
      rw [e2]
      exact not_not.1 hne
  · rw [hmo, hos]
  · exact packed_object_get mats objs vsh psh hsize
  · rw [hvo, hss]
  · show (shaderOffset 20 objs ((modelOffset mats ((32 + mats.length * 52) % UINT32) +
      objs.length * 36) % UINT32) + vsh.length) % UINT32 = _
    rw [hvo, l1, l2, l3, l4, l5]
    rfl

/-- C10 at the sample materials and objects: the records hold the positions. -/
theorem packed_offsets_are_positions_witness :
    ∃ f, writePacked 20 sampleMaterials sampleObjects [1, 2, 3] [4, 5] = f ∧
      f.bytes 20 = 405 ∧ f.header.modelOffset = f.objectStart ∧
      f.header.vshOffset = f.shaderStart 20 :=
  ⟨_, rfl, by decide,
    (packed_offsets_are_positions sampleMaterials sampleObjects [1, 2, 3] [4, 5] _ rfl
      (by decide)).2.2.2.2.2.2.1,
    (packed_offsets_are_positions sampleMaterials sampleObjects [1, 2, 3] [4, 5] _ rfl
      (by decide)).2.2.2.2.2.2.2.2.1⟩


/-! ## The queue as an ordered set -/

theorem refLe_total (a b : Ref) : Ref.le a b ∨ Ref.le b a := by
  unfold Ref.le
  rcases lt_trichotomy a.1 b.1 with h | h | h
  · exact Or.inl (Or.inl h)
  · rcases Nat.le_total a.2 b.2 with h2 | h2
    · exact Or.inl (Or.inr ⟨h, h2⟩)
    · exact Or.inr (Or.inr ⟨h.symm, h2⟩)
  · exact Or.inr (Or.inl h)

theorem refLe_trans {a b c : Ref} (h1 : Ref.le a b) (h2 : Ref.le b c) : Ref.le a c := by
  unfold Ref.le at *
  omega

instance : IsTotal Ref Ref.le := ⟨refLe_total⟩

instance : IsTrans Ref Ref.le := ⟨fun _ _ _ => refLe_trans⟩

theorem sorted_setEmplace {r : Ref} {q : List Ref} (h : q.Sorted Ref.le) :
    (setEmplace r q).Sorted Ref.le := by
  unfold setEmplace
  split
  · exact h
  · exact h.orderedInsert r q

theorem sorted_erase {r : Ref} {q : List Ref} (h : q.Sorted Ref.le) :
    (q.erase r).Sorted Ref.le :=
  h.sublist (List.erase_sublist r q)

/-! ## `TriangleSet::pop` -/

theorem pop_spec (s : TriangleSet) (hs : s.queue.Sorted Ref.le) (hn : s.queue.Nodup)
    (hne : s.queue ≠ []) :
    ∃ (k : Int) (i : Nat) (s1 : TriangleSet), s.pop = some (i, s1) ∧ (k, i) ∈ s.queue ∧
      (∀ r ∈ s.queue, k < r.1 ∨ (k = r.1 ∧ i ≤ r.2)) ∧
      s1.queue = s.queue.erase (k, i) ∧ s1.list = s.list ∧
      (∀ r, r ∈ s1.queue ↔ r ∈ s.queue ∧ r ≠ (k, i)) ∧
      s1.queue.length + 1 = s.queue.length := by
  obtain ⟨q0, l⟩ := s
  cases q0 with
  | nil => exact absurd rfl hne
  | cons r q =>
    have hs1 : ∀ b ∈ q, Ref.le r b := (List.sorted_cons.1 hs).1
    have hn1 : r ∉ q := (List.nodup_cons.1 hn).1
    refine ⟨r.1, r.2, ⟨q, l⟩, rfl, List.mem_cons_self _ _, ?_, ?_, rfl, ?_, rfl⟩
    · intro x hx
      rcases List.mem_cons.1 hx with rfl | hx
      · exact Or.inr ⟨rfl, le_refl _⟩
      · exact hs1 x hx
    · show q = (r :: q).erase (r.1, r.2)
      rw [show (r.1, r.2) = r from rfl, List.erase_cons_head]
    · intro x
      show x ∈ q ↔ x ∈ r :: q ∧ x ≠ (r.1, r.2)
      constructor
      · intro hx
        exact ⟨List.mem_cons_of_mem _ hx, fun h => hn1 (by rw [show r = (r.1, r.2) from rfl, ← h]; exact hx)⟩
      · rintro ⟨hx, hne1⟩
        rcases List.mem_cons.1 hx with rfl | hx
        · exact absurd rfl hne1
        · exact hx

/-! ## When `TriangleSet::reduce` throws -/

theorem starved_step {ts : List Triangle} {q : List Ref} {i : Nat} {t : Triangle}
    (ht : ts[i]? = some t) (hmem : (toInt32 t.unused, i) ∈ q) (u : Nat)
    (j : Nat) :
    (∃ tj : Triangle, (ts.set i { t with unused := u })[j]? = some tj ∧ tj.group = none ∧
        (toInt32 tj.unused, j) ∉ setEmplace (toInt32 u, i) (q.erase (toInt32 t.unused, i))) ↔
      ∃ tj : Triangle, ts[j]? = some tj ∧ tj.group = none ∧ (toInt32 tj.unused, j) ∉ q := by
  by_cases hji : j = i
  · subst hji
    have hlt : j < ts.length := (List.getElem?_eq_some.1 ht).1
    constructor
    · rintro ⟨tj, h1, _, h3⟩
      rw [List.getElem?_set_self hlt] at h1
      cases h1
      exact absurd (mem_setEmplace.2 (Or.inl rfl)) h3
    · rintro ⟨tj, h1, _, h3⟩
      rw [ht] at h1
      cases h1
      exact absurd hmem h3
  · have hne : ∀ k k1 : Int, ((k, j) : Ref) ≠ (k1, i) := fun k k1 h => hji (Prod.mk.inj h).2
    have hq : ∀ k : Int, (k, j) ∈ setEmplace (toInt32 u, i) (q.erase (toInt32 t.unused, i)) ↔
        (k, j) ∈ q := by
      intro k
      rw [mem_setEmplace, List.mem_erase_of_ne (hne k _)]
      exact ⟨fun h => h.resolve_left (hne k _), Or.inr⟩
    rw [List.getElem?_set_ne (Ne.symm hji)]
    constructor
    · rintro ⟨tj, h1, h2, h3⟩
      exact ⟨tj, h1, h2, fun h => h3 ((hq _).2 h)⟩
    · rintro ⟨tj, h1, h2, h3⟩
      exact ⟨tj, h1, h2, fun h => h3 ((hq _).1 h)⟩

theorem reduceLoop_throws : ∀ (L : List Nat) (q : List Ref) (ts : List Triangle),
    (∀ i ∈ L, i < ts.length) →
    ((∃ i ∈ L, ∃ t : Triangle, ts[i]? = some t ∧ t.group = none ∧ (toInt32 t.unused, i) ∉ q) →
      reduceLoop L q ts = .error .uhOh) ∧
    ((¬ ∃ i ∈ L, ∃ t : Triangle, ts[i]? = some t ∧ t.group = none ∧
        (toInt32 t.unused, i) ∉ q) →
      ∃ r, reduceLoop L q ts = .ok r)
  | [], q, ts, _ => ⟨fun ⟨i, hi, _⟩ => by simp at hi, fun _ => ⟨_, rfl⟩⟩
  | i :: rest, q, ts, hval => by
    have hlt : i < ts.length := hval i (List.mem_cons_self _ _)
    obtain ⟨t, ht⟩ : ∃ t, ts[i]? = some t := ⟨_, List.getElem?_eq_getElem hlt⟩
    have hvr : ∀ j ∈ rest, j < ts.length := fun j hj => hval j (List.mem_cons_of_mem _ hj)
    unfold reduceLoop
    rw [reduceOne_eq ht]
    by_cases hg : t.group ≠ none
    · rw [if_pos hg]
      obtain ⟨ih1, ih2⟩ := reduceLoop_throws rest q ts hvr
      have hiff : (∃ j ∈ i :: rest, ∃ tj : Triangle, ts[j]? = some tj ∧ tj.group = none ∧
            (toInt32 tj.unused, j) ∉ q) ↔
          ∃ j ∈ rest, ∃ tj : Triangle, ts[j]? = some tj ∧ tj.group = none ∧
            (toInt32 tj.unused, j) ∉ q := by
        constructor
        · rintro ⟨j, hj, tj, h1, h2, h3⟩
          rcases List.mem_cons.1 hj with rfl | hj
          · rw [ht] at h1
            cases h1
            exact absurd h2 hg
          · exact ⟨j, hj, tj, h1, h2, h3⟩
        · rintro ⟨j, hj, h⟩
          exact ⟨j, List.mem_cons_of_mem _ hj, h⟩
      exact ⟨fun h => ih1 (hiff.1 h), fun h => ih2 (fun h1 => h (hiff.2 h1))⟩
    · rw [if_neg hg]
      have hg1 : t.group = none := not_not.1 hg
      by_cases hmem : (toInt32 t.unused, i) ∈ q
      · rw [if_pos hmem]
        have hvr1 : ∀ j ∈ rest, j < (ts.set i
            { t with unused := (t.unused + (UINT32 - 1)) % UINT32 }).length := by
          intro j hj
          rw [List.length_set]
          exact hvr j hj
        obtain ⟨ih1, ih2⟩ := reduceLoop_throws rest _ _ hvr1
        have hiff : (∃ j ∈ i :: rest, ∃ tj : Triangle, ts[j]? = some tj ∧ tj.group = none ∧
              (toInt32 tj.unused, j) ∉ q) ↔
            ∃ j ∈ rest, ∃ tj : Triangle,
              (ts.set i { t with unused := (t.unused + (UINT32 - 1)) % UINT32 })[j]? =
                some tj ∧ tj.group = none ∧
              (toInt32 tj.unused, j) ∉ setEmplace
                (toInt32 ((t.unused + (UINT32 - 1)) % UINT32), i)
                (q.erase (toInt32 t.unused, i)) := by
          constructor
          · rintro ⟨j, hj, h⟩
            rcases List.mem_cons.1 hj with rfl | hj
            · obtain ⟨tj, h1, _, h3⟩ := h
              rw [ht] at h1
              cases h1
              exact absurd hmem h3
            · exact ⟨j, hj, (starved_step ht hmem _ j).2 h⟩
          · rintro ⟨j, hj, h⟩
            exact ⟨j, List.mem_cons_of_mem _ hj, (starved_step ht hmem _ j).1 h⟩
        exact ⟨fun h => ih1 (hiff.1 h), fun h => ih2 (fun h1 => h (hiff.2 h1))⟩
      · rw [if_neg hmem]
        exact ⟨fun _ => rfl, fun h => absurd ⟨i, List.mem_cons_self _ _, t, ht, hg1, hmem⟩ h⟩

/-! ## The effect of `TriangleSet::reduce` -/

theorem dec_unused {u : Nat} (h1 : 1 ≤ u) (h2 : u < 2147483648) :
    (u + (UINT32 - 1)) % UINT32 = u - 1 ∧
      toInt32 ((u + (UINT32 - 1)) % UINT32) = toInt32 u - 1 := by
  have e : (u + (UINT32 - 1)) % UINT32 = u - 1 := by
    show (u + (4294967296 - 1)) % 4294967296 = u - 1
    omega
  refine ⟨e, ?_⟩
  rw [e]
  unfold toInt32
  rw [if_pos (by omega), if_pos h2]
  omega

theorem mem_requeue {q : List Ref} (hqn : q.Nodup) {k k1 : Int} {i : Nat} (x : Ref) :
    x ∈ setEmplace (k1, i) (q.erase (k, i)) ↔ x = (k1, i) ∨ (x ∈ q ∧ x ≠ (k, i)) := by
  rw [mem_setEmplace, hqn.mem_erase_iff]
  constructor
  · rintro (h | ⟨h1, h2⟩)
    · exact Or.inl h
    · exact Or.inr ⟨h2, h1⟩
  · rintro (h | ⟨h1, h2⟩)
    · exact Or.inl h
    · exact Or.inr ⟨h2, h1⟩

theorem reduceLoop_frame : ∀ (L : List Nat) (q : List Ref) (ts : List Triangle),
    L.Nodup → (∀ i ∈ L, i < ts.length) → q.Nodup →
    (∀ i ∈ L, ∀ t : Triangle, ts[i]? = some t → t.group = none →
      1 ≤ t.unused ∧ t.unused < 2147483648 ∧ (toInt32 t.unused, i) ∈ q ∧
        ∀ k : Int, (k, i) ∈ q → k = toInt32 t.unused) →
    ∃ q1 ts1, reduceLoop L q ts = .ok (q1, ts1) ∧ ts1.length = ts.length ∧
      (∀ (i : Nat) (t : Triangle), ts[i]? = some t →
        ts1[i]? = some (if i ∈ L ∧ t.group = none then { t with unused := t.unused - 1 }
          else t)) ∧
      (∀ (k : Int) (i : Nat), (k, i) ∈ q1 ↔
        ((i ∈ L ∧ ∃ t : Triangle, ts[i]? = some t ∧ t.group = none) ∧ (k + 1, i) ∈ q) ∨
        (¬ (i ∈ L ∧ ∃ t : Triangle, ts[i]? = some t ∧ t.group = none) ∧ (k, i) ∈ q)) ∧
      q1.length = q.length ∧ q1.Nodup
  | [], q, ts, _, _, hqn, _ => by
    refine ⟨q, ts, rfl, rfl, ?_, ?_, rfl, hqn⟩
    · intro i t ht
      simp [ht]
    · intro k i
      simp
  | i :: rest, q, ts, hnd, hval, hqn, hq => by
    have hir : i ∉ rest := (List.nodup_cons.1 hnd).1
    have hndr : rest.Nodup := (List.nodup_cons.1 hnd).2
    have hlt : i < ts.length := hval i (List.mem_cons_self _ _)
    obtain ⟨t, ht⟩ : ∃ t, ts[i]? = some t := ⟨_, List.getElem?_eq_getElem hlt⟩
    have hvr : ∀ j ∈ rest, j < ts.length := fun j hj => hval j (List.mem_cons_of_mem _ hj)
    unfold reduceLoop
    rw [reduceOne_eq ht]
    by_cases hg : t.group ≠ none
    · rw [if_pos hg]
      obtain ⟨q1, ts1, h1, h2, h3, h4, h5, h6⟩ := reduceLoop_frame rest q ts hndr hvr hqn
        (fun j hj => hq j (List.mem_cons_of_mem _ hj))
      have hA : ∀ j : Nat, (j ∈ i :: rest ∧ ∃ tj : Triangle, ts[j]? = some tj ∧ tj.group = none) ↔
          (j ∈ rest ∧ ∃ tj : Triangle, ts[j]? = some tj ∧ tj.group = none) := by
        intro j
        constructor
        · rintro ⟨hj, tj, e1, e2⟩
          rcases List.mem_cons.1 hj with rfl | hj
          · rw [ht] at e1
            cases e1
            exact absurd e2 hg
          · exact ⟨hj, tj, e1, e2⟩
        · rintro ⟨hj, h⟩
          exact ⟨List.mem_cons_of_mem _ hj, h⟩
      refine ⟨q1, ts1, h1, h2, ?_, ?_, h5, h6⟩
      · intro j tj htj
        rw [h3 j tj htj]
        by_cases hc : j ∈ rest ∧ tj.group = none
        · rw [if_pos hc, if_pos ⟨List.mem_cons_of_mem _ hc.1, hc.2⟩]
        · rw [if_neg hc, if_neg]
          rintro ⟨hj, hgj⟩
          exact hc ⟨((hA j).1 ⟨hj, tj, htj, hgj⟩).1, hgj⟩
      · intro k j
        rw [h4 k j, hA j]
    · rw [if_neg hg]
      have hg1 : t.group = none := not_not.1 hg
      obtain ⟨hu1, hu2, hmem, huniq⟩ := hq i (List.mem_cons_self _ _) t ht hg1
      obtain ⟨eu, ek⟩ := dec_unused hu1 hu2
      rw [if_pos hmem, ek, eu]
      have hqn1 : (setEmplace (toInt32 t.unused - 1, i) (q.erase (toInt32 t.unused, i))).Nodup :=
        nodup_setEmplace (hqn.erase _)
      have hts1 : ∀ j, j ≠ i → (ts.set i { t with unused := t.unused - 1 })[j]? = ts[j]? :=
        fun j hj => List.getElem?_set_ne (Ne.symm hj)
      have hqj : ∀ (k : Int) (j : Nat), j ≠ i →
          ((k, j) ∈ setEmplace (toInt32 t.unused - 1, i) (q.erase (toInt32 t.unused, i)) ↔
            (k, j) ∈ q) := by
        intro k j hj
        have hne : ∀ k1 : Int, ((k, j) : Ref) ≠ (k1, i) := fun k1 h => hj (Prod.mk.inj h).2
        rw [mem_requeue hqn]
        exact ⟨fun h => (h.resolve_left (hne _)).1, fun h => Or.inr ⟨h, hne _⟩⟩
      obtain ⟨q1, ts1, h1, h2, h3, h4, h5, h6⟩ := reduceLoop_frame rest _
        (ts.set i { t with unused := t.unused - 1 }) hndr
        (fun j hj => by rw [List.length_set]; exact hvr j hj) hqn1
        (by
          intro j hj tj htj hgj
          have hji : j ≠ i := fun h => hir (h ▸ hj)
          rw [hts1 j hji] at htj
          obtain ⟨a1, a2, a3, a4⟩ := hq j (List.mem_cons_of_mem _ hj) tj htj hgj
          exact ⟨a1, a2, (hqj _ j hji).2 a3, fun k hk => a4 k ((hqj k j hji).1 hk)⟩)
      have hlen : (setEmplace (toInt32 t.unused - 1, i) (q.erase (toInt32 t.unused, i))).length =
          q.length := by
        rw [length_setEmplace_of_not_mem, List.length_erase_of_mem hmem]
        · have := List.length_pos_of_mem hmem
          omega
        · intro h
          have := huniq _ (List.mem_of_mem_erase h)
          omega
      refine ⟨q1, ts1, h1, by rw [h2, List.length_set], ?_, ?_, by rw [h5, hlen], h6⟩
      · intro j tj htj
        by_cases hji : j = i
        · subst hji
          rw [ht] at htj
          cases htj
          have := h3 j { t with unused := t.unused - 1 } (List.getElem?_set_self hlt)
          rw [this, if_neg (fun h => hir h.1), if_pos ⟨List.mem_cons_self _ _, hg1⟩]
        · have := h3 j tj (by rw [hts1 j hji]; exact htj)
          rw [this]
          by_cases hc : j ∈ rest ∧ tj.group = none
          · rw [if_pos hc, if_pos ⟨List.mem_cons_of_mem _ hc.1, hc.2⟩]
          · rw [if_neg hc, if_neg]
            rintro ⟨hj, hgj⟩
            exact hc ⟨(List.mem_cons.1 hj).resolve_left hji, hgj⟩
      · intro k j
        rw [h4 k j]
        by_cases hji : j = i
        · subst hji
          have hA1 : ¬ (j ∈ rest ∧ ∃ tj : Triangle,
              (ts.set j { t with unused := t.unused - 1 })[j]? = some tj ∧ tj.group = none) :=
            fun h => hir h.1
          have hA2 : j ∈ j :: rest ∧ ∃ tj : Triangle, ts[j]? = some tj ∧ tj.group = none :=
            ⟨List.mem_cons_self _ _, t, ht, hg1⟩
          rw [mem_requeue hqn (k, j), mem_requeue hqn (k + 1, j)]
          constructor
          · rintro (⟨h, _⟩ | ⟨_, h | ⟨h, hne⟩⟩)
            · exact absurd h hA1
            · left
              refine ⟨hA2, ?_⟩
              have hk : k = toInt32 t.unused - 1 := (Prod.mk.inj h).1
              rw [hk, Int.sub_add_cancel]
              exact hmem
            · exact absurd (by rw [huniq k h]) hne
          · rintro (⟨_, h⟩ | ⟨hno, _⟩)
            · right
              refine ⟨hA1, Or.inl ?_⟩
              have := huniq _ h
              have hk : k = toInt32 t.unused - 1 := by omega
              rw [hk]
            · exact absurd hA2 hno
        · have hA : (j ∈ rest ∧ ∃ tj : Triangle,
              (ts.set i { t with unused := t.unused - 1 })[j]? = some tj ∧ tj.group = none) ↔
              (j ∈ i :: rest ∧ ∃ tj : Triangle, ts[j]? = some tj ∧ tj.group = none) := by
            rw [hts1 j hji]
            constructor
            · rintro ⟨hj, h⟩
              exact ⟨List.mem_cons_of_mem _ hj, h⟩
            · rintro ⟨hj, h⟩
              exact ⟨(List.mem_cons.1 hj).resolve_left hji, h⟩
          rw [hA, hqj _ j hji, hqj _ j hji]

/-! ## Claims on `TriangleSet` -/

/-- C18: on a non-empty `TriangleSet` (the queue being a `std::set`, ordered and
without duplicates), `pop` returns the triangle of the entry whose key is the
smallest of the queue and, among the entries of that key, whose triangle comes
first in the triangle vector; it removes exactly that entry and leaves the other
entries and the buckets as they were. When every entry is keyed by the `unused` of
its triangle, the triangle returned has the smallest `unused` (as an `int`) of all
queued triangles. -/
theorem pop_returns_least (s : TriangleSet) (ts : List Triangle)
    (hs : s.queue.Sorted Ref.le) (hn : s.queue.Nodup) (hne : s.empty = false) :
    ∃ (k : Int) (i : Nat) (s1 : TriangleSet), s.pop = some (i, s1) ∧ (k, i) ∈ s.queue ∧
      (∀ r ∈ s.queue, k < r.1 ∨ (k = r.1 ∧ i ≤ r.2)) ∧
      s1.queue = s.queue.erase (k, i) ∧ s1.list = s.list ∧
      (∀ r, r ∈ s1.queue ↔ r ∈ s.queue ∧ r ≠ (k, i)) ∧
      s1.queue.length + 1 = s.queue.length ∧
      ((∀ r ∈ s.queue, ∃ t : Triangle, ts[r.2]? = some t ∧ r.1 = toInt32 t.unused) →
        ∃ t : Triangle, ts[i]? = some t ∧ k = toInt32 t.unused ∧
          ∀ r ∈ s.queue, ∀ tj : Triangle, ts[r.2]? = some tj →
            toInt32 t.unused < toInt32 tj.unused ∨
              (toInt32 t.unused = toInt32 tj.unused ∧ i ≤ r.2)) := by
  have hne1 : s.queue ≠ [] := by
    intro h
    simp [TriangleSet.empty, h] at hne
  obtain ⟨k, i, s1, h1, h2, h3, h4, h5, h6, h7⟩ := pop_spec s hs hn hne1
  refine ⟨k, i, s1, h1, h2, h3, h4, h5, h6, h7, fun hkey => ?_⟩
  obtain ⟨t, ht, hk⟩ := hkey (k, i) h2
  refine ⟨t, ht, hk, fun r hr tj htj => ?_⟩
  obtain ⟨t1, ht1, hk1⟩ := hkey r hr
  rw [htj] at ht1
  cases ht1
  have := h3 r hr
  rw [← hk1]
  simp only at hk
  rw [← hk]
  exact this

/-- C18 at a queue of three entries, two of them with the smallest key 1: the
triangle 2 is returned, not the triangle 5 of the same key. -/
theorem pop_returns_least_witness :
    ∃ (s1 : TriangleSet),
      TriangleSet.pop { queue := [(1, 2), (1, 5), (3, 0)], list := [] } = some (2, s1) ∧
      s1.queue = [(1, 5), (3, 0)] := by
  obtain ⟨k, i, s1, h1, _⟩ := pop_returns_least
    { queue := [(1, 2), (1, 5), (3, 0)], list := [] } [] (by decide) (by decide) rfl
  exact ⟨_, rfl, rfl⟩

/-- C19, counterexample: after `add` has been called twice for the same triangle
(bones 0 and 1), the triangle is unassigned, registered under bone 0 and queued
under its current `unused = 2`; `reduce(0)` then lowers its `unused` by 2, to 0. -/
theorem reduce_lowers_twice :
    ∃ (sa s s1 : TriangleSet) (tsa ts ts1 : List Triangle),
      TriangleSet.new.add [sampleTriangle] 0 = .ok (sa, tsa) ∧ sa.add tsa 0 = .ok (s, ts) ∧
      (∀ i ∈ s.list.getD 0 [], ∀ t : Triangle, ts[i]? = some t → t.group = none →
        (toInt32 t.unused, i) ∈ s.queue) ∧
      s.reduce ts 0 = .ok (s1, ts1) ∧
      ts = [{ sampleTriangle with unused := 2 }] ∧
      ts1 = [{ sampleTriangle with unused := 0 }] := by
  refine ⟨_, _, _, _, _, _, rfl, rfl, ?_, rfl, rfl, rfl⟩
  intro i hi t ht _
  have hi0 : i = 0 := by
    have : i ∈ [0, 0] := hi
    simpa using this
  subst hi0
  have ht0 : t = { sampleTriangle with unused := 2 } := by
    have : some ({ sampleTriangle with unused := 2 } : Triangle) = some t := ht
    exact (Option.some.inj this).symm
  subst ht0
  decide

/-- C19, amended: for a bone below `MAX_BONES` whose bucket points into the triangle
vector and holds no triangle twice, when every unassigned triangle of the bucket
has `1 ≤ unused < 2^31`, has the queue entry keyed by its current `unused` and no
other queue entry, `reduce` returns, lowers by exactly 1 the `unused` and the queue
key of every unassigned triangle of the bucket, and changes nothing else: the other
triangles, the other queue entries, the number of queue entries and the buckets are
as before. -/
theorem reduce_lowers_each_once (s : TriangleSet) (ts : List Triangle) (bone : Nat)
    (hb : bone < MAX_BONES) (hnd : (s.list.getD bone []).Nodup)
    (hval : ∀ i ∈ s.list.getD bone [], i < ts.length) (hqn : s.queue.Nodup)
    (hq : ∀ i ∈ s.list.getD bone [], ∀ t : Triangle, ts[i]? = some t → t.group = none →
      1 ≤ t.unused ∧ t.unused < 2147483648 ∧ (toInt32 t.unused, i) ∈ s.queue ∧
        ∀ k : Int, (k, i) ∈ s.queue → k = toInt32 t.unused) :
    ∃ s1 ts1, s.reduce ts bone = .ok (s1, ts1) ∧ s1.list = s.list ∧
      ts1.length = ts.length ∧
      (∀ (i : Nat) (t : Triangle), ts[i]? = some t →
        ts1[i]? = some (if i ∈ s.list.getD bone [] ∧ t.group = none then
          { t with unused := t.unused - 1 } else t)) ∧
      (∀ (k : Int) (i : Nat), (k, i) ∈ s1.queue ↔
        ((i ∈ s.list.getD bone [] ∧ ∃ t : Triangle, ts[i]? = some t ∧ t.group = none) ∧
          (k + 1, i) ∈ s.queue) ∨
        (¬ (i ∈ s.list.getD bone [] ∧ ∃ t : Triangle, ts[i]? = some t ∧ t.group = none) ∧
          (k, i) ∈ s.queue)) ∧
      s1.queue.length = s.queue.length := by
  obtain ⟨q1, ts1, h1, h2, h3, h4, h5, _⟩ :=
    reduceLoop_frame (s.list.getD bone []) s.queue ts hnd hval hqn hq
  refine ⟨{ s with queue := q1 }, ts1, ?_, rfl, h2, h3, h4, h5⟩
  unfold TriangleSet.reduce
  rw [if_pos hb, h1]

/-- C19 amended, at a set that holds one triangle with the bones 0 and 1 once. -/
theorem reduce_lowers_each_once_witness :
    ∃ s1 ts1,
      TriangleSet.reduce { queue := [(2, 0)], list := [[0], [0]] }
        [{ sampleTriangle with unused := 2 }] 0 = .ok (s1, ts1) ∧
      ts1 = [{ sampleTriangle with unused := 1 }] ∧ s1.queue = [(1, 0)] := by
  obtain ⟨s1, ts1, h1, _⟩ := reduce_lowers_each_once
    { queue := [(2, 0)], list := [[0], [0]] } [{ sampleTriangle with unused := 2 }] 0
    (by decide) (by decide) (by decide) (by decide)
    (by
      intro i hi t ht _
      have hi0 : i = 0 := by
        have : i ∈ [0] := hi
        simpa using this
      subst hi0
      have ht0 : t = { sampleTriangle with unused := 2 } := by
        have : some ({ sampleTriangle with unused := 2 } : Triangle) = some t := ht
        exact (Option.some.inj this).symm
      subst ht0
      refine ⟨by decide, by decide, by decide, fun k hk => ?_⟩
      have hk1 : ((k, 0) : Ref) ∈ [((2 : Int), 0)] := hk
      rw [List.mem_singleton] at hk1
      exact (Prod.mk.inj hk1).1.trans (by decide))
  exact ⟨_, _, rfl, rfl, rfl⟩

/-- C20: for a bone below `MAX_BONES` whose bucket points into the triangle vector,
`reduce` throws its exception exactly when some triangle of the bucket is still
unassigned and the queue holds no entry of that triangle under its current
`unused`; in every other case it returns. -/
theorem reduce_throws_iff (s : TriangleSet) (ts : List Triangle) (bone : Nat)
    (hb : bone < MAX_BONES) (hval : ∀ i ∈ s.list.getD bone [], i < ts.length) :
    (s.reduce ts bone = .error .uhOh ↔
      ∃ i ∈ s.list.getD bone [], ∃ t : Triangle, ts[i]? = some t ∧ t.group = none ∧
        (toInt32 t.unused, i) ∉ s.queue) ∧
    ((¬ ∃ i ∈ s.list.getD bone [], ∃ t : Triangle, ts[i]? = some t ∧ t.group = none ∧
        (toInt32 t.unused, i) ∉ s.queue) →
      ∃ r, s.reduce ts bone = .ok r) := by
  obtain ⟨h1, h2⟩ := reduceLoop_throws (s.list.getD bone []) s.queue ts hval
  unfold TriangleSet.reduce
  rw [if_pos hb]
  refine ⟨⟨fun h => ?_, fun h => ?_⟩, fun h => ?_⟩
  · by_contra hno
    obtain ⟨r, hr⟩ := h2 hno
    rw [hr] at h
    cases h
  · rw [h1 h]
  · obtain ⟨r, hr⟩ := h2 h
    rw [hr]
    exact ⟨_, rfl⟩

/-- C20 at a set whose bucket 0 holds the unassigned triangle 0 with `unused = 2`
while the queue holds it under the key 1: `reduce(0)` throws. -/
theorem reduce_throws_iff_witness :
    TriangleSet.reduce { queue := [(1, 0)], list := [[0]] }
      [{ verts := [0, 1, 2], bones := [0, 1], group := none, unused := 2 }] 0 = .error .uhOh :=
  (reduce_throws_iff { queue := [(1, 0)], list := [[0]] }
    [{ verts := [0, 1, 2], bones := [0, 1], group := none, unused := 2 }] 0
    (by decide) (by decide)).1.2 ⟨0, by decide, _, rfl, rfl, by decide⟩


/-! ## The texture slots of a material -/

theorem lastTagged_eq (tag : Int) : ∀ l : List MaterialTextureEntry,
    lastTagged tag l =
      ((l.filter fun e => decide (e.x00 = tag)).getLast?).map fun e => e.x00_TexturesSno
  | [] => rfl
  | e :: rest => by
    unfold lastTagged
    rw [lastTagged_eq tag rest]
    by_cases h : e.x00 = tag
    · rw [List.filter_cons_of_pos (by simpa using h), if_pos h]
      cases hr : rest.filter fun e => decide (e.x00 = tag) with
      | nil => simp
      | cons a l =>
        rw [List.getLast?_cons_cons, List.getLast?_eq_getLast (a :: l) (List.cons_ne_nil _ _)]
        rfl
    · rw [List.filter_cons_of_neg (by simpa using h), if_neg h]
      cases hr : ((rest.filter fun e => decide (e.x00 = tag)).getLast?) with
      | none => rfl
      | some a => rfl

theorem scanTextures_spec : ∀ (l : List MaterialTextureEntry) (s : TexSlots),
    (scanTextures l s).texDiffuse = ((lastTagged 1 l).map toUInt32).getD s.texDiffuse ∧
    (scanTextures l s).texSpecular = ((lastTagged 5 l).map toUInt32).getD s.texSpecular ∧
    (scanTextures l s).texTintBase = ((lastTagged 11 l).map toUInt32).getD s.texTintBase ∧
    (scanTextures l s).texTintMask = ((lastTagged 54 l).map toUInt32).getD s.texTintMask
  | [], s => ⟨rfl, rfl, rfl, rfl⟩
  | e :: rest, s => by
    unfold scanTextures lastTagged
    obtain ⟨h1, h2, h3, h4⟩ := scanTextures_spec rest
      (if e.x00 = 1 then { s with texDiffuse := toUInt32 e.x00_TexturesSno }
       else if e.x00 = 5 then { s with texSpecular := toUInt32 e.x00_TexturesSno }
       else if e.x00 = 11 then { s with texTintBase := toUInt32 e.x00_TexturesSno }
       else if e.x00 = 54 then { s with texTintMask := toUInt32 e.x00_TexturesSno }
       else s)
    rw [h1, h2, h3, h4]
    by_cases t1 : e.x00 = 1
    · have t5 : e.x00 ≠ 5 := by omega
      have t11 : e.x00 ≠ 11 := by omega
      have t54 : e.x00 ≠ 54 := by omega
      simp only [if_pos t1, if_neg t5, if_neg t11, if_neg t54]
      refine ⟨?_, ?_, ?_, ?_⟩ <;> cases lastTagged _ rest <;> rfl
    · by_cases t5 : e.x00 = 5
      · have t11 : e.x00 ≠ 11 := by omega
        have t54 : e.x00 ≠ 54 := by omega
        simp only [if_neg t1, if_pos t5, if_neg t11, if_neg t54]
        refine ⟨?_, ?_, ?_, ?_⟩ <;> cases lastTagged _ rest <;> rfl
      · by_cases t11 : e.x00 = 11
        · have t54 : e.x00 ≠ 54 := by omega
          simp only [if_neg t1, if_neg t5, if_pos t11, if_neg t54]
          refine ⟨?_, ?_, ?_, ?_⟩ <;> cases lastTagged _ rest <;> rfl
        · by_cases t54 : e.x00 = 54
          · simp only [if_neg t1, if_neg t5, if_neg t11, if_pos t54]
            refine ⟨?_, ?_, ?_, ?_⟩ <;> cases lastTagged _ rest <;> rfl
          · simp only [if_neg t1, if_neg t5, if_neg t11, if_neg t54]
            refine ⟨?_, ?_, ?_, ?_⟩ <;> cases lastTagged _ rest <;> rfl

theorem scanTextures_filter : ∀ (l : List MaterialTextureEntry) (s : TexSlots),
    scanTextures (l.filter fun e =>
      decide (e.x00 = 1 ∨ e.x00 = 5 ∨ e.x00 = 11 ∨ e.x00 = 54)) s = scanTextures l s
  | [], _ => rfl
  | e :: rest, s => by
    by_cases h : e.x00 = 1 ∨ e.x00 = 5 ∨ e.x00 = 11 ∨ e.x00 = 54
    · rw [List.filter_cons_of_pos (by simpa using h)]
      unfold scanTextures
      rw [scanTextures_filter rest]
    · rw [List.filter_cons_of_neg (by simpa using h), scanTextures_filter rest]
      have h1 : e.x00 ≠ 1 := fun x => h (Or.inl x)
      have h5 : e.x00 ≠ 5 := fun x => h (Or.inr (Or.inl x))
      have h11 : e.x00 ≠ 11 := fun x => h (Or.inr (Or.inr (Or.inl x)))
      have h54 : e.x00 ≠ 54 := fun x => h (Or.inr (Or.inr (Or.inr x)))
      conv_rhs => unfold scanTextures
      simp only [if_neg h1, if_neg h5, if_neg h11, if_neg h54]

theorem AddTexture_toUInt32 {id : Int} (h1 : -2147483648 ≤ id) (h2 : id < 2147483648) :
    AddTexture (toUInt32 id) = if id = -1 then 0 else toUInt32 id := by
  unfold AddTexture toUInt32
  by_cases h : id = -1
  · subst h
    rfl
  · rw [if_neg h, if_neg]
    omega

theorem lastTagged_mem (tag : Int) : ∀ (l : List MaterialTextureEntry) (id : Int),
    lastTagged tag l = some id → ∃ e ∈ l, e.x00 = tag ∧ e.x00_TexturesSno = id
  | [], _, h => by cases h
  | e :: rest, id, h => by
    unfold lastTagged at h
    cases hr : lastTagged tag rest with
    | some x =>
      rw [hr] at h
      have hx : x = id := Option.some.inj h
      subst hx
      obtain ⟨e1, he1, h1⟩ := lastTagged_mem tag rest x hr
      exact ⟨e1, List.mem_cons_of_mem _ he1, h1⟩
    | none =>
      rw [hr] at h
      by_cases ht : e.x00 = tag
      · rw [if_pos ht] at h
        cases h
        exact ⟨e, List.mem_cons_self _ _, ht, rfl⟩
      · rw [if_neg ht] at h
        cases h

theorem slot_ref (tag : Int) (l : List MaterialTextureEntry)
    (hrange : ∀ e ∈ l, -2147483648 ≤ e.x00_TexturesSno ∧ e.x00_TexturesSno < 2147483648) :
    AddTexture (((lastTagged tag l).map toUInt32).getD 4294967295) = texRef (lastTagged tag l) := by
  cases h : lastTagged tag l with
  | none => rfl
  | some id =>
    obtain ⟨e, he, _, rfl⟩ := lastTagged_mem tag l id h
    exact AddTexture_toUInt32 (hrange e he).1 (hrange e he).2

theorem materialRecord_ok {sub : SubObjectAppearance} {r : MaterialRec}
    (h : materialRecord sub = .ok r) :
    r = { diffuse := AddTexture (scanTextures sub.x58_MaterialTextureEntries
            ⟨4294967295, 4294967295, 4294967295, 4294967295⟩).texDiffuse
          specular := AddTexture (scanTextures sub.x58_MaterialTextureEntries
            ⟨4294967295, 4294967295, 4294967295, 4294967295⟩).texSpecular
          tintBase := AddTexture (scanTextures sub.x58_MaterialTextureEntries
            ⟨4294967295, 4294967295, 4294967295, 4294967295⟩).texTintBase
          tintMask := AddTexture (scanTextures sub.x58_MaterialTextureEntries
            ⟨4294967295, 4294967295, 4294967295, 4294967295⟩).texTintMask } ∧
    ∃ a, alphaScan sub.x10_TagMap (sub.x10_TagMap.length + 1) 0 none = .ok a := by
  unfold materialRecord at h
  cases ha : alphaScan sub.x10_TagMap (sub.x10_TagMap.length + 1) 0 none with
  | error e =>
    simp only [ha] at h
    cases h
  | ok a =>
    simp only [ha, Except.ok.injEq] at h
    exact ⟨h.symm, a, rfl⟩

/-! ## Claim on the texture references -/

/-- C17: in the `Material` record that `DoWriteModel` writes for a sub-object
appearance (the texture ids being `int`), the diffuse, specular, tint-base and
tint-mask reference is taken from the last texture entry tagged 1, 5, 11 and 54
respectively: it is 0 when there is no such entry or its texture id is -1, and the
texture id as a `uint32` otherwise; dropping the entries with any other tag code
leaves the record as it is. -/
theorem texture_refs (sub : SubObjectAppearance) (r : MaterialRec)
    (h : materialRecord sub = .ok r)
    (hrange : ∀ e ∈ sub.x58_MaterialTextureEntries,
      -2147483648 ≤ e.x00_TexturesSno ∧ e.x00_TexturesSno < 2147483648) :
    r.diffuse = texRef (((sub.x58_MaterialTextureEntries.filter
      fun e => decide (e.x00 = 1)).getLast?).map fun e => e.x00_TexturesSno) ∧
    r.specular = texRef (((sub.x58_MaterialTextureEntries.filter
      fun e => decide (e.x00 = 5)).getLast?).map fun e => e.x00_TexturesSno) ∧
    r.tintBase = texRef (((sub.x58_MaterialTextureEntries.filter
      fun e => decide (e.x00 = 11)).getLast?).map fun e => e.x00_TexturesSno) ∧
    r.tintMask = texRef (((sub.x58_MaterialTextureEntries.filter
      fun e => decide (e.x00 = 54)).getLast?).map fun e => e.x00_TexturesSno) ∧
    materialRecord
      { x10_TagMap := sub.x10_TagMap
        x58_MaterialTextureEntries := (sub.x58_MaterialTextureEntries.filter fun e =>
          decide (e.x00 = 1 ∨ e.x00 = 5 ∨ e.x00 = 11 ∨ e.x00 = 54)) } = .ok r := by
  obtain ⟨hr, a, ha⟩ := materialRecord_ok h
  obtain ⟨s1, s2, s3, s4⟩ := scanTextures_spec sub.x58_MaterialTextureEntries
    ⟨4294967295, 4294967295, 4294967295, 4294967295⟩
  rw [s1, s2, s3, s4] at hr
  simp only [← lastTagged_eq]
  refine ⟨?_, ?_, ?_, ?_, ?_⟩
  · rw [hr]
    exact slot_ref 1 _ hrange
  · rw [hr]
    exact slot_ref 5 _ hrange
  · rw [hr]
    exact slot_ref 11 _ hrange
  · rw [hr]
    exact slot_ref 54 _ hrange
  · unfold materialRecord at h ⊢
    simp only [scanTextures_filter]
    exact h

set_option maxRecDepth 100000 in
/-- C17 at a sub-object appearance with two diffuse entries, a specular entry
without texture and an entry of another tag: the diffuse reference is the id of the
second diffuse entry, the other references are 0. -/
theorem texture_refs_witness :
    materialRecord ⟨[0], [⟨1, 7⟩, ⟨5, -1⟩, ⟨2, 9⟩, ⟨1, 8⟩]⟩ =
        .ok { diffuse := 8, specular := 0, tintBase := 0, tintMask := 0 } ∧
      texRef ((([⟨1, 7⟩, ⟨5, -1⟩, ⟨2, 9⟩, ⟨1, 8⟩] : List MaterialTextureEntry).filter
        fun e => decide (e.x00 = 1)).getLast?.map fun e => e.x00_TexturesSno) = 8 := by
  have h : materialRecord ⟨[0], [⟨1, 7⟩, ⟨5, -1⟩, ⟨2, 9⟩, ⟨1, 8⟩]⟩ =
      .ok { diffuse := 8, specular := 0, tintBase := 0, tintMask := 0 } := rfl
  exact ⟨h, ((texture_refs _ _ h (by decide)).1).symm⟩


/-! ## DoWriteAnimation: offsets and key writes -/

theorem step_mod (fs n k : Nat) (h : fs + k * n < UINT32) :
    (fs + n % UINT32 * k) % UINT32 = fs + k * n := by
  rw [Nat.mul_comm (n % UINT32) k, add_mul_mod]
  exact Nat.mod_eq_of_lt h

theorem keyBytes_append (sz : AnimSizes) (a b : List KeyWrite) :
    keyBytes sz (a ++ b) = keyBytes sz a + keyBytes sz b := by
  simp [keyBytes]

theorem keyBytes_translation (sz : AnimSizes) (i : Nat) (t : List AnimKey) :
    keyBytes sz (t.map fun key =>
      { kind := .translation, bone := i, time := key.x00, value := key.x04 }) =
      (sz.frame + sz.vector) * t.length := by
  induction t with
  | nil => simp [keyBytes]
  | cons a l ih =>
    simp only [keyBytes, List.map_cons, List.sum_cons, List.length_cons] at ih ⊢
    rw [ih, Nat.mul_succ]
    simp only [KeyWrite.bytes]
    omega

theorem keyBytes_rotation (sz : AnimSizes) (i : Nat) (t : List AnimKey) :
    keyBytes sz (t.map fun key =>
      { kind := .rotation, bone := i, time := key.x00, value := key.x04 }) =
      (sz.frame + sz.quaternion) * t.length := by
  induction t with
  | nil => simp [keyBytes]
  | cons a l ih =>
    simp only [keyBytes, List.map_cons, List.sum_cons, List.length_cons] at ih ⊢
    rw [ih, Nat.mul_succ]
    simp only [KeyWrite.bytes]
    omega

theorem keyBytes_scale (sz : AnimSizes) (i : Nat) (t : List AnimKey) :
    keyBytes sz (t.map fun key =>
      { kind := .scale, bone := i, time := key.x00, value := key.x04 }) =
      (sz.frame + sz.scale) * t.length := by
  induction t with
  | nil => simp [keyBytes]
  | cons a l ih =>
    simp only [keyBytes, List.map_cons, List.sum_cons, List.length_cons] at ih ⊢
    rw [ih, Nat.mul_succ]
    simp only [KeyWrite.bytes]
    omega

theorem boneKeys_ok {perm : AnimPermutation} {i : Nat} {ks : List KeyWrite}
    (h : boneKeys perm i = .ok ks) :
    ∃ t r s, perm.x0A0_TranslationCurves[i]? = some t ∧ perm.x0B0_RotationCurves[i]? = some r ∧
      perm.x0C0_ScaleCurves[i]? = some s ∧
      ks = (t.map fun key =>
          { kind := .translation, bone := i, time := key.x00, value := key.x04 }) ++
        (r.map fun key => { kind := .rotation, bone := i, time := key.x00, value := key.x04 }) ++
        (s.map fun key => { kind := .scale, bone := i, time := key.x00, value := key.x04 }) := by
  unfold boneKeys at h
  cases ht : perm.x0A0_TranslationCurves[i]? with
  | none => simp [ht] at h
  | some t =>
    cases hr : perm.x0B0_RotationCurves[i]? with
    | none => simp [ht, hr] at h
    | some r =>
      cases hs : perm.x0C0_ScaleCurves[i]? with
      | none => simp [ht, hr, hs] at h
      | some s =>
        simp only [ht, hr, hs, Except.ok.injEq] at h
        exact ⟨t, r, s, rfl, rfl, rfl, h.symm⟩

theorem curves_keys (sz : AnimSizes) (perm : AnimPermutation)
    (hk1 : sz.translationKey = sz.frame + sz.vector)
    (hk2 : sz.rotationKey = sz.frame + sz.quaternion)
    (hk3 : sz.scaleKey = sz.frame + sz.scale) :
    ∀ (L : List Nat) (fs : Nat) (recs : List CurveRec) (keys : List KeyWrite),
    curveRecords sz perm L fs = .ok recs → keyWrites perm L = .ok keys →
    fs + keyBytes sz keys < UINT32 →
    recs.length = L.length ∧
    ∀ (j i : Nat) (rec : CurveRec), L[j]? = some i → recs[j]? = some rec →
      ∃ (t r s : List AnimKey) (pre post : List KeyWrite),
        perm.x0A0_TranslationCurves[i]? = some t ∧ perm.x0B0_RotationCurves[i]? = some r ∧
        perm.x0C0_ScaleCurves[i]? = some s ∧
        keyWrites perm (L.take j) = .ok pre ∧
        keys = pre ++
          ((t.map fun key =>
              { kind := .translation, bone := i, time := key.x00, value := key.x04 }) ++
            (r.map fun key =>
              { kind := .rotation, bone := i, time := key.x00, value := key.x04 }) ++
            (s.map fun key =>
              { kind := .scale, bone := i, time := key.x00, value := key.x04 })) ++ post ∧
        rec.numTranslations = t.length % UINT32 ∧ rec.numRotations = r.length % UINT32 ∧
        rec.numScales = s.length % UINT32 ∧
        rec.translationOffset = fs + keyBytes sz pre ∧
        rec.rotationOffset = fs + keyBytes sz pre + sz.translationKey * t.length ∧
        rec.scaleOffset =
          fs + keyBytes sz pre + sz.translationKey * t.length + sz.rotationKey * r.length
  | [], fs, recs, keys, h1, _, _ => by
    simp only [curveRecords, Except.ok.injEq] at h1
    subst h1
    exact ⟨rfl, fun j i rec hj => by simp at hj⟩
  | i0 :: rest, fs, recs, keys, h1, h2, hlt => by
    unfold keyWrites at h2
    cases hbk : boneKeys perm i0 with
    | error e =>
      simp only [hbk] at h2
      cases h2
    | ok ks =>
      cases hmore : keyWrites perm rest with
      | error e =>
        simp only [hbk, hmore] at h2
        cases h2
      | ok more =>
        simp only [hbk, hmore, Except.ok.injEq] at h2
        subst h2
        obtain ⟨t, r, s, ht, hr, hs, hks⟩ := boneKeys_ok hbk
        have hkb : keyBytes sz ks = sz.translationKey * t.length + sz.rotationKey * r.length +
            sz.scaleKey * s.length := by
          rw [hks, keyBytes_append, keyBytes_append, keyBytes_translation, keyBytes_rotation,
            keyBytes_scale, hk1, hk2, hk3]
        rw [keyBytes_append, hkb] at hlt
        have hlt' : fs + (sz.translationKey * t.length + sz.rotationKey * r.length +
            sz.scaleKey * s.length + keyBytes sz more) < 4294967296 := hlt
        have e1 : (fs + t.length % UINT32 * sz.translationKey) % UINT32 =
            fs + sz.translationKey * t.length :=
          step_mod _ _ _ (by show _ < 4294967296; omega)
        have e2 : (fs + sz.translationKey * t.length + r.length % UINT32 * sz.rotationKey) %
            UINT32 = fs + sz.translationKey * t.length + sz.rotationKey * r.length :=
          step_mod _ _ _ (by show _ < 4294967296; omega)
        have e3 : (fs + sz.translationKey * t.length + sz.rotationKey * r.length +
            s.length % UINT32 * sz.scaleKey) % UINT32 =
            fs + sz.translationKey * t.length + sz.rotationKey * r.length +
              sz.scaleKey * s.length :=
          step_mod _ _ _ (by show _ < 4294967296; omega)
        unfold curveRecords at h1
        cases hname : perm.x088_BoneNames[i0]? with
        | none => simp [hname] at h1
        | some name =>
          simp only [hname, ht, hr, hs, e1, e2, e3] at h1
          cases hrec : curveRecords sz perm rest (fs + sz.translationKey * t.length +
              sz.rotationKey * r.length + sz.scaleKey * s.length) with
          | error e =>
            simp only [hrec] at h1
            cases h1
          | ok recs1 =>
            simp only [hrec, Except.ok.injEq] at h1
            subst h1
            obtain ⟨ihl, ih⟩ := curves_keys sz perm hk1 hk2 hk3 rest _ recs1 more hrec hmore
              (by show _ < 4294967296; omega)
            refine ⟨by simp [ihl], ?_⟩
            intro j i rec hj hrj
            cases j with
            | zero =>
              simp only [List.getElem?_cons_zero, Option.some.injEq] at hj hrj
              subst hj
              subst hrj
              refine ⟨t, r, s, [], more, ht, hr, hs, rfl, ?_, rfl, rfl, rfl, ?_, ?_, ?_⟩
              · rw [List.nil_append, hks]
              · simp [keyBytes]
              · simp [keyBytes]
              · simp [keyBytes]
            | succ j =>
              simp only [List.getElem?_cons_succ] at hj hrj
              obtain ⟨t1, r1, s1, pre, post, a1, a2, a3, a4, a5, a6, a7, a8, a9, a10, a11⟩ :=
                ih j i rec hj hrj
              refine ⟨t1, r1, s1, ks ++ pre, post, a1, a2, a3, ?_, ?_, a6, a7, a8, ?_, ?_, ?_⟩
              · simp only [List.take_succ_cons, keyWrites, hbk, a4]
              · rw [a5]
                simp only [List.append_assoc]
              · rw [a9, keyBytes_append, hkb]
                omega
              · rw [a10, keyBytes_append, hkb]
                omega
              · rw [a11, keyBytes_append, hkb]
                omega

theorem curveRecords_length (sz : AnimSizes) (perm : AnimPermutation) :
    ∀ (L : List Nat) (fs : Nat) (recs : List CurveRec),
    curveRecords sz perm L fs = .ok recs → recs.length = L.length
  | [], _, recs, h => by
    simp only [curveRecords, Except.ok.injEq] at h
    subst h
    rfl
  | i :: rest, fs, recs, h => by
    unfold curveRecords at h
    split at h
    · rename_i name t r s _ _ _ _
      simp only [] at h
      split at h
      · cases h
      · rename_i recs1 hrec
        simp only [Except.ok.injEq] at h
        subst h
        simp [curveRecords_length sz perm rest _ recs1 hrec]
    · cases h

theorem keyWrites_bones (perm : AnimPermutation) : ∀ (L : List Nat) (keys : List KeyWrite),
    keyWrites perm L = .ok keys → ∀ k ∈ keys, k.bone ∈ L
  | [], keys, h, k, hk => by
    simp only [keyWrites, Except.ok.injEq] at h
    subst h
    simp at hk
  | i :: rest, keys, h, k, hk => by
    unfold keyWrites at h
    cases hbk : boneKeys perm i with
    | error e =>
      simp only [hbk] at h
      cases h
    | ok ks =>
      cases hmore : keyWrites perm rest with
      | error e =>
        simp only [hbk, hmore] at h
        cases h
      | ok more =>
        simp only [hbk, hmore, Except.ok.injEq] at h
        subst h
        rcases List.mem_append.1 hk with hk | hk
        · obtain ⟨t, r, s, _, _, _, hks⟩ := boneKeys_ok hbk
          rw [hks] at hk
          simp only [List.mem_append, List.mem_map] at hk
          rcases hk with (⟨a, _, rfl⟩ | ⟨a, _, rfl⟩) | ⟨a, _, rfl⟩ <;>
            exact List.mem_cons_self _ _
        · exact List.mem_cons_of_mem _ (keyWrites_bones perm rest more hmore k hk)

theorem keyWrites_flatMap (perm : AnimPermutation) : ∀ (L : List Nat) (keys : List KeyWrite),
    keyWrites perm L = .ok keys →
    keys = L.flatMap fun i =>
      keysOf .translation i perm.x0A0_TranslationCurves ++
        keysOf .rotation i perm.x0B0_RotationCurves ++ keysOf .scale i perm.x0C0_ScaleCurves
  | [], keys, h => by
    simp only [keyWrites, Except.ok.injEq] at h
    subst h
    rfl
  | i :: rest, keys, h => by
    unfold keyWrites at h
    cases hbk : boneKeys perm i with
    | error e =>
      simp only [hbk] at h
      cases h
    | ok ks =>
      cases hmore : keyWrites perm rest with
      | error e =>
        simp only [hbk, hmore] at h
        cases h
      | ok more =>
        simp only [hbk, hmore, Except.ok.injEq] at h
        subst h
        obtain ⟨t, r, s, ht, hr, hs, hks⟩ := boneKeys_ok hbk
        rw [List.flatMap_cons, ← keyWrites_flatMap perm rest more hmore, hks]
        simp only [keysOf, List.getD_eq_getElem?_getD, ht, hr, hs, Option.getD_some]

theorem DoWriteAnimation_ok {sz : AnimSizes} {anim : Anim} {f : AnimFile}
    (h : DoWriteAnimation sz anim = .ok f) :
    ∃ perm, anim.x28_AnimPermutations[0]? = some perm ∧
      f.header.numBones = perm.x088_BoneNames.length % UINT32 ∧
      f.header.animationOffset = sz.header % UINT32 ∧
      curveRecords sz perm (List.range f.header.numBones)
        ((sz.header % UINT32 + f.header.numBones * sz.curve) % UINT32) = .ok f.curves ∧
      keyWrites perm (List.range f.header.numBones) = .ok f.keys := by
  unfold DoWriteAnimation at h
  cases hp : anim.x28_AnimPermutations[0]? with
  | none =>
    simp only [hp] at h
    cases h
  | some perm =>
    simp only [hp] at h
    cases hc : curveRecords sz perm (List.range (perm.x088_BoneNames.length % UINT32))
        ((sz.header % UINT32 + perm.x088_BoneNames.length % UINT32 * sz.curve) % UINT32) with
    | error e =>
      simp only [hc] at h
      cases h
    | ok curves =>
      cases hk : keyWrites perm (List.range (perm.x088_BoneNames.length % UINT32)) with
      | error e =>
        simp only [hc, hk] at h
        cases h
      | ok keys =>
        simp only [hc, hk, Except.ok.injEq] at h
        subst h
        exact ⟨perm, rfl, rfl, rfl, hc, hk⟩

/-! ## Claims on `DoWriteAnimation` -/

/-- C11: when the key records of `webgl.h` are the frame and the value that are
written for a key, and the written file is shorter than `2^32` bytes,
`DoWriteAnimation` records `animationOffset` as the size of the header, and for
every bone `i` the recorded translation, rotation and scale offset is the byte
position at which the translation, rotation and scale keys of bone `i` are
written: the keys written before belong to the bones below `i`, the translation
offset is the position after them (for bone 0 the header and the `numBones` curve
records), and each further offset advances by key count times key size. -/
theorem animation_offsets (sz : AnimSizes) (anim : Anim) (f : AnimFile)
    (perm : AnimPermutation) (h : DoWriteAnimation sz anim = .ok f)
    (hperm : anim.x28_AnimPermutations[0]? = some perm)
    (hk1 : sz.translationKey = sz.frame + sz.vector)
    (hk2 : sz.rotationKey = sz.frame + sz.quaternion)
    (hk3 : sz.scaleKey = sz.frame + sz.scale)
    (hsize : f.bytes sz < UINT32) :
    f.header.animationOffset = sz.header ∧ f.curves.length = f.header.numBones ∧
    ∀ (i : Nat) (rec : CurveRec), f.curves[i]? = some rec →
      ∃ (pre post : List KeyWrite),
        f.keys = pre ++
          (keysOf .translation i perm.x0A0_TranslationCurves ++
            keysOf .rotation i perm.x0B0_RotationCurves ++
            keysOf .scale i perm.x0C0_ScaleCurves) ++ post ∧
        (∀ k ∈ pre, k.bone < i) ∧
        rec.translationOffset = f.keysStart sz + keyBytes sz pre ∧
        rec.rotationOffset = f.keysStart sz +
          keyBytes sz (pre ++ keysOf .translation i perm.x0A0_TranslationCurves) ∧
        rec.scaleOffset = f.keysStart sz +
          keyBytes sz (pre ++ keysOf .translation i perm.x0A0_TranslationCurves ++
            keysOf .rotation i perm.x0B0_RotationCurves) ∧
        rec.rotationOffset = rec.translationOffset +
          sz.translationKey * (keysOf .translation i perm.x0A0_TranslationCurves).length ∧
        rec.scaleOffset = rec.rotationOffset +
          sz.rotationKey * (keysOf .rotation i perm.x0B0_RotationCurves).length := by
  obtain ⟨perm1, hp1, hnb, hao, hc, hkw⟩ := DoWriteAnimation_ok h
  rw [hperm] at hp1
  cases hp1
  have hlen : f.curves.length = f.header.numBones := by
    rw [curveRecords_length sz perm _ _ _ hc, List.length_range]
  have hb : sz.header + sz.curve * f.curves.length + keyBytes sz f.keys = f.bytes sz := rfl
  have hs : f.bytes sz < 4294967296 := hsize
  have hfs : (sz.header % UINT32 + f.header.numBones * sz.curve) % UINT32 = f.keysStart sz := by
    rw [mod_add_eq, Nat.mul_comm, ← hlen]
    exact Nat.mod_eq_of_lt (lt_of_le_of_lt (by omega) hsize)
  rw [hfs] at hc
  obtain ⟨_, hget⟩ := curves_keys sz perm hk1 hk2 hk3 _ _ _ _ hc hkw hsize
  refine ⟨?_, hlen, ?_⟩
  · rw [hao]
    exact Nat.mod_eq_of_lt (lt_of_le_of_lt (by omega) hsize)
  · intro i rec hrec
    have hi : i < f.header.numBones := by
      rw [← hlen]
      exact (List.getElem?_eq_some.1 hrec).1
    obtain ⟨t, r, s, pre, post, a1, a2, a3, a4, a5, _, _, _, a9, a10, a11⟩ :=
      hget i i rec (by rw [List.getElem?_range hi]) hrec
    have et : keysOf .translation i perm.x0A0_TranslationCurves = t.map fun key =>
        { kind := .translation, bone := i, time := key.x00, value := key.x04 } := by
      simp only [keysOf, List.getD_eq_getElem?_getD, a1, Option.getD_some]
    have er : keysOf .rotation i perm.x0B0_RotationCurves = r.map fun key =>
        { kind := .rotation, bone := i, time := key.x00, value := key.x04 } := by
      simp only [keysOf, List.getD_eq_getElem?_getD, a2, Option.getD_some]
    have es : keysOf .scale i perm.x0C0_ScaleCurves = s.map fun key =>
        { kind := .scale, bone := i, time := key.x00, value := key.x04 } := by
      simp only [keysOf, List.getD_eq_getElem?_getD, a3, Option.getD_some]
    rw [et, er, es]
    refine ⟨pre, post, a5, ?_, a9, ?_, ?_, ?_, ?_⟩
    · intro k hk
      have := keyWrites_bones perm _ pre a4 k hk
      rw [List.take_range, List.mem_range] at this
      omega
    · rw [a10, keyBytes_append, keyBytes_translation, hk1, Nat.add_assoc]
    · rw [a11, keyBytes_append, keyBytes_append, keyBytes_translation, keyBytes_rotation, hk1,
        hk2]
      omega
    · rw [a10, a9, List.length_map]
    · rw [a11, a10, List.length_map]

/-- C11 at the sample animation: the file has 272 bytes and the curve record of the
second bone holds the positions 228, 244 and 264. -/
theorem animation_offsets_witness :
    ∃ f, DoWriteAnimation sampleAnimSizes sampleAnim = .ok f ∧ f.bytes sampleAnimSizes = 272 ∧
      f.header.animationOffset = 16 ∧ f.curves.length = f.header.numBones := by
  have h := animation_offsets sampleAnimSizes sampleAnim _ _ rfl rfl rfl rfl rfl (by decide)
  exact ⟨_, rfl, rfl, h.1, h.2.1⟩

/-- C12, counterexample: for the sample animation of two bones the rotation key of
bone 0 is written before the translation key of bone 1, so the keys are not written
as all translation keys, then all rotation keys, then all scale keys. -/
theorem keys_not_by_curve_type :
    ∃ (f : AnimFile) (perm : AnimPermutation),
      DoWriteAnimation sampleAnimSizes sampleAnim = .ok f ∧
      sampleAnim.x28_AnimPermutations[0]? = some perm ∧
      f.keys.map (fun k => (k.kind, k.bone)) =
        [(.translation, 0), (.rotation, 0), (.translation, 1), (.rotation, 1), (.scale, 1)] ∧
      f.keys ≠
        ((List.range f.header.numBones).flatMap fun i =>
          keysOf .translation i perm.x0A0_TranslationCurves) ++
        ((List.range f.header.numBones).flatMap fun i =>
          keysOf .rotation i perm.x0B0_RotationCurves) ++
        ((List.range f.header.numBones).flatMap fun i =>
          keysOf .scale i perm.x0C0_ScaleCurves) :=
  ⟨_, _, rfl, rfl, rfl, by decide⟩

/-- C12, amended: `DoWriteAnimation` writes the keys after the curve records bone by
bone: for every bone in bone order its translation keys, then its rotation keys,
then its scale keys, each key as the pair of its frame and its value. -/
theorem keys_bone_by_bone (sz : AnimSizes) (anim : Anim) (f : AnimFile)
    (perm : AnimPermutation) (h : DoWriteAnimation sz anim = .ok f)
    (hperm : anim.x28_AnimPermutations[0]? = some perm) :
    f.keys = (List.range f.header.numBones).flatMap fun i =>
      keysOf .translation i perm.x0A0_TranslationCurves ++
        keysOf .rotation i perm.x0B0_RotationCurves ++
        keysOf .scale i perm.x0C0_ScaleCurves := by
  obtain ⟨perm1, hp1, _, _, _, hkw⟩ := DoWriteAnimation_ok h
  rw [hperm] at hp1
  cases hp1
  exact keyWrites_flatMap perm _ _ hkw

/-- C12 amended, at the sample animation. -/
theorem keys_bone_by_bone_witness :
    ∃ (f : AnimFile) (perm : AnimPermutation),
      DoWriteAnimation sampleAnimSizes sampleAnim = .ok f ∧
      f.keys = (List.range f.header.numBones).flatMap fun i =>
        keysOf .translation i perm.x0A0_TranslationCurves ++
          keysOf .rotation i perm.x0B0_RotationCurves ++
          keysOf .scale i perm.x0C0_ScaleCurves :=
  ⟨_, _, rfl, keys_bone_by_bone sampleAnimSizes sampleAnim _ _ rfl rfl⟩


/-! ## The corners of a face -/

theorem addCorner_frame {st : ParseState} {obj obj1 : ParsedObject} {idx : VertexIndex}
    {id : Nat} (h : addCorner st obj idx = .ok (obj1, id)) :
    obj1.index_list = obj.index_list ∧ obj1.face_list = obj.face_list ∧
      obj1.face_sizes = obj.face_sizes ∧ obj1.mat = obj.mat := by
  unfold addCorner at h
  cases hl : lookupVertex idx obj.vertex_index with
  | some x =>
    simp only [hl, Except.ok.injEq, Prod.mk.injEq] at h
    obtain ⟨rfl, _⟩ := h
    exact ⟨rfl, rfl, rfl, rfl⟩
  | none =>
    cases hv : cornerVertex st idx with
    | none =>
      simp only [hl, hv] at h
      cases h
    | some vertex =>
      simp only [hl, hv, Except.ok.injEq, Prod.mk.injEq] at h
      obtain ⟨rfl, _⟩ := h
      exact ⟨rfl, rfl, rfl, rfl⟩

theorem addCorners_frame (st : ParseState) : ∀ (cs : List VertexIndex)
    (obj obj1 : ParsedObject) (ids : List Nat), addCorners st obj cs = .ok (obj1, ids) →
    ids.length = cs.length ∧ obj1.index_list = obj.index_list ∧
      obj1.face_list = obj.face_list ∧ obj1.face_sizes = obj.face_sizes ∧ obj1.mat = obj.mat
  | [], obj, obj1, ids, h => by
    simp only [addCorners, Except.ok.injEq, Prod.mk.injEq] at h
    obtain ⟨rfl, rfl⟩ := h
    exact ⟨rfl, rfl, rfl, rfl, rfl⟩
  | c :: rest, obj, obj1, ids, h => by
    unfold addCorners at h
    cases h1 : addCorner st obj c with
    | error e =>
      simp only [h1] at h
      cases h
    | ok r =>
      obtain ⟨o1, id⟩ := r
      cases h2 : addCorners st o1 rest with
      | error e =>
        simp only [h1, h2] at h
        cases h
      | ok r2 =>
        obtain ⟨o2, ids2⟩ := r2
        simp only [h1, h2, Except.ok.injEq, Prod.mk.injEq] at h
        obtain ⟨rfl, rfl⟩ := h
        obtain ⟨a1, a2, a3, a4⟩ := addCorner_frame h1
        obtain ⟨b0, b1, b2, b3, b4⟩ := addCorners_frame st rest o1 o2 ids2 h2
        exact ⟨by simp [b0], b1.trans a1, b2.trans a2, b3.trans a3, b4.trans a4⟩

/-! ## The two ways of cutting a face -/

theorem earLoop_spec (tests : FaceTests) : ∀ (fuel : Nat) (nsrc indices : List Nat)
    (obj : ParsedObject) (rest : List Nat) (obj1 : ParsedObject),
    earLoop tests fuel nsrc indices obj = some (rest, obj1) →
    ∃ tris : List Nat, obj1.index_list = obj.index_list ++ tris ∧
      obj1.face_list = obj.face_list ++ tris ∧
      obj1.face_sizes = obj.face_sizes ++ List.replicate (tris.length / 3) 3 ∧
      tris.length % 3 = 0 ∧ (∀ x ∈ tris, x ∈ indices) ∧ rest.Sublist indices ∧
      rest.length = min 3 indices.length ∧
      obj1.vertex_list = obj.vertex_list ∧ obj1.vertex_index = obj.vertex_index ∧
      obj1.mat = obj.mat
  | 0, _, _, _, _, _, h => by simp [earLoop] at h
  | fuel + 1, nsrc, indices, obj, rest, obj1, h => by
    unfold earLoop at h
    by_cases hlen : indices.length > 3
    · rw [if_pos hlen] at h
      have hsub : ∀ i, (indices.eraseIdx i).Sublist indices := fun i => List.eraseIdx_sublist _ _
      have hmin : ∀ i, i < indices.length →
          min 3 (indices.eraseIdx i).length = min 3 indices.length := by
        intro i hi
        rw [List.length_eraseIdx, if_pos hi]
        omega
      cases hs : scanEar (tests.verdict nsrc indices) (List.range indices.length) with
      | none =>
        simp only [hs] at h
        exact earLoop_spec tests fuel indices indices obj rest obj1 h
      | some r =>
        obtain ⟨i, b⟩ := r
        have hi : i < indices.length := by
          have : ∀ (l : List Nat) (i : Nat) (b : Bool),
              scanEar (tests.verdict nsrc indices) l = some (i, b) → i ∈ l := by
            intro l
            induction l with
            | nil => intro i b h0; simp [scanEar] at h0
            | cons a l ih =>
              intro i b h0
              unfold scanEar at h0
              split at h0
              · simp only [Option.some.injEq, Prod.mk.injEq] at h0
                exact h0.1 ▸ List.mem_cons_self _ _
              · simp only [Option.some.injEq, Prod.mk.injEq] at h0
                exact h0.1 ▸ List.mem_cons_self _ _
              · exact List.mem_cons_of_mem _ (ih i b h0)
              · exact List.mem_cons_of_mem _ (ih i b h0)
          exact List.mem_range.1 (this _ i b hs)
        cases b with
        | false =>
          simp only [hs] at h
          obtain ⟨tris, a1, a2, a3, a4, a5, a6, a7, a8, a9, a10⟩ :=
            earLoop_spec tests fuel nsrc _ obj rest obj1 h
          exact ⟨tris, a1, a2, a3, a4, fun x hx => (hsub i).subset (a5 x hx), a6.trans (hsub i),
            by rw [a7, hmin i hi], a8, a9, a10⟩
        | true =>
          simp only [hs] at h
          obtain ⟨tris, a1, a2, a3, a4, a5, a6, a7, a8, a9, a10⟩ :=
            earLoop_spec tests fuel nsrc _ _ rest obj1 h
          have hget : ∀ j, j < indices.length → indices.getD j 0 ∈ indices := by
            intro j hj
            rw [List.getD_eq_getElem _ _ hj]
            exact List.getElem_mem _
          have hi0 : (if i = 0 then indices.length - 1 else i - 1) % UINT16 < indices.length := by
            have : (if i = 0 then indices.length - 1 else i - 1) < indices.length := by
              split <;> omega
            exact lt_of_le_of_lt (Nat.mod_le _ _) this
          have hi2 : (i + 1) % indices.length % UINT16 < indices.length :=
            lt_of_le_of_lt (Nat.mod_le _ _) (Nat.mod_lt _ (by omega))
          refine ⟨[indices.getD ((if i = 0 then indices.length - 1 else i - 1) % UINT16) 0,
              indices.getD i 0, indices.getD ((i + 1) % indices.length % UINT16) 0] ++ tris,
            ?_, ?_, ?_, ?_, ?_, a6.trans (hsub i), by rw [a7, hmin i hi], a8, a9, a10⟩
          · rw [a1]
            simp [emitTriangle]
          · rw [a2]
            simp [emitTriangle]
          · rw [a3]
            have : ([indices.getD ((if i = 0 then indices.length - 1 else i - 1) % UINT16) 0,
                indices.getD i 0, indices.getD ((i + 1) % indices.length % UINT16) 0] ++
                tris).length / 3 = tris.length / 3 + 1 := by
              simp only [List.length_append, List.length_cons, List.length_nil]
              omega
            rw [this, List.replicate_succ]
            simp [emitTriangle]
          · simp only [List.length_append, List.length_cons, List.length_nil]
            omega
          · intro x hx
            rcases List.mem_append.1 hx with hx | hx
            · simp only [List.mem_cons, List.mem_singleton, List.not_mem_nil, or_false] at hx
              rcases hx with rfl | rfl | rfl
              · exact hget _ hi0
              · exact hget _ hi
              · exact hget _ hi2
            · exact (hsub i).subset (a5 x hx)
    · rw [if_neg hlen] at h
      simp only [Option.some.injEq, Prod.mk.injEq] at h
      obtain ⟨rfl, rfl⟩ := h
      refine ⟨[], by simp, by simp, by simp, rfl, by simp, List.Sublist.refl _, ?_, rfl, rfl, rfl⟩
      omega

/-! ## The vertex table of an object -/

theorem foldl_noteCorner_extends {α : Type} [DecidableEq α] (l : List α) :
    ∀ acc : List α, acc <+: l.foldl noteCorner acc := by
  induction l with
  | nil => intro acc; exact List.prefix_refl _
  | cons x l ih =>
    intro acc
    rw [List.foldl_cons]
    refine List.IsPrefix.trans ?_ (ih _)
    unfold noteCorner
    split
    · exact List.prefix_refl _
    · exact List.prefix_append _ _

theorem foldl_noteCorner_nodup {α : Type} [DecidableEq α] (l : List α) :
    ∀ acc : List α, acc.Nodup → (l.foldl noteCorner acc).Nodup := by
  induction l with
  | nil => intro acc h; exact h
  | cons x l ih =>
    intro acc h
    rw [List.foldl_cons]
    apply ih
    unfold noteCorner
    split
    · exact h
    · rename_i hx
      refine List.Nodup.append h (List.nodup_singleton _) ?_
      intro a ha hb
      rw [List.mem_singleton] at hb
      exact hx (hb ▸ ha)

theorem foldl_noteCorner_mem {α : Type} [DecidableEq α] (l : List α) :
    ∀ (acc : List α) (x : α),
      x ∈ l.foldl noteCorner acc ↔ x ∈ acc ∨ x ∈ l := by
  induction l with
  | nil => intro acc x; simp
  | cons y l ih =>
    intro acc x
    rw [List.foldl_cons, ih]
    unfold noteCorner
    split
    · rename_i hy
      constructor
      · rintro (h | h)
        · exact Or.inl h
        · exact Or.inr (List.mem_cons_of_mem _ h)
      · rintro (h | h)
        · exact Or.inl h
        · rcases List.mem_cons.1 h with rfl | h
          · exact Or.inl hy
          · exact Or.inr h
    · simp only [List.mem_append, List.mem_singleton, List.mem_cons]
      tauto

theorem firstSeen_append {α : Type} [DecidableEq α] (l ext : List α) :
    firstSeen (l ++ ext) = ext.foldl noteCorner (firstSeen l) := by
  unfold firstSeen
  rw [List.foldl_append]

theorem firstSeen_snoc {α : Type} [DecidableEq α] (l : List α) (c : α) :
    firstSeen (l ++ [c]) = noteCorner (firstSeen l) c := by
  rw [firstSeen_append]
  rfl

theorem firstSeen_extends {α : Type} [DecidableEq α] (l ext : List α) :
    firstSeen l <+: firstSeen (l ++ ext) := by
  rw [firstSeen_append]
  exact foldl_noteCorner_extends _ _

theorem firstSeen_nodup {α : Type} [DecidableEq α] (l : List α) : (firstSeen l).Nodup :=
  foldl_noteCorner_nodup l [] List.nodup_nil

theorem mem_firstSeen {α : Type} [DecidableEq α] (l : List α) (x : α) :
    x ∈ firstSeen l ↔ x ∈ l := by
  unfold firstSeen
  rw [foldl_noteCorner_mem]
  simp

theorem firstSeen_length_mono {α : Type} [DecidableEq α] (l ext : List α) :
    (firstSeen l).length ≤ (firstSeen (l ++ ext)).length :=
  (firstSeen_extends l ext).length_le

theorem idOf_append_of_mem {α : Type} [DecidableEq α] (c : α) (t : List α) :
    ∀ T : List α, c ∈ T → idOf c (T ++ t) = idOf c T
  | [], h => by cases h
  | x :: T, h => by
    rw [List.cons_append]
    unfold idOf
    by_cases hx : x = c
    · rw [if_pos hx, if_pos hx]
    · rw [if_neg hx, if_neg hx]
      have hc : c ∈ T := by
        rcases List.mem_cons.1 h with h | h
        · exact absurd h.symm hx
        · exact h
      rw [idOf_append_of_mem c t T hc]

theorem idOf_snoc {α : Type} [DecidableEq α] (c : α) :
    ∀ T : List α, c ∉ T → idOf c (T ++ [c]) = T.length
  | [], _ => by simp [idOf]
  | x :: T, h => by
    rw [List.cons_append]
    unfold idOf
    have hx : ¬ x = c := fun e => h (e ▸ List.mem_cons_self _ _)
    rw [if_neg hx, idOf_snoc c T (fun hm => h (List.mem_cons_of_mem _ hm))]
    rfl

theorem idOf_get {α : Type} [DecidableEq α] (c : α) :
    ∀ T : List α, c ∈ T → T[idOf c T]? = some c
  | [], h => by cases h
  | x :: T, h => by
    unfold idOf
    by_cases hx : x = c
    · rw [if_pos hx]
      simp [hx]
    · rw [if_neg hx]
      have hc : c ∈ T := by
        rcases List.mem_cons.1 h with h | h
        · exact absurd h.symm hx
        · exact h
      simpa using idOf_get c T hc

theorem idOf_lt {α : Type} [DecidableEq α] (c : α) (T : List α) (h : c ∈ T) :
    idOf c T < T.length := by
  have := idOf_get c T h
  by_contra hge
  rw [List.getElem?_eq_none (Nat.le_of_not_lt hge)] at this
  cases this

theorem idOf_inj {α : Type} [DecidableEq α] (T : List α) (c d : α) (hc : c ∈ T)
    (hd : d ∈ T) :
    idOf c T = idOf d T ↔ c = d := by
  constructor
  · intro h
    have h1 := idOf_get c T hc
    have h2 := idOf_get d T hd
    rw [h] at h1
    exact Option.some.inj (h1.symm.trans h2)
  · intro h
    rw [h]

theorem firstSeen_idOf {α : Type} [DecidableEq α] (l ext : List α) (c : α) (hc : c ∈ l) :
    idOf c (firstSeen (l ++ ext)) = idOf c (firstSeen l) := by
  obtain ⟨t, ht⟩ := firstSeen_extends l ext
  rw [← ht]
  exact idOf_append_of_mem c t _ ((mem_firstSeen l c).2 hc)

theorem lookupVertex_enumFrom (c : VertexIndex) : ∀ (T : List VertexIndex) (n : Nat),
    lookupVertex c ((T.enumFrom n).map fun p => (p.2, p.1)) =
      if c ∈ T then some (n + idOf c T) else none
  | [], n => by simp [lookupVertex]
  | x :: T, n => by
    have ih := lookupVertex_enumFrom c T (n + 1)
    unfold lookupVertex at ih ⊢
    rw [List.enumFrom_cons, List.map_cons, List.find?_cons]
    unfold idOf
    by_cases hx : x = c
    · subst hx
      simp
    · have hx2 : ¬ c = x := fun h => hx h.symm
      simp only [hx, decide_False, List.mem_cons, hx2, false_or, if_false]
      rw [ih]
      split
      · congr 1
        omega
      · rfl

theorem lookupVertex_enum (c : VertexIndex) (T : List VertexIndex) :
    lookupVertex c (T.enum.map fun p => (p.2, p.1)) =
      if c ∈ T then some (idOf c T) else none := by
  have := lookupVertex_enumFrom c T 0
  simpa [List.enum] using this

theorem TableOk.length {st : ParseState} {obj : ParsedObject} {seen : List VertexIndex}
    (h : TableOk st obj seen) : obj.vertex_list.length = (firstSeen seen).length :=
  h.2.length_eq.symm

theorem addCorner_ok {st : ParseState} (obj : ParsedObject) {c : VertexIndex}
    (hv : cornerVertex st c ≠ none) : ∃ r, addCorner st obj c = .ok r := by
  unfold addCorner
  cases hl : lookupVertex c obj.vertex_index with
  | some id => exact ⟨_, rfl⟩
  | none =>
    cases hc : cornerVertex st c with
    | none => exact absurd hc hv
    | some vertex => exact ⟨_, rfl⟩

theorem addCorners_ok (st : ParseState) : ∀ (cs : List VertexIndex) (obj : ParsedObject),
    (∀ c ∈ cs, cornerVertex st c ≠ none) → ∃ r, addCorners st obj cs = .ok r
  | [], obj, _ => ⟨_, rfl⟩
  | c :: rest, obj, hv => by
    obtain ⟨⟨o1, id⟩, h1⟩ := addCorner_ok obj (hv c (List.mem_cons_self _ _))
    obtain ⟨⟨o2, ids⟩, h2⟩ :=
      addCorners_ok st rest o1 (fun x hx => hv x (List.mem_cons_of_mem _ hx))
    refine ⟨(o2, id :: ids), ?_⟩
    unfold addCorners
    simp only [h1, h2]

theorem addCorner_spec {st : ParseState} {obj obj1 : ParsedObject} {seen : List VertexIndex}
    {c : VertexIndex} {id : Nat} (ht : TableOk st obj seen)
    (hsmall : (firstSeen (seen ++ [c])).length < 65536)
    (h : addCorner st obj c = .ok (obj1, id)) :
    id = idOf c (firstSeen (seen ++ [c])) ∧ TableOk st obj1 (seen ++ [c]) := by
  unfold addCorner at h
  rw [ht.1, lookupVertex_enum] at h
  rw [firstSeen_snoc] at hsmall ⊢
  unfold noteCorner at hsmall ⊢
  by_cases hm : c ∈ firstSeen seen
  · rw [if_pos hm] at h
    simp only [Except.ok.injEq, Prod.mk.injEq] at h
    obtain ⟨rfl, rfl⟩ := h
    rw [if_pos hm]
    refine ⟨rfl, ?_⟩
    unfold TableOk
    rw [firstSeen_snoc]
    unfold noteCorner
    rw [if_pos hm]
    exact ht
  · rw [if_neg hm] at h hsmall
    rw [if_neg hm]
    cases hc : cornerVertex st c with
    | none =>
      simp only [hc] at h
      cases h
    | some vertex =>
      simp only [hc, Except.ok.injEq, Prod.mk.injEq] at h
      obtain ⟨rfl, rfl⟩ := h
      have hlen : obj.vertex_list.length = (firstSeen seen).length := ht.length
      have hlt : (firstSeen seen).length < 65536 := by
        rw [List.length_append] at hsmall
        omega
      have hid : obj.vertex_list.length % UINT16 = (firstSeen seen).length := by
        rw [hlen]
        exact Nat.mod_eq_of_lt hlt
      refine ⟨by rw [idOf_snoc c _ hm, hid], ?_⟩
      unfold TableOk
      rw [firstSeen_snoc]
      unfold noteCorner
      rw [if_neg hm]
      constructor
      · show (List.map (fun p => (p.2, p.1)) (firstSeen seen).enum ++
            [(c, obj.vertex_list.length % UINT16)]) = _
        rw [hid, List.enum_append]
        simp [List.enumFrom]
      · show List.Forall₂ _ _ (obj.vertex_list ++ [vertex])
        exact List.rel_append ht.2 (List.Forall₂.cons hc List.Forall₂.nil)

theorem addCorners_spec (st : ParseState) : ∀ (cs seen : List VertexIndex)
    (obj obj1 : ParsedObject) (ids : List Nat), TableOk st obj seen →
    (firstSeen (seen ++ cs)).length < 65536 → addCorners st obj cs = .ok (obj1, ids) →
    ids = cs.map (fun c => idOf c (firstSeen (seen ++ cs))) ∧ TableOk st obj1 (seen ++ cs)
  | [], seen, obj, obj1, ids, ht, _, h => by
    simp only [addCorners, Except.ok.injEq, Prod.mk.injEq] at h
    obtain ⟨rfl, rfl⟩ := h
    rw [List.append_nil]
    exact ⟨rfl, ht⟩
  | c :: rest, seen, obj, obj1, ids, ht, hsmall, h => by
    unfold addCorners at h
    have hassoc : seen ++ c :: rest = seen ++ [c] ++ rest := by simp
    cases h1 : addCorner st obj c with
    | error e =>
      simp only [h1] at h
      cases h
    | ok r =>
      obtain ⟨o1, id⟩ := r
      cases h2 : addCorners st o1 rest with
      | error e =>
        simp only [h1, h2] at h
        cases h
      | ok r2 =>
        obtain ⟨o2, ids2⟩ := r2
        simp only [h1, h2, Except.ok.injEq, Prod.mk.injEq] at h
        obtain ⟨rfl, rfl⟩ := h
        have hs1 : (firstSeen (seen ++ [c])).length < 65536 :=
          lt_of_le_of_lt (firstSeen_length_mono _ rest) (hassoc ▸ hsmall)
        obtain ⟨a1, a2⟩ := addCorner_spec ht hs1 h1
        obtain ⟨b1, b2⟩ := addCorners_spec st rest (seen ++ [c]) o1 o2 ids2 a2
          (hassoc ▸ hsmall) h2
        rw [hassoc]
        refine ⟨?_, b2⟩
        rw [List.map_cons, ← b1, a1, firstSeen_idOf (seen ++ [c]) rest c (by simp)]

theorem readAt_append {α : Type} {l : List α} {i : Int} {x : α} (t : List α)
    (h : readAt l i = some x) : readAt (l ++ t) i = some x := by
  unfold readAt at h ⊢
  split
  · rename_i hi
    rw [if_pos hi] at h
    have hlt : i.toNat < l.length := by
      by_contra hge
      rw [List.getElem?_eq_none (Nat.le_of_not_lt hge)] at h
      cases h
    rw [List.getElem?_append_left hlt]
    exact h
  · rename_i hi
    rw [if_neg hi] at h
    cases h

/-- A state whose attribute lists extend those of an earlier state. -/
theorem cornerVertex_grow {st st1 : ParseState} {c : VertexIndex} {x : ObjVertex}
    (tv : List (Nat × Nat × Nat)) (tt : List (Int × Int)) (tn : List (Int × Int × Int × Int))
    (hv : st1.v_list = st.v_list ++ tv) (ht : st1.t_list = st.t_list ++ tt)
    (hn : st1.n_list = st.n_list ++ tn) (ht0 : st1.t0 = st.t0) (hn0 : st1.n0 = st.n0)
    (h : cornerVertex st c = some x) : cornerVertex st1 c = some x := by
  unfold cornerVertex at h ⊢
  rw [hv, ht, hn, ht0, hn0]
  cases h1 : readAt st.v_list (c.1 - 1) with
  | none => simp [h1] at h
  | some v =>
    rw [readAt_append tv h1]
    by_cases ct : c.2.1 ≠ 0
    · rw [if_pos ct] at h ⊢
      cases h2 : readAt st.t_list (c.2.1 - 1) with
      | none => simp [h1, h2] at h
      | some t =>
        rw [readAt_append tt h2]
        by_cases cn : c.2.2 ≠ 0
        · rw [if_pos cn] at h ⊢
          cases h3 : readAt st.n_list (c.2.2 - 1) with
          | none => simp [h1, h2, h3] at h
          | some n =>
            rw [readAt_append tn h3]
            simpa [h1, h2, h3] using h
        · rw [if_neg cn] at h ⊢
          simpa [h1, h2] using h
    · rw [if_neg ct] at h ⊢
      by_cases cn : c.2.2 ≠ 0
      · rw [if_pos cn] at h ⊢
        cases h3 : readAt st.n_list (c.2.2 - 1) with
        | none => simp [h1, h3] at h
        | some n =>
          rw [readAt_append tn h3]
          simpa [h1, h3] using h
      · rw [if_neg cn] at h ⊢
        simpa [h1] using h

theorem TableOk.grow {st st1 : ParseState} {obj : ParsedObject} {seen : List VertexIndex}
    (tv : List (Nat × Nat × Nat)) (tt : List (Int × Int)) (tn : List (Int × Int × Int × Int))
    (hv : st1.v_list = st.v_list ++ tv) (ht : st1.t_list = st.t_list ++ tt)
    (hn : st1.n_list = st.n_list ++ tn) (ht0 : st1.t0 = st.t0) (hn0 : st1.n0 = st.n0)
    (h : TableOk st obj seen) : TableOk st1 obj seen :=
  ⟨h.1, h.2.imp fun _ _ hc => cornerVertex_grow tv tt tn hv ht hn ht0 hn0 hc⟩

theorem earFace_frame {tests : FaceTests} {fuel : Nat} {obj obj2 : ParsedObject}
    {indices : List Nat} (h : earFace tests fuel obj indices = .ok (some obj2)) :
    ∃ tris : List Nat, obj2.index_list = obj.index_list ++ tris ∧
      obj2.face_list = obj.face_list ++ tris ∧
      obj2.face_sizes = obj.face_sizes ++ List.replicate (tris.length / 3) 3 ∧
      0 < tris.length ∧ tris.length % 3 = 0 ∧ (∀ x ∈ tris, x ∈ indices) ∧
      obj2.vertex_list = obj.vertex_list ∧ obj2.vertex_index = obj.vertex_index ∧
      obj2.mat = obj.mat := by
  unfold earFace at h
  cases he : earLoop tests fuel indices indices obj with
  | none =>
    simp only [he] at h
    cases h
  | some r =>
    obtain ⟨rest, objE⟩ := r
    obtain ⟨tris, a1, a2, a3, a4, a5, a6, _, a8, a9, a10⟩ :=
      earLoop_spec tests fuel indices indices obj rest objE he
    match rest, a6, he, h with
    | [], _, he, h =>
      simp only [he] at h
      cases h
    | [_], _, he, h =>
      simp only [he] at h
      cases h
    | [_, _], _, he, h =>
      simp only [he] at h
      cases h
    | a :: b :: c :: more, a6, he, h =>
      simp only [he, Except.ok.injEq, Option.some.injEq] at h
      subst h
      refine ⟨tris ++ [a, b, c], ?_, ?_, ?_, ?_, ?_, ?_, a8, a9, a10⟩
      · show objE.index_list ++ [a, b, c] = _
        rw [a1, List.append_assoc]
      · show objE.face_list ++ [a, b, c] = _
        rw [a2, List.append_assoc]
      · show objE.face_sizes ++ [3] = _
        have : (tris ++ [a, b, c]).length / 3 = tris.length / 3 + 1 := by
          simp only [List.length_append, List.length_cons, List.length_nil]
          omega
        rw [a3, this, List.replicate_succ', List.append_assoc]
      · simp
      · simp only [List.length_append, List.length_cons, List.length_nil]
        omega
      · intro x hx
        rcases List.mem_append.1 hx with hx | hx
        · exact a5 x hx
        · exact a6.subset (by
            simp only [List.mem_cons, List.mem_singleton, List.not_mem_nil, or_false] at hx
            rcases hx with rfl | rfl | rfl <;> simp)

theorem fanFace_spec (obj : ParsedObject) (l : List Nat) (hl : 2 ≤ l.length) :
    ∃ obj2 : ParsedObject, fanFace obj l = .ok obj2 ∧ obj2.face_list = obj.face_list ++ l ∧
      obj2.face_sizes = obj.face_sizes ++ [l.length % UINT32] ∧
      obj2.index_list = obj.index_list ++ fanTriangles (l.headD 0) l.tail ∧
      obj2.vertex_list = obj.vertex_list ∧ obj2.vertex_index = obj.vertex_index ∧
      obj2.mat = obj.mat := by
  match l, hl with
  | c0 :: c1 :: rest, _ =>
    refine ⟨_, rfl, ?_, rfl, rfl, rfl, rfl, rfl⟩
    show obj.face_list ++ [c0] ++ (c1 :: rest).dropLast ++ [(c1 :: rest).getLastD c0] = _
    have h1 : (c1 :: rest).getLastD c0 = (c1 :: rest).getLast (List.cons_ne_nil _ _) := by
      simp [List.getLastD_eq_getLast?, List.getLast?_eq_getLast]
    rw [h1, List.append_assoc, List.append_assoc, List.dropLast_append_getLast]
    simp

theorem fanFace_frame {obj obj2 : ParsedObject} {l : List Nat} (h : fanFace obj l = .ok obj2) :
    obj2.vertex_list = obj.vertex_list ∧ obj2.vertex_index = obj.vertex_index ∧
      obj2.mat = obj.mat := by
  cases l with
  | nil => cases h
  | cons c0 rest =>
    simp only [fanFace, Except.ok.injEq] at h
    subst h
    exact ⟨rfl, rfl, rfl⟩

theorem getLast?_dropLast_append {α : Type} (l : List α) (x : α) :
    (l.dropLast ++ [x]).getLast? = some x := by
  simp

theorem faceCommand_frame {tests : FaceTests} {fuel : Nat} {st st1 : ParseState}
    {obj : ParsedObject} {cs : List VertexIndex} (hobj : st.objects.getLast? = some obj)
    (h : faceCommand tests fuel st cs = .ok (some st1)) :
    ∃ (obj1 obj2 : ParsedObject) (ids : List Nat), addCorners st obj cs = .ok (obj1, ids) ∧
      st1 = { st with objects := st.objects.dropLast ++ [obj2] } ∧
      obj2.vertex_list = obj1.vertex_list ∧ obj2.vertex_index = obj1.vertex_index ∧
      obj2.mat = obj.mat := by
  unfold faceCommand at h
  simp only [hobj] at h
  cases ha : addCorners st obj cs with
  | error e =>
    simp only [ha] at h
    cases h
  | ok r =>
    obtain ⟨obj1, ids⟩ := r
    have hmat := (addCorners_frame st cs obj obj1 ids ha).2.2.2.2
    simp only [ha] at h
    split at h
    · cases h
    · split at h
      · cases he : earFace tests fuel obj1 ids with
        | error e =>
          simp only [he] at h
          cases h
        | ok r =>
          cases r with
          | none =>
            simp only [he] at h
            cases h
          | some obj2 =>
            simp only [he, Except.ok.injEq, Option.some.injEq] at h
            obtain ⟨_, _, _, _, _, _, _, b1, b2, b3⟩ := earFace_frame he
            exact ⟨obj1, obj2, ids, rfl, h.symm, b1, b2, b3.trans hmat⟩
      · cases hf : fanFace obj1 (if (tests.hn && !tests.hp) = true then ids.reverse else ids) with
        | error e =>
          simp only [hf] at h
          cases h
        | ok obj2 =>
          simp only [hf, Except.ok.injEq, Option.some.injEq] at h
          obtain ⟨b1, b2, b3⟩ := fanFace_frame hf
          exact ⟨obj1, obj2, ids, rfl, h.symm, b1, b2, b3.trans hmat⟩

theorem parseCommands_table (fuel : Nat) : ∀ (pre : List Command) (st stp : ParseState)
    (obj : ParsedObject) (seen : List VertexIndex),
    (∀ c ∈ pre, c.startsObject = false) → st.objects.getLast? = some obj →
    TableOk st obj seen → (firstSeen (seen ++ cornersOf pre)).length < 65536 →
    parseCommands fuel st pre = .ok (some stp) →
    ∃ objp : ParsedObject, stp.objects.getLast? = some objp ∧
      TableOk stp objp (seen ++ cornersOf pre) ∧ objp.mat = obj.mat
  | [], st, stp, obj, seen, _, hobj, ht, _, h => by
    simp only [parseCommands, Except.ok.injEq, Option.some.injEq] at h
    subst h
    refine ⟨obj, hobj, ?_, rfl⟩
    rw [cornersOf, List.append_nil]
    exact ht
  | cmd :: rest, st, stp, obj, seen, hno, hobj, ht, hsmall, h => by
    unfold parseCommands at h
    have hrest : ∀ c ∈ rest, c.startsObject = false :=
      fun c hc => hno c (List.mem_cons_of_mem _ hc)
    have hcmd := hno cmd (List.mem_cons_self _ _)
    cases cmd with
    | usemtl m => cases hcmd
    | v p =>
      simp only [parseCommand] at h
      have ht1 : TableOk { st with v_list := st.v_list ++ [p] } obj seen :=
        @TableOk.grow st { st with v_list := st.v_list ++ [p] } obj seen [p] [] [] rfl (List.append_nil _).symm (List.append_nil _).symm rfl rfl ht
      exact parseCommands_table fuel rest { st with v_list := st.v_list ++ [p] } stp obj seen hrest hobj
        ht1 hsmall h
    | vt t =>
      simp only [parseCommand] at h
      have ht1 : TableOk { st with t_list := st.t_list ++ [t] } obj seen :=
        @TableOk.grow st { st with t_list := st.t_list ++ [t] } obj seen [] [t] [] (List.append_nil _).symm rfl (List.append_nil _).symm rfl rfl ht
      exact parseCommands_table fuel rest { st with t_list := st.t_list ++ [t] } stp obj seen hrest hobj
        ht1 hsmall h
    | vn n =>
      simp only [parseCommand] at h
      have ht1 : TableOk { st with n_list := st.n_list ++ [n] } obj seen :=
        @TableOk.grow st { st with n_list := st.n_list ++ [n] } obj seen [] [] [n] (List.append_nil _).symm (List.append_nil _).symm rfl rfl rfl ht
      exact parseCommands_table fuel rest { st with n_list := st.n_list ++ [n] } stp obj seen hrest hobj
        ht1 hsmall h
    | other =>
      simp only [parseCommand] at h
      exact parseCommands_table fuel rest _ stp obj seen hrest hobj ht hsmall h
    | f corners tests =>
      simp only [parseCommand] at h
      have hassoc : seen ++ cornersOf (Command.f corners tests :: rest) =
          seen ++ corners ++ cornersOf rest := by
        simp [cornersOf]
      rw [hassoc] at hsmall ⊢
      cases hf : faceCommand tests fuel st corners with
      | error e =>
        simp only [hf] at h
        cases h
      | ok r =>
        cases r with
        | none =>
          simp only [hf] at h
          cases h
        | some st1 =>
          simp only [hf] at h
          obtain ⟨obj1, obj2, ids, a1, a2, a3, a4, a5⟩ := faceCommand_frame hobj hf
          have hs1 : (firstSeen (seen ++ corners)).length < 65536 :=
            lt_of_le_of_lt (firstSeen_length_mono _ _) hsmall
          have ht1 := (addCorners_spec st corners seen obj obj1 ids ht hs1 a1).2
          have ht2 : TableOk st1 obj2 (seen ++ corners) := by
            subst a2
            exact ⟨a4.trans ht1.1, a3 ▸ ht1.2⟩
          have hobj2 : st1.objects.getLast? = some obj2 := by
            subst a2
            exact getLast?_dropLast_append _ _
          obtain ⟨objp, b1, b2, b3⟩ :=
            parseCommands_table fuel rest st1 stp obj2 (seen ++ corners) hrest hobj2 ht2 hsmall h
          exact ⟨objp, b1, b2, b3.trans a5⟩

/-! ## The ids of the corners of a face -/

theorem lookupVertex_append {c : VertexIndex} {m : List (VertexIndex × Nat)} {id : Nat}
    (t : List (VertexIndex × Nat)) (h : lookupVertex c m = some id) :
    lookupVertex c (m ++ t) = some id := by
  unfold lookupVertex at h ⊢
  rw [List.find?_append]
  cases hf : List.find? (fun e => decide (e.1 = c)) m with
  | none => simp [hf] at h
  | some e =>
    rw [hf] at h
    simpa using h

theorem addCorner_lookup {st : ParseState} {obj obj1 : ParsedObject} {c : VertexIndex}
    {id : Nat} (h : addCorner st obj c = .ok (obj1, id)) :
    lookupVertex c obj1.vertex_index = some id ∧
      ∃ t, obj1.vertex_index = obj.vertex_index ++ t := by
  unfold addCorner at h
  cases hl : lookupVertex c obj.vertex_index with
  | some x =>
    simp only [hl, Except.ok.injEq, Prod.mk.injEq] at h
    obtain ⟨rfl, rfl⟩ := h
    exact ⟨hl, [], (List.append_nil _).symm⟩
  | none =>
    cases hv : cornerVertex st c with
    | none =>
      simp only [hl, hv] at h
      cases h
    | some vertex =>
      simp only [hl, hv, Except.ok.injEq, Prod.mk.injEq] at h
      obtain ⟨rfl, rfl⟩ := h
      refine ⟨?_, _, rfl⟩
      show lookupVertex c (obj.vertex_index ++ [(c, obj.vertex_list.length % UINT16)]) = _
      unfold lookupVertex at hl ⊢
      rw [List.find?_append]
      cases hf : List.find? (fun e => decide (e.1 = c)) obj.vertex_index with
      | none => simp
      | some e => simp [hf] at hl

theorem addCorners_lookup (st : ParseState) : ∀ (cs : List VertexIndex)
    (obj obj1 : ParsedObject) (ids : List Nat), addCorners st obj cs = .ok (obj1, ids) →
    List.Forall₂ (fun c id => lookupVertex c obj1.vertex_index = some id) cs ids ∧
      ∃ t, obj1.vertex_index = obj.vertex_index ++ t
  | [], obj, obj1, ids, h => by
    simp only [addCorners, Except.ok.injEq, Prod.mk.injEq] at h
    obtain ⟨rfl, rfl⟩ := h
    exact ⟨List.Forall₂.nil, [], (List.append_nil _).symm⟩
  | c :: rest, obj, obj1, ids, h => by
    unfold addCorners at h
    cases h1 : addCorner st obj c with
    | error e =>
      simp only [h1] at h
      cases h
    | ok r =>
      obtain ⟨o1, id⟩ := r
      cases h2 : addCorners st o1 rest with
      | error e =>
        simp only [h1, h2] at h
        cases h
      | ok r2 =>
        obtain ⟨o2, ids2⟩ := r2
        simp only [h1, h2, Except.ok.injEq, Prod.mk.injEq] at h
        obtain ⟨rfl, rfl⟩ := h
        obtain ⟨a1, t1, a2⟩ := addCorner_lookup h1
        obtain ⟨b1, t2, b2⟩ := addCorners_lookup st rest o1 o2 ids2 h2
        refine ⟨List.Forall₂.cons ?_ b1, t1 ++ t2, ?_⟩
        · rw [b2]
          exact lookupVertex_append t2 a1
        · rw [b2, a2, List.append_assoc]

/-! ## Claims on the faces of `parseObj` -/

/-- C15, counterexample: the face `f 1//1 2//1 3//1 4//1` over the corners (0,0,0), (4,0,0), (1,1,0)
and (0,4,0), which has a reflex corner, is cut by ear clipping; its corners get the
ids 0, 1, 2, 3, and the face record receives the two face sizes 3, 3 and the six ids
0, 1, 2, 0, 2, 3 of the two triangles, not the one size 4 and the ids 0, 1, 2, 3. -/
theorem ear_path_records_triangles :
    ∃ (obj1 : ParsedObject) (st1 : ParseState) (obj2 : ParsedObject),
      addCorners sampleParse (ParsedObject.new 0) dartCorners = .ok (obj1, [0, 1, 2, 3]) ∧
      faceCommand dartTests 8 sampleParse dartCorners = .ok (some st1) ∧
      st1.objects.getLast? = some obj2 ∧
      obj2.face_sizes = [3, 3] ∧ obj2.face_list = [0, 1, 2, 0, 2, 3] ∧
      obj2.face_sizes ≠ [dartCorners.length] ∧ obj2.face_list ≠ [0, 1, 2, 3] :=
  ⟨_, _, _, rfl, rfl, rfl, rfl, rfl, by decide, by decide⟩

/-- C15, amended: for a face with n >= 3 corners whose index triples are valid, every
corner gets its local vertex id from the vertex table, and what the face record
receives depends on the path. On the fan path it receives one face size n (modulo 2^32)
and the n ids of the corners in the order in which the corners are emitted, which is
the corner order, reversed when the cross products oppose the normal. On the ear
clipping path the command either does not finish within the given number of passes or
the face record receives, for every emitted triangle, one face size 3 and the three ids
of the triangle: the same entries that the index list receives. -/
theorem face_record_by_path (tests : FaceTests) (fuel : Nat) (st : ParseState)
    (obj : ParsedObject) (cs : List VertexIndex) (hobj : st.objects.getLast? = some obj)
    (hvalid : ∀ c ∈ cs, cornerVertex st c ≠ none) (hn : 3 ≤ cs.length) :
    ∃ (obj1 : ParsedObject) (ids : List Nat),
      addCorners st obj cs = .ok (obj1, ids) ∧ ids.length = cs.length ∧
      List.Forall₂ (fun c id => lookupVertex c obj1.vertex_index = some id) cs ids ∧
      ((tests.hp && tests.hn) = false →
        ∃ obj2 : ParsedObject,
          faceCommand tests fuel st cs =
            .ok (some { st with objects := st.objects.dropLast ++ [obj2] }) ∧
          obj2.vertex_index = obj1.vertex_index ∧
          obj2.face_sizes = obj.face_sizes ++ [cs.length % UINT32] ∧
          obj2.face_list = obj.face_list ++
            (if tests.hn && !tests.hp then ids.reverse else ids)) ∧
      ((tests.hp && tests.hn) = true →
        faceCommand tests fuel st cs = .ok none ∨
        ∃ (obj2 : ParsedObject) (tris : List Nat),
          faceCommand tests fuel st cs =
            .ok (some { st with objects := st.objects.dropLast ++ [obj2] }) ∧
          obj2.vertex_index = obj1.vertex_index ∧
          obj2.index_list = obj.index_list ++ tris ∧
          obj2.face_list = obj.face_list ++ tris ∧
          obj2.face_sizes = obj.face_sizes ++ List.replicate (tris.length / 3) 3 ∧
          0 < tris.length ∧ tris.length % 3 = 0 ∧ ∀ x ∈ tris, x ∈ ids) := by
  obtain ⟨⟨obj1, ids⟩, ha⟩ := addCorners_ok st cs obj hvalid
  obtain ⟨f0, f1, f2, f3, _⟩ := addCorners_frame st cs obj obj1 ids ha
  have hne : ids ≠ [] := by
    intro h0
    rw [h0] at f0
    simp only [List.length_nil] at f0
    omega
  refine ⟨obj1, ids, ha, f0, (addCorners_lookup st cs obj obj1 ids ha).1, ?_, ?_⟩
  · intro hfan
    have hlen : 2 ≤ (if (tests.hn && !tests.hp) = true then ids.reverse else ids).length := by
      split
      · rw [List.length_reverse]
        omega
      · omega
    have hlen2 : (if (tests.hn && !tests.hp) = true then ids.reverse else ids).length =
        cs.length := by
      split
      · rw [List.length_reverse]
        exact f0
      · exact f0
    obtain ⟨obj2, g1, g2, g3, _, _, g6, _⟩ := fanFace_spec obj1 _ hlen
    refine ⟨obj2, ?_, g6, by rw [g3, f3, hlen2], by rw [g2, f2]⟩
    unfold faceCommand
    simp only [hobj, ha, hne, if_false, hfan, g1, Bool.false_eq_true]
  · intro hear
    cases he : earFace tests fuel obj1 ids with
    | error e =>
      exfalso
      unfold earFace at he
      cases hl : earLoop tests fuel ids ids obj1 with
      | none => simp [hl] at he
      | some r =>
        obtain ⟨rest, objE⟩ := r
        obtain ⟨_, _, _, _, _, _, _, a7, _⟩ := earLoop_spec tests fuel ids ids obj1 rest objE hl
        have h3 : rest.length = 3 := by
          rw [a7]
          omega
        match rest, h3, hl, he with
        | [a, b, c], _, hl, he => simp [hl] at he
    | ok r =>
      cases r with
      | none =>
        left
        unfold faceCommand
        simp only [hobj, ha, hne, if_false, hear, if_true, he]
      | some obj2 =>
        right
        obtain ⟨tris, b1, b2, b3, b4, b5, b6, _, b8, _⟩ := earFace_frame he
        refine ⟨obj2, tris, ?_, b8, by rw [b1, f1], by rw [b2, f2], by rw [b3, f3], b4, b5, b6⟩
        unfold faceCommand
        simp only [hobj, ha, hne, if_false, hear, if_true, he]

/-- C15, witness: the quadrilateral of the sample state. -/
theorem face_record_by_path_witness :
    ∃ (obj1 : ParsedObject) (ids : List Nat),
      addCorners sampleParse (ParsedObject.new 0) dartCorners = .ok (obj1, ids) ∧
      ids.length = 4 := by
  obtain ⟨obj1, ids, h1, h2, _⟩ := face_record_by_path dartTests 8 sampleParse
    (ParsedObject.new 0) dartCorners rfl (by decide) (by decide)
  exact ⟨obj1, ids, h1, h2⟩

theorem forall₂_getElem? {α β : Type} {R : α → β → Prop} : ∀ {l1 : List α} {l2 : List β},
    List.Forall₂ R l1 l2 → ∀ (i : Nat) (a : α), l1[i]? = some a →
    ∃ b, l2[i]? = some b ∧ R a b
  | _, _, .nil, i, a, h => by simp at h
  | _, _, .cons hr ht, 0, a, h => by
    simp only [List.getElem?_cons_zero, Option.some.injEq] at h
    subst h
    exact ⟨_, List.getElem?_cons_zero, hr⟩
  | _, _, .cons _ ht, i + 1, a, h => by
    simp only [List.getElem?_cons_succ] at h ⊢
    exact forall₂_getElem? ht i a h

/-! ## Claim on the vertex table -/

/-- C16: in an object started by `usemtl` and fed by commands none of which is a further
`usemtl`, with valid index triples and fewer than 65536 distinct triples, the corners of
the next face get these ids: the id of a corner is the position of its triple among the
distinct triples of the object in order of first appearance, also when counted over any
longer corner sequence of the object, so two corners anywhere in the object have the
same id exactly when their triples are equal. After the face the map holds the distinct
triples with the ids 0, 1, 2, ..., `vertex_list` is as long as there are distinct
triples, and `vertex_list[id]` holds the position, texture coordinate and normal that
the triple of `id` refers to, the defaults `t0` and `n0` standing for an index 0. -/
theorem vertex_ids_first_seen (fuel m : Nat) (st0 stp : ParseState) (pre : List Command)
    (cs : List VertexIndex) (hpre : ∀ c ∈ pre, c.startsObject = false)
    (hrun : parseCommands fuel st0 (.usemtl m :: pre) = .ok (some stp))
    (hvalid : ∀ c ∈ cs, cornerVertex stp c ≠ none)
    (hsmall : (firstSeen (cornersOf pre ++ cs)).length < 65536) :
    ∃ (objp obj1 : ParsedObject) (ids : List Nat),
      stp.objects.getLast? = some objp ∧ addCorners stp objp cs = .ok (obj1, ids) ∧
      (∀ ext : List VertexIndex,
        ids = cs.map fun c => idOf c (firstSeen (cornersOf pre ++ cs ++ ext))) ∧
      (∀ (ext : List VertexIndex) (c d : VertexIndex), c ∈ cornersOf pre ++ cs ++ ext →
        d ∈ cornersOf pre ++ cs ++ ext →
        (idOf c (firstSeen (cornersOf pre ++ cs ++ ext)) =
          idOf d (firstSeen (cornersOf pre ++ cs ++ ext)) ↔ c = d)) ∧
      obj1.vertex_index = ((firstSeen (cornersOf pre ++ cs)).enum.map fun p => (p.2, p.1)) ∧
      obj1.vertex_list.length = (firstSeen (cornersOf pre ++ cs)).length ∧
      ∀ c ∈ cornersOf pre ++ cs, ∃ vertex : ObjVertex,
        lookupVertex c obj1.vertex_index = some (idOf c (firstSeen (cornersOf pre ++ cs))) ∧
        obj1.vertex_list[idOf c (firstSeen (cornersOf pre ++ cs))]? = some vertex ∧
        cornerVertex stp c = some vertex := by
  unfold parseCommands at hrun
  simp only [parseCommand] at hrun
  have h0 : TableOk { st0 with objects := st0.objects ++ [ParsedObject.new m] }
      (ParsedObject.new m) [] := ⟨rfl, List.Forall₂.nil⟩
  have hs0 : (firstSeen ([] ++ cornersOf pre)).length < 65536 := by
    rw [List.nil_append]
    exact lt_of_le_of_lt (firstSeen_length_mono _ cs) hsmall
  obtain ⟨objp, a1, a2, _⟩ := parseCommands_table fuel pre _ stp (ParsedObject.new m) [] hpre
    (by simp) h0 hs0 hrun
  rw [List.nil_append] at a2
  obtain ⟨⟨obj1, ids⟩, ha⟩ := addCorners_ok stp cs objp hvalid
  obtain ⟨b1, b2⟩ := addCorners_spec stp cs (cornersOf pre) objp obj1 ids a2 hsmall ha
  refine ⟨objp, obj1, ids, a1, ha, ?_, ?_, b2.1, b2.length, ?_⟩
  · intro ext
    rw [b1]
    apply List.map_congr_left
    intro c hc
    exact (firstSeen_idOf _ ext c (List.mem_append_right _ hc)).symm
  · intro ext c d hc hd
    exact idOf_inj _ c d ((mem_firstSeen _ c).2 hc) ((mem_firstSeen _ d).2 hd)
  · intro c hc
    have hm : c ∈ firstSeen (cornersOf pre ++ cs) := (mem_firstSeen _ c).2 hc
    obtain ⟨vertex, g1, g2⟩ := forall₂_getElem? b2.2 _ c (idOf_get c _ hm)
    refine ⟨vertex, ?_, g1, g2⟩
    rw [b2.1, lookupVertex_enum, if_pos hm]

/-- C16, witness: after four positions, a normal and the face `f 1//1 2//1 3//1`, the
corners of the face `f 1//1 3//1 4//1` get the ids 0, 2 and 3. -/
theorem vertex_ids_first_seen_witness :
    ∃ (stp : ParseState) (objp obj1 : ParsedObject),
      parseCommands 8 emptyParse (.usemtl 0 :: sampleCommands) = .ok (some stp) ∧
      stp.objects.getLast? = some objp ∧
      addCorners stp objp [(1, 0, 1), (3, 0, 1), (4, 0, 1)] = .ok (obj1, [0, 2, 3]) ∧
      obj1.vertex_list.length = 4 := by
  have hrun : parseCommands 8 emptyParse (.usemtl 0 :: sampleCommands) =
      .ok (some { sampleParse with objects := [{ ParsedObject.new 0 with
        vertex_list := [⟨(0, 0, 0), (0, 0, 127, 0), (0, 0)⟩,
          ⟨(1082130432, 0, 0), (0, 0, 127, 0), (0, 0)⟩,
          ⟨(1065353216, 1065353216, 0), (0, 0, 127, 0), (0, 0)⟩]
        index_list := [0, 1, 2], face_list := [0, 1, 2], face_sizes := [3]
        vertex_index := [((1, 0, 1), 0), ((2, 0, 1), 1), ((3, 0, 1), 2)] }] }) := rfl
  obtain ⟨objp, obj1, ids, h1, h2, h3, _, _, h6, _⟩ := vertex_ids_first_seen 8 0 emptyParse _
    sampleCommands [(1, 0, 1), (3, 0, 1), (4, 0, 1)] (by decide) hrun (by decide) (by decide)
  have h4 : ids = [0, 2, 3] := (h3 []).trans (by decide)
  exact ⟨_, objp, obj1, hrun, h1, h4 ▸ h2, h6.trans (by decide)⟩


/-! ## The bones of a triangle -/

theorem length_unique_le : ∀ l : List Nat, (unique l).length ≤ l.length
  | [] => le_refl _
  | [_] => le_refl _
  | a :: b :: t => by
    have ih := length_unique_le (b :: t)
    unfold unique
    split
    · exact Nat.le_succ_of_le ih
    · exact Nat.succ_le_succ ih

theorem length_rawBones_le (infl : List (List Influence)) (n : Nat) : ∀ verts : List Nat,
    (∀ v ∈ verts, (infl.getD v []).length ≤ n) → (rawBones infl verts).length ≤ n * verts.length
  | [], _ => by simp [rawBones]
  | v :: rest, h => by
    have ih := length_rawBones_le infl n rest (fun w hw => h w (List.mem_cons_of_mem _ hw))
    have hv := h v (List.mem_cons_self _ _)
    have hf : ((infl.getD v []).filter fun inf => inf.x04 ≠ 0).length ≤ n :=
      le_trans (List.length_filter_le _ _) hv
    unfold rawBones at ih ⊢
    simp only [List.flatMap_cons, List.length_append, List.length_map, List.length_cons]
    rw [Nat.mul_succ]
    omega

theorem mem_rawBones_iff {infl : List (List Influence)} {verts : List Nat} {b : Nat} :
    b ∈ rawBones infl verts ↔
      ∃ v ∈ verts, ∃ infs, infl[v]? = some infs ∧ ∃ inf ∈ infs, inf.x04 ≠ 0 ∧ inf.x00 = b := by
  simp only [rawBones, List.mem_flatMap, List.mem_map, List.mem_filter, decide_eq_true_eq]
  constructor
  · rintro ⟨v, hv, inf, ⟨hinf, hw⟩, rfl⟩
    rw [List.getD_eq_getElem?_getD] at hinf
    cases hg : infl[v]? with
    | none => simp [hg] at hinf
    | some infs =>
      simp only [hg, Option.getD_some] at hinf
      exact ⟨v, hv, infs, hg, inf, hinf, hw, rfl⟩
  · rintro ⟨v, hv, infs, hg, inf, hinf, hw, rfl⟩
    refine ⟨v, hv, inf, ⟨?_, hw⟩, rfl⟩
    rw [List.getD_eq_getElem?_getD, hg]
    exact hinf

theorem BonesFit_of_three {obj : SubObject}
    (h : ∀ infs ∈ obj.x020_VertInfluences, infs.length ≤ 3) : BonesFit obj := by
  intro c hc
  have hlen := chunk3_length_elem _ _ hc
  have := length_rawBones_le obj.x020_VertInfluences 3 c (by
    intro v _
    rw [List.getD_eq_getElem?_getD]
    cases hg : obj.x020_VertInfluences[v]? with
    | none => simp
    | some infs => exact h infs (List.getElem?_mem hg))
  rw [hlen] at this
  exact this

/-! ## Claim on the bones of a triangle -/

/-- C23: every triangle that lines 101-113 build has a strictly increasing bone list
whose elements are exactly the bone ids of the influences of non-zero weight of its
three vertices; when no vertex has more than three influences every triangle has room
for its bones and its bone list has at most 9 entries. The partitioner changes neither
the vertices nor the bones: whenever the constructor has not faulted, its triangles
carry the vertices and bones they were built with. -/
theorem triangle_bones_sorted_set (obj : SubObject) :
    (∀ t ∈ buildTriangles obj,
      t.bones.Sorted (· < ·) ∧
      ∀ b, b ∈ t.bones ↔ ∃ v ∈ t.verts, ∃ infs, obj.x020_VertInfluences[v]? = some infs ∧
        ∃ inf ∈ infs, inf.x04 ≠ 0 ∧ inf.x00 = b) ∧
    ((∀ infs ∈ obj.x020_VertInfluences, infs.length ≤ 3) →
      BonesFit obj ∧ ∀ t ∈ buildTriangles obj, t.bones.length ≤ 9) ∧
    ∀ (fuel maxBones : Nat) (b : Bool) (p : Partition), obj.x020_VertInfluences ≠ [] →
      construct fuel obj maxBones = .ok (b, p) →
      p.triangles.map (fun t => (t.verts, t.bones)) =
        (buildTriangles obj).map (fun t => (t.verts, t.bones)) := by
  refine ⟨?_, ?_, ?_⟩
  · intro t ht
    simp only [buildTriangles, List.mem_map] at ht
    obtain ⟨c, _, rfl⟩ := ht
    refine ⟨unique_sorted _ (List.sorted_insertionSort _ _), ?_⟩
    intro b
    simp only [mkTriangle, mem_unique, List.mem_insertionSort]
    exact mem_rawBones_iff
  · intro h3
    have hfit := BonesFit_of_three h3
    refine ⟨hfit, ?_⟩
    intro t ht
    simp only [buildTriangles, List.mem_map] at ht
    obtain ⟨c, hc, rfl⟩ := ht
    refine le_trans (length_unique_le _) ?_
    rw [List.length_insertionSort]
    exact hfit c hc
  · intro fuel maxBones b p hs h
    rcases Outer_of_ok hs h with ⟨_, _, hp⟩ | ⟨O, _⟩
    · rw [hp]
    · exact O.shape

/-- C23, witness: the sample skinned sub-object, whose vertices have one influence each. -/
theorem triangle_bones_sorted_set_witness :
    BonesFit sampleSkinned ∧ ∀ t ∈ buildTriangles sampleSkinned, t.bones.length ≤ 9 :=
  (triangle_bones_sorted_set sampleSkinned).2.1 (by decide)

/-! ## The queue stays ordered -/

theorem reduceOne_sorted {i : Nat} {q q1 : List Ref} {ts ts1 : List Triangle}
    (h : reduceOne i q ts = .ok (q1, ts1)) (hs : q.Sorted Ref.le) : q1.Sorted Ref.le := by
  unfold reduceOne at h
  cases ht : ts[i]? with
  | none =>
    simp only [ht] at h
    cases h
  | some t =>
    simp only [ht] at h
    split at h
    · simp only [Except.ok.injEq, Prod.mk.injEq] at h
      exact h.1 ▸ hs
    · split at h
      · simp only [Except.ok.injEq, Prod.mk.injEq] at h
        rw [← h.1]
        exact sorted_setEmplace (sorted_erase hs)
      · cases h

theorem reduceLoop_sorted : ∀ (L : List Nat) (q q1 : List Ref) (ts ts1 : List Triangle),
    reduceLoop L q ts = .ok (q1, ts1) → q.Sorted Ref.le → q1.Sorted Ref.le
  | [], q, q1, ts, ts1, h, hs => by
    simp only [reduceLoop, Except.ok.injEq, Prod.mk.injEq] at h
    exact h.1 ▸ hs
  | i :: rest, q, q1, ts, ts1, h, hs => by
    unfold reduceLoop at h
    cases h1 : reduceOne i q ts with
    | error e =>
      simp only [h1] at h
      cases h
    | ok r =>
      obtain ⟨q2, ts2⟩ := r
      simp only [h1] at h
      exact reduceLoop_sorted rest q2 q1 ts2 ts1 h (reduceOne_sorted h1 hs)

theorem reduce_sorted {s s1 : TriangleSet} {ts ts1 : List Triangle} {b : Nat}
    (h : s.reduce ts b = .ok (s1, ts1)) (hs : s.queue.Sorted Ref.le) :
    s1.queue.Sorted Ref.le := by
  unfold TriangleSet.reduce at h
  split at h
  · cases h1 : reduceLoop (s.list.getD b []) s.queue ts with
    | error e =>
      simp only [h1] at h
      cases h
    | ok r =>
      obtain ⟨q2, ts2⟩ := r
      simp only [h1, Except.ok.injEq, Prod.mk.injEq] at h
      rw [← h.1]
      exact reduceLoop_sorted _ _ _ _ _ h1 hs
  · cases h

theorem activateBone_sorted {st st1 : Build} {b : Nat} (h : activateBone st b = .ok st1)
    (hs : st.tris.queue.Sorted Ref.le) : st1.tris.queue.Sorted Ref.le := by
  unfold activateBone at h
  cases h1 : bitsetTest st.group.bones b with
  | error e =>
    simp only [h1] at h
    cases h
  | ok r =>
    cases r with
    | true =>
      simp only [h1, Except.ok.injEq] at h
      exact h ▸ hs
    | false =>
      simp only [h1] at h
      cases h2 : st.tris.reduce st.triangles b with
      | error e =>
        simp only [h2] at h
        cases h
      | ok r2 =>
        obtain ⟨tris, ts⟩ := r2
        simp only [h2] at h
        cases h3 : bitsetSet st.group.bones b with
        | error e =>
          simp only [h3] at h
          cases h
        | ok bones =>
          simp only [h3, Except.ok.injEq] at h
          rw [← h]
          exact reduce_sorted h2 hs

theorem activate_sorted : ∀ (bs : List Nat) (st st1 : Build), activate bs st = .ok st1 →
    st.tris.queue.Sorted Ref.le → st1.tris.queue.Sorted Ref.le
  | [], st, st1, h, hs => by
    simp only [activate, Except.ok.injEq] at h
    exact h ▸ hs
  | b :: bs, st, st1, h, hs => by
    unfold activate at h
    cases h1 : activateBone st b with
    | error e =>
      simp only [h1] at h
      cases h
    | ok st2 =>
      simp only [h1] at h
      exact activate_sorted bs st2 st1 h (activateBone_sorted h1 hs)

theorem growStep_sorted {gid : Nat} {st st1 : Build} {b : Bool}
    (h : growStep gid st = .ok (b, st1)) (hs : st.tris.queue.Sorted Ref.le) :
    st1.tris.queue.Sorted Ref.le := by
  cases hq : st.tris.queue with
  | nil =>
    rw [growStep_nil hq] at h
    simp only [Except.ok.injEq, Prod.mk.injEq] at h
    exact h.2 ▸ hs
  | cons r q =>
    obtain ⟨k, i⟩ := r
    have hsq : q.Sorted Ref.le := by
      rw [hq] at hs
      exact hs.of_cons
    cases ht : st.triangles[i]? with
    | none =>
      unfold growStep TriangleSet.pop at h
      simp only [hq, ht] at h
      cases h
    | some t =>
      rw [growStep_cons hq ht] at h
      split at h
      · simp only [Except.ok.injEq, Prod.mk.injEq] at h
        rw [← h.2]
        exact hsq
      · cases ha : activate t.bones
            { triangles := st.triangles.set i { t with group := some gid }
              tris := { st.tris with queue := q }
              group := commitVerts st.group t.verts
              used := st.used } with
        | error e =>
          simp only [ha] at h
          cases h
        | ok st2 =>
          simp only [ha, Except.ok.injEq, Prod.mk.injEq] at h
          rw [← h.2]
          exact activate_sorted _ _ _ ha hsq

theorem add_sorted {s s1 : TriangleSet} {ts ts1 : List Triangle} {i : Nat}
    (h : s.add ts i = .ok (s1, ts1)) (hs : s.queue.Sorted Ref.le) : s1.queue.Sorted Ref.le := by
  unfold TriangleSet.add at h
  cases ht : ts[i]? with
  | none =>
    simp only [ht] at h
    cases h
  | some t =>
    simp only [ht] at h
    cases hb : addBuckets i t.bones s.list with
    | error e =>
      simp only [hb] at h
      cases h
    | ok l =>
      simp only [hb, Except.ok.injEq, Prod.mk.injEq] at h
      rw [← h.1]
      exact sorted_setEmplace hs

theorem buildSet_sorted : ∀ (rest : List Nat) (s s1 : TriangleSet) (ts ts1 : List Triangle),
    buildSet rest s ts = .ok (s1, ts1) → s.queue.Sorted Ref.le → s1.queue.Sorted Ref.le
  | [], s, s1, ts, ts1, h, hs => by
    simp only [buildSet, Except.ok.injEq, Prod.mk.injEq] at h
    exact h.1 ▸ hs
  | i :: rest, s, s1, ts, ts1, h, hs => by
    unfold buildSet at h
    cases ht : ts[i]? with
    | none =>
      simp only [ht] at h
      cases h
    | some t =>
      simp only [ht] at h
      split at h
      · cases ha : s.add ts i with
        | error e =>
          simp only [ha] at h
          cases h
        | ok r =>
          obtain ⟨s2, ts2⟩ := r
          simp only [ha] at h
          exact buildSet_sorted rest s2 s1 ts2 ts1 h (add_sorted ha hs)
      · exact buildSet_sorted rest s s1 ts ts1 h hs

/-! ## The inner loop pass by pass -/

theorem afterCommits_spec {ts0 : List Triangle} {gid : Nat} : ∀ (k : Nat) (st st1 : Build),
    Weak ts0 gid st → Core st.triangles st.tris st.group.bones →
    st.tris.queue.Sorted Ref.le → afterCommits gid k st = some st1 →
    Weak ts0 gid st1 ∧ Core st1.triangles st1.tris st1.group.bones ∧
      st1.tris.queue.Sorted Ref.le
  | 0, st, st1, W, C, hs, h => by
    simp only [afterCommits, Option.some.injEq] at h
    subst h
    exact ⟨W, C, hs⟩
  | k + 1, st, st1, W, C, hs, h => by
    obtain ⟨b, st2, h1, W1, hcase⟩ := growStep_spec W C
    unfold afterCommits at h
    rcases hcase with ⟨rfl, _⟩ | ⟨rfl, C1, _, _⟩
    · simp only [h1] at h
      cases h
    · simp only [h1] at h
      exact afterCommits_spec k st2 st1 W1 C1 (growStep_sorted h1 hs) h

theorem TriOK.unused_small {t : Triangle} (h : TriOK t) (B : Finset Nat) :
    newBones B t.bones ≤ MAX_BONES :=
  le_trans (newBones_le B t.bones) (length_le_of_nodup_lt h.1 h.2.1)

theorem toInt32_small {u : Nat} (h : u < 2147483648) : toInt32 u = (u : Int) := by
  unfold toInt32
  rw [if_pos h]

/-- The start of every pass of the outer loop: the constructor has not faulted, the
fresh index is built, and the inner loop starts from a state that satisfies the
bookkeeping of the index and the account of the group. -/
theorem inner_start {obj : SubObject} (maxBones n : Nat) (hs : obj.x020_VertInfluences ≠ [])
    (hin : IndicesInRange obj) (hfit : BonesFit obj) (hb : BonesBelow obj MAX_BONES) :
    ∃ (b : Bool) (p : Partition) (tris : TriangleSet) (ts : List Triangle),
      construct n obj maxBones = .ok (b, p) ∧ Outer (buildTriangles obj) p ∧
      buildSet (List.range p.triangles.length) TriangleSet.new p.triangles = .ok (tris, ts) ∧
      Weak ts p.groups.length { triangles := ts, tris := tris, group := Group.new, used := 0 } ∧
      Core ts tris ∅ ∧ tris.queue.Sorted Ref.le := by
  have O0 := Outer_init obj (bones_lt_of_BonesBelow hb)
  obtain ⟨b, p, h, O, _⟩ := partitionLoop_spec n _ O0
  obtain ⟨tris, ts, hbs, hf, C⟩ := fresh_set O.wf
  refine ⟨b, p, tris, ts, by rw [construct_skinned n obj maxBones hs hin hfit]; exact h, O, hbs,
    Weak_fresh O hf tris, C, buildSet_sorted _ _ _ _ _ hbs List.sorted_nil⟩

/-! ## Claims on the bookkeeping of the partitioner -/

/-- C21: for a skinned sub-object with influence data for every indexed vertex, room in
every triangle for its bones and bone ids below 128, in the pass of the outer loop that
follows any number `n` of passes: the fresh index is built, and after it is built
(`k = 0`) and after each of the first `k` commits of the inner loop the counter `used`
is the number of active bones of the group, and every triangle that is unassigned and
has an entry in the queue has `unused` equal to the number of its bones that are not
active in the group, which is also the key of the entry. -/
theorem unused_counts_new_bones (obj : SubObject) (maxBones n : Nat)
    (hs : obj.x020_VertInfluences ≠ []) (hin : IndicesInRange obj) (hfit : BonesFit obj)
    (hb : BonesBelow obj MAX_BONES) :
    ∃ (b : Bool) (p : Partition) (tris : TriangleSet) (ts : List Triangle),
      construct n obj maxBones = .ok (b, p) ∧
      buildSet (List.range p.triangles.length) TriangleSet.new p.triangles = .ok (tris, ts) ∧
      ∀ (k : Nat) (st : Build),
        afterCommits p.groups.length k
          { triangles := ts, tris := tris, group := Group.new, used := 0 } = some st →
        st.used = st.group.bones.card ∧
        ∀ (i : Nat) (t : Triangle) (key : Int), st.triangles[i]? = some t → t.group = none →
          (key, i) ∈ st.tris.queue →
          t.unused = newBones st.group.bones t.bones ∧ key = (t.unused : Int) := by
  obtain ⟨b, p, tris, ts, h1, _, h2, W, C, hsort⟩ := inner_start maxBones n hs hin hfit hb
  refine ⟨b, p, tris, ts, h1, h2, ?_⟩
  intro k st hk
  obtain ⟨W1, C1, _⟩ := afterCommits_spec k _ st W C hsort hk
  refine ⟨W1.used_eq, ?_⟩
  intro i t key ht hg hmem
  have hcnt := C1.count i t ht hg
  refine ⟨hcnt, ?_⟩
  obtain ⟨t1, ht1, _, hkey⟩ := C1.qsound key i hmem
  rw [ht] at ht1
  cases ht1
  rw [hkey]
  apply toInt32_small
  have := (W1.wf t (List.getElem?_mem ht)).unused_small st.group.bones
  rw [← hcnt] at this
  simp only [MAX_BONES] at this
  omega

/-- C21, witness: the sample skinned sub-object before the first pass of the outer loop. -/
theorem unused_counts_new_bones_witness :
    ∃ (b : Bool) (p : Partition) (tris : TriangleSet) (ts : List Triangle),
      construct 0 sampleSkinned 4 = .ok (b, p) ∧
      buildSet (List.range p.triangles.length) TriangleSet.new p.triangles = .ok (tris, ts) ∧
      ∀ (k : Nat) (st : Build),
        afterCommits p.groups.length k
          { triangles := ts, tris := tris, group := Group.new, used := 0 } = some st →
        st.used = st.group.bones.card ∧
        ∀ (i : Nat) (t : Triangle) (key : Int), st.triangles[i]? = some t → t.group = none →
          (key, i) ∈ st.tris.queue →
          t.unused = newBones st.group.bones t.bones ∧ key = (t.unused : Int) :=
  unused_counts_new_bones sampleSkinned 4 0 (by decide) (by decide) (by decide) (by decide)

/-- C29: for a skinned sub-object with influence data for every indexed vertex, room in
every triangle for its bones and bone ids below 128, in the pass of the outer loop that
follows any number `n` of passes: when, after `k` commits, the inner loop pops a
triangle and the cap check rejects it, the group is left as it is, and every triangle
that is unassigned at that moment (the rejected one and those still in the index) has
more bones outside the group than the group has room for: the number of its bones not
active in the group plus the number of active bones of the group exceeds the cap. -/
theorem closed_group_is_maximal (obj : SubObject) (maxBones n : Nat)
    (hs : obj.x020_VertInfluences ≠ []) (hin : IndicesInRange obj) (hfit : BonesFit obj)
    (hb : BonesBelow obj MAX_BONES) :
    ∃ (b : Bool) (p : Partition) (tris : TriangleSet) (ts : List Triangle),
      construct n obj maxBones = .ok (b, p) ∧
      buildSet (List.range p.triangles.length) TriangleSet.new p.triangles = .ok (tris, ts) ∧
      ∀ (k : Nat) (st st1 : Build),
        afterCommits p.groups.length k
          { triangles := ts, tris := tris, group := Group.new, used := 0 } = some st →
        st.tris.queue ≠ [] → growStep p.groups.length st = .ok (false, st1) →
        st1.group = st.group ∧
        ∀ (i : Nat) (t : Triangle), st1.triangles[i]? = some t → t.group = none →
          newBones st1.group.bones t.bones + st1.group.bones.card > MAX_GROUP_BONES := by
  obtain ⟨b, p, tris, ts, h1, _, h2, W, C, hsort⟩ := inner_start maxBones n hs hin hfit hb
  refine ⟨b, p, tris, ts, h1, h2, ?_⟩
  intro k st st1 hk hne hstep
  obtain ⟨W1, C1, hs1⟩ := afterCommits_spec k _ st W C hsort hk
  obtain ⟨b2, st2, h3, _, hcase⟩ := growStep_spec W1 C1
  rw [hstep] at h3
  simp only [Except.ok.injEq, Prod.mk.injEq] at h3
  obtain ⟨rfl, rfl⟩ := h3
  rcases hcase with ⟨_, hg, htri, hrej⟩ | ⟨hb2, _⟩
  · refine ⟨hg, ?_⟩
    rcases hrej with hnil | ⟨key, i0, q, t0, hq, ht0, hbig⟩
    · exact absurd hnil hne
    · intro i t ht hgn
      rw [htri] at ht
      rw [hg]
      have hmem := C1.qcomplete i t ht hgn
      have hcnt := C1.count i t ht hgn
      obtain ⟨t1, ht1, hg1, hkey⟩ := C1.qsound key i0 (by rw [hq]; exact List.mem_cons_self _ _)
      rw [ht0] at ht1
      cases ht1
      have hcnt0 := C1.count i0 t0 ht0 hg1
      have hsm := (W1.wf t (List.getElem?_mem ht)).unused_small st.group.bones
      have hsm0 := (W1.wf t0 (List.getElem?_mem ht0)).unused_small st.group.bones
      rw [← hcnt] at hsm
      rw [← hcnt0] at hsm0
      simp only [MAX_BONES] at hsm hsm0
      have hle : toInt32 t0.unused ≤ toInt32 t.unused := by
        rw [hq] at hmem hs1
        rcases List.mem_cons.1 hmem with he | hin1
        · rw [hkey] at he
          exact le_of_eq (congrArg Prod.fst he).symm
        · have := List.rel_of_sorted_cons hs1 _ hin1
          rw [hkey] at this
          rcases this with hlt | ⟨heq, _⟩
          · exact le_of_lt hlt
          · exact le_of_eq heq
      rw [toInt32_small (by omega), toInt32_small (by omega)] at hle
      rw [← hcnt, ← W1.used_eq]
      omega
  · cases hb2

set_option maxRecDepth 100000 in
/-- C29, witness: at the sample sub-object of three triangles with nine bones each, the
first pass of the outer loop commits two triangles and rejects the third, whose nine
bones and the 18 bones of the group exceed the cap. -/
theorem closed_group_is_maximal_witness :
    (∃ (b : Bool) (p : Partition) (tris : TriangleSet) (ts : List Triangle),
      construct 0 sampleWide 27 = .ok (b, p) ∧
      buildSet (List.range p.triangles.length) TriangleSet.new p.triangles = .ok (tris, ts) ∧
      ∀ (k : Nat) (st st1 : Build),
        afterCommits p.groups.length k
          { triangles := ts, tris := tris, group := Group.new, used := 0 } = some st →
        st.tris.queue ≠ [] → growStep p.groups.length st = .ok (false, st1) →
        st1.group = st.group ∧
        ∀ (i : Nat) (t : Triangle), st1.triangles[i]? = some t → t.group = none →
          newBones st1.group.bones t.bones + st1.group.bones.card > MAX_GROUP_BONES) ∧
    ∃ (tris : TriangleSet) (ts : List Triangle) (st st1 : Build),
      buildSet (List.range 3) TriangleSet.new (buildTriangles sampleWide) = .ok (tris, ts) ∧
      afterCommits 0 2 { triangles := ts, tris := tris, group := Group.new, used := 0 } =
        some st ∧
      st.tris.queue = [(9, 2)] ∧ st.used = 18 ∧ growStep 0 st = .ok (false, st1) :=
  ⟨closed_group_is_maximal sampleWide 27 0 (by decide) (by decide) (by decide) (by decide),
    _, _, _, _, rfl, rfl, rfl, rfl, rfl⟩

theorem newBones_append (B : Finset Nat) (l1 l2 : List Nat) :
    newBones B (l1 ++ l2) = newBones B l1 + newBones B l2 := by
  unfold newBones
  rw [List.filter_append, List.length_append]

/-- C28: for a skinned sub-object with influence data for every indexed vertex, room in
every triangle for its bones and bone ids below 128, the constructor does not fault, and
in the pass of the outer loop that follows any number `n` of passes, for the triangle
popped and accepted after `k` commits: the loop of lines 139-145 reaches every bone of
the triangle, and when the bone is not yet active, so that `reduce` is called, every
unassigned triangle in the bucket of the bone has an entry in the queue under its
current `unused`, which is at least 1; the call returns and has lowered each of these
counters by one. -/
theorem reduce_never_throws (obj : SubObject) (maxBones n : Nat)
    (hs : obj.x020_VertInfluences ≠ []) (hin : IndicesInRange obj) (hfit : BonesFit obj)
    (hb : BonesBelow obj MAX_BONES) :
    ∃ (b : Bool) (p : Partition) (tris : TriangleSet) (ts : List Triangle),
      construct n obj maxBones = .ok (b, p) ∧
      buildSet (List.range p.triangles.length) TriangleSet.new p.triangles = .ok (tris, ts) ∧
      ∀ (k : Nat) (st : Build) (key : Int) (i : Nat) (q : List Ref) (t : Triangle),
        afterCommits p.groups.length k
          { triangles := ts, tris := tris, group := Group.new, used := 0 } = some st →
        st.tris.queue = (key, i) :: q → st.triangles[i]? = some t →
        (t.unused + st.used) % UINT32 ≤ MAX_GROUP_BONES →
        ∀ (pre : List Nat) (bone : Nat) (post : List Nat), t.bones = pre ++ bone :: post →
          ∃ stm : Build,
            activate pre (commitState p.groups.length st i t { st.tris with queue := q }) =
              .ok stm ∧
            (bone ∉ stm.group.bones →
              (∀ j ∈ stm.tris.list.getD bone [], ∀ tj : Triangle, stm.triangles[j]? = some tj →
                tj.group = none → (toInt32 tj.unused, j) ∈ stm.tris.queue ∧ 0 < tj.unused) ∧
              ∃ (s1 : TriangleSet) (ts1 : List Triangle),
                stm.tris.reduce stm.triangles bone = .ok (s1, ts1) ∧
                ∀ j ∈ stm.tris.list.getD bone [], ∀ tj : Triangle, stm.triangles[j]? = some tj →
                  tj.group = none →
                  ∃ tj1 : Triangle, ts1[j]? = some tj1 ∧ tj1.unused + 1 = tj.unused) := by
  obtain ⟨b, p, tris, ts, h1, _, h2, W, C, hsort⟩ := inner_start maxBones n hs hin hfit hb
  refine ⟨b, p, tris, ts, h1, h2, ?_⟩
  intro k st key i q t hk hq ht hcap pre bone post hsplit
  obtain ⟨W1, C1, _⟩ := afterCommits_spec k _ st W C hsort hk
  obtain ⟨t1, ht1, hg, _⟩ := C1.qsound key i (by rw [hq]; exact List.mem_cons_self _ _)
  rw [ht] at ht1
  cases ht1
  have hok := W1.wf t (List.getElem?_mem ht)
  have hcnt := C1.count i t ht hg
  have hsm := hok.unused_small st.group.bones
  rw [← hcnt] at hsm
  have hul := W1.used_le
  have hmod : (t.unused + st.used) % UINT32 = t.unused + st.used := by
    apply Nat.mod_eq_of_lt
    simp only [UINT32, MAX_BONES, MAX_GROUP_BONES] at *
    omega
  rw [hmod] at hcap
  obtain ⟨_, _, _, hb1, _⟩ := commitVerts_spec t.verts st.group W1.gok hok.2.2.2
  have hwf1 : WF (st.triangles.set i { t with group := some p.groups.length }) :=
    WF_set W1.wf hok
  have C2 := Core_commit C1 hq ht p.groups.length
  have hnd : (pre ++ bone :: post).Nodup := hsplit ▸ hok.1
  have hlt : ∀ x ∈ pre ++ bone :: post, x < MAX_BONES := hsplit ▸ hok.2.1
  have hpre : newBones st.group.bones pre ≤ t.unused := by
    rw [hcnt, hsplit, newBones_append]
    exact Nat.le_add_right _ _
  obtain ⟨stm, hm, hfm, Cm, _, _, hum, _, _, _, _, _⟩ :=
    activate_spec pre (commitState p.groups.length st i t { st.tris with queue := q })
      (List.Nodup.of_append_left hnd) (fun x hx => hlt x (List.mem_append_left _ hx)) hwf1
      (by
        show Core _ _ (commitVerts st.group t.verts).bones
        rw [hb1]
        exact C2)
      (by
        show st.used = (commitVerts st.group t.verts).bones.card
        rw [hb1]
        exact W1.used_eq)
      (by
        show st.used + newBones (commitVerts st.group t.verts).bones pre ≤ MAX_GROUP_BONES
        rw [hb1]
        omega)
  refine ⟨stm, hm, ?_⟩
  intro hnew
  have hwfm : WF stm.triangles := WF_of_frames hfm hwf1
  have hbone : bone < MAX_BONES := hlt bone (by simp)
  have hone : ∀ j ∈ stm.tris.list.getD bone [], ∀ tj : Triangle, stm.triangles[j]? = some tj →
      tj.group = none →
      tj.unused = newBones (insert bone stm.group.bones) tj.bones + 1 := by
    intro j hj tj htj hgj
    obtain ⟨t2, ht2, hb2⟩ := Cm.bsound bone j hj
    rw [htj] at ht2
    cases ht2
    rw [Cm.count j tj htj hgj]
    exact newBones_insert_of_mem _ bone hnew tj.bones (hwfm tj (List.getElem?_mem htj)).1 hb2
  refine ⟨?_, ?_⟩
  · intro j hj tj htj hgj
    exact ⟨Cm.qcomplete j tj htj hgj, by rw [hone j hj tj htj hgj]; exact Nat.succ_pos _⟩
  · obtain ⟨s1, ts1, hr, hfr, Cr, _, _⟩ := reduce_spec hwfm Cm hbone hnew
    refine ⟨s1, ts1, hr, ?_⟩
    intro j hj tj htj hgj
    obtain ⟨tj1, htj1, hfe⟩ := frames_getElem? hfr.symm htj
    rw [frame_eq_iff] at hfe
    refine ⟨tj1, htj1, ?_⟩
    rw [Cr.count j tj1 htj1 (by rw [hfe.2.2]; exact hgj), hfe.2.1, hone j hj tj htj hgj]

/-- C28, witness: the sample skinned sub-object before the first pass of the outer loop. -/
theorem reduce_never_throws_witness :
    ∃ (b : Bool) (p : Partition) (tris : TriangleSet) (ts : List Triangle),
      construct 0 sampleSkinned 4 = .ok (b, p) ∧
      buildSet (List.range p.triangles.length) TriangleSet.new p.triangles = .ok (tris, ts) := by
  obtain ⟨b, p, tris, ts, h1, h2, _⟩ :=
    reduce_never_throws sampleSkinned 4 0 (by decide) (by decide) (by decide) (by decide)
  exact ⟨b, p, tris, ts, h1, h2⟩


/-! ## A triangle with more bones than the cap -/

theorem mapFind_isSome_iff (k : Nat) (m : List (Nat × Nat)) :
    (mapFind k m).isSome = true ↔ ∃ e ∈ m, e.1 = k := by
  unfold mapFind
  rw [List.find?_isSome]
  simp

theorem mem_mapAssign_new {k v : Nat} {m : List (Nat × Nat)} (h : mapFind k m = none)
    (e : Nat × Nat) : e ∈ mapAssign k v m ↔ e = (k, v) ∨ e ∈ m := by
  unfold mapAssign
  rw [h]
  simp only [Option.isSome_none, Bool.false_eq_true, if_false]
  exact List.mem_orderedInsert _

theorem length_mapAssign_new {k v : Nat} {m : List (Nat × Nat)} (h : mapFind k m = none) :
    (mapAssign k v m).length = m.length + 1 := by
  unfold mapAssign
  rw [h]
  simp only [Option.isSome_none, Bool.false_eq_true, if_false]
  exact List.orderedInsert_length _ _ _

theorem firstSeen_snoc_mem {α : Type} [DecidableEq α] {l : List α} {c : α} (h : c ∈ l) :
    firstSeen (l ++ [c]) = firstSeen l := by
  rw [firstSeen_snoc]
  unfold noteCorner
  rw [if_pos ((mem_firstSeen l c).2 h)]

theorem firstSeen_snoc_new {α : Type} [DecidableEq α] {l : List α} {c : α} (h : c ∉ l) :
    firstSeen (l ++ [c]) = firstSeen l ++ [c] := by
  rw [firstSeen_snoc]
  unfold noteCorner
  rw [if_neg (fun hm => h ((mem_firstSeen l c).1 hm))]

theorem VertsOK_start : VertsOK Group.new [] :=
  ⟨fun e => by simp [Group.new], rfl, rfl⟩

theorem commitVert_used {g : Group} {used : List Nat} {v : Nat} (V : VertsOK g used)
    (G : GroupOK g) (hv : v < UINT16) : VertsOK (commitVert g v) (used ++ [v]) := by
  unfold commitVert
  cases hf : mapFind v g.vertices with
  | none =>
    have hnk : ∀ e ∈ g.vertices, e.1 ≠ v := mapFind_none hf
    have hvu : v ∉ used := by
      intro hm
      exact hnk (v, idOf v (firstSeen used)) ((V.map _).2 ⟨hm, rfl⟩) rfl
    have hlen : g.vertices.length < UINT16 := by
      have hnd : (v :: g.vertices.map Prod.fst).Nodup := by
        refine List.nodup_cons.2 ⟨?_, G.keys_nodup⟩
        intro hm
        obtain ⟨e, he, hev⟩ := List.mem_map.1 hm
        exact hnk e he hev
      have := length_le_of_nodup_lt hnd (n := UINT16) (by
        intro x hx
        rcases List.mem_cons.1 hx with rfl | hx
        · exact hv
        · obtain ⟨e, he, rfl⟩ := List.mem_map.1 hx
          exact G.keys_lt e he)
      simp only [List.length_cons, List.length_map] at this
      omega
    have hidx : g.vertices.length % UINT16 = (firstSeen used).length := by
      rw [Nat.mod_eq_of_lt hlen, V.size]
    have hold : ∀ w ∈ used, idOf w (firstSeen (used ++ [v])) = idOf w (firstSeen used) :=
      fun w hw => firstSeen_idOf used [v] w hw
    have hnew : idOf v (firstSeen (used ++ [v])) = (firstSeen used).length := by
      rw [firstSeen_snoc_new hvu]
      exact idOf_snoc v _ (fun hm => hvu ((mem_firstSeen used v).1 hm))
    refine ⟨?_, ?_, ?_⟩
    · intro e
      show e ∈ mapAssign v (g.vertices.length % UINT16) g.vertices ↔ _
      rw [mem_mapAssign_new hf, hidx, V.map e]
      constructor
      · rintro (rfl | ⟨h1, h2⟩)
        · exact ⟨by simp, hnew.symm⟩
        · exact ⟨List.mem_append_left _ h1, by rw [hold _ h1]; exact h2⟩
      · rintro ⟨h1, h2⟩
        rcases List.mem_append.1 h1 with h1 | h1
        · exact Or.inr ⟨h1, by rw [← hold _ h1]; exact h2⟩
        · left
          simp only [List.mem_singleton] at h1
          rw [h1, hnew] at h2
          exact Prod.ext h1 h2
    · show (mapAssign v (g.vertices.length % UINT16) g.vertices).length = _
      rw [length_mapAssign_new hf, V.size, firstSeen_snoc_new hvu, List.length_append]
      rfl
    · show g.indices ++ [g.vertices.length % UINT16] = _
      rw [hidx, V.idx, List.map_append, List.map_singleton, hnew]
      congr 1
      apply List.map_congr_left
      intro w hw
      exact (hold w hw).symm
  | some it =>
    obtain ⟨hmem, hkey⟩ := mapFind_some hf
    obtain ⟨hvu, hloc⟩ := (V.map it).1 hmem
    rw [hkey] at hvu hloc
    have hfs : firstSeen (used ++ [v]) = firstSeen used := firstSeen_snoc_mem hvu
    refine ⟨?_, ?_, ?_⟩
    · intro e
      show e ∈ g.vertices ↔ _
      rw [hfs, V.map e]
      constructor
      · rintro ⟨h1, h2⟩
        exact ⟨List.mem_append_left _ h1, h2⟩
      · rintro ⟨h1, h2⟩
        rcases List.mem_append.1 h1 with h1 | h1
        · exact ⟨h1, h2⟩
        · simp only [List.mem_singleton] at h1
          exact ⟨h1 ▸ hvu, h2⟩
    · show g.vertices.length = _
      rw [hfs]
      exact V.size
    · show g.indices ++ [it.2] = _
      rw [hfs, V.idx, List.map_append, List.map_singleton, hloc]

theorem commitVerts_used : ∀ (vs : List Nat) (g : Group) (used : List Nat), VertsOK g used →
    GroupOK g → (∀ v ∈ vs, v < UINT16) → VertsOK (commitVerts g vs) (used ++ vs)
  | [], g, used, V, _, _ => by
    rw [List.append_nil]
    exact V
  | v :: vs, g, used, V, G, hv => by
    have hv0 := hv v (List.mem_cons_self _ _)
    have V1 := commitVert_used V G hv0
    have G1 := (commitVert_spec G hv0).1
    have := commitVerts_used vs (commitVert g v) (used ++ [v]) V1 G1
      (fun w hw => hv w (List.mem_cons_of_mem _ hw))
    rw [List.append_assoc] at this
    exact this

theorem VertsOK_congr {g g1 : Group} {used : List Nat} (hv : g1.vertices = g.vertices)
    (hi : g1.indices = g.indices) (V : VertsOK g used) : VertsOK g1 used :=
  ⟨fun e => by rw [hv]; exact V.map e, by rw [hv]; exact V.size, by rw [hi]; exact V.idx⟩

/-! ## The triangles committed to a group -/

theorem committed_of_frames {ts ts1 : List Triangle} (h : ts1.map frame = ts.map frame)
    (gid : Nat) : committed gid ts1 = committed gid ts := by
  have e : ∀ l : List Triangle, committed gid l =
      ((l.map frame).filter fun t => decide (t.group = some gid)).map fun t => t.verts := by
    intro l
    unfold committed
    rw [List.filter_map, List.map_map]
    rfl
  rw [e ts1, e ts, h]

theorem set_of_getElem? {α : Type} : ∀ (l : List α) (i : Nat) (t : α),
    l[i]? = some t → l.set i t = l
  | [], _, _, h => by simp at h
  | x :: l, 0, t, h => by
    simp only [List.getElem?_cons_zero, Option.some.injEq] at h
    rw [List.set_cons_zero, h]
  | x :: l, i + 1, t, h => by
    simp only [List.getElem?_cons_succ] at h
    rw [List.set_cons_succ, set_of_getElem? l i t h]

theorem committed_set_assign {ts : List Triangle} {i : Nat} {t : Triangle}
    (ht : ts[i]? = some t) (hg : t.group = none) (gid : Nat) :
    (committed gid (ts.set i { t with group := some gid })).Perm
      (committed gid ts ++ [t.verts]) := by
  have hlt : i < ts.length := (List.getElem?_eq_some.1 ht).1
  have h1 : (ts.set i { t with group := some gid })[i]? = some { t with group := some gid } :=
    List.getElem?_set_self hlt
  have h2 := filter_set_perm (fun x : Triangle => decide (x.group = some gid)) t
    { t with group := some gid } (by simp) (by simp [hg]) _ i h1
  have h3 : (ts.set i { t with group := some gid }).set i t = ts := by
    rw [List.set_set]
    exact set_of_getElem? ts i t ht
  rw [h3] at h2
  unfold committed
  refine (h2.map _).trans ?_
  rw [List.map_cons]
  exact (List.perm_append_singleton _ _).symm

theorem committed_other {ts ts1 : List Triangle} {gid j : Nat} (hj : j ≠ gid)
    (hshape : ts1.map (fun t => (t.verts, t.bones)) = ts.map (fun t => (t.verts, t.bones)))
    (hgrp : ∀ (i : Nat) (t0 t : Triangle), ts[i]? = some t0 → ts1[i]? = some t →
      t.group = t0.group ∨ (t0.group = none ∧ t.group = some gid)) :
    committed j ts1 = committed j ts := by
  have e : ∀ l : List Triangle, committed j l =
      ((l.map fun t => (t.verts, decide (t.group = some j))).filter fun x => x.2).map
        fun x => x.1 := by
    intro l
    unfold committed
    rw [List.filter_map, List.map_map]
    rfl
  rw [e ts1, e ts]
  congr 2
  apply List.ext_getElem?
  intro n
  rw [List.getElem?_map, List.getElem?_map]
  have hlen : ts1.length = ts.length := by
    have := congrArg List.length hshape
    simpa using this
  cases h1 : ts1[n]? with
  | none =>
    have : ts.length ≤ n := by
      rw [← hlen]
      exact List.getElem?_eq_none_iff.1 h1
    rw [List.getElem?_eq_none_iff.2 this]
  | some t =>
    have hn : n < ts.length := by
      rw [← hlen]
      exact (List.getElem?_eq_some.1 h1).1
    have h0 : ts[n]? = some ts[n] := List.getElem?_eq_getElem hn
    rw [h0]
    simp only [Option.map_some', Option.some.injEq, Prod.mk.injEq]
    constructor
    · have := congrArg (fun l => l[n]?) hshape
      simp only [List.getElem?_map, h1, h0, Option.map_some', Option.some.injEq,
        Prod.mk.injEq] at this
      exact this.1
    · rcases hgrp n ts[n] t h0 h1 with hg | ⟨hg0, hg1⟩
      · rw [hg]
      · rw [hg0, hg1]
        have : ¬ gid = j := fun e => hj e.symm
        simp [this]

theorem committed_nil {ts : List Triangle} {gid : Nat}
    (h : ∀ t ∈ ts, t.group ≠ some gid) : committed gid ts = [] := by
  unfold committed
  rw [List.filter_eq_nil_iff.2 (by
    intro t ht
    simpa using h t ht)]
  rfl

theorem Hist_congr {gid : Nat} {ts ts1 : List Triangle} {g g1 : Group} {used : List Nat}
    (hc : committed gid ts1 = committed gid ts) (hv : g1.vertices = g.vertices)
    (hi : g1.indices = g.indices) (H : Hist gid ts g used) : Hist gid ts1 g1 used :=
  ⟨VertsOK_congr hv hi H.vok, H.len3, by rw [hc]; exact H.tri⟩

theorem growStep_hist {ts0 : List Triangle} {gid : Nat} {st st1 : Build} {b : Bool}
    {used : List Nat} (W : Weak ts0 gid st) (C : Core st.triangles st.tris st.group.bones)
    (H : Hist gid st.triangles st.group used) (h : growStep gid st = .ok (b, st1)) :
    ∃ used1, Hist gid st1.triangles st1.group used1 := by
  cases hq : st.tris.queue with
  | nil =>
    rw [growStep_nil hq] at h
    simp only [Except.ok.injEq, Prod.mk.injEq] at h
    rw [← h.2]
    exact ⟨used, H⟩
  | cons r q =>
    obtain ⟨k, i⟩ := r
    obtain ⟨t, ht, hg, hk⟩ := C.qsound k i (by rw [hq]; exact List.mem_cons_self _ _)
    have hok := W.wf t (List.getElem?_mem ht)
    have hcnt := C.count i t ht hg
    have hlen := length_le_of_nodup_lt hok.1 hok.2.1
    have hle := newBones_le st.group.bones t.bones
    have hul := W.used_le
    have hmod : (t.unused + st.used) % UINT32 = t.unused + st.used := by
      apply Nat.mod_eq_of_lt
      simp only [UINT32, MAX_BONES, MAX_GROUP_BONES] at *
      omega
    rw [growStep_cons hq ht, hmod] at h
    by_cases hcap : t.unused + st.used > MAX_GROUP_BONES
    · rw [if_pos hcap] at h
      simp only [Except.ok.injEq, Prod.mk.injEq] at h
      rw [← h.2]
      exact ⟨used, H⟩
    · rw [if_neg hcap] at h
      obtain ⟨hgok1, _, _, hb1, _⟩ := commitVerts_spec t.verts st.group W.gok hok.2.2.2
      have hwf1 : WF (st.triangles.set i { t with group := some gid }) := WF_set W.wf hok
      have C1 := Core_commit C hq ht gid
      obtain ⟨st2, h2, hf2, _, _, _, _, _, hv2, hi2, _, _⟩ :=
        activate_spec t.bones
          { triangles := st.triangles.set i { t with group := some gid }
            tris := { st.tris with queue := q }
            group := commitVerts st.group t.verts
            used := st.used }
          hok.1 hok.2.1 hwf1 (by rw [hb1]; exact C1) (by rw [hb1]; exact W.used_eq)
          (by
            show st.used + newBones (commitVerts st.group t.verts).bones t.bones ≤
              MAX_GROUP_BONES
            rw [hb1, ← hcnt]
            omega)
      dsimp only at hf2 hv2 hi2
      rw [h2] at h
      simp only [Except.ok.injEq, Prod.mk.injEq] at h
      rw [← h.2]
      refine ⟨used ++ t.verts, ?_, ?_, ?_⟩
      · exact VertsOK_congr hv2 hi2 (commitVerts_used t.verts st.group used H.vok W.gok hok.2.2.2)
      · rw [List.length_append, hok.2.2.1]
        have := H.len3
        omega
      · rw [committed_of_frames hf2 gid]
        refine List.Perm.trans ?_ (committed_set_assign ht hg gid).symm
        obtain ⟨a, b1, c, hv3⟩ : ∃ a b1 c, t.verts = [a, b1, c] := by
          have h3 := hok.2.2.1
          match t.verts, h3 with
          | [a, b1, c], _ => exact ⟨a, b1, c, rfl⟩
        rw [hv3, chunk3_append3 a b1 c used H.len3]
        exact List.Perm.append_right _ H.tri

theorem growGroup_hist {ts0 : List Triangle} {gid : Nat} : ∀ (fuel : Nat) (st st1 : Build)
    (used : List Nat), Weak ts0 gid st → Core st.triangles st.tris st.group.bones →
    Hist gid st.triangles st.group used → growGroup gid fuel st = .ok st1 →
    Weak ts0 gid st1 ∧ ∃ used1, Hist gid st1.triangles st1.group used1
  | 0, st, st1, used, W, _, H, h => by
    simp only [growGroup, Except.ok.injEq] at h
    rw [← h]
    exact ⟨W, used, H⟩
  | fuel + 1, st, st1, used, W, C, H, h => by
    obtain ⟨b, st2, h1, W1, hcase⟩ := growStep_spec W C
    obtain ⟨used2, H2⟩ := growStep_hist W C H h1
    unfold growGroup at h
    rcases hcase with ⟨rfl, _⟩ | ⟨rfl, C1, _, _⟩
    · simp only [h1, Except.ok.injEq] at h
      rw [← h]
      exact ⟨W1, used2, H2⟩
    · simp only [h1] at h
      exact growGroup_hist fuel st2 st1 used2 W1 C1 H2 h

/-- Every group of the partition has its account against the triangles that carry
its id. -/
theorem outerStep_hist {ts0 : List Triangle} {p p1 : Partition} (O : Outer ts0 p)
    (G : ∀ (j : Nat) (g : Group), p.groups[j]? = some g → ∃ used, Hist j p.triangles g used)
    (h : outerStep p = .ok (some p1)) :
    ∀ (j : Nat) (g : Group), p1.groups[j]? = some g → ∃ used, Hist j p1.triangles g used := by
  obtain ⟨tris, ts, hbs, hf, C⟩ := fresh_set O.wf
  unfold outerStep at h
  simp only [hbs] at h
  split at h
  · cases h
  · have W := Weak_fresh O hf tris
    have hstart : Hist p.groups.length ts Group.new [] := by
      refine ⟨VertsOK_start, rfl, ?_⟩
      rw [committed_of_frames hf, committed_nil]
      · exact List.Perm.refl _
      · intro t ht hg
        obtain ⟨i, hi⟩ := List.mem_iff_getElem?.1 ht
        obtain ⟨g, hg1, _⟩ := O.sub i t p.groups.length hi hg
        have := (List.getElem?_eq_some.1 hg1).1
        omega
    cases hgr : growGroup p.groups.length (tris.queue.length + 1)
        { triangles := ts, tris := tris, group := Group.new, used := 0 } with
    | error e =>
      simp only [hgr] at h
      cases h
    | ok st =>
      simp only [hgr, Except.ok.injEq, Option.some.injEq] at h
      obtain ⟨W1, used1, H1⟩ := growGroup_hist _ _ st [] W C hstart hgr
      subst h
      intro j g hj
      show ∃ used, Hist j st.triangles g used
      have hj1 : (p.groups ++ [st.group])[j]? = some g := hj
      by_cases hlt : j < p.groups.length
      · rw [List.getElem?_append_left hlt] at hj1
        obtain ⟨used, H⟩ := G j g hj1
        refine ⟨used, Hist_congr ?_ rfl rfl H⟩
        rw [committed_other (Nat.ne_of_lt hlt) W1.shape W1.grp, committed_of_frames hf]
      · have hge : p.groups.length ≤ j := Nat.le_of_not_lt hlt
        rw [List.getElem?_append_right hge] at hj1
        have hj0 : j - p.groups.length = 0 := by
          by_contra hne
          obtain ⟨m, hm⟩ : ∃ m, j - p.groups.length = m + 1 :=
            ⟨j - p.groups.length - 1, by omega⟩
          rw [hm] at hj1
          simp at hj1
        rw [hj0] at hj1
        simp only [List.getElem?_cons_zero, Option.some.injEq] at hj1
        have hje : j = p.groups.length := by omega
        rw [hje, ← hj1]
        exact ⟨used1, H1⟩

theorem partitionLoop_hist {ts0 : List Triangle} : ∀ (fuel : Nat) (p p1 : Partition) (b : Bool),
    Outer ts0 p →
    (∀ (j : Nat) (g : Group), p.groups[j]? = some g → ∃ used, Hist j p.triangles g used) →
    partitionLoop fuel p = .ok (b, p1) →
    ∀ (j : Nat) (g : Group), p1.groups[j]? = some g → ∃ used, Hist j p1.triangles g used
  | 0, p, p1, b, _, G, h => by
    simp only [partitionLoop, Except.ok.injEq, Prod.mk.injEq] at h
    rw [← h.2]
    exact G
  | fuel + 1, p, p1, b, O, G, h => by
    obtain ⟨r, h1, _, hsome⟩ := outerStep_spec O
    unfold partitionLoop at h
    cases r with
    | none =>
      simp only [h1, Except.ok.injEq, Prod.mk.injEq] at h
      rw [← h.2]
      exact G
    | some p2 =>
      simp only [h1] at h
      exact partitionLoop_hist fuel p2 p1 b (hsome p2 rfl).1 (outerStep_hist O G h1) h

/-! ## Claim on the vertex map of a group -/

/-- C22: whenever the constructor has not faulted on a skinned sub-object, every group
`j` built so far has a sequence `used` of original vertices, three for each triangle
that carries the group id `j` and in the vertex order of the triangle, such that: the
vertex map holds exactly the vertices of `used`, each with its position among the
distinct vertices of `used` in order of first use, so the local ids are `0 .. k-1` for
the `k` distinct vertices, without repetition; the index list holds, triangle by
triangle, the local ids of the vertices of `used`; its length is a multiple of 3 and
every entry is below `k`. -/
theorem vertex_map_first_use (obj : SubObject) (maxBones fuel : Nat) (b : Bool) (p : Partition)
    (hs : obj.x020_VertInfluences ≠ []) (h : construct fuel obj maxBones = .ok (b, p)) :
    ∀ (j : Nat) (g : Group), p.groups[j]? = some g →
      ∃ used : List Nat,
        (chunk3 used).Perm (committed j p.triangles) ∧
        g.vertices.length = (firstSeen used).length ∧
        (∀ v loc : Nat, (v, loc) ∈ g.vertices ↔ v ∈ used ∧ loc = idOf v (firstSeen used)) ∧
        (g.vertices.map Prod.fst).Nodup ∧
        (g.vertices.map Prod.snd).Perm (List.range g.vertices.length) ∧
        g.indices = used.map (fun v => idOf v (firstSeen used)) ∧
        chunk3 g.indices = (chunk3 used).map (List.map fun v => idOf v (firstSeen used)) ∧
        g.indices.length % 3 = 0 ∧ ∀ x ∈ g.indices, x < g.vertices.length := by
  have hfit := fit_of_ok hs h
  have hrun := h
  rw [construct_skinned fuel obj maxBones hs (inRange_of_ok hs h) hfit] at hrun
  intro j g hj
  have key : (∃ used, Hist j p.triangles g used) ∧ GroupOK g := by
    cases fuel with
    | zero =>
      simp only [partitionLoop, Except.ok.injEq, Prod.mk.injEq] at hrun
      rw [← hrun.2] at hj
      simp at hj
    | succ m =>
      cases hstep : outerStep { triangles := buildTriangles obj, groups := [] } with
      | error e =>
        simp only [partitionLoop, hstep] at hrun
        cases hrun
      | ok r =>
        have O0 := Outer_init obj (bones_lt_of_outerStep hstep)
        obtain ⟨b1, p1, h1, O, _⟩ := partitionLoop_spec (m + 1) _ O0
        rw [hrun] at h1
        simp only [Except.ok.injEq, Prod.mk.injEq] at h1
        obtain ⟨rfl, rfl⟩ := h1
        exact ⟨partitionLoop_hist (m + 1) _ p b O0 (fun j g hj => by simp at hj) hrun j g hj,
          (O.gok g (List.getElem?_mem hj)).1⟩
  obtain ⟨⟨used, H⟩, G⟩ := key
  refine ⟨used, H.tri, H.vok.size, fun v loc => H.vok.map (v, loc), G.keys_nodup, G.vals,
    H.vok.idx, ?_, ?_, ?_⟩
  · rw [H.vok.idx, chunk3_map]
  · rw [H.vok.idx, List.length_map]
    exact H.len3
  · intro x hx
    rw [H.vok.idx] at hx
    obtain ⟨v, hv, rfl⟩ := List.mem_map.1 hx
    rw [H.vok.size]
    exact idOf_lt v _ ((mem_firstSeen used v).2 hv)

/-- C22, witness: the sample skinned sub-object, whose two triangles go to one group. -/
theorem vertex_map_first_use_witness :
    ∃ p, construct 3 sampleSkinned 4 = .ok (true, p) ∧
      ∀ (j : Nat) (g : Group), p.groups[j]? = some g →
        ∃ used : List Nat,
          (chunk3 used).Perm (committed j p.triangles) ∧
          g.vertices.length = (firstSeen used).length ∧
          (∀ v loc : Nat, (v, loc) ∈ g.vertices ↔ v ∈ used ∧ loc = idOf v (firstSeen used)) ∧
          (g.vertices.map Prod.fst).Nodup ∧
          (g.vertices.map Prod.snd).Perm (List.range g.vertices.length) ∧
          g.indices = used.map (fun v => idOf v (firstSeen used)) ∧
          chunk3 g.indices = (chunk3 used).map (List.map fun v => idOf v (firstSeen used)) ∧
          g.indices.length % 3 = 0 ∧ ∀ x ∈ g.indices, x < g.vertices.length :=
  ⟨_, rfl, vertex_map_first_use sampleSkinned 4 3 true _ (by decide) rfl⟩


/-! ## DoWriteModel: bytes reserved and bytes written -/

theorem writeGroupRecs_numVertices (sz : Sizes) : ∀ (gs : List Group) (fs : Nat),
    (writeGroupRecs sz gs fs).1.map (fun r => r.numVertices) =
      gs.map fun g => g.vertices.length % UINT32
  | [], _ => rfl
  | g :: rest, fs => by
    simp only [writeGroupRecs, List.map_cons, writeGroupRecs_numVertices sz rest]
    rfl

theorem writeGroups_numVertices (sz : Sizes) : ∀ (datas : List ObjectData) (fs : Nat),
    (writeGroups sz datas fs).1.map (fun recs => recs.map fun r => r.numVertices) =
      datas.map fun d => d.groups.map fun g => g.vertices.length % UINT32
  | [], _ => rfl
  | d :: rest, fs => by
    simp only [writeGroups, List.map_cons, writeGroups_numVertices sz rest,
      writeGroupRecs_numVertices]

theorem numVertices_get {sz : Sizes} {datas : List ObjectData} {fs k j : Nat}
    {recs : List GroupRec} {rec : GroupRec} {d : ObjectData} {g : Group}
    (hrecs : (writeGroups sz datas fs).1[k]? = some recs) (hrec : recs[j]? = some rec)
    (hd : datas[k]? = some d) (hg : d.groups[j]? = some g) :
    rec.numVertices = g.vertices.length % UINT32 := by
  have h1 := congrArg (fun l => l[k]?) (writeGroups_numVertices sz datas fs)
  simp only [List.getElem?_map, hrecs, hd, Option.map_some', Option.some.injEq] at h1
  have h2 := congrArg (fun l => l[j]?) h1
  simp only [List.getElem?_map, hrec, hg, Option.map_some', Option.some.injEq] at h2
  exact h2

theorem writeObjects_numGroups (sz : Sizes) (mats : List AppearanceMaterial) :
    ∀ (datas : List ObjectData) (fs : Nat),
    (writeObjects sz mats datas fs).1.map (fun r => r.numGroups) =
      datas.map fun d => d.groups.length % UINT32
  | [], _ => rfl
  | d :: rest, fs => by
    simp only [writeObjects, List.map_cons, writeObjects_numGroups sz mats rest]

theorem mul_mod_small (c n : Nat) (h : c * n < UINT32) : c * (n % UINT32) = c * n := by
  rcases Nat.eq_zero_or_pos c with hc | hc
  · rw [hc, Nat.zero_mul, Nat.zero_mul]
  · have : n ≤ c * n := Nat.le_mul_of_pos_left n hc
    rw [Nat.mod_eq_of_lt (lt_of_le_of_lt this h)]

theorem mul_mul_mod_small (c a b : Nat) (h : c * (a * b) < UINT32) :
    c * (a % UINT32) * (b % UINT32) = c * (a * b) := by
  rcases Nat.eq_zero_or_pos c with hc | hc
  · rw [hc]
    simp
  · have hab : a * b < UINT32 := lt_of_le_of_lt (Nat.le_mul_of_pos_left _ hc) h
    rcases Nat.eq_zero_or_pos a with ha | ha
    · rw [ha]
      simp
    · rcases Nat.eq_zero_or_pos b with hb | hb
      · rw [hb]
        simp
      · have h1 : a < UINT32 := lt_of_le_of_lt (Nat.le_mul_of_pos_right _ hb) hab
        have h2 : b < UINT32 := lt_of_le_of_lt (Nat.le_mul_of_pos_left _ ha) hab
        rw [Nat.mod_eq_of_lt h1, Nat.mod_eq_of_lt h2, Nat.mul_assoc]

theorem getElem?_of_map_length {α β : Type} {l1 : List (List α)} {l2 : List (List β)}
    (h : l1.map List.length = l2.map List.length) {k : Nat} {x : List α}
    (hx : l1[k]? = some x) : ∃ y, l2[k]? = some y ∧ y.length = x.length := by
  have h1 := congrArg (fun l => l[k]?) h
  simp only [List.getElem?_map, hx, Option.map_some'] at h1
  cases hy : l2[k]? with
  | none => simp [hy] at h1
  | some y =>
    simp only [hy, Option.map_some', Option.some.injEq] at h1
    exact ⟨y, rfl, h1.symm⟩

/-! ## Claim on the bytes that `DoWriteModel` reserves -/

/-- C30: when every material has one sub-object appearance per look, every active bone
of every group is below the number of bone structures and the written file is shorter
than `2^32` bytes, the bytes by which `DoWriteModel` advances its running file size
are, section by section, the bytes it writes: for the materials
(`numAppearances * numMaterials` records), for the capsule and constraint records of
every bone, for the group table of every object, and for the bone list, the vertex
list and the index list (the index count rounded up to even) of every group. -/
theorem reserved_equals_written (sz : Sizes) (fuel : Nat) (app : Appearance) (f : ModelFile)
    (datas : List ObjectData) (h : DoWriteModel sz fuel app = .ok (some f))
    (hmk : makeObjects fuel (app.x010_BoneStructures.length % UINT32) app.x10_SubObjects =
      .ok (some datas))
    (hmat : ∀ m ∈ app.x1B0_AppearanceMaterials,
      m.x88_SubObjectAppearances.length = app.x1C0_AppearanceLooks.length)
    (hbones : ∀ d ∈ datas, ∀ g ∈ d.groups, ∀ b ∈ g.bones, b < app.x010_BoneStructures.length)
    (hsize : f.bytes sz < UINT32) :
    sz.material * f.header.numAppearances * f.header.numMaterials =
      sz.material * f.materials.length ∧
    (∀ (i : Nat) (src : BoneStructure), app.x010_BoneStructures[i]? = some src →
      f.appendix[i]? = some (boneAppendix src) ∧
      (if src.x118_CollisionShapes.length ≠ 0 then sz.capsuleInfo else 0) +
        (if src.x128_ConstraintParameters.length ≠ 0 then sz.constraint else 0) =
        ((boneAppendix src).map (AppendixRec.bytes sz)).sum) ∧
    (∀ (k : Nat) (rec : ObjectRec), f.objects[k]? = some rec →
      ∃ recs, f.groups[k]? = some recs ∧
        sz.objectGroup * rec.numGroups = sz.objectGroup * recs.length) ∧
    (∀ (k j : Nat) (recs : List GroupRec) (rec : GroupRec), f.groups[k]? = some recs →
      recs[j]? = some rec →
      ∃ pls pl, f.payload[k]? = some pls ∧ pls[j]? = some pl ∧
        sz.boneIndex * rec.numBones = sz.boneIndex * pl.boneIndices.length ∧
        sz.vertex * rec.numVertices = sz.vertex * pl.vertices.length ∧
        indexReserve rec.numIndices = 2 * pl.elements16) := by
  obtain ⟨datas1, fs, hfs, hmk1, hwm, hwp, hH, hB, hHp, hO, hA, hG⟩ := DoWriteModel_ok h
  rw [hmk] at hmk1
  simp only [Except.ok.injEq, Option.some.injEq] at hmk1
  subst hmk1
  have hs : f.bytes sz < 4294967296 := hsize
  have lm : f.materials.length =
      app.x1C0_AppearanceLooks.length * app.x1B0_AppearanceMaterials.length := by
    rw [writeMaterials_length _ _ hwm, sum_map_const_length _ _ hmat]
  have hgl : f.groups.map List.length = datas.map (fun d => d.groups.length) := by
    rw [hG, writeGroups_lengths]
  have hpl : f.payload.map List.length = datas.map (fun d => d.groups.length) :=
    payload_lengths _ datas _ hwp
  have hbytes : f.appendixStart sz + appendixBytes sz f.appendix +
      sz.objectGroup * groupCount f.groups + objectsPayloadBytes sz f.payload = f.bytes sz := rfl
  refine ⟨?_, ?_, ?_, ?_⟩
  · rw [hH]
    show sz.material * (app.x1C0_AppearanceLooks.length % UINT32) *
      (app.x1B0_AppearanceMaterials.length % UINT32) = _
    rw [lm]
    apply mul_mul_mod_small
    rw [← lm]
    have : sz.header + sz.bone * f.bones.length + sz.hardpoint * f.hardpoints.length +
        sz.object * f.objects.length + sz.material * f.materials.length =
        f.appendixStart sz := rfl
    show _ < 4294967296
    omega
  · intro i src hsrc
    refine ⟨?_, (bytes_boneAppendix sz src).symm⟩
    rw [hA, List.getElem?_map, hsrc]
    rfl
  · intro k rec hrec
    rw [hO] at hrec
    have h1 := congrArg (fun l => l[k]?) (writeObjects_numGroups sz
      app.x1B0_AppearanceMaterials datas (writeBones sz app.x010_BoneStructures fs).2)
    simp only [List.getElem?_map, hrec, Option.map_some'] at h1
    cases hd : datas[k]? with
    | none => simp [hd] at h1
    | some d =>
      simp only [hd, Option.map_some', Option.some.injEq] at h1
      have h2 := congrArg (fun l => l[k]?) hgl
      simp only [List.getElem?_map, hd, Option.map_some'] at h2
      cases hr : f.groups[k]? with
      | none => simp [hr] at h2
      | some recs =>
        simp only [hr, Option.map_some', Option.some.injEq] at h2
        refine ⟨recs, rfl, ?_⟩
        rw [h1, h2]
        apply mul_mod_small
        have hle : recs.length ≤ groupCount f.groups :=
          List.le_sum_of_mem (List.mem_map_of_mem _ (List.getElem?_mem hr))
        have := Nat.mul_le_mul_left sz.objectGroup hle
        rw [h2] at this
        show _ < 4294967296
        omega
  · intro k j recs rec hrecs hrec
    have h2 := congrArg (fun l => l[k]?) hgl
    simp only [List.getElem?_map, hrecs, Option.map_some'] at h2
    cases hd : datas[k]? with
    | none => simp [hd] at h2
    | some d =>
      simp only [hd, Option.map_some', Option.some.injEq] at h2
      have hjlt : j < d.groups.length := by
        rw [← h2]
        exact (List.getElem?_eq_some.1 hrec).1
      have hg : d.groups[j]? = some d.groups[j] := List.getElem?_eq_getElem hjlt
      obtain ⟨hlen, hget⟩ := writePayload_spec _ datas _ hwp
      have hklt : k < f.payload.length := by
        rw [hlen]
        exact (List.getElem?_eq_some.1 hd).1
      have hpls : f.payload[k]? = some f.payload[k] := List.getElem?_eq_getElem hklt
      obtain ⟨d1, hd1, hop⟩ := hget k _ hpls
      rw [hd] at hd1
      cases hd1
      obtain ⟨hlen2, hget2⟩ := writeObjectPayload_spec _ _ _ _ hop
      have hjlt2 : j < f.payload[k].length := by
        rw [hlen2]
        exact hjlt
      have hpj : f.payload[k][j]? = some f.payload[k][j] := List.getElem?_eq_getElem hjlt2
      obtain ⟨g1, hg1, hw⟩ := hget2 j _ hpj
      rw [hg] at hg1
      cases hg1
      have hgb := hbones d (List.getElem?_mem hd) _ (List.getElem?_mem hg)
      obtain ⟨e1, e2, _⟩ := @payload_bytes sz _ _ _ _ hw hgb
      have e3 := elements16_eq hw
      have hfit := indices_fit hsize hpls hpj
      obtain ⟨_, _, _, hind, _⟩ := writeGroupPayload_spec hw
      rw [hG] at hrecs
      refine ⟨_, _, hpls, hpj, ?_, ?_, ?_⟩
      · rw [numBones_get hrecs hrec hd hg, e1]
        apply mul_mod_small
        have b1 : f.payload[k][j].bytes sz ≤ payloadBytes sz f.payload[k] :=
          List.le_sum_of_mem (List.mem_map_of_mem _ (List.getElem?_mem hpj))
        have b2 : payloadBytes sz f.payload[k] ≤ objectsPayloadBytes sz f.payload :=
          List.le_sum_of_mem (List.mem_map_of_mem _ (List.getElem?_mem hpls))
        have b3 : sz.boneIndex * f.payload[k][j].boneIndices.length +
            sz.vertex * f.payload[k][j].vertices.length + 2 * f.payload[k][j].elements16 =
            f.payload[k][j].bytes sz := rfl
        rw [← e1]
        show _ < 4294967296
        omega
      · rw [numVertices_get hrecs hrec hd hg, e2]
        apply mul_mod_small
        have b1 : f.payload[k][j].bytes sz ≤ payloadBytes sz f.payload[k] :=
          List.le_sum_of_mem (List.mem_map_of_mem _ (List.getElem?_mem hpj))
        have b2 : payloadBytes sz f.payload[k] ≤ objectsPayloadBytes sz f.payload :=
          List.le_sum_of_mem (List.mem_map_of_mem _ (List.getElem?_mem hpls))
        have b3 : sz.boneIndex * f.payload[k][j].boneIndices.length +
            sz.vertex * f.payload[k][j].vertices.length + 2 * f.payload[k][j].elements16 =
            f.payload[k][j].bytes sz := rfl
        rw [← e2]
        show _ < 4294967296
        omega
      · rw [numIndices_get hrecs hrec hd hg, e3]
        rw [hind] at hfit
        exact indexReserve_eq hfit

set_option maxRecDepth 100000 in
/-- C30, witness: `sampleAppearance` with `sampleSizes`. -/
theorem reserved_equals_written_witness :
    ∃ f, DoWriteModel sampleSizes 3 sampleAppearance = .ok (some f) ∧
      sampleSizes.material * f.header.numAppearances * f.header.numMaterials =
        sampleSizes.material * f.materials.length :=
  ⟨_, rfl,
    (reserved_equals_written sampleSizes 3 sampleAppearance _ _ rfl rfl (by decide) (by decide)
      (by decide)).1⟩


/-! ## Claim on the consensus normal -/

/-- C25, counterexample: with exact arithmetic on whole numbers, the one corner normal
(0,0,16) gives the running sum (0,0,-16): its dot product with the zero vector is 0,
which is not positive, so it is subtracted; the statement of the claim gives (0,0,16).
For the four corner cross products of the quadrilateral of `sampleParse` the code
accumulates (0,0,-32) and the statement gives (0,0,32). -/
theorem first_normal_is_flipped :
    consensusSum intOps [(0, 0, 16)] = (0, 0, -16) ∧
    consensusAsStated intOps [(0, 0, 16)] = (0, 0, 16) ∧
    consensusSum intOps dartNormals = (0, 0, -32) ∧
    consensusAsStated intOps dartNormals = (0, 0, 32) :=
  ⟨by decide, by decide, by decide, by decide⟩

/-- C25, amended: the vector accumulated before normalising starts from zero and takes
the corner normals in corner order; a corner normal is added when its dot product with
the running sum of the earlier terms is positive and subtracted otherwise (when the dot
product is negative, zero or not a number). In particular the first corner normal, whose
dot product with the zero running sum is not positive, is subtracted. -/
theorem consensus_adds_only_positive {V : Type} (ops : VectorOps V) (vn : List V) (cn : V) :
    consensusSum ops [] = ops.zero ∧
    consensusSum ops (vn ++ [cn]) =
      (if ops.dotPositive cn (consensusSum ops vn) then ops.add (consensusSum ops vn) cn
       else ops.sub (consensusSum ops vn) cn) ∧
    (ops.dotPositive cn ops.zero = false →
      consensusSum ops [cn] = ops.sub ops.zero cn ∧
      consensusSum ops (cn :: vn) = consensusSum { ops with zero := ops.sub ops.zero cn } vn) := by
  refine ⟨rfl, ?_, ?_⟩
  · unfold consensusSum
    rw [List.foldl_append]
    rfl
  · intro h0
    unfold consensusSum
    simp only [List.foldl_cons, List.foldl_nil, h0, Bool.false_eq_true, if_false, and_self]

/-- C25, witness: exact arithmetic on whole numbers, where the dot product of (0,0,16)
with the zero vector is not positive. -/
theorem consensus_adds_only_positive_witness :
    consensusSum intOps [(0, 0, 16)] = intOps.sub intOps.zero (0, 0, 16) :=
  ((consensus_adds_only_positive intOps [] (0, 0, 16)).2.2 (by decide)).1

/-! ## Counting the triangles of ear clipping -/

theorem scanEar_flat (verdict : Nat → EarVerdict) : ∀ (l : List Nat) (i : Nat),
    scanEar verdict l = some (i, false) → verdict i = .degenerate
  | [], i, h => by simp [scanEar] at h
  | a :: l, i, h => by
    unfold scanEar at h
    split at h
    · rename_i hv
      simp only [Option.some.injEq, Prod.mk.injEq, and_true] at h
      exact h ▸ hv
    · simp at h
    · exact scanEar_flat verdict l i h
    · exact scanEar_flat verdict l i h

theorem scanEar_mem (verdict : Nat → EarVerdict) : ∀ (l : List Nat) (i : Nat) (b : Bool),
    scanEar verdict l = some (i, b) → i ∈ l
  | [], i, b, h => by simp [scanEar] at h
  | a :: l, i, b, h => by
    unfold scanEar at h
    split at h
    · simp only [Option.some.injEq, Prod.mk.injEq] at h
      exact h.1 ▸ List.mem_cons_self _ _
    · simp only [Option.some.injEq, Prod.mk.injEq] at h
      exact h.1 ▸ List.mem_cons_self _ _
    · exact List.mem_cons_of_mem _ (scanEar_mem verdict l i b h)
    · exact List.mem_cons_of_mem _ (scanEar_mem verdict l i b h)

theorem flatRemovals_zero (tests : FaceTests)
    (h : ∀ (a b : List Nat) (i : Nat), tests.verdict a b i ≠ .degenerate) :
    ∀ (fuel : Nat) (nsrc indices : List Nat), flatRemovals tests fuel nsrc indices = 0
  | 0, _, _ => rfl
  | fuel + 1, nsrc, indices => by
    unfold flatRemovals
    split
    · cases hs : scanEar (tests.verdict nsrc indices) (List.range indices.length) with
      | none => exact flatRemovals_zero tests h fuel indices indices
      | some r =>
        obtain ⟨i, b⟩ := r
        cases b with
        | true => exact flatRemovals_zero tests h fuel nsrc _
        | false => exact absurd (scanEar_flat _ _ _ hs) (h nsrc indices i)
    · rfl

theorem earLoop_count (tests : FaceTests) : ∀ (fuel : Nat) (nsrc indices : List Nat)
    (obj : ParsedObject) (rest : List Nat) (obj1 : ParsedObject),
    earLoop tests fuel nsrc indices obj = some (rest, obj1) → 3 ≤ indices.length →
    obj1.index_list.length + 3 * flatRemovals tests fuel nsrc indices + 9 =
      obj.index_list.length + 3 * indices.length
  | 0, _, _, _, _, _, h, _ => by simp [earLoop] at h
  | fuel + 1, nsrc, indices, obj, rest, obj1, h, h3 => by
    unfold earLoop at h
    unfold flatRemovals
    by_cases hlen : indices.length > 3
    · rw [if_pos hlen] at h ⊢
      cases hs : scanEar (tests.verdict nsrc indices) (List.range indices.length) with
      | none =>
        simp only [hs] at h ⊢
        exact earLoop_count tests fuel indices indices obj rest obj1 h h3
      | some r =>
        obtain ⟨i, b⟩ := r
        have hi : i < indices.length := List.mem_range.1 (scanEar_mem _ _ i b hs)
        have hel : (indices.eraseIdx i).length = indices.length - 1 := by
          rw [List.length_eraseIdx, if_pos hi]
        cases b with
        | false =>
          simp only [hs] at h ⊢
          have ih := earLoop_count tests fuel nsrc _ obj rest obj1 h (by rw [hel]; omega)
          rw [hel] at ih
          omega
        | true =>
          simp only [hs] at h ⊢
          have ih := earLoop_count tests fuel nsrc _ _ rest obj1 h (by rw [hel]; omega)
          rw [hel] at ih
          simp only [emitTriangle, List.length_append, List.length_cons, List.length_nil] at ih
          omega
    · rw [if_neg hlen] at h ⊢
      simp only [Option.some.injEq, Prod.mk.injEq] at h
      rw [← h.2]
      omega

theorem earFace_count {tests : FaceTests} {fuel : Nat} {obj obj2 : ParsedObject}
    {indices : List Nat} (h : earFace tests fuel obj indices = .ok (some obj2))
    (h3 : 3 ≤ indices.length) :
    obj2.index_list.length + 3 * flatRemovals tests fuel indices indices + 6 =
      obj.index_list.length + 3 * indices.length := by
  unfold earFace at h
  cases he : earLoop tests fuel indices indices obj with
  | none =>
    simp only [he] at h
    cases h
  | some r =>
    obtain ⟨rest, objE⟩ := r
    have hc := earLoop_count tests fuel indices indices obj rest objE he h3
    match rest, he, h with
    | [], he, h =>
      simp only [he] at h
      cases h
    | [_], he, h =>
      simp only [he] at h
      cases h
    | [_, _], he, h =>
      simp only [he] at h
      cases h
    | a :: b :: c :: more, he, h =>
      simp only [he, Except.ok.injEq, Option.some.injEq] at h
      rw [← h]
      simp only [emitTriangle, List.length_append, List.length_cons, List.length_nil]
      omega

/-! ## Claim on the number of triangles of ear clipping -/

/-- C26, counterexample: the pentagon of `samplePentagon`, whose first corner is flat,
goes through ear clipping, which finishes; the corner 0 is removed without a triangle,
and the object receives the two triangles (1,2,3) and (1,3,4), not three. -/
theorem flat_corner_drops_triangle :
    ∃ (st1 : ParseState) (obj2 : ParsedObject),
      faceCommand pentagonTests 8 samplePentagon pentagonCorners = .ok (some st1) ∧
      st1.objects.getLast? = some obj2 ∧ obj2.index_list = [1, 2, 3, 1, 3, 4] ∧
      obj2.index_list.length ≠ 3 * (pentagonCorners.length - 2) :=
  ⟨_, _, rfl, rfl, rfl, by decide⟩

/-- C26, amended: for a face with n > 3 corners that takes the ear clipping path and on
which ear clipping finishes, the object receives exactly n - 2 - d triangles, where d
is the number of corners that the loop removes as flat (`vd` within `1e-8` of zero)
without a triangle; a corner is removed either so or when its ear triangle is emitted,
corners that turn against the normal or have another corner inside are passed, and the
last three corners are emitted as the final triangle. When no corner is flat, d = 0. -/
theorem ear_clipping_count (tests : FaceTests) (fuel : Nat) (st st1 : ParseState)
    (obj : ParsedObject) (cs : List VertexIndex) (hobj : st.objects.getLast? = some obj)
    (hear : (tests.hp && tests.hn) = true) (hn : 3 < cs.length)
    (h : faceCommand tests fuel st cs = .ok (some st1)) :
    ∃ (obj1 obj2 : ParsedObject) (ids : List Nat),
      addCorners st obj cs = .ok (obj1, ids) ∧ ids.length = cs.length ∧
      st1 = { st with objects := st.objects.dropLast ++ [obj2] } ∧
      obj2.index_list.length + 3 * flatRemovals tests fuel ids ids =
        obj.index_list.length + 3 * (cs.length - 2) ∧
      ((∀ (a b : List Nat) (i : Nat), tests.verdict a b i ≠ .degenerate) →
        obj2.index_list.length = obj.index_list.length + 3 * (cs.length - 2)) := by
  unfold faceCommand at h
  simp only [hobj] at h
  cases ha : addCorners st obj cs with
  | error e =>
    simp only [ha] at h
    cases h
  | ok r =>
    obtain ⟨obj1, ids⟩ := r
    obtain ⟨f0, f1, _⟩ := addCorners_frame st cs obj obj1 ids ha
    have hne : ids ≠ [] := by
      intro h0
      rw [h0] at f0
      simp only [List.length_nil] at f0
      omega
    simp only [ha, hne, if_false, hear, if_true] at h
    cases he : earFace tests fuel obj1 ids with
    | error e =>
      simp only [he] at h
      cases h
    | ok r2 =>
      cases r2 with
      | none =>
        simp only [he] at h
        cases h
      | some obj2 =>
        simp only [he, Except.ok.injEq, Option.some.injEq] at h
        have hc := earFace_count he (by omega)
        rw [f1, f0] at hc
        have hmain : obj2.index_list.length + 3 * flatRemovals tests fuel ids ids =
            obj.index_list.length + 3 * (cs.length - 2) := by omega
        refine ⟨obj1, obj2, ids, rfl, f0, h.symm, hmain, ?_⟩
        intro hflat
        rw [flatRemovals_zero tests hflat] at hmain
        exact hmain

/-- C26, witness: the quadrilateral of `sampleParse`, which has no flat corner. -/
theorem ear_clipping_count_witness :
    ∃ (st1 : ParseState) (obj1 obj2 : ParsedObject) (ids : List Nat),
      faceCommand dartTests 8 sampleParse dartCorners = .ok (some st1) ∧
      addCorners sampleParse (ParsedObject.new 0) dartCorners = .ok (obj1, ids) ∧
      obj2.index_list.length + 3 * flatRemovals dartTests 8 ids ids = 0 + 3 * (4 - 2) := by
  obtain ⟨obj1, obj2, ids, h1, _, _, h4, _⟩ := ear_clipping_count dartTests 8 sampleParse _
    (ParsedObject.new 0) dartCorners rfl rfl (by decide) rfl
  exact ⟨_, obj1, obj2, ids, rfl, h1, h4⟩

/-! ## A pass of ear clipping that removes no corner -/

theorem earLoop_stuck (tests : FaceTests) (indices : List Nat) (obj : ParsedObject)
    (hlen : indices.length > 3)
    (hscan : scanEar (tests.verdict indices indices) (List.range indices.length) = none) :
    ∀ fuel : Nat, earLoop tests fuel indices indices obj = none
  | 0 => rfl
  | fuel + 1 => by
    unfold earLoop
    rw [if_pos hlen]
    simp only [hscan]
    exact earLoop_stuck tests indices obj hlen hscan fuel

theorem faceCommand_stuck {tests : FaceTests} {st : ParseState} {obj obj1 : ParsedObject}
    {cs : List VertexIndex} {ids : List Nat} (hobj : st.objects.getLast? = some obj)
    (ha : addCorners st obj cs = .ok (obj1, ids)) (hear : (tests.hp && tests.hn) = true)
    (hlen : ids.length > 3)
    (hscan : scanEar (tests.verdict ids ids) (List.range ids.length) = none) (fuel : Nat) :
    faceCommand tests fuel st cs = .ok none := by
  have hne : ids ≠ [] := by
    intro h0
    rw [h0] at hlen
    simp at hlen
  unfold faceCommand
  simp only [hobj, ha, hne, if_false, hear, if_true]
  unfold earFace
  rw [earLoop_stuck tests ids obj1 hlen hscan fuel]

/-! ## Claim on the end of ear clipping -/

set_option maxRecDepth 100000 in
/-- C27: on the hexagon of `sampleHexagon` the loop of lines 1051-1100 does not end,
however many passes it is given: in the first pass no corner is flat and no corner is an
ear, the normal computed anew from the same corners is the normal the pass started with,
and every later pass is the same. -/
theorem ear_clipping_never_ends :
    ∀ fuel : Nat, faceCommand hexagonTests fuel sampleHexagon hexagonCorners = .ok none :=
  fun fuel =>
    @faceCommand_stuck hexagonTests sampleHexagon (ParsedObject.new 0) _ hexagonCorners
      [0, 1, 2, 3, 4, 5] rfl rfl rfl (by decide) (by decide) fuel



/-! ## Claims on the reads of `DoWriteModel` -/

set_option maxRecDepth 100000 in
/-- C31: on `sampleIdleSlot`, whose skeleton has two bones and whose vertices are bound
to bone 1 with two further influence slots of weight 0 that name bone 0, the one group has
only bone 1 active and only the index of bone 1 is written, yet for the slots 1 and 2 of
vertex 0 line 332 reads the table entry of bone 0, which was never assigned: the bone
indices written for them are not determined by the input. -/
theorem idle_slot_reads_unassigned :
    ∃ (f : ModelFile) (part : Partition) (g : Group) (p : GroupPayload) (v : VertexRec),
      DoWriteModel sampleSizes 2 sampleIdleSlot = .ok (some f) ∧
      construct 2 sampleIdle 2 = .ok (true, part) ∧ part.groups = [g] ∧
      1 ∈ g.bones ∧ 0 ∉ g.bones ∧
      f.payload[0]? = some [p] ∧ p.boneIndices = [1] ∧ p.vertices[0]? = some v ∧
      sampleIdle.x020_VertInfluences[0]? = some [⟨1, 1⟩, ⟨0, 0⟩, ⟨0, 0⟩] ∧
      v.bone_weight = [1, 0, 0] ∧ v.bone_idx = [some 0, none, none] :=
  ⟨_, _, _, _, _, rfl, rfl, rfl, by decide, by decide, rfl, rfl, rfl, rfl, rfl, rfl⟩

theorem alphaScan_inside (tagMap : List Int) (hlt : tagMap.length < 18446744073709551616) :
    ∀ (fuel i : Nat) (alpha : Option Int), i < tagMap.length → tagMap.length ≤ i + fuel →
      ∃ a, alphaScan tagMap fuel i alpha = .ok a
  | 0, _, alpha, _, _ => ⟨alpha, rfl⟩
  | fuel + 1, i, alpha, hi, hfuel => by
    have hbound : (18446744073709551615 + tagMap.length) % 18446744073709551616 =
        tagMap.length - 1 := by omega
    unfold alphaScan
    rw [hbound]
    by_cases hin : i < tagMap.length - 1
    · rw [if_pos hin]
      obtain ⟨key, h0⟩ : ∃ key, tagMap[i]? = some key := ⟨_, List.getElem?_eq_getElem hi⟩
      obtain ⟨value, h1⟩ : ∃ value, tagMap[i + 1]? = some value :=
        ⟨_, List.getElem?_eq_getElem (by omega)⟩
      simp only [h0, h1]
      split
      · exact alphaScan_inside tagMap hlt fuel (i + 1) _ (by omega) (by omega)
      · exact alphaScan_inside tagMap hlt fuel (i + 1) _ (by omega) (by omega)
    · rw [if_neg hin]
      exact ⟨alpha, rfl⟩

/-- C32: for a sub-object appearance whose tag array is empty the bound `size() - 1` of
line 251 wraps around, the scan starts, and its first read `x10_TagMap[0]` lies outside
the array, whatever the texture entries are; `DoWriteModel` faults on `sampleNoTags`.
For every tag array that is not empty the scan reads inside the array and the `Material`
record is written. -/
theorem empty_tag_array_overrun :
    (∀ entries : List MaterialTextureEntry,
      materialRecord ⟨[], entries⟩ = .error .outOfRange) ∧
    (∀ fuel, DoWriteModel sampleSizes fuel sampleNoTags = .error .outOfRange) ∧
    ∀ sub : SubObjectAppearance, sub.x10_TagMap ≠ [] →
      sub.x10_TagMap.length < 18446744073709551616 → ∃ r, materialRecord sub = .ok r := by
  refine ⟨fun _ => rfl, fun _ => rfl, ?_⟩
  intro sub hne hlt
  obtain ⟨a, ha⟩ := alphaScan_inside sub.x10_TagMap hlt (sub.x10_TagMap.length + 1) 0 none
    (List.length_pos.2 hne) (by omega)
  unfold materialRecord
  simp only [ha]
  exact ⟨_, rfl⟩

/-- C32, witness: the sub-object appearance of `sampleAppearance`, whose tag array has
one element. -/
theorem empty_tag_array_overrun_witness :
    ∃ r, materialRecord ⟨[0], [⟨1, 7⟩, ⟨5, -1⟩]⟩ = .ok r :=
  empty_tag_array_overrun.2.2 ⟨[0], [⟨1, 7⟩, ⟨5, -1⟩]⟩ (by decide) (by decide)

/-! ## The lists of a parsed object -/

theorem lookupVertex_mem {c : VertexIndex} {m : List (VertexIndex × Nat)} {id : Nat}
    (h : lookupVertex c m = some id) : ∃ e ∈ m, e.2 = id := by
  unfold lookupVertex at h
  cases hf : List.find? (fun e => decide (e.1 = c)) m with
  | none => simp [hf] at h
  | some e =>
    rw [hf] at h
    simp only [Option.map_some', Option.some.injEq] at h
    exact ⟨e, List.mem_of_find?_eq_some hf, h⟩

theorem ListsOK_grow {obj obj1 : ParsedObject} (h : ListsOK obj)
    (hi : obj1.index_list = obj.index_list) (hf : obj1.face_list = obj.face_list)
    (hs : obj1.face_sizes = obj.face_sizes)
    (hv : obj.vertex_list.length ≤ obj1.vertex_list.length) : ListsOK obj1 :=
  ⟨by rw [hi]; exact h.triples,
   fun x hx => lt_of_lt_of_le (h.index_valid x (hi ▸ hx)) hv,
   fun x hx => lt_of_lt_of_le (h.face_valid x (hf ▸ hx)) hv,
   by rw [hs, hf]; exact h.sizes⟩

theorem addCorner_valid {st : ParseState} {obj obj1 : ParsedObject} {c : VertexIndex}
    {id : Nat} (hm : MapOK obj) (h : addCorner st obj c = .ok (obj1, id)) :
    MapOK obj1 ∧ id < obj1.vertex_list.length ∧
      obj.vertex_list.length ≤ obj1.vertex_list.length := by
  unfold addCorner at h
  cases hl : lookupVertex c obj.vertex_index with
  | some x =>
    simp only [hl, Except.ok.injEq, Prod.mk.injEq] at h
    obtain ⟨rfl, rfl⟩ := h
    obtain ⟨e, he, rfl⟩ := lookupVertex_mem hl
    exact ⟨hm, hm e he, le_refl _⟩
  | none =>
    cases hv : cornerVertex st c with
    | none =>
      simp only [hl, hv] at h
      cases h
    | some vertex =>
      simp only [hl, hv, Except.ok.injEq, Prod.mk.injEq] at h
      obtain ⟨rfl, rfl⟩ := h
      have hlt : obj.vertex_list.length % UINT16 < obj.vertex_list.length + 1 :=
        Nat.lt_succ_of_le (Nat.mod_le _ _)
      refine ⟨?_, ?_, ?_⟩
      · intro e he
        show e.2 < (obj.vertex_list ++ [vertex]).length
        rw [List.length_append, List.length_singleton]
        have he1 : e ∈ obj.vertex_index ++ [(c, obj.vertex_list.length % UINT16)] := he
        rcases List.mem_append.1 he1 with he2 | he2
        · exact Nat.lt_succ_of_lt (hm e he2)
        · rw [List.mem_singleton] at he2
          rw [he2]
          exact hlt
      · show _ < (obj.vertex_list ++ [vertex]).length
        rw [List.length_append, List.length_singleton]
        exact hlt
      · show _ ≤ (obj.vertex_list ++ [vertex]).length
        rw [List.length_append]
        exact Nat.le_add_right _ _

theorem addCorners_valid (st : ParseState) : ∀ (cs : List VertexIndex)
    (obj obj1 : ParsedObject) (ids : List Nat), MapOK obj →
    addCorners st obj cs = .ok (obj1, ids) →
    MapOK obj1 ∧ (∀ x ∈ ids, x < obj1.vertex_list.length) ∧
      obj.vertex_list.length ≤ obj1.vertex_list.length
  | [], obj, obj1, ids, hm, h => by
    simp only [addCorners, Except.ok.injEq, Prod.mk.injEq] at h
    obtain ⟨rfl, rfl⟩ := h
    exact ⟨hm, fun x hx => absurd hx (List.not_mem_nil x), le_refl _⟩
  | c :: rest, obj, obj1, ids, hm, h => by
    unfold addCorners at h
    cases h1 : addCorner st obj c with
    | error e =>
      simp only [h1] at h
      cases h
    | ok r =>
      obtain ⟨o1, id⟩ := r
      cases h2 : addCorners st o1 rest with
      | error e =>
        simp only [h1, h2] at h
        cases h
      | ok r2 =>
        obtain ⟨o2, ids2⟩ := r2
        simp only [h1, h2, Except.ok.injEq, Prod.mk.injEq] at h
        obtain ⟨rfl, rfl⟩ := h
        obtain ⟨a1, a2, a3⟩ := addCorner_valid hm h1
        obtain ⟨b1, b2, b3⟩ := addCorners_valid st rest o1 o2 ids2 a1 h2
        refine ⟨b1, ?_, le_trans a3 b3⟩
        intro x hx
        rcases List.mem_cons.1 hx with rfl | hx
        · exact lt_of_lt_of_le a2 b3
        · exact b2 x hx

theorem fanTriangles_spec (c0 : Nat) : ∀ l : List Nat,
    (fanTriangles c0 l).length % 3 = 0 ∧ ∀ x ∈ fanTriangles c0 l, x = c0 ∨ x ∈ l
  | [] => ⟨rfl, fun x hx => by simp [fanTriangles] at hx⟩
  | [_] => ⟨rfl, fun x hx => by simp [fanTriangles] at hx⟩
  | a :: b :: rest => by
    obtain ⟨h1, h2⟩ := fanTriangles_spec c0 (b :: rest)
    unfold fanTriangles
    refine ⟨?_, ?_⟩
    · simp only [List.length_cons]
      omega
    · intro x hx
      simp only [List.mem_cons] at hx
      rcases hx with rfl | rfl | rfl | hx
      · exact Or.inl rfl
      · exact Or.inr (List.mem_cons_self _ _)
      · exact Or.inr (List.mem_cons_of_mem _ (List.mem_cons_self _ _))
      · rcases h2 x hx with h | h
        · exact Or.inl h
        · exact Or.inr (List.mem_cons_of_mem _ h)

theorem sum_replicate_three (k : Nat) : (List.replicate k 3).sum = 3 * k := by
  induction k with
  | zero => rfl
  | succ k ih =>
    rw [List.replicate_succ, List.sum_cons, ih]
    omega

theorem earFace_lists {tests : FaceTests} {fuel : Nat} {obj obj2 : ParsedObject}
    {indices : List Nat} (hok : ListsOK obj)
    (hids : ∀ x ∈ indices, x < obj.vertex_list.length)
    (h : earFace tests fuel obj indices = .ok (some obj2)) : ListsOK obj2 := by
  obtain ⟨tris, a1, a2, a3, _, a5, a6, a7, _, _⟩ := earFace_frame h
  refine ⟨?_, ?_, ?_, ?_⟩
  · rw [a1, List.length_append]
    have := hok.triples
    omega
  · intro x hx
    rw [a7]
    rw [a1] at hx
    rcases List.mem_append.1 hx with hx | hx
    · exact hok.index_valid x hx
    · exact hids x (a6 x hx)
  · intro x hx
    rw [a7]
    rw [a2] at hx
    rcases List.mem_append.1 hx with hx | hx
    · exact hok.face_valid x hx
    · exact hids x (a6 x hx)
  · rw [a3, a2, List.sum_append, List.length_append, hok.sizes, sum_replicate_three]
    omega

theorem fanFace_lists {obj obj2 : ParsedObject} {l : List Nat} (hok : ListsOK obj)
    (hids : ∀ x ∈ l, x < obj.vertex_list.length) (hl : 2 ≤ l.length)
    (hsmall : l.length < UINT32) (h : fanFace obj l = .ok obj2) : ListsOK obj2 := by
  obtain ⟨o, ho, a1, a2, a3, a4, _, _⟩ := fanFace_spec obj l hl
  rw [ho] at h
  simp only [Except.ok.injEq] at h
  subst h
  obtain ⟨f1, f2⟩ := fanTriangles_spec (l.headD 0) l.tail
  have hhead : l.headD 0 ∈ l := by
    cases l with
    | nil => simp at hl
    | cons a t => exact List.mem_cons_self _ _
  refine ⟨?_, ?_, ?_, ?_⟩
  · rw [a3, List.length_append]
    have := hok.triples
    omega
  · intro x hx
    rw [a4]
    rw [a3] at hx
    rcases List.mem_append.1 hx with hx | hx
    · exact hok.index_valid x hx
    · rcases f2 x hx with rfl | hx
      · exact hids _ hhead
      · exact hids x (List.mem_of_mem_tail hx)
  · intro x hx
    rw [a4]
    rw [a1] at hx
    rcases List.mem_append.1 hx with hx | hx
    · exact hok.face_valid x hx
    · exact hids x hx
  · rw [a2, a1, List.sum_append, List.length_append, hok.sizes, Nat.mod_eq_of_lt hsmall]
    simp

theorem faceCommand_lists {tests : FaceTests} {fuel : Nat} {st st1 : ParseState}
    {cs : List VertexIndex} (hall : ∀ obj ∈ st.objects, ListsOK obj ∧ MapOK obj)
    (h3 : 3 ≤ cs.length) (hsmall : cs.length < UINT32)
    (h : faceCommand tests fuel st cs = .ok (some st1)) :
    (∀ obj ∈ st1.objects, ListsOK obj ∧ MapOK obj) ∧ st1.v_list = st.v_list ∧
      st1.t_list = st.t_list ∧ st1.n_list = st.n_list := by
  cases hobj : st.objects.getLast? with
  | none =>
    unfold faceCommand at h
    simp only [hobj] at h
    cases h
  | some obj =>
    have hmem : obj ∈ st.objects := List.mem_of_getLast?_eq_some hobj
    obtain ⟨hok, hmap⟩ := hall obj hmem
    unfold faceCommand at h
    simp only [hobj] at h
    cases ha : addCorners st obj cs with
    | error e =>
      simp only [ha] at h
      cases h
    | ok r =>
      obtain ⟨obj1, ids⟩ := r
      obtain ⟨f0, f1, f2, f3, _⟩ := addCorners_frame st cs obj obj1 ids ha
      obtain ⟨m1, m2, m3⟩ := addCorners_valid st cs obj obj1 ids hmap ha
      have hok1 : ListsOK obj1 := ListsOK_grow hok f1 f2 f3 m3
      have key : ∀ obj2 : ParsedObject, ListsOK obj2 → obj2.vertex_list = obj1.vertex_list →
          obj2.vertex_index = obj1.vertex_index →
          ∀ o ∈ st.objects.dropLast ++ [obj2], ListsOK o ∧ MapOK o := by
        intro obj2 h2 hv hi o ho
        rcases List.mem_append.1 ho with ho | ho
        · exact hall o (List.dropLast_subset _ ho)
        · rw [List.mem_singleton] at ho
          subst ho
          refine ⟨h2, ?_⟩
          intro e he
          rw [hv]
          exact m1 e (hi ▸ he)
      simp only [ha] at h
      split at h
      · cases h
      · split at h
        · cases he : earFace tests fuel obj1 ids with
          | error e =>
            simp only [he] at h
            cases h
          | ok r =>
            cases r with
            | none =>
              simp only [he] at h
              cases h
            | some obj2 =>
              simp only [he, Except.ok.injEq, Option.some.injEq] at h
              subst h
              obtain ⟨_, _, _, _, _, _, _, b1, b2, _⟩ := earFace_frame he
              exact ⟨key obj2 (earFace_lists hok1 m2 he) b1 b2, rfl, rfl, rfl⟩
        · cases hf : fanFace obj1 (if (tests.hn && !tests.hp) = true then ids.reverse else ids) with
          | error e =>
            simp only [hf] at h
            cases h
          | ok obj2 =>
            simp only [hf, Except.ok.injEq, Option.some.injEq] at h
            subst h
            obtain ⟨b1, b2, _⟩ := fanFace_frame hf
            have hl : (if (tests.hn && !tests.hp) = true then ids.reverse else ids).length =
                cs.length := by
              split
              · rw [List.length_reverse, f0]
              · exact f0
            have hids : ∀ x ∈ (if (tests.hn && !tests.hp) = true then ids.reverse else ids),
                x < obj1.vertex_list.length := by
              intro x hx
              split at hx
              · exact m2 x (List.mem_reverse.1 hx)
              · exact m2 x hx
            exact ⟨key obj2 (fanFace_lists hok1 hids (by rw [hl]; omega) (by rw [hl]; exact hsmall) hf)
              b1 b2, rfl, rfl, rfl⟩

theorem ListsOK_start (mat : Nat) : ListsOK (ParsedObject.new mat) ∧ MapOK (ParsedObject.new mat) :=
  ⟨⟨rfl, fun x hx => absurd hx (List.not_mem_nil x), fun x hx => absurd hx (List.not_mem_nil x),
    rfl⟩, fun e he => absurd he (List.not_mem_nil e)⟩

theorem parseCommands_lists (fuel : Nat) : ∀ (cmds : List Command) (st stp : ParseState),
    (∀ obj ∈ st.objects, ListsOK obj ∧ MapOK obj) →
    (∀ n ∈ faceLengths cmds, 3 ≤ n ∧ n < UINT32) →
    parseCommands fuel st cmds = .ok (some stp) →
    ∀ obj ∈ stp.objects, ListsOK obj ∧ MapOK obj
  | [], st, stp, hall, _, h => by
    simp only [parseCommands, Except.ok.injEq, Option.some.injEq] at h
    subst h
    exact hall
  | cmd :: rest, st, stp, hall, hlen, h => by
    unfold parseCommands at h
    cases cmd with
    | usemtl m =>
      simp only [parseCommand] at h
      refine parseCommands_lists fuel rest _ stp ?_ ?_ h
      swap
      · exact hlen
      intro obj hobj
      rcases List.mem_append.1 hobj with hobj | hobj
      · exact hall obj hobj
      · rw [List.mem_singleton] at hobj
        subst hobj
        exact ListsOK_start m
    | v p =>
      simp only [parseCommand] at h
      refine parseCommands_lists fuel rest _ stp ?_ ?_ h
      · exact hall
      · exact hlen
    | vt t =>
      simp only [parseCommand] at h
      refine parseCommands_lists fuel rest _ stp ?_ ?_ h
      · exact hall
      · exact hlen
    | vn n =>
      simp only [parseCommand] at h
      refine parseCommands_lists fuel rest _ stp ?_ ?_ h
      · exact hall
      · exact hlen
    | other =>
      simp only [parseCommand] at h
      refine parseCommands_lists fuel rest _ stp ?_ ?_ h
      · exact hall
      · exact hlen
    | f corners tests =>
      simp only [parseCommand] at h
      have hc := hlen corners.length (List.mem_cons_self _ _)
      have hrest : ∀ n ∈ faceLengths rest, 3 ≤ n ∧ n < UINT32 :=
        fun n hn => hlen n (List.mem_cons_of_mem _ hn)
      cases hf : faceCommand tests fuel st corners with
      | error e =>
        simp only [hf] at h
        cases h
      | ok r =>
        cases r with
        | none =>
          simp only [hf] at h
          cases h
        | some st1 =>
          simp only [hf] at h
          exact parseCommands_lists fuel rest st1 stp (faceCommand_lists hall hc.1 hc.2 hf).1
            hrest h

/-- C33: when `parseObj`, started with no object, has processed a run of commands in
which every face has at least 3 corners (and fewer than 2^32, the range of an entry of
`face_sizes`), every object satisfies: the length of `index_list` is a multiple of 3,
every entry of `index_list` and of `face_list` is below the length of `vertex_list`, and
the entries of `face_sizes` add up to the length of `face_list`. -/
theorem parsed_lists_consistent (fuel : Nat) (st0 stp : ParseState) (cmds : List Command)
    (hstart : st0.objects = [])
    (hfaces : ∀ n ∈ faceLengths cmds, 3 ≤ n ∧ n < UINT32)
    (hrun : parseCommands fuel st0 cmds = .ok (some stp)) :
    ∀ obj ∈ stp.objects,
      obj.index_list.length % 3 = 0 ∧
      (∀ x ∈ obj.index_list, x < obj.vertex_list.length) ∧
      (∀ x ∈ obj.face_list, x < obj.vertex_list.length) ∧
      obj.face_sizes.sum = obj.face_list.length := by
  intro obj hobj
  have h := (parseCommands_lists fuel cmds st0 stp
    (fun o ho => absurd (hstart ▸ ho) (List.not_mem_nil o)) hfaces hrun obj hobj).1
  exact ⟨h.triples, h.index_valid, h.face_valid, h.sizes⟩

/-- C33, witness: the file of `sampleFaces`, whose first face is cut by ear clipping and
whose second face is cut as a fan. -/
theorem parsed_lists_consistent_witness :
    ∃ stp : ParseState, parseCommands 8 emptyParse sampleFaces = .ok (some stp) ∧
      (stp.objects.map fun o => (o.vertex_list.length, o.index_list, o.face_list, o.face_sizes)) =
        [(5, [0, 1, 2, 0, 2, 3, 0, 1, 4, 0, 4, 3], [0, 1, 2, 0, 2, 3, 0, 1, 4, 3], [3, 3, 4])] ∧
      ∀ obj ∈ stp.objects,
        obj.index_list.length % 3 = 0 ∧
        (∀ x ∈ obj.index_list, x < obj.vertex_list.length) ∧
        (∀ x ∈ obj.face_list, x < obj.vertex_list.length) ∧
        obj.face_sizes.sum = obj.face_list.length :=
  ⟨_, rfl, rfl, parsed_lists_consistent 8 emptyParse _ sampleFaces rfl (by decide) rfl⟩


/-! ## Claims on the winding of the emitted triangles -/

theorem fanTriangles_range (c0 : Nat) : ∀ rest : List Nat,
    fanTriangles c0 rest = (List.range (rest.length - 1)).flatMap fun k =>
      [c0, rest.getD k 0, rest.getD (k + 1) 0]
  | [] => rfl
  | [_] => rfl
  | a :: b :: rest => by
    have ih := fanTriangles_range c0 (b :: rest)
    have hlen : (a :: b :: rest).length - 1 = ((b :: rest).length - 1) + 1 := by
      simp only [List.length_cons]
      omega
    unfold fanTriangles
    rw [ih, hlen, List.range_succ_eq_map, List.flatMap_cons, List.flatMap_map]
    rfl

theorem length_flatMap_three (f : Nat → List Nat) (h : ∀ k, (f k).length = 3) :
    ∀ l : List Nat, (l.flatMap f).length = 3 * l.length
  | [] => rfl
  | a :: l => by
    rw [List.flatMap_cons, List.length_append, h a, length_flatMap_three f h l, List.length_cons]
    omega

set_option maxRecDepth 100000 in
/-- C13, counterexample: the face `f 1//1 2//1 3//1 4//1` over the square of side 5000
(in the units of the file) that runs counter-clockwise about the z axis, with the explicit
normal (0,0,-1). The square is planar and convex, but its dot products -2.5e-5 set neither
flag, so the fan is emitted in the order of the file: both triangles, (0,1,2) and (0,2,3),
have a normal along +z and are wound against the explicit normal. -/
theorem small_square_keeps_winding :
    ∃ (st1 : ParseState) (obj2 : ParsedObject),
      faceCommand smallSquareTests 0 sampleSmallSquare dartCorners = .ok (some st1) ∧
      st1.objects = [obj2] ∧ obj2.index_list = [0, 1, 2, 0, 2, 3] ∧
      ∀ tri ∈ chunk3 obj2.index_list,
        dotInt (triangleNormal smallSquareFile tri) (0, 0, -1) < 0 :=
  ⟨_, _, rfl, rfl, rfl, by decide⟩

/-- C13, amended: for a face with n >= 3 corners with valid index triples on which the
tests of lines 1029-1037 do not set both flags, whatever their outcomes otherwise,
`parseObj` appends exactly n-2 triangles, the fan (e0, ek, ek+1) for k = 1 .. n-2 over
the emitted corner sequence e. That sequence is the corner sequence of the face, reversed
exactly when some dot product of a corner cross product with the normal is below `-1e-4`
and none is above `1e-4`; a face all of whose dot products lie between is emitted in the
order of the file, whatever its normal. -/
theorem fan_follows_tests (tests : FaceTests) (fuel : Nat) (st : ParseState)
    (obj : ParsedObject) (cs : List VertexIndex) (hobj : st.objects.getLast? = some obj)
    (hvalid : ∀ c ∈ cs, cornerVertex st c ≠ none) (hn : 3 ≤ cs.length)
    (hfan : (tests.hp && tests.hn) = false) :
    ∃ (obj1 : ParsedObject) (ids : List Nat) (obj2 : ParsedObject),
      addCorners st obj cs = .ok (obj1, ids) ∧ ids.length = cs.length ∧
      faceCommand tests fuel st cs =
        .ok (some { st with objects := st.objects.dropLast ++ [obj2] }) ∧
      obj2.index_list = obj.index_list ++
        (List.range (cs.length - 2)).flatMap (fun k =>
          [(if tests.hn && !tests.hp then ids.reverse else ids).getD 0 0,
           (if tests.hn && !tests.hp then ids.reverse else ids).getD (k + 1) 0,
           (if tests.hn && !tests.hp then ids.reverse else ids).getD (k + 2) 0]) ∧
      obj2.index_list.length = obj.index_list.length + 3 * (cs.length - 2) := by
  obtain ⟨⟨obj1, ids⟩, ha⟩ := addCorners_ok st cs obj hvalid
  obtain ⟨f0, f1, _, _, _⟩ := addCorners_frame st cs obj obj1 ids ha
  have hne : ids ≠ [] := by
    intro h0
    rw [h0] at f0
    simp only [List.length_nil] at f0
    omega
  have hlen2 : (if (tests.hn && !tests.hp) = true then ids.reverse else ids).length =
      cs.length := by
    split
    · rw [List.length_reverse]
      exact f0
    · exact f0
  obtain ⟨obj2, g1, _, _, g4, _, _, _⟩ := fanFace_spec obj1
    (if (tests.hn && !tests.hp) = true then ids.reverse else ids) (by rw [hlen2]; omega)
  have hidx : obj2.index_list = obj.index_list ++
      (List.range (cs.length - 2)).flatMap (fun k =>
        [(if tests.hn && !tests.hp then ids.reverse else ids).getD 0 0,
         (if tests.hn && !tests.hp then ids.reverse else ids).getD (k + 1) 0,
         (if tests.hn && !tests.hp then ids.reverse else ids).getD (k + 2) 0]) := by
    rw [g4, f1, fanTriangles_range]
    generalize (if (tests.hn && !tests.hp) = true then ids.reverse else ids) = e at hlen2 ⊢
    cases e with
    | nil =>
      simp only [List.length_nil] at hlen2
      omega
    | cons c0 rest =>
      simp only [List.length_cons] at hlen2
      have hr : rest.length - 1 = cs.length - 2 := by omega
      show obj.index_list ++ (List.range (rest.length - 1)).flatMap (fun k =>
        [c0, rest.getD k 0, rest.getD (k + 1) 0]) = _
      rw [hr]
      rfl
  refine ⟨obj1, ids, obj2, ha, f0, ?_, hidx, ?_⟩
  · unfold faceCommand
    simp only [hobj, ha, hne, if_false, hfan, g1, Bool.false_eq_true]
  · rw [hidx, List.length_append]
    congr 1
    rw [length_flatMap_three, List.length_range]
    intro k
    rfl

set_option maxRecDepth 100000 in
/-- C13, witness: the square of `sampleSmallSquare`. -/
theorem fan_follows_tests_witness :
    ∃ (obj1 : ParsedObject) (ids : List Nat) (obj2 : ParsedObject),
      addCorners sampleSmallSquare (ParsedObject.new 0) dartCorners = .ok (obj1, ids) ∧
      ids = [0, 1, 2, 3] ∧
      faceCommand smallSquareTests 0 sampleSmallSquare dartCorners =
        .ok (some { sampleSmallSquare with objects := [obj2] }) ∧
      obj2.index_list.length = 6 := by
  obtain ⟨obj1, ids, obj2, h1, _, h3, _, h5⟩ := fan_follows_tests smallSquareTests 0
    sampleSmallSquare (ParsedObject.new 0) dartCorners rfl (by decide) (by decide) rfl
  have hids : addCorners sampleSmallSquare (ParsedObject.new 0) dartCorners =
      .ok (obj1, [0, 1, 2, 3]) := by
    rw [h1]
    have : addCorners sampleSmallSquare (ParsedObject.new 0) dartCorners =
        .ok (_, [0, 1, 2, 3]) := rfl
    rw [h1] at this
    simp only [Except.ok.injEq, Prod.mk.injEq] at this
    rw [this.2]
  rw [h1] at hids
  simp only [Except.ok.injEq, Prod.mk.injEq, true_and] at hids
  exact ⟨obj1, ids, obj2, h1, hids, h3, h5⟩

theorem scanEar_first (verdict : Nat → EarVerdict) : ∀ (l : List Nat) (i : Nat) (b : Bool),
    scanEar verdict l = some (i, b) →
    ∃ pre post, l = pre ++ i :: post ∧
      (∀ j ∈ pre, verdict j = .reflex ∨ verdict j = .blocked) ∧
      verdict i = (if b then .ear else .degenerate)
  | [], i, b, h => by simp [scanEar] at h
  | a :: l, i, b, h => by
    unfold scanEar at h
    split at h
    · rename_i hv
      simp only [Option.some.injEq, Prod.mk.injEq] at h
      obtain ⟨rfl, rfl⟩ := h
      exact ⟨[], l, rfl, fun j hj => absurd hj (List.not_mem_nil j), hv⟩
    · rename_i hv
      simp only [Option.some.injEq, Prod.mk.injEq] at h
      obtain ⟨rfl, rfl⟩ := h
      exact ⟨[], l, rfl, fun j hj => absurd hj (List.not_mem_nil j), hv⟩
    · rename_i hv
      obtain ⟨pre, post, hl, hpre, hi⟩ := scanEar_first verdict l i b h
      refine ⟨a :: pre, post, by rw [hl]; rfl, ?_, hi⟩
      intro j hj
      rcases List.mem_cons.1 hj with rfl | hj
      · exact Or.inl hv
      · exact hpre j hj
    · rename_i hv
      obtain ⟨pre, post, hl, hpre, hi⟩ := scanEar_first verdict l i b h
      refine ⟨a :: pre, post, by rw [hl]; rfl, ?_, hi⟩
      intro j hj
      rcases List.mem_cons.1 hj with rfl | hj
      · exact Or.inr hv
      · exact hpre j hj

theorem scanEar_none (verdict : Nat → EarVerdict) : ∀ l : List Nat,
    scanEar verdict l = none → ∀ j ∈ l, verdict j = .reflex ∨ verdict j = .blocked
  | [], _, j, hj => absurd hj (List.not_mem_nil j)
  | a :: l, h, j, hj => by
    unfold scanEar at h
    split at h
    · cases h
    · cases h
    · rename_i hv
      rcases List.mem_cons.1 hj with rfl | hj
      · exact Or.inl hv
      · exact scanEar_none verdict l h j hj
    · rename_i hv
      rcases List.mem_cons.1 hj with rfl | hj
      · exact Or.inr hv
      · exact scanEar_none verdict l h j hj

theorem scanEar_range (verdict : Nat → EarVerdict) (n i : Nat) (b : Bool)
    (h : scanEar verdict (List.range n) = some (i, b)) :
    i < n ∧ verdict i = (if b then .ear else .degenerate) ∧
      ∀ j, j < i → verdict j = .reflex ∨ verdict j = .blocked := by
  obtain ⟨pre, post, hl, hpre, hi⟩ := scanEar_first verdict _ i b h
  have hin : i < n := List.mem_range.1 (scanEar_mem verdict _ i b h)
  refine ⟨hin, hi, ?_⟩
  intro j hj
  apply hpre
  have hjm : j ∈ pre ++ i :: post := by
    rw [← hl]
    exact List.mem_range.2 (by omega)
  rcases List.mem_append.1 hjm with hjp | hjp
  · exact hjp
  · exfalso
    have hpw : (pre ++ i :: post).Pairwise (· < ·) := hl ▸ List.pairwise_lt_range n
    have hpost := (List.pairwise_cons.1 (List.pairwise_append.1 hpw).2.1).1
    rcases List.mem_cons.1 hjp with rfl | hjq
    · exact lt_irrefl _ hj
    · have := hpost j hjq
      omega

theorem earLoop_quad (tests : FaceTests) (fuel : Nat) (l : List Nat) (obj : ParsedObject)
    (hlen : l.length = 4) (i : Nat) (b : Bool)
    (hs : scanEar (tests.verdict l l) (List.range 4) = some (i, b)) :
    earLoop tests (fuel + 2) l l obj =
      some (l.eraseIdx i,
        if b then emitTriangle obj (l.getD ((i + 3) % 4) 0) (l.getD i 0) (l.getD ((i + 1) % 4) 0)
        else obj) := by
  have hi : i < 4 := (scanEar_range _ 4 i b hs).1
  have hgt : l.length > 3 := by omega
  have hs1 : scanEar (tests.verdict l l) (List.range l.length) = some (i, b) := by
    rw [hlen]
    exact hs
  have hshort : ¬ (l.eraseIdx i).length > 3 := by
    rw [List.length_eraseIdx, if_pos (by omega)]
    omega
  unfold earLoop
  rw [if_pos hgt]
  simp only [hs1]
  cases b with
  | false =>
    simp only [Bool.false_eq_true, if_false]
    unfold earLoop
    rw [if_neg hshort]
  | true =>
    simp only [if_true]
    unfold earLoop
    rw [if_neg hshort, hlen]
    interval_cases i <;> rfl

set_option maxRecDepth 100000 in
/-- C14, counterexample: the face `f 1//1 2//1 3//1 4//1` over the corners (0,0), (4,0),
(0,4) and (6,6), a quadrilateral that crosses itself, with the normal (0,0,1). It takes
the ear clipping path and gets two triangles, the ear (1,2,3) and the three corners left,
(0,1,3), which lines 1101-1103 emit without a test: against the consensus (0,0,-8) that
line 1048 sums up, the normal of the first triangle agrees and the normal (0,0,24) of the
second one does not. -/
theorem bowtie_last_triangle_untested :
    ∃ (st1 : ParseState) (obj2 : ParsedObject),
      faceCommand bowtieTests 8 sampleBowtie dartCorners = .ok (some st1) ∧
      st1.objects = [obj2] ∧ obj2.index_list = [1, 2, 3, 0, 1, 3] ∧
      fanNormal bowtieFile [0, 1, 2, 3] = (0, 0, -8) ∧
      0 < dotInt (triangleNormal bowtieFile [1, 2, 3]) (fanNormal bowtieFile [0, 1, 2, 3]) ∧
      dotInt (triangleNormal bowtieFile [0, 1, 3]) (fanNormal bowtieFile [0, 1, 2, 3]) < 0 :=
  ⟨_, _, rfl, rfl, rfl, by decide, by decide, by decide⟩

/-- C14, amended: for a face of 4 corners with the ids a, b, c, d on which the tests of
lines 1029-1037 set both flags (as on the quadrilateral (0,0), (4,0), (0,4), (6,6) with the
normal (0,0,1)), `parseObj` takes the ear clipping path, and one pass of the loop decides
the outcome. If the first corner that is flat or an ear is an ear, exactly two triangles are
appended: the ear (previous, corner, next), whose signed area against the consensus is at
least `1e-8` and in which the other corner does not lie by the test of line 1072, and then
the three corners left, in the order of the face, which are emitted without any test. If
that corner is flat, only the three corners left are appended. If no corner is flat or an
ear, the loop never ends. -/
theorem quad_ear_clipping (tests : FaceTests) (fuel : Nat) (st : ParseState)
    (obj obj1 : ParsedObject) (cs : List VertexIndex) (a b c d : Nat)
    (hobj : st.objects.getLast? = some obj)
    (ha : addCorners st obj cs = .ok (obj1, [a, b, c, d]))
    (hear : (tests.hp && tests.hn) = true) :
    (∀ i, scanEar (tests.verdict [a, b, c, d] [a, b, c, d]) (List.range 4) = some (i, true) →
      i < 4 ∧ tests.verdict [a, b, c, d] [a, b, c, d] i = .ear ∧
      (∀ j, j < i → tests.verdict [a, b, c, d] [a, b, c, d] j = .reflex ∨
        tests.verdict [a, b, c, d] [a, b, c, d] j = .blocked) ∧
      ∃ (r0 r1 r2 : Nat) (obj2 : ParsedObject), [a, b, c, d].eraseIdx i = [r0, r1, r2] ∧
        faceCommand tests (fuel + 2) st cs =
          .ok (some { st with objects := st.objects.dropLast ++ [obj2] }) ∧
        obj2.index_list = obj.index_list ++
          [[a, b, c, d].getD ((i + 3) % 4) 0, [a, b, c, d].getD i 0,
           [a, b, c, d].getD ((i + 1) % 4) 0] ++ [r0, r1, r2]) ∧
    (∀ i, scanEar (tests.verdict [a, b, c, d] [a, b, c, d]) (List.range 4) = some (i, false) →
      i < 4 ∧ tests.verdict [a, b, c, d] [a, b, c, d] i = .degenerate ∧
      (∀ j, j < i → tests.verdict [a, b, c, d] [a, b, c, d] j = .reflex ∨
        tests.verdict [a, b, c, d] [a, b, c, d] j = .blocked) ∧
      ∃ (r0 r1 r2 : Nat) (obj2 : ParsedObject), [a, b, c, d].eraseIdx i = [r0, r1, r2] ∧
        faceCommand tests (fuel + 2) st cs =
          .ok (some { st with objects := st.objects.dropLast ++ [obj2] }) ∧
        obj2.index_list = obj.index_list ++ [r0, r1, r2]) ∧
    (scanEar (tests.verdict [a, b, c, d] [a, b, c, d]) (List.range 4) = none →
      (∀ j, j < 4 → tests.verdict [a, b, c, d] [a, b, c, d] j = .reflex ∨
        tests.verdict [a, b, c, d] [a, b, c, d] j = .blocked) ∧
      ∀ n, faceCommand tests n st cs = .ok none) := by
  obtain ⟨_, f1, _, _, _⟩ := addCorners_frame st cs obj obj1 _ ha
  have hne : ([a, b, c, d] : List Nat) ≠ [] := by simp
  have hrest : ∀ i, i < 4 → ∃ r0 r1 r2, [a, b, c, d].eraseIdx i = [r0, r1, r2] := by
    intro i hi
    interval_cases i
    · exact ⟨b, c, d, rfl⟩
    · exact ⟨a, c, d, rfl⟩
    · exact ⟨a, b, d, rfl⟩
    · exact ⟨a, b, c, rfl⟩
  refine ⟨?_, ?_, ?_⟩
  · intro i hs
    obtain ⟨hi, hv, hbefore⟩ := scanEar_range _ 4 i true hs
    obtain ⟨r0, r1, r2, hr⟩ := hrest i hi
    have hloop := earLoop_quad tests fuel [a, b, c, d] obj1 rfl i true hs
    rw [hr] at hloop
    simp only [if_true] at hloop hv
    refine ⟨hi, hv, hbefore, r0, r1, r2,
      emitTriangle (emitTriangle obj1 ([a, b, c, d].getD ((i + 3) % 4) 0) ([a, b, c, d].getD i 0)
        ([a, b, c, d].getD ((i + 1) % 4) 0)) r0 r1 r2, hr, ?_, ?_⟩
    · unfold faceCommand
      simp only [hobj, ha, hne, if_false, hear, if_true]
      unfold earFace
      rw [hloop]
    · show (obj1.index_list ++ _) ++ _ = _
      rw [f1]
  · intro i hs
    obtain ⟨hi, hv, hbefore⟩ := scanEar_range _ 4 i false hs
    obtain ⟨r0, r1, r2, hr⟩ := hrest i hi
    have hloop := earLoop_quad tests fuel [a, b, c, d] obj1 rfl i false hs
    rw [hr] at hloop
    simp only [Bool.false_eq_true, if_false] at hloop hv
    refine ⟨hi, hv, hbefore, r0, r1, r2, emitTriangle obj1 r0 r1 r2, hr, ?_, ?_⟩
    · unfold faceCommand
      simp only [hobj, ha, hne, if_false, hear, if_true]
      unfold earFace
      rw [hloop]
    · show obj1.index_list ++ _ = _
      rw [f1]
  · intro hs
    refine ⟨fun j hj => scanEar_none _ _ hs j (List.mem_range.2 hj), fun n => ?_⟩
    exact faceCommand_stuck hobj ha hear (by simp) hs n

set_option maxRecDepth 100000 in
/-- C14, witness: the quadrilateral of `sampleBowtie`, whose corner 2 is the first ear. -/
theorem quad_ear_clipping_witness :
    ∃ (r0 r1 r2 : Nat) (obj2 : ParsedObject), [0, 1, 2, 3].eraseIdx 2 = [r0, r1, r2] ∧
      faceCommand bowtieTests 2 sampleBowtie dartCorners =
        .ok (some { sampleBowtie with objects := [obj2] }) ∧
      obj2.index_list = [1, 2, 3] ++ [r0, r1, r2] :=
  ((quad_ear_clipping bowtieTests 0 sampleBowtie (ParsedObject.new 0) _ dartCorners 0 1 2 3
    rfl rfl rfl).1 2 (by decide)).2.2.2

end WebGL
